import Mathlib

/-! # trec_eval: relevance alignment (`form_res_rels_jg.c`)

A shallow embedding of `te_form_res_rels_jg` and of the comparators it hands
to `qsort`, followed by theorems about the embedding.

Modelling conventions.

* A `char *` document number is a `String`; `strcmp` is the three-way
  lexicographic comparison of the characters (the byte order of a UTF-8 string
  agrees with the order of its code points).  Only the sign of a `strcmp`
  result is ever inspected by the program, so the model returns -1, 0 or 1.
* `sim` is a `double` that the program only compares with `<` and `>`.
  It is a `DOUBLE`: a number or NaN.  The numbers are those of `Int`, since
  only their order is looked at; both comparisons with a NaN are false.
* `long` counters start at 0 and are only incremented: they are `Nat`.
  Relevance values may be negative: they are `Int`.
* `qsort` is modelled by insertion sort driven by the C comparator.  Every
  theorem that holds for all inputs and depends on the outcome of a sort is
  proved from the two facts the C library guarantees (the result is a
  permutation of the input and is ordered by the comparator), see `qsort_perm`,
  `qsort_sorted` and `qsort_sorted_on`.  Where the comparator is no order on
  the records (a NaN score, gains less than 1 apart) the C library does not fix
  the arrangement; the evaluations at such inputs show the one insertion sort
  leaves.
* The static buffers keep their old contents between calls.  The call
  receives them in a `Session` and returns the new `Session`.
* `te_chk_and_malloc` is assumed to succeed (no resource exhaustion).
-/

namespace TrecEval

/-! ## Constants -/

/-- Modelled from the spec: the error value `UNDEF`, a macro of `common.h`, which
is not among the sources.  The header comment of `te_form_res_rels_jg` only
tells it apart from 0 and 1 ("UNDEF returned if error, 0 if used cache values,
1 if new values"); -1 is the value trec_eval gives it. -/
def UNDEF : Int := -1

/-- Relevance value of a retrieved docno that is not in the qrels
(`form_res_rels_jg.c`, line 19). -/
def RELVALUE_NONPOOL : Int := -1

/-- Relevance value of a retrieved docno that is in the qrels but was not
judged (`form_res_rels_jg.c`, line 20). -/
def RELVALUE_UNJUDGED : Int := -2

/-! ## Data model -/

/-- A `double` that is only compared: a number or NaN. -/
inductive DOUBLE where
  | num (x : Int)
  | nan
deriving DecidableEq

/-- The comparison `a < b` of two doubles: false when one of them is NaN. -/
def DOUBLE.lt : DOUBLE → DOUBLE → Bool
  | DOUBLE.num x, DOUBLE.num y => decide (x < y)
  | _, _ => false

/-- The negation `-a` of a double. -/
def DOUBLE.neg : DOUBLE → DOUBLE
  | DOUBLE.num x => DOUBLE.num (-x)
  | DOUBLE.nan => DOUBLE.nan

instance : LT DOUBLE := ⟨fun a b => DOUBLE.lt a b = true⟩

instance (a b : DOUBLE) : Decidable (a < b) :=
  inferInstanceAs (Decidable (DOUBLE.lt a b = true))

instance (n : Nat) : OfNat DOUBLE n := ⟨DOUBLE.num n⟩

instance : Neg DOUBLE := ⟨DOUBLE.neg⟩

/-- One retrieved document of a query (`TEXT_RESULTS` of `trec_format.h`; the
fields are the ones the sources read). -/
structure TEXT_RESULTS where
  docno : String
  sim : DOUBLE
deriving DecidableEq

/-- One judgment of a judgment group (`TEXT_QRELS` of `trec_format.h`; the
fields are the ones the sources read). -/
structure TEXT_QRELS where
  docno : String
  rel : Int
deriving DecidableEq

/-- Temporary record of `form_res_rels_jg.c`, lines 34-39. -/
structure DOCNO_INFO where
  docno : String
  sim : DOUBLE
  rank : Nat
  rel : Int
deriving DecidableEq

/-- The fields of `EPI` read by `te_form_res_rels_jg`.  A negative
`max_num_docs_per_topic` would make the second `qsort` receive a negative
element count, which C leaves undefined; the bound is therefore a `Nat`. -/
structure EPI where
  max_num_docs_per_topic : Nat
  relevance_level : Int
  judged_docs_only_flag : Bool
deriving DecidableEq

/-- The retrieved documents of one query (`RESULTS` with its
`TEXT_RESULTS_INFO`). -/
structure RESULTS where
  qid : String
  ret_format : String
  text_results : List TEXT_RESULTS
deriving DecidableEq

/-- The judgments of one query (`REL_INFO` with its `TEXT_QRELS_JG_INFO`):
one list of judgments per judgment group. -/
structure REL_INFO where
  qid : String
  rel_format : String
  text_qrels_jg : List (List TEXT_QRELS)
deriving DecidableEq

/-- Per judgment group result (`RES_RELS`).  `rel_levels` is the group's
slice of the static histogram array and `results_rel_list` its slice of the
static `ranked_rel_list`; the entries `0 .. num_ret - 1` of the latter are the
ones a caller reads. -/
structure RES_RELS where
  num_rel_ret : Nat
  num_ret : Nat
  num_nonpool : Nat
  num_unjudged_in_pool : Nat
  num_rel : Nat
  num_rel_levels : Int
  rel_levels : List Nat
  results_rel_list : List Int
deriving DecidableEq

/-- Output parameter `res_rels` (`RES_RELS_JG`). -/
structure RES_RELS_JG where
  qid : String
  num_jgs : Nat
  jgs : List RES_RELS
deriving DecidableEq

/-- The static variables of `form_res_rels_jg.c`, lines 41-54, that survive a
call: the cached query id, `num_jgs`, the contents of the `jgs` array and
the contents of `ranked_rel_list`. -/
structure Session where
  current_query : String
  num_jgs : Nat
  jgs : List RES_RELS
  ranked_rel_list : List Int
deriving DecidableEq

/-- What one call of `te_form_res_rels_jg` leaves behind: the returned `int`,
the static variables, and `*res_rels` when it was written. -/
structure Outcome where
  ret : Int
  session : Session
  res_rels : Option RES_RELS_JG
deriving DecidableEq

/-- Static variables before the first call (lines 42-54). -/
def Session.init : Session :=
  { current_query := "no query", num_jgs := 0, jgs := [], ranked_rel_list := [] }

/-- Contents of a zeroed `RES_RELS`. -/
def RES_RELS.zero : RES_RELS :=
  { num_rel_ret := 0, num_ret := 0, num_nonpool := 0, num_unjudged_in_pool := 0,
    num_rel := 0, num_rel_levels := 0, rel_levels := [], results_rel_list := [] }

/-! ## Library functions -/

/-- Three-way lexicographic comparison of two character sequences. -/
def strcmpL : List Char → List Char → Int
  | [], [] => 0
  | [], _ :: _ => -1
  | _ :: _, [] => 1
  | a :: as, b :: bs =>
    if a.toNat < b.toNat then -1
    else if b.toNat < a.toNat then 1
    else strcmpL as bs

/-- The `strcmp` of the C library, up to the magnitude of the result. -/
def strcmp (a b : String) : Int := strcmpL a.data b.data

/-- The `qsort` of the C library with comparator `compar`: `a` may precede `b`
in the result when `compar a b ≤ 0`. -/
def qsort {α : Type} (compar : α → α → Int) (base : List α) : List α :=
  base.insertionSort (fun a b => compar a b ≤ 0)

/-! ## Comparators (lines 273-310) -/

/-- Lines 273-290. -/
def comp_rank_judged (ptr1 ptr2 : DOCNO_INFO) : Int :=
  if ptr1.rel ≥ 0 ∧ ptr2.rel ≥ 0 then
    if ptr1.rank < ptr2.rank then -1
    else if ptr1.rank > ptr2.rank then 1
    else 0
  else if ptr1.rel ≥ 0 then -1
  else if ptr2.rel ≥ 0 then 1
  else 0

/-- Lines 292-302. -/
def comp_sim_docno (ptr1 ptr2 : DOCNO_INFO) : Int :=
  if ptr1.sim > ptr2.sim then -1
  else if ptr1.sim < ptr2.sim then 1
  else strcmp ptr2.docno ptr1.docno

/-- Lines 304-310. -/
def comp_docno (ptr1 ptr2 : DOCNO_INFO) : Int :=
  strcmp ptr1.docno ptr2.docno

/-! ## `te_form_res_rels_jg`, step by step -/

/-- Lines 114-117: copy docno and sim of every retrieved document.  `rank` and
`rel` are not yet assigned; the model fills them with 0. -/
def copy_results (text_results : List TEXT_RESULTS) : List DOCNO_INFO :=
  text_results.map (fun t => { docno := t.docno, sim := t.sim, rank := 0, rel := 0 })

/-- Lines 129-132: `docno_info[i].rank = i+1`, the head of the list being entry
`i`. -/
def add_ranks : Nat → List DOCNO_INFO → List DOCNO_INFO
  | _, [] => []
  | i, d :: ds => { d with rank := i + 1 } :: add_ranks (i + 1) ds

/-- Lines 114-132: the first `num_results` entries of `docno_info` once the
ranks are assigned, where `num_results` is already cut to
`max_num_docs_per_topic`. -/
def ranked_docno_info (epi : EPI) (text_results : List TEXT_RESULTS) : List DOCNO_INFO :=
  add_ranks 0 ((qsort comp_sim_docno (copy_results text_results)).take
    epi.max_num_docs_per_topic)

/-- Lines 140-148: is some docno equal to its predecessor? -/
def has_duplicate : List DOCNO_INFO → Bool
  | [] => false
  | [_] => false
  | a :: b :: rest => (strcmp b.docno a.docno == 0) || has_duplicate (b :: rest)

/-- Lines 156-160: the `max_rel` update over the judgments of one group. -/
def max_rel_jg (max_rel : Int) (qrels : List TEXT_QRELS) : Int :=
  qrels.foldl (fun m q => if m < q.rel then q.rel else m) max_rel

/-- Lines 151-161: `max_rel` among all judgment groups. -/
def find_max_rel (text_qrels_jg : List (List TEXT_QRELS)) : Int :=
  text_qrels_jg.foldl max_rel_jg 0

/-- The increment `rel_level_ptr[n]++` on a histogram slice. -/
def bump : List Nat → Nat → List Nat
  | [], _ => []
  | c :: cs, 0 => (c + 1) :: cs
  | c :: cs, n + 1 => c :: bump cs n

/-- The statement `if (qrels_ptr->rel >= 0) rel_level_ptr[qrels_ptr->rel]++`. -/
def count_rel (rel_levels : List Nat) (rel : Int) : List Nat :=
  if rel ≥ 0 then bump rel_levels rel.toNat else rel_levels

/-- Lines 179-184: skip, and count, the judgments whose docno is smaller than
the docno of the current retrieved document. -/
def skip_smaller (docno : String) :
    List TEXT_QRELS → List Nat → List TEXT_QRELS × List Nat
  | [], lv => ([], lv)
  | q :: qs, lv =>
    if strcmp q.docno docno < 0 then skip_smaller docno qs (count_rel lv q.rel)
    else (q :: qs, lv)

/-- Lines 178-202: walk `docno_info` and the judgments of one group in
parallel, assigning `rel` to every entry of `docno_info`.  Returns the updated
`docno_info`, the judgments not yet consumed and the histogram. -/
def merge_qrels :
    List DOCNO_INFO → List TEXT_QRELS → List Nat →
      List DOCNO_INFO × List TEXT_QRELS × List Nat
  | [], qs, lv => ([], qs, lv)
  | d :: ds, qs, lv =>
    match skip_smaller d.docno qs lv with
    | ([], lv1) =>
      let r := merge_qrels ds [] lv1
      ({ d with rel := RELVALUE_NONPOOL } :: r.1, r.2)
    | (q :: qs1, lv1) =>
      if strcmp q.docno d.docno > 0 then
        let r := merge_qrels ds (q :: qs1) lv1
        ({ d with rel := RELVALUE_NONPOOL } :: r.1, r.2)
      else
        let r := merge_qrels ds qs1 (count_rel lv1 q.rel)
        ({ d with rel := if q.rel < 0 then RELVALUE_UNJUDGED else q.rel } :: r.1, r.2)

/-- Lines 203-208: count the judgments left over. -/
def finish_counting (qs : List TEXT_QRELS) (lv : List Nat) : List Nat :=
  qs.foldl (fun l q => count_rel l q.rel) lv

/-- Counters and vector built by lines 210-255. -/
structure Counts where
  results_rel_list : List Int
  num_ret : Nat
  num_rel_ret : Nat
  num_nonpool : Nat
  num_unjudged_in_pool : Nat
deriving DecidableEq

/-- Lines 226-232: copy the leading judged documents. -/
def judged_loop (relevance_level : Int) : List DOCNO_INFO → Nat → Counts → Counts
  | [], rrl, c => { c with num_ret := rrl }
  | d :: ds, rrl, c =>
    if d.rel ≥ 0 then
      judged_loop relevance_level ds (rrl + 1)
        { c with
          num_rel_ret := if d.rel ≥ relevance_level then c.num_rel_ret + 1 else c.num_rel_ret
          results_rel_list := c.results_rel_list.set rrl d.rel }
    else { c with num_ret := rrl }

/-- Lines 243-252: the body of the normal path for one record. -/
def normal_step (relevance_level : Int) (c : Counts) (d : DOCNO_INFO) : Counts :=
  let c1 := { c with results_rel_list := c.results_rel_list.set (d.rank - 1) d.rel }
  if d.rel = RELVALUE_NONPOOL then { c1 with num_nonpool := c1.num_nonpool + 1 }
  else if d.rel = RELVALUE_UNJUDGED then
    { c1 with num_unjudged_in_pool := c1.num_unjudged_in_pool + 1 }
  else if d.rel ≥ relevance_level then { c1 with num_rel_ret := c1.num_rel_ret + 1 }
  else c1

/-- Lines 242-253: the normal path, over the records of `docno_info` in the
order they are stored. -/
def normal_loop (relevance_level : Int) (docno_info : List DOCNO_INFO) (c : Counts) : Counts :=
  docno_info.foldl (normal_step relevance_level) c

/-- Lines 256-263: `num_rel` and `num_rel_levels`, the head of the list being
bucket `i`; `acc` holds the current `(num_rel, num_rel_levels)`. -/
def count_levels (relevance_level : Int) : List Nat → Nat → Nat × Int → Nat × Int
  | [], _, acc => acc
  | c :: cs, i, acc =>
    count_levels relevance_level cs (i + 1)
      (if c ≠ 0 then
        (if (i : Int) ≥ relevance_level then acc.1 + c else acc.1, (i : Int) + 1)
       else acc)

/-- Lines 174-263: the body of the loop over judgment groups, for one group.
`stale` is what `jgs[jg]` held before, `slice` what the group's part of
`ranked_rel_list` held before, `last` the test `jg == num_jgs-1`.  Returns
`jgs[jg]` and `docno_info` as the next group finds it. -/
def form_jg (epi : EPI) (max_rel : Int) (last : Bool) (stale : RES_RELS)
    (slice : List Int) (docno_info : List DOCNO_INFO) (qrels : List TEXT_QRELS) :
    RES_RELS × List DOCNO_INFO :=
  let m := merge_qrels docno_info qrels (List.replicate (max_rel + 1).toNat 0)
  let rel_levels := finish_counting m.2.1 m.2.2
  let c0 : Counts :=
    { results_rel_list := slice, num_ret := 0, num_rel_ret := 0,
      num_nonpool := 0, num_unjudged_in_pool := 0 }
  let p : Counts × List DOCNO_INFO :=
    if epi.judged_docs_only_flag then
      let sorted := qsort comp_rank_judged m.1
      (judged_loop epi.relevance_level sorted 0 c0,
        if last then sorted else qsort comp_docno sorted)
    else
      ({ normal_loop epi.relevance_level m.1 c0 with num_ret := m.1.length }, m.1)
  let n := count_levels epi.relevance_level rel_levels 0 (0, stale.num_rel_levels)
  ({ num_rel_ret := p.1.num_rel_ret, num_ret := p.1.num_ret, num_nonpool := p.1.num_nonpool,
     num_unjudged_in_pool := p.1.num_unjudged_in_pool, num_rel := n.1,
     num_rel_levels := n.2, rel_levels := rel_levels,
     results_rel_list := p.1.results_rel_list }, p.2)

/-- The part of `ranked_rel_list` that belongs to group `jg`:
`&ranked_rel_list[jg * num_results]`, `num_results` entries. -/
def slice_of (ranked_rel_list : List Int) (num_results jg : Nat) : List Int :=
  (List.range num_results).map (fun i => ranked_rel_list.getD (jg * num_results + i) 0)

/-- Lines 170-264: the loop over the judgment groups, from group `jg` on. -/
def jg_loop (epi : EPI) (max_rel : Int) (num_jgs : Nat) (s : Session) (num_results : Nat) :
    Nat → List (List TEXT_QRELS) → List DOCNO_INFO → List RES_RELS
  | _, [], _ => []
  | jg, qrels :: rest, docno_info =>
    let r := form_jg epi max_rel (jg + 1 == num_jgs) (s.jgs.getD jg RES_RELS.zero)
      (slice_of s.ranked_rel_list num_results jg) docno_info qrels
    r.1 :: jg_loop epi max_rel num_jgs s num_results (jg + 1) rest r.2

/-- Lines 56-271.  The cached values are handed back when the query id is the
cached one (lines 72-78); a wrong format tag fails before anything is changed
(lines 80-85); `current_query` and `num_jgs` are overwritten (lines 87-99)
before the duplicate check can fail (lines 140-148); otherwise every group is
computed and the call returns 1. -/
def te_form_res_rels_jg (s : Session) (epi : EPI) (rel_info : REL_INFO)
    (results : RESULTS) : Outcome :=
  if strcmp s.current_query results.qid = 0 then
    { ret := 0, session := s,
      res_rels := some { qid := results.qid, num_jgs := s.num_jgs, jgs := s.jgs.take s.num_jgs } }
  else if strcmp "qrels_jg" rel_info.rel_format ≠ 0 ∨
      strcmp "trec_results" results.ret_format ≠ 0 then
    { ret := UNDEF, session := s, res_rels := none }
  else
    let num_jgs := rel_info.text_qrels_jg.length
    let ranked := ranked_docno_info epi results.text_results
    let num_results := ranked.length
    let docno_info := qsort comp_docno ranked
    if has_duplicate docno_info then
      { ret := UNDEF,
        session := { s with current_query := results.qid, num_jgs := num_jgs },
        res_rels := none }
    else
      let max_rel := find_max_rel rel_info.text_qrels_jg
      let jgs := jg_loop epi max_rel num_jgs s num_results 0 rel_info.text_qrels_jg docno_info
      { ret := 1,
        session :=
          { current_query := results.qid, num_jgs := num_jgs,
            jgs := jgs ++ s.jgs.drop num_jgs,
            ranked_rel_list :=
              (jgs.map (fun j => j.results_rel_list)).flatten ++
                s.ranked_rel_list.drop (num_jgs * num_results) },
        res_rels := some { qid := results.qid, num_jgs := num_jgs, jgs := jgs } }

/-! ## Notions of the specification -/

/-- The order of the specification on retrieved items: descending score,
ties broken by descending lexicographic order of the identifier. -/
def spec_before (a b : TEXT_RESULTS) : Prop :=
  a.sim > b.sim ∨ (a.sim = b.sim ∧ a.docno > b.docno)

/-- The relevance category of the specification for an identifier with respect
to one judgment group: NON_POOL without a judgment entry, IN_POOL_UNJUDGED when
the entry carries a negative level, the level of the entry otherwise. -/
def category (qrels : List TEXT_QRELS) (docno : String) : Int :=
  match qrels.find? (fun q => q.docno = docno) with
  | none => RELVALUE_NONPOOL
  | some q => if q.rel < 0 then RELVALUE_UNJUDGED else q.rel

/-- The sum of the histogram buckets at levels `≥ t`, the first bucket of `h`
being the one of level `i`. -/
def sum_levels_from (t : Int) (i : Nat) (h : List Nat) : Nat :=
  (((h.enumFrom i).filter (fun p => decide (t ≤ (p.1 : Int)))).map Prod.snd).sum

/-- The sum of the histogram buckets at levels `≥ t`. -/
def sum_levels_ge (t : Int) (h : List Nat) : Nat := sum_levels_from t 0 h

/-! ## Auxiliary notions used in the proofs -/

/-- The fields of a `DOCNO_INFO` that the merge leaves alone. -/
def key (d : DOCNO_INFO) : String × DOUBLE × Nat := (d.docno, d.sim, d.rank)

/-- The all-zero histogram slice of a group after the `memset` of line 167. -/
def zero_levels (max_rel : Int) : List Nat := List.replicate (max_rel + 1).toNat 0

/-- The records of `docno_info` after the merge of lines 178-202 against one
judgment group. -/
def merged (docno_info : List DOCNO_INFO) (max_rel : Int) (qrels : List TEXT_QRELS) :
    List DOCNO_INFO :=
  (merge_qrels docno_info qrels (zero_levels max_rel)).1

/-- The records of a list in the order of their ranks. -/
def by_rank (l : List DOCNO_INFO) : List DOCNO_INFO :=
  l.insertionSort (fun a b => a.rank ≤ b.rank)

/-! ## Worked example of the specification -/

/-- The retrieved list `[(d1,3.0), (d2,3.0), (d3,2.0)]`. -/
def ex_results : RESULTS :=
  { qid := "q1", ret_format := "trec_results",
    text_results := [⟨"d1", 3⟩, ⟨"d2", 3⟩, ⟨"d3", 2⟩] }

/-- One judgment group `{d1:1, d3:0}`. -/
def ex_rel_info : REL_INFO :=
  { qid := "q1", rel_format := "qrels_jg", text_qrels_jg := [[⟨"d1", 1⟩, ⟨"d3", 0⟩]] }

/-- Normal mode, relevance threshold 1, no truncation. -/
def ex_epi : EPI :=
  { max_num_docs_per_topic := 1000, relevance_level := 1, judged_docs_only_flag := false }

/-- A retrieved list with a NaN score: c with score 1, b with NaN, a with
score 2, in this order. -/
def nan_results : RESULTS :=
  { qid := "q3", ret_format := "trec_results",
    text_results := [⟨"c", 1⟩, ⟨"b", DOUBLE.nan⟩, ⟨"a", 2⟩] }

/-- The judgments for `nan_results`: a at level 2, b at level 0, c at level 1. -/
def nan_rel_info : REL_INFO :=
  { qid := "q3", rel_format := "qrels_jg",
    text_qrels_jg := [[⟨"a", 2⟩, ⟨"b", 0⟩, ⟨"c", 1⟩]] }

/-- A retrieved list in which `d1` occurs twice, the second time with the
lowest score: `[(d1,3.0), (d2,2.0), (d1,1.0)]`. -/
def dup_results : RESULTS :=
  { qid := "q1", ret_format := "trec_results",
    text_results := [⟨"d1", 3⟩, ⟨"d2", 2⟩, ⟨"d1", 1⟩] }

/-- Normal mode, relevance threshold 1, at most two documents per topic. -/
def dup_epi : EPI :=
  { max_num_docs_per_topic := 2, relevance_level := 1, judged_docs_only_flag := false }

/-! ## Gain tables and cumulated gain (`m_ndcg_p.c`, `m_ndcg_rel.c`)

Further modelling conventions.

* A `double` is a rational number and `+`, `*`, `/` are exact: rounding and
  overflow are not modelled.
* The divisions by `ideal_dcg` and by `num_rel` are the ones whose divisor can
  be zero.  Their quotient, and what is computed from it (`sum` of
  `te_calc_ndcg_rel` and the value of either measure), is an `XDOUBLE`: a
  rational number, an infinity or NaN.  Both divisors are zero only as `+0.0`.
* `log2` is the function of the C library declared in line 13 of both files.
  It is only applied to `i + 1` and `i + 2` for a rank `i`, so the model takes
  it as a parameter `log2 : Nat → ℚ`; a theorem that needs its values to be
  positive says so.
* The measures obtain their `RES_RELS` from `te_form_res_rels`, which is not
  among the sources; the model starts from the `RES_RELS` it delivered.
* `setup_gains`, `comp_rel_gain` and `get_gain` of `m_ndcg_rel.c` (lines
  178-244) are textually the ones of `m_ndcg_p.c` (lines 125-191).
-/

/-- One `rel_level=gain` parameter of the measure (`DOUBLE_PARAM_PAIR` of
`trec_eval.h`; the fields are the ones the sources read).  `level` stands for
`atol (name)`, the only use `setup_gains` makes of the name. -/
structure DOUBLE_PARAM_PAIR where
  level : Int
  value : ℚ
deriving DecidableEq

/-- `m_ndcg_p.c`, lines 46-50. -/
structure REL_GAIN where
  rel_level : Int
  num_at_level : Nat
  gain : ℚ
deriving DecidableEq

/-- `m_ndcg_p.c`, lines 52-56.  `rel_gains` holds the `num_gains` entries of
the array. -/
structure GAINS where
  rel_gains : List REL_GAIN
  num_gains : Nat
  total_num_at_levels : Nat
deriving DecidableEq

/-- What a read outside the table yields in the model. -/
def REL_GAIN.zero : REL_GAIN := { rel_level := 0, num_at_level := 0, gain := 0 }

/-- `INT_MIN` of `<limits.h>` for the 32-bit `int`. -/
def INT_MIN : Int := -2147483648

/-- `INT_MAX` of `<limits.h>` for the 32-bit `int`. -/
def INT_MAX : Int := 2147483647

/-- The integer part of a `double`. -/
def trunc (x : ℚ) : Int := if 0 ≤ x then Int.floor x else -Int.floor (-x)

/-- The conversion of a `double` to `int`, which discards the fractional part.
A value whose integer part is outside the range of `int` has no defined
conversion in C; the model takes what the conversion instruction of x86-64
yields for it, `INT_MIN`. -/
def double_to_int (x : ℚ) : Int :=
  if INT_MIN ≤ trunc x ∧ trunc x ≤ INT_MAX then trunc x else INT_MIN

/-- `m_ndcg_p.c`, lines 178-181: the difference of two `double` gains returned
as `int`. -/
def comp_rel_gain (ptr1 ptr2 : REL_GAIN) : Int :=
  double_to_int (ptr1.gain - ptr2.gain)

/-- Lines 150-161: the body of the loop over the relevance levels, for level
`i` with `n = res_rels->rel_levels[i]`.  The first entry of level `i` gets the
count; without such an entry a new one is appended with gain `i`. -/
def set_level (i : Int) (n : Nat) : List REL_GAIN → List REL_GAIN
  | [] => [{ rel_level := i, num_at_level := n, gain := (i : ℚ) }]
  | e :: es =>
    if e.rel_level ≠ i then e :: set_level i n es
    else { e with num_at_level := n } :: es

/-- Lines 125-176.  A read of `rel_levels[i]` beyond the list yields 0 in the
model; `Malloc` is assumed to succeed. -/
def setup_gains (pairs : List DOUBLE_PARAM_PAIR) (res_rels : RES_RELS) : GAINS :=
  let from_pairs := pairs.map
    (fun p => ({ rel_level := p.level, num_at_level := 0, gain := p.value } : REL_GAIN))
  let all := (List.range res_rels.num_rel_levels.toNat).foldl
    (fun g (i : Nat) => set_level (i : Int) (res_rels.rel_levels.getD i 0) g) from_pairs
  let sorted := qsort comp_rel_gain all
  { rel_gains := sorted, num_gains := sorted.length,
    total_num_at_levels := (sorted.map (fun e => e.num_at_level)).sum }

/-- Lines 187-190: the search loop of `get_gain`. -/
def get_gain_loop (rel_level : Int) : List REL_GAIN → ℚ
  | [] => 0
  | e :: es => if rel_level = e.rel_level then e.gain else get_gain_loop rel_level es

/-- Lines 183-191. -/
def get_gain (rel_level : Int) (gains : GAINS) : ℚ :=
  get_gain_loop rel_level (gains.rel_gains.take gains.num_gains)

/-- `m_ndcg_p.c`, lines 81-91: the loop over the retrieved documents, the head
of the list being `results_rel_list[i]`. -/
def dcg_loop (log2 : Nat → ℚ) (gains : GAINS) : List Int → Nat → ℚ → ℚ
  | [], _, sum => sum
  | rel :: rest, i, sum =>
    let gain := get_gain rel gains
    dcg_loop log2 gains rest (i + 1)
      (if gain ≠ 0 then (if i > 0 then sum + gain / log2 (i + 1) else sum + gain) else sum)

/-- `m_ndcg_p.c`, lines 98-103: the inner `while`, entered with
`cur_lvl = k ≥ 0`.  Returns `cur_lvl` and `lvl_count` at its exit. -/
def ideal_descend (rel_gains : List REL_GAIN) : Nat → Nat → Int × Nat
  | 0, lvl_count =>
    if lvl_count > (rel_gains.getD 0 REL_GAIN.zero).num_at_level then (-1, 1)
    else (0, lvl_count)
  | k + 1, lvl_count =>
    if lvl_count > (rel_gains.getD (k + 1) REL_GAIN.zero).num_at_level then
      if (rel_gains.getD k REL_GAIN.zero).gain ≤ 0 then ((k : Int), 1)
      else ideal_descend rel_gains k 1
    else (((k + 1 : Nat) : Int), lvl_count)

/-- `m_ndcg_p.c`, lines 96-113: the loop that accumulates the ideal gain; the
first argument is `total_num_at_levels - i`, the number of iterations the
`for` still allows. -/
def ideal_loop (log2 : Nat → ℚ) (rel_gains : List REL_GAIN) :
    Nat → Nat → Int → Nat → ℚ → ℚ
  | 0, _, _, _, ideal_dcg => ideal_dcg
  | n + 1, i, cur_lvl, lvl_count, ideal_dcg =>
    let d := ideal_descend rel_gains cur_lvl.toNat (lvl_count + 1)
    if d.1 < 0 ∨ (rel_gains.getD d.1.toNat REL_GAIN.zero).gain ≤ 0 then ideal_dcg
    else
      let gain := (rel_gains.getD d.1.toNat REL_GAIN.zero).gain
      ideal_loop log2 rel_gains n (i + 1) d.1 d.2
        (if i = 0 then ideal_dcg + gain else ideal_dcg + gain / log2 (i + 1))

/-- A `double` that comes out of a division whose divisor can be zero: a
rational number, an infinity or NaN. -/
inductive XDOUBLE where
  | fin (x : ℚ)
  | pinf
  | ninf
  | nan
deriving DecidableEq

/-- The quotient `x / y` of two numbers, where a zero `y` is `+0.0`: an
infinity with the sign of `x`, and NaN for `0.0 / 0.0`. -/
def xdiv (x y : ℚ) : XDOUBLE :=
  if y ≠ 0 then XDOUBLE.fin (x / y)
  else if 0 < x then XDOUBLE.pinf
  else if x < 0 then XDOUBLE.ninf
  else XDOUBLE.nan

/-- The sum of two doubles: NaN when one of them is NaN or when they are
infinities of opposite sign. -/
def XDOUBLE.add : XDOUBLE → XDOUBLE → XDOUBLE
  | XDOUBLE.fin x, XDOUBLE.fin y => XDOUBLE.fin (x + y)
  | XDOUBLE.fin _, XDOUBLE.pinf => XDOUBLE.pinf
  | XDOUBLE.fin _, XDOUBLE.ninf => XDOUBLE.ninf
  | XDOUBLE.pinf, XDOUBLE.fin _ => XDOUBLE.pinf
  | XDOUBLE.pinf, XDOUBLE.pinf => XDOUBLE.pinf
  | XDOUBLE.ninf, XDOUBLE.fin _ => XDOUBLE.ninf
  | XDOUBLE.ninf, XDOUBLE.ninf => XDOUBLE.ninf
  | _, _ => XDOUBLE.nan

instance : Add XDOUBLE := ⟨XDOUBLE.add⟩

/-- The test `s > 0.0`: false for NaN. -/
def XDOUBLE.pos : XDOUBLE → Bool
  | XDOUBLE.fin x => decide (0 < x)
  | XDOUBLE.pinf => true
  | _ => false

/-- The quotient `s / n` for a count `n`, where `n = 0` is `+0.0`. -/
def XDOUBLE.div_nat : XDOUBLE → Nat → XDOUBLE
  | XDOUBLE.fin x, n => xdiv x (n : ℚ)
  | XDOUBLE.pinf, _ => XDOUBLE.pinf
  | XDOUBLE.ninf, _ => XDOUBLE.ninf
  | XDOUBLE.nan, _ => XDOUBLE.nan

/-- What `te_calc_ndcg_p` computes: the locals `sum` and `ideal_dcg` at line
115, and `eval->values[tm->eval_index].value` when line 117 writes it. -/
structure NDCG_P where
  sum : ℚ
  ideal_dcg : ℚ
  value : Option XDOUBLE
deriving DecidableEq

/-- `m_ndcg_p.c`, lines 77-122, from the `RES_RELS` that `te_form_res_rels`
delivered. -/
def te_calc_ndcg_p (log2 : Nat → ℚ) (pairs : List DOUBLE_PARAM_PAIR) (res_rels : RES_RELS) :
    NDCG_P :=
  let gains := setup_gains pairs res_rels
  let sum := dcg_loop log2 gains (res_rels.results_rel_list.take res_rels.num_ret) 0 0
  let ideal_dcg := ideal_loop log2 gains.rel_gains gains.total_num_at_levels 0
    ((gains.num_gains : Int) - 1) 0 0
  { sum := sum, ideal_dcg := ideal_dcg,
    value := if res_rels.num_rel_ret > 0 then some (xdiv sum ideal_dcg) else none }

/-- The locals of `te_calc_ndcg_rel` (`m_ndcg_rel.c`, lines 80-86). -/
structure NDCG_REL_STATE where
  i : Nat
  results_dcg : ℚ
  ideal_dcg : ℚ
  sum : XDOUBLE
  num_rel_ret : Nat
  num_rel : Nat
  cur_level : Int
  num_at_level : Nat
  ideal_gain : ℚ
deriving DecidableEq

/-- `m_ndcg_rel.c`, lines 98, 113 and 154: the gain of the entry `cur_level`,
`0.0` below the table. -/
def gain_at (rel_gains : List REL_GAIN) (cur_level : Int) : ℚ :=
  if cur_level ≥ 0 then (rel_gains.getD cur_level.toNat REL_GAIN.zero).gain else 0

/-- `m_ndcg_rel.c`, lines 109-114 and 150-155: the inner `while`.  The first
argument is `cur_level + 1`.  Returns `cur_level`, `num_at_level` and
`ideal_gain` at its exit. -/
def rel_descend (rel_gains : List REL_GAIN) : Nat → Nat → ℚ → Int × Nat × ℚ
  | 0, num_at_level, ideal_gain => (-1, num_at_level, ideal_gain)
  | k + 1, num_at_level, ideal_gain =>
    if num_at_level > (rel_gains.getD k REL_GAIN.zero).num_at_level then
      rel_descend rel_gains k 1 (gain_at rel_gains ((k : Int) - 1))
    else ((k : Int), num_at_level, ideal_gain)

/-- `m_ndcg_rel.c`, lines 107-118 and 148-159: the change in the ideal dcg at
rank `st.i`. -/
def rel_ideal_step (log2 : Nat → ℚ) (gains : GAINS) (st : NDCG_REL_STATE) : NDCG_REL_STATE :=
  let d := rel_descend gains.rel_gains (st.cur_level + 1).toNat (st.num_at_level + 1)
    st.ideal_gain
  { st with
    cur_level := d.1, num_at_level := d.2.1, ideal_gain := d.2.2
    num_rel := if d.2.2 > 0 then st.num_rel + 1 else st.num_rel
    ideal_dcg := if d.2.2 > 0 then st.ideal_dcg + d.2.2 / log2 (st.i + 2) else st.ideal_dcg }

/-- `m_ndcg_rel.c`, lines 102-106 and 131-134: the change in the results dcg
for `results_rel_list[st.i] = rel`. -/
def rel_results_step (log2 : Nat → ℚ) (gains : GAINS) (rel : Int) (st : NDCG_REL_STATE) :
    NDCG_REL_STATE :=
  let results_gain := get_gain rel gains
  { st with
    results_dcg := if results_gain ≠ 0 then st.results_dcg + results_gain / log2 (st.i + 2)
                   else st.results_dcg }

/-- `m_ndcg_rel.c`, lines 119-123 and 135-139: the average includes this rank
when the document has a positive gain; then `i++`. -/
def rel_average_step (gains : GAINS) (rel : Int) (st : NDCG_REL_STATE) : NDCG_REL_STATE :=
  if get_gain rel gains > 0 then
    { st with sum := st.sum + xdiv st.results_dcg st.ideal_dcg,
              num_rel_ret := st.num_rel_ret + 1, i := st.i + 1 }
  else { st with i := st.i + 1 }

/-- `m_ndcg_rel.c`, lines 101-128.  Returns the part of the vector not yet
looked at together with the locals. -/
def rel_loop1 (log2 : Nat → ℚ) (gains : GAINS) :
    List Int → NDCG_REL_STATE → List Int × NDCG_REL_STATE
  | [], st => ([], st)
  | rel :: rest, st =>
    if st.ideal_gain > 0 then
      rel_loop1 log2 gains rest
        (rel_average_step gains rel
          (rel_ideal_step log2 gains (rel_results_step log2 gains rel st)))
    else (rel :: rest, st)

/-- `m_ndcg_rel.c`, lines 129-146. -/
def rel_loop2 (log2 : Nat → ℚ) (gains : GAINS) : List Int → NDCG_REL_STATE → NDCG_REL_STATE
  | [], st => st
  | rel :: rest, st =>
    rel_loop2 log2 gains rest (rel_average_step gains rel (rel_results_step log2 gains rel st))

/-- `m_ndcg_rel.c`, lines 147-165.  The C loop has no bound; the model runs at
most `fuel` iterations and returns `none` when the loop has not left by
then. -/
def rel_loop3 (log2 : Nat → ℚ) (gains : GAINS) : Nat → NDCG_REL_STATE → Option NDCG_REL_STATE
  | 0, st => if st.ideal_gain > 0 then none else some st
  | fuel + 1, st =>
    if st.ideal_gain > 0 then
      rel_loop3 log2 gains fuel { rel_ideal_step log2 gains st with i := st.i + 1 }
    else some st

/-- What `te_calc_ndcg_rel` computes: the locals at line 171 and
`eval->values[tm->eval_index].value` when line 172 writes it. -/
structure NDCG_REL where
  sum : XDOUBLE
  num_rel : Nat
  num_rel_ret : Nat
  results_dcg : ℚ
  ideal_dcg : ℚ
  value : Option XDOUBLE
deriving DecidableEq

/-- `m_ndcg_rel.c`, lines 82-84 and 95-99: the locals before the first loop. -/
def rel_init (gains : GAINS) : NDCG_REL_STATE :=
  { i := 0, results_dcg := 0, ideal_dcg := 0, sum := XDOUBLE.fin 0, num_rel_ret := 0,
    num_rel := 0,
    cur_level := (gains.num_gains : Int) - 1, num_at_level := 0,
    ideal_gain := gain_at gains.rel_gains ((gains.num_gains : Int) - 1) }

/-- `m_ndcg_rel.c`, lines 167-172: the contribution of the relevant documents
that were not retrieved, and the value, which is written when `sum > 0.0`. -/
def rel_finish (st : NDCG_REL_STATE) : NDCG_REL :=
  let sum := st.sum +
    xdiv ((((st.num_rel : Int) - (st.num_rel_ret : Int) : Int) : ℚ) * st.results_dcg)
      st.ideal_dcg
  { sum := sum, num_rel := st.num_rel, num_rel_ret := st.num_rel_ret,
    results_dcg := st.results_dcg, ideal_dcg := st.ideal_dcg,
    value := if sum.pos then some (sum.div_nat st.num_rel) else none }

/-- `m_ndcg_rel.c`, lines 92-175, from the `RES_RELS` that `te_form_res_rels`
delivered; `none` when the loop of lines 147-165 is still running after `fuel`
iterations. -/
def te_calc_ndcg_rel (log2 : Nat → ℚ) (fuel : Nat) (pairs : List DOUBLE_PARAM_PAIR)
    (res_rels : RES_RELS) : Option NDCG_REL :=
  let gains := setup_gains pairs res_rels
  let r1 := rel_loop1 log2 gains (res_rels.results_rel_list.take res_rels.num_ret)
    (rel_init gains)
  let st2 := rel_loop2 log2 gains r1.1 r1.2
  (rel_loop3 log2 gains fuel st2).map rel_finish

/-! ## Notions of the specification for the gain measures -/

/-- The discount of the specification: `1` at rank position 0, `1 / log2 (i + 1)`
at position `i > 0`. -/
def discount (log2 : Nat → ℚ) (i : Nat) : ℚ := if i = 0 then 1 else 1 / log2 (i + 1)

/-- The discount `m_ndcg_rel.c` applies at rank position `i`. -/
def discount_rel (log2 : Nat → ℚ) (i : Nat) : ℚ := 1 / log2 (i + 2)

/-- The gain of a category: the gain of the first table entry whose level is
the category, 0 when there is none. -/
def spec_gain (rel_gains : List REL_GAIN) (c : Int) : ℚ :=
  match rel_gains.find? (fun e => decide (e.rel_level = c)) with
  | some e => e.gain
  | none => 0

/-- The sum of `g_j * d (i + j)` over the positions `j` of a list of gains. -/
def weighted_sum (d : Nat → ℚ) : Nat → List ℚ → ℚ
  | _, [] => 0
  | i, g :: gs => g * d i + weighted_sum d (i + 1) gs

/-- Walk a list of entries, emitting the gain of each entry `num_at_level`
times and stopping at the first entry whose gain is `≤ 0`. -/
def emit_gains : List REL_GAIN → List ℚ
  | [] => []
  | e :: es =>
    if e.gain ≤ 0 then [] else List.replicate e.num_at_level e.gain ++ emit_gains es

/-- The ideal gain sequence: the walk of the table from its last entry
downward. -/
def ideal_seq (rel_gains : List REL_GAIN) : List ℚ := emit_gains rel_gains.reverse

/-- The entry of the specification for an override pair: its gain, and the
histogram bucket of its level when the level is one of `0 .. n-1`, else 0. -/
def override_entry (hist : List Nat) (n : Nat) (p : DOUBLE_PARAM_PAIR) : REL_GAIN :=
  { rel_level := p.level,
    num_at_level := if 0 ≤ p.level ∧ p.level < (n : Int) then hist.getD p.level.toNat 0 else 0,
    gain := p.value }

/-- The entry of the specification for a level without override: gain = level. -/
def default_entry (hist : List Nat) (L : Nat) : REL_GAIN :=
  { rel_level := (L : Int), num_at_level := hist.getD L 0, gain := (L : ℚ) }

/-- The entries of the gain table according to the specification, for a
histogram of `n` levels: one per override pair, then one per level in
`0 .. n-1` that has no override. -/
def spec_table (pairs : List DOUBLE_PARAM_PAIR) (hist : List Nat) (n : Nat) : List REL_GAIN :=
  pairs.map (override_entry hist n) ++
    ((List.range n).filter (fun (L : Nat) => pairs.all (fun p => decide (p.level ≠ (L : Int))))).map
      (default_entry hist)

/-- What the ideal walk still has to emit when it stands at entry `k` and has
emitted `c` items of it: the other items of entry `k`, then the walk of the
entries below `k`. -/
def walk_rest (rel_gains : List REL_GAIN) (k c : Nat) : List ℚ :=
  List.replicate ((rel_gains.getD k REL_GAIN.zero).num_at_level - c)
      (rel_gains.getD k REL_GAIN.zero).gain ++
    emit_gains (rel_gains.take k).reverse

/-- The total count of items at the entries with positive gain. -/
def pos_count (rel_gains : List REL_GAIN) : Nat :=
  ((rel_gains.filter (fun e => decide (0 < e.gain))).map (fun e => e.num_at_level)).sum

/-- The sum, over every rank `i` of the achieved gains `a` with `a_i > 0`, of
the achieved DCG of the ranks `0 .. i` divided by the ideal DCG of the ranks
`0 .. i`, for the ideal gain sequence `G` and the discount `d`. -/
def rel_points (d : Nat → ℚ) (a G : List ℚ) (n : Nat) : ℚ :=
  ((List.range n).map (fun i =>
    if 0 < a.getD i 0 then
      weighted_sum d 0 (a.take (i + 1)) / weighted_sum d 0 (G.take (i + 1))
    else 0)).sum

/-- The sum of `rel_points` as the program computes it, with every quotient an
`XDOUBLE`. -/
def xrel_points (d : Nat → ℚ) (a G : List ℚ) (n : Nat) : XDOUBLE :=
  ((List.range n).map (fun i =>
    if 0 < a.getD i 0 then
      xdiv (weighted_sum d 0 (a.take (i + 1))) (weighted_sum d 0 (G.take (i + 1)))
    else XDOUBLE.fin 0)).foldl (fun s x => s + x) (XDOUBLE.fin 0)

/-- The gains of the retrieved documents, by rank. -/
def achieved_gains (pairs : List DOUBLE_PARAM_PAIR) (res_rels : RES_RELS) : List ℚ :=
  (res_rels.results_rel_list.take res_rels.num_ret).map
    (spec_gain (setup_gains pairs res_rels).rel_gains)

/-- Where the locals `cur_level`, `num_at_level` and `ideal_gain` of
`te_calc_ndcg_rel` stand after `i` steps of the walk that emits `G`: at an
entry of positive gain with `G.drop i` left to emit, or past the end of `G`
with `ideal_gain ≤ 0`. -/
def walk_state (g : List REL_GAIN) (G : List ℚ) (i : Nat) (st : NDCG_REL_STATE) : Prop :=
  (0 < st.ideal_gain ∧ ∃ k : Nat, st.cur_level = (k : Int) ∧ k < g.length ∧
      st.ideal_gain = (g.getD k REL_GAIN.zero).gain ∧
      st.num_at_level ≤ (g.getD k REL_GAIN.zero).num_at_level ∧
      walk_rest g k st.num_at_level = G.drop i) ∨
    (st.ideal_gain ≤ 0 ∧ G.length ≤ i)

/-- The locals of `te_calc_ndcg_rel` after `i` ranks, for the achieved gains
`a`, the ideal gain sequence `G` of the table `g` and the discount `d`. -/
def rel_inv (d : Nat → ℚ) (g : List REL_GAIN) (a G : List ℚ) (i : Nat)
    (st : NDCG_REL_STATE) : Prop :=
  st.i = i ∧ st.results_dcg = weighted_sum d 0 (a.take i) ∧
    st.ideal_dcg = weighted_sum d 0 (G.take i) ∧ st.num_rel = (G.take i).length ∧
    st.sum = xrel_points d a G i ∧
    st.num_rel_ret = (a.take i).countP (fun x => decide (0 < x)) ∧ walk_state g G i st

/-! ## Examples for the gain measures -/

/-- The histogram `level0=0, level1=2, level2=3` of the specification's gain
example, with an empty vector. -/
def gain_ex_res_rels : RES_RELS :=
  { num_rel_ret := 0, num_ret := 0, num_nonpool := 0, num_unjudged_in_pool := 0,
    num_rel := 5, num_rel_levels := 3, rel_levels := [0, 2, 3], results_rel_list := [] }

/-- The overrides `{1:5.0, 2:1.0}`. -/
def gain_ex_pairs : List DOUBLE_PARAM_PAIR := [⟨1, 5⟩, ⟨2, 1⟩]

/-- A `log2` for evaluating examples: the integer part of the binary
logarithm. -/
def floor_log2 (n : Nat) : ℚ := (Nat.log 2 n : ℚ)

/-- One judged document at each of the levels 0 and 1; the document of level 1
is retrieved, at the first rank. -/
def one_rel_res_rels : RES_RELS :=
  { num_rel_ret := 1, num_ret := 1, num_nonpool := 0, num_unjudged_in_pool := 0,
    num_rel := 1, num_rel_levels := 2, rel_levels := [1, 1], results_rel_list := [1] }

/-- The override `1=0.5`. -/
def half_pairs : List DOUBLE_PARAM_PAIR := [⟨1, 1/2⟩]

/-- The override `1=0.0`. -/
def zero_pairs : List DOUBLE_PARAM_PAIR := [⟨1, 0⟩]

/-- One judged document at each of the levels 0 and 1; the document of level 0
is retrieved, at the first rank. -/
def nonrel_res_rels : RES_RELS :=
  { num_rel_ret := 0, num_ret := 1, num_nonpool := 0, num_unjudged_in_pool := 0,
    num_rel := 1, num_rel_levels := 2, rel_levels := [1, 1], results_rel_list := [0] }

/-- The override `0=-1.0`. -/
def neg_pairs : List DOUBLE_PARAM_PAIR := [⟨0, -1⟩]

/-- One judged document at each of the levels 0, 1 and 2, nothing retrieved. -/
def three_level_res_rels : RES_RELS :=
  { num_rel_ret := 0, num_ret := 0, num_nonpool := 0, num_unjudged_in_pool := 0,
    num_rel := 2, num_rel_levels := 3, rel_levels := [1, 1, 1], results_rel_list := [] }

/-- The overrides `-1=3.0,0=-10.0`. -/
def nonpool_pairs : List DOUBLE_PARAM_PAIR := [⟨-1, 3⟩, ⟨0, -10⟩]

/-- One judged document, at level 0; retrieved are a document outside the
pool and the document of level 0. -/
def nonpool_res_rels : RES_RELS :=
  { num_rel_ret := 0, num_ret := 2, num_nonpool := 1, num_unjudged_in_pool := 0,
    num_rel := 0, num_rel_levels := 1, rel_levels := [1], results_rel_list := [-1, 0] }

/-- The overrides `1=0.5,2=0.2`. -/
def frac_pairs : List DOUBLE_PARAM_PAIR := [⟨1, 1/2⟩, ⟨2, 1/5⟩]

/-! ## `te_calc_map_cut` (`m_map_cut.c`)

The measure obtains its `RES_RELS` from `te_form_res_rels`, which is not among
the sources; the model starts from the `RES_RELS` it delivered.  `cutoffs`
holds the `num_params` cutoffs of the measure.  `eval->values` is modelled by
one `Option` per cutoff: `none` as long as the function has not written the
value. -/

/-- What `te_calc_map_cut` leaves behind: the returned `int` and the values it
wrote, one slot per cutoff. -/
structure MAP_CUT where
  ret : Int
  values : List (Option ℚ)
deriving DecidableEq

/-- `m_map_cut.c`, lines 67-70: `rel_so_far` and `sum` after the document at
rank `i`, whose entry in the vector is `rel`. -/
def map_cut_add (relevance_level : Int) (rel : Int) (i rel_so_far : Nat) (sum : ℚ) : Nat × ℚ :=
  if rel ≥ relevance_level then
    (rel_so_far + 1, sum + ((rel_so_far + 1 : Nat) : ℚ) / ((i + 1 : Nat) : ℚ))
  else (rel_so_far, sum)

/-- `m_map_cut.c`, lines 58-71: the loop over the retrieved documents from
rank `i` on, the head of the list being `results_rel_list[i]`.  Returns
`cutoff_index`, `sum` and the values at its exit.  The loop reads
`cutoffs[cutoff_index]` past the end only when there is no cutoff at all; the
model then reads 0. -/
def map_cut_loop (cutoffs : List Int) (relevance_level : Int) (num_rel : Nat) :
    List Int → Nat → Nat → Nat → ℚ → List (Option ℚ) → Nat × ℚ × List (Option ℚ)
  | [], _, cutoff_index, _, sum, values => (cutoff_index, sum, values)
  | rel :: rest, i, cutoff_index, rel_so_far, sum, values =>
    if (i : Int) = cutoffs.getD cutoff_index 0 then
      if cutoff_index + 1 = cutoffs.length then
        (cutoff_index + 1, sum, values.set cutoff_index (some (sum / (num_rel : ℚ))))
      else
        map_cut_loop cutoffs relevance_level num_rel rest (i + 1) (cutoff_index + 1)
          (map_cut_add relevance_level rel i rel_so_far sum).1
          (map_cut_add relevance_level rel i rel_so_far sum).2
          (values.set cutoff_index (some (sum / (num_rel : ℚ))))
    else
      map_cut_loop cutoffs relevance_level num_rel rest (i + 1) cutoff_index
        (map_cut_add relevance_level rel i rel_so_far sum).1
        (map_cut_add relevance_level rel i rel_so_far sum).2 values

/-- `m_map_cut.c`, lines 73-77: the values of the cutoffs not achieved; the
first argument is `num_params - cutoff_index`. -/
def map_cut_fill (sum : ℚ) (num_rel : Nat) : Nat → Nat → List (Option ℚ) → List (Option ℚ)
  | 0, _, values => values
  | n + 1, cutoff_index, values =>
    map_cut_fill sum num_rel n (cutoff_index + 1)
      (values.set cutoff_index (some (sum / (num_rel : ℚ))))

/-- `m_map_cut.c`, lines 55-78, from the `RES_RELS` that `te_form_res_rels`
delivered. -/
def te_calc_map_cut (epi : EPI) (cutoffs : List Int) (res_rels : RES_RELS) : MAP_CUT :=
  if res_rels.num_rel = 0 then { ret := 0, values := List.replicate cutoffs.length none }
  else
    let l := map_cut_loop cutoffs epi.relevance_level res_rels.num_rel
      (res_rels.results_rel_list.take res_rels.num_ret) 0 0 0 0
      (List.replicate cutoffs.length none)
    { ret := 1,
      values := map_cut_fill l.2.1 res_rels.num_rel (cutoffs.length - l.1) l.1 l.2.2 }

/-- The sum, over the ranks `i < n` of the vector `v` with `v_i ≥ t`, of the
number of ranks `i' ≤ i` with `v_i' ≥ t` divided by `i + 1`.  A rank past the
end of `v` adds nothing. -/
def precision_sum (t : Int) (v : List Int) (n : Nat) : ℚ :=
  ((List.range n).map (fun i =>
    if t ≤ v.getD i (t - 1) then
      (((v.take (i + 1)).countP (fun x => decide (t ≤ x)) : Nat) : ℚ) / ((i + 1 : Nat) : ℚ)
    else 0)).sum

/-! ## Reading the results file (`get_trec_results.c`)

Modelling conventions.

* The buffer `trec_results_buf` is a list of characters; a pointer into it is
  the number of characters before it.  The terminating NUL of line 120 is the
  end of the list: a read at the end yields NUL.  A scan that would run past
  the NUL stops there in the model; in C it would leave the buffer.
* A `CURSOR` is the buffer together with the pointer `ptr`: the characters
  before `ptr`, as the function has left them, and the characters from `ptr`
  on.
* `isspace` and `isblank` are the ones of `<ctype.h>` in the C locale.
* `atof` is a parameter; a score is a `DOUBLE` as in `TEXT_RESULTS`.
* Opening, mapping and allocating are assumed to succeed.
-/

/-- The character NUL. -/
def NUL : Char := Char.ofNat 0

/-- The newline character. -/
def NL : Char := Char.ofNat 10

/-- The carriage return. -/
def CR : Char := Char.ofNat 13

/-- The space character. -/
def SP : Char := Char.ofNat 32

/-- `FMT_TREC` (`get_trec_results.c`, line 16). -/
def FMT_TREC : Int := 0

/-- `FMT_ANS` (`get_trec_results.c`, line 17). -/
def FMT_ANS : Int := 1

/-- `isblank` of `<ctype.h>`: space and horizontal tab. -/
def isblank (c : Char) : Bool := c == Char.ofNat 32 || c == Char.ofNat 9

/-- `isspace` of `<ctype.h>`: space, tab, newline, vertical tab, form feed and
carriage return. -/
def isspace (c : Char) : Bool :=
  c == Char.ofNat 32 || c == Char.ofNat 9 || c == Char.ofNat 10 || c == Char.ofNat 11 ||
    c == Char.ofNat 12 || c == Char.ofNat 13

/-- `get_trec_results.c`, lines 218-221. -/
def iseol (c : Char) : Bool := c == Char.ofNat 10 || c == Char.ofNat 13

/-- The buffer and a pointer into it. -/
structure CURSOR where
  done : List Char
  rest : List Char
deriving DecidableEq

/-- The character `*ptr`. -/
def CURSOR.peek (c : CURSOR) : Char := c.rest.headD NUL

/-- The pointer as an offset into the buffer. -/
def CURSOR.pos (c : CURSOR) : Nat := c.done.length

/-- The whole buffer. -/
def CURSOR.buf (c : CURSOR) : List Char := c.done ++ c.rest

/-- The statement `*ptr++ = x`. -/
def CURSOR.put (c : CURSOR) (x : Char) : CURSOR :=
  match c.rest with
  | [] => c
  | _ :: rest => { done := c.done ++ [x], rest := rest }

/-- The statement `ptr++`. -/
def CURSOR.next (c : CURSOR) : CURSOR :=
  match c.rest with
  | [] => c
  | x :: rest => { done := c.done ++ [x], rest := rest }

/-- The loop `while (p (*ptr)) ptr++`, on the characters before and from
`ptr`. -/
def skip_chars (p : Char → Bool) : List Char → List Char → CURSOR
  | done, [] => { done := done, rest := [] }
  | done, x :: rest =>
    if p x then skip_chars p (done ++ [x]) rest else { done := done, rest := x :: rest }

/-- The loop `while (p (*ptr)) ptr++`. -/
def skip_while (p : Char → Bool) (c : CURSOR) : CURSOR := skip_chars p c.done c.rest

/-- The string a `char *` with offset `p` points to: the characters up to the
next NUL. -/
def cstr (buf : List Char) (p : Nat) : List Char :=
  (buf.drop p).takeWhile (fun x => x != NUL)

/-- `get_trec_results.c`, lines 236-257: the loop over the fields, with
`sizeof(ptrs)/sizeof(ptrs[0]) - i` iterations to go.  `ptrs` lists the
pointers recorded so far, `ptrs[0]` first; the slots after them are NULL. -/
def fields_loop : Nat → CURSOR → List Nat → CURSOR × List Nat
  | 0, c, ptrs => (c, ptrs)
  | n + 1, c, ptrs =>
    if iseol (skip_while isblank c).peek then (skip_while isblank c, ptrs)
    else
      if isblank (skip_while (fun x => !isspace x) (skip_while isblank c)).peek then
        fields_loop n ((skip_while (fun x => !isspace x) (skip_while isblank c)).put NUL)
          (ptrs ++ [(skip_while isblank c).pos])
      else
        (skip_while (fun x => !isspace x) (skip_while isblank c),
          ptrs ++ [(skip_while isblank c).pos])

/-- What `parse_results_line` leaves behind: the returned `int`, the buffer
with `*start_ptr`, the three pointers when they were assigned, and the
arguments `*run_id_ptr` and `*run_type`. -/
structure PARSED where
  ret : Int
  cursor : CURSOR
  qid : Option Nat
  docno : Option Nat
  sim : Option Nat
  run_id_ptr : Option Nat
  run_type : Int
deriving DecidableEq

/-- `get_trec_results.c`, lines 223-281.  `run_id_ptr` and `run_type` are what
`*run_id_ptr` and `*run_type` hold at the call. -/
def parse_results_line (c : CURSOR) (run_id_ptr : Option Nat) (run_type : Int) : PARSED :=
  let f := fields_loop 6 (skip_while iseol c) []
  let c1 := (skip_while (fun x => x != NL) f.1).put NUL
  if (f.2[2]?).isSome ∧ (f.2[3]?).isNone then
    { ret := 0, cursor := c1, qid := f.2[0]?, docno := f.2[1]?, sim := f.2[2]?,
      run_id_ptr := run_id_ptr, run_type := FMT_ANS }
  else if (f.2[5]?).isSome then
    { ret := 0, cursor := c1, qid := f.2[0]?, docno := f.2[2]?, sim := f.2[4]?,
      run_id_ptr := run_id_ptr, run_type := FMT_TREC }
  else
    { ret := UNDEF, cursor := c1, qid := none, docno := none, sim := none,
      run_id_ptr := run_id_ptr, run_type := run_type }

/-- The temporary record of lines 37-41: three pointers into the buffer. -/
structure LINES where
  qid : Nat
  docno : Nat
  sim : Nat
deriving DecidableEq

/-- What the loop of lines 132-147 leaves behind. -/
structure READ_LINES where
  ret : Int
  lines : List LINES
  run_id_ptr : Option Nat
  run_type : Int
  buf : List Char
deriving DecidableEq

/-- `get_trec_results.c`, lines 132-147: the loop over the lines of the
buffer.  Every iteration moves `ptr` forward, so the length of the buffer
bounds their number; `none` when `fuel` iterations were not enough. -/
def read_lines : Nat → CURSOR → List LINES → Option Nat → Int → Option READ_LINES
  | 0, _, _, _, _ => none
  | fuel + 1, c, lines, run_id_ptr, run_type =>
    if c.peek = NUL then
      some { ret := 1, lines := lines, run_id_ptr := run_id_ptr, run_type := run_type,
             buf := c.buf }
    else
      if (skip_while (fun x => x != NL && isspace x) c).peek = NL then
        read_lines fuel (skip_while (fun x => x != NL && isspace x) c).next lines run_id_ptr
          run_type
      else
        if (parse_results_line (skip_while (fun x => x != NL && isspace x) c) run_id_ptr
            run_type).ret = UNDEF then
          some { ret := UNDEF, lines := lines, run_id_ptr := run_id_ptr, run_type := run_type,
                 buf := (parse_results_line (skip_while (fun x => x != NL && isspace x) c)
                    run_id_ptr run_type).cursor.buf }
        else
          read_lines fuel
            (parse_results_line (skip_while (fun x => x != NL && isspace x) c) run_id_ptr
              run_type).cursor
            (lines ++
              [{ qid := ((parse_results_line (skip_while (fun x => x != NL && isspace x) c)
                    run_id_ptr run_type).qid).getD 0,
                 docno := ((parse_results_line (skip_while (fun x => x != NL && isspace x) c)
                    run_id_ptr run_type).docno).getD 0,
                 sim := ((parse_results_line (skip_while (fun x => x != NL && isspace x) c)
                    run_id_ptr run_type).sim).getD 0 }])
            (parse_results_line (skip_while (fun x => x != NL && isspace x) c) run_id_ptr
              run_type).run_id_ptr
            (parse_results_line (skip_while (fun x => x != NL && isspace x) c) run_id_ptr
              run_type).run_type

/-- `get_trec_results.c`, lines 211-216. -/
def comp_lines_qid_docno (buf : List Char) (ptr1 ptr2 : LINES) : Int :=
  if strcmpL (cstr buf ptr1.qid) (cstr buf ptr2.qid) ≠ 0 then
    strcmpL (cstr buf ptr1.qid) (cstr buf ptr2.qid)
  else strcmpL (cstr buf ptr1.docno) (cstr buf ptr2.docno)

/-- The `RESULTS` record of `trec_eval.h` as `te_get_trec_results` fills it
(lines 187-189), with the documents of the query; `run_id` is `none` for a
NULL pointer. -/
structure READ_RESULTS where
  qid : String
  run_id : Option String
  ret_format : String
  text_results : List TEXT_RESULTS
deriving DecidableEq

/-- `get_trec_results.c`, lines 192-197: the score stored for a line. -/
def stored_sim (atof : List Char → DOUBLE) (run_type : Int) (sim : List Char) : DOUBLE :=
  if run_type = FMT_TREC then atof sim else -atof sim

/-- Lines 191-198: store the document of a line in the record of the current
query, the last one. -/
def add_text_result (t : TEXT_RESULTS) : List READ_RESULTS → List READ_RESULTS
  | [] => []
  | [r] => [{ r with text_results := r.text_results ++ [t] }]
  | r :: rs => r :: add_text_result t rs

/-- `get_trec_results.c`, lines 176-199: the loop over the sorted lines, the
head of the list being `lines[i]`. -/
def store_loop (atof : List Char → DOUBLE) (buf : List Char) (run_id_ptr : Option Nat)
    (run_type : Int) : List LINES → List Char → List READ_RESULTS → List READ_RESULTS
  | [], _, acc => acc
  | l :: ls, current_qid, acc =>
    if strcmpL current_qid (cstr buf l.qid) ≠ 0 then
      store_loop atof buf run_id_ptr run_type ls (cstr buf l.qid)
        (add_text_result
          { docno := String.mk (cstr buf l.docno),
            sim := stored_sim atof run_type (cstr buf l.sim) }
          (acc ++
            [{ qid := String.mk (cstr buf l.qid),
               run_id := run_id_ptr.map (fun p => String.mk (cstr buf p)),
               ret_format := "trec_results", text_results := [] }]))
    else
      store_loop atof buf run_id_ptr run_type ls current_qid
        (add_text_result
          { docno := String.mk (cstr buf l.docno),
            sim := stored_sim atof run_type (cstr buf l.sim) } acc)

/-- What `te_get_trec_results` leaves behind: the returned `int` and the
records of `all_results`. -/
structure ALL_RESULTS where
  ret : Int
  results : List READ_RESULTS
deriving DecidableEq

/-- `get_trec_results.c`, lines 58-209, for the contents `file` of the results
file.  An empty file cannot be read (line 87).  `results` lists the records
the loop of lines 176-199 writes; without a content line it writes none, and
`num_q_results` is 1 all the same (lines 157, 204). -/
def te_get_trec_results (atof : List Char → DOUBLE) (file : List Char) : ALL_RESULTS :=
  if file = [] then { ret := UNDEF, results := [] }
  else
    let buf := if file.getLast? = some NL then file else file ++ [NL]
    match read_lines (buf.length + 1) { done := [], rest := buf } [] none FMT_TREC with
    | none => { ret := UNDEF, results := [] }
    | some r =>
      if r.ret = UNDEF then { ret := UNDEF, results := [] }
      else
        { ret := 1,
          results := store_loop atof r.buf r.run_id_ptr r.run_type
            (qsort (comp_lines_qid_docno r.buf) r.lines) [] [] }

/-- The blank-separated fields of a line; `cur` holds the characters of the
field that is being read. -/
def fields_acc : List Char → List Char → List (List Char)
  | cur, [] => if cur = [] then [] else [cur]
  | cur, c :: cs =>
    if isblank c then (if cur = [] then fields_acc [] cs else cur :: fields_acc [] cs)
    else fields_acc (cur ++ [c]) cs

/-- The blank-separated fields of a line. -/
def fields (line : List Char) : List (List Char) := fields_acc [] line

/-- The value of a string of decimal digits, and NaN for the string `nan`: an
`atof` for the examples. -/
def digits_value (s : List Char) : DOUBLE :=
  if s = "nan".data then DOUBLE.nan
  else DOUBLE.num
    ((s.takeWhile Char.isDigit).foldl (fun n c => 10 * n + (c.toNat - 48)) 0 : Nat)

/-- The six-field line of the header comment, without its newline. -/
def trec_row : List Char := "030  Q0  ZF08-175-870  0   4238   prise1".data

/-- A results file of one line, the line of the header comment. -/
def trec_line : List Char := trec_row ++ [NL]

/-- A line with a carriage return inside its third blank-separated field:
`a b c<CR>d e f`. -/
def cr_row : List Char := "a b c".data ++ [CR] ++ "d e f".data

/-- A line with a carriage return as its third blank-separated field:
`a b <CR> c d e f`. -/
def cr_field_row : List Char := "a b ".data ++ [CR] ++ " c d e f".data

/-- A three-field line, `q1 d1 2`. -/
def ans_row : List Char := "q1 d1 2".data

/-! ## Examples for the judgment groups -/

/-- A second query: the retrieved list `[(d1,1.0)]`. -/
def unjudged_results : RESULTS :=
  { qid := "q2", ret_format := "trec_results", text_results := [⟨"d1", 1⟩] }

/-- One judgment group for the second query, whose only entry is in the pool
but unjudged (level -1): the group has no entry with a non-negative level. -/
def unjudged_rel_info : REL_INFO :=
  { qid := "q2", rel_format := "qrels_jg", text_qrels_jg := [[⟨"d1", -1⟩]] }

/-- Two judgment groups for the worked example: `{d1:1, d3:0}` and
`{d2:3}`. -/
def two_group_rel_info : REL_INFO :=
  { qid := "q1", rel_format := "qrels_jg",
    text_qrels_jg := [[⟨"d1", 1⟩, ⟨"d3", 0⟩], [⟨"d2", 3⟩]] }

/-! ## The gain measures with checked reads of the table

The definitions of this section repeat the loops of `te_calc_ndcg_rel` and the
loop of `te_calc_ndcg_p` that walk the table with the index `cur_level`
(`cur_lvl`).  A read `rel_gains[cur_level]` whose index is negative or not
below the number of entries has no value here: the computation stops with
`none`.  -/

/-- A read of `rel_gains[cur_level]`. -/
def read_entry (rel_gains : List REL_GAIN) (cur_level : Int) : Option REL_GAIN :=
  if cur_level < 0 then none else rel_gains[cur_level.toNat]?

/-- `m_ndcg_rel.c`, lines 98, 113 and 154, the read checked. -/
def gain_at_chk (rel_gains : List REL_GAIN) (cur_level : Int) : Option ℚ :=
  if cur_level ≥ 0 then (read_entry rel_gains cur_level).map (fun e => e.gain) else some 0

/-- `m_ndcg_rel.c`, lines 109-114 and 150-155, the reads checked.  The first
argument is `cur_level + 1`. -/
def rel_descend_chk (rel_gains : List REL_GAIN) : Nat → Nat → ℚ → Option (Int × Nat × ℚ)
  | 0, num_at_level, ideal_gain => some (-1, num_at_level, ideal_gain)
  | k + 1, num_at_level, ideal_gain =>
    match read_entry rel_gains (k : Int) with
    | none => none
    | some e =>
      if num_at_level > e.num_at_level then
        match gain_at_chk rel_gains ((k : Int) - 1) with
        | none => none
        | some g => rel_descend_chk rel_gains k 1 g
      else some ((k : Int), num_at_level, ideal_gain)

/-- `m_ndcg_rel.c`, lines 107-118 and 148-159, the reads checked. -/
def rel_ideal_step_chk (log2 : Nat → ℚ) (gains : GAINS) (st : NDCG_REL_STATE) :
    Option NDCG_REL_STATE :=
  match rel_descend_chk gains.rel_gains (st.cur_level + 1).toNat (st.num_at_level + 1)
      st.ideal_gain with
  | none => none
  | some d =>
    some { st with
      cur_level := d.1, num_at_level := d.2.1, ideal_gain := d.2.2
      num_rel := if d.2.2 > 0 then st.num_rel + 1 else st.num_rel
      ideal_dcg := if d.2.2 > 0 then st.ideal_dcg + d.2.2 / log2 (st.i + 2) else st.ideal_dcg }

/-- `m_ndcg_rel.c`, lines 101-128, the reads checked. -/
def rel_loop1_chk (log2 : Nat → ℚ) (gains : GAINS) :
    List Int → NDCG_REL_STATE → Option (List Int × NDCG_REL_STATE)
  | [], st => some ([], st)
  | rel :: rest, st =>
    if st.ideal_gain > 0 then
      match rel_ideal_step_chk log2 gains (rel_results_step log2 gains rel st) with
      | none => none
      | some st1 => rel_loop1_chk log2 gains rest (rel_average_step gains rel st1)
    else some (rel :: rest, st)

/-- `m_ndcg_rel.c`, lines 147-165, the reads checked; `none` also when the
loop is still running after `fuel` iterations. -/
def rel_loop3_chk (log2 : Nat → ℚ) (gains : GAINS) :
    Nat → NDCG_REL_STATE → Option NDCG_REL_STATE
  | 0, st => if st.ideal_gain > 0 then none else some st
  | fuel + 1, st =>
    if st.ideal_gain > 0 then
      match rel_ideal_step_chk log2 gains st with
      | none => none
      | some st1 => rel_loop3_chk log2 gains fuel { st1 with i := st.i + 1 }
    else some st

/-- `m_ndcg_rel.c`, lines 82-84 and 95-99, the read of line 98 checked. -/
def rel_init_chk (gains : GAINS) : Option NDCG_REL_STATE :=
  match gain_at_chk gains.rel_gains ((gains.num_gains : Int) - 1) with
  | none => none
  | some g =>
    some { i := 0, results_dcg := 0, ideal_dcg := 0, sum := XDOUBLE.fin 0, num_rel_ret := 0,
           num_rel := 0,
           cur_level := (gains.num_gains : Int) - 1, num_at_level := 0, ideal_gain := g }

/-- `m_ndcg_rel.c`, lines 95-172 for the table `gains` and the vector `v`
(`results_rel_list[0 .. num_ret-1]`), the reads checked. -/
def ndcg_rel_chk (log2 : Nat → ℚ) (fuel : Nat) (gains : GAINS) (v : List Int) :
    Option NDCG_REL :=
  match rel_init_chk gains with
  | none => none
  | some st0 =>
    match rel_loop1_chk log2 gains v st0 with
    | none => none
    | some r1 =>
      (rel_loop3_chk log2 gains fuel (rel_loop2 log2 gains r1.1 r1.2)).map rel_finish

/-- `m_ndcg_rel.c`, lines 95-172 for the table `gains` and the vector `v`:
the body of `te_calc_ndcg_rel` after `setup_gains`. -/
def ndcg_rel_loops (log2 : Nat → ℚ) (fuel : Nat) (gains : GAINS) (v : List Int) :
    Option NDCG_REL :=
  let r1 := rel_loop1 log2 gains v (rel_init gains)
  (rel_loop3 log2 gains fuel (rel_loop2 log2 gains r1.1 r1.2)).map rel_finish

/-- `m_ndcg_p.c`, lines 98-103, the reads checked; entered with
`cur_lvl = k`. -/
def ideal_descend_chk (rel_gains : List REL_GAIN) : Nat → Nat → Option (Int × Nat)
  | 0, lvl_count =>
    match read_entry rel_gains 0 with
    | none => none
    | some e => if lvl_count > e.num_at_level then some (-1, 1) else some (0, lvl_count)
  | k + 1, lvl_count =>
    match read_entry rel_gains ((k + 1 : Nat) : Int) with
    | none => none
    | some e =>
      if lvl_count > e.num_at_level then
        match read_entry rel_gains (k : Int) with
        | none => none
        | some e1 => if e1.gain ≤ 0 then some ((k : Int), 1) else ideal_descend_chk rel_gains k 1
      else some (((k + 1 : Nat) : Int), lvl_count)

/-- `m_ndcg_p.c`, lines 96-113, the reads checked. -/
def ideal_loop_chk (log2 : Nat → ℚ) (rel_gains : List REL_GAIN) :
    Nat → Nat → Int → Nat → ℚ → Option ℚ
  | 0, _, _, _, ideal_dcg => some ideal_dcg
  | n + 1, i, cur_lvl, lvl_count, ideal_dcg =>
    if cur_lvl < 0 then none
    else
      match ideal_descend_chk rel_gains cur_lvl.toNat (lvl_count + 1) with
      | none => none
      | some d =>
        if d.1 < 0 then some ideal_dcg
        else
          match read_entry rel_gains d.1 with
          | none => none
          | some e =>
            if e.gain ≤ 0 then some ideal_dcg
            else
              ideal_loop_chk log2 rel_gains n (i + 1) d.1 d.2
                (if i = 0 then ideal_dcg + e.gain else ideal_dcg + e.gain / log2 (i + 1))

/-- The items the walk of `te_calc_ndcg_rel` has not yet passed: the rest of
the entry `cur_level` and the entries below it, plus one for the step that
leaves the table; 0 below the table. -/
def walk_left (rel_gains : List REL_GAIN) (st : NDCG_REL_STATE) : Nat :=
  if st.cur_level < 0 then 0
  else
    ((rel_gains.getD st.cur_level.toNat REL_GAIN.zero).num_at_level - st.num_at_level) +
      ((rel_gains.take st.cur_level.toNat).map (fun e => e.num_at_level)).sum + 1

/-- The locals `cur_level`, `num_at_level` and `ideal_gain` of
`te_calc_ndcg_rel` fit together: `ideal_gain` is the gain at `cur_level`,
`cur_level` is -1 or an index of the table, and `num_at_level` does not exceed
the count of the entry. -/
def walk_ok (rel_gains : List REL_GAIN) (st : NDCG_REL_STATE) : Prop :=
  st.ideal_gain = gain_at rel_gains st.cur_level ∧ -1 ≤ st.cur_level ∧
    st.cur_level < (rel_gains.length : Int) ∧
    (0 ≤ st.cur_level →
      st.num_at_level ≤ (rel_gains.getD st.cur_level.toNat REL_GAIN.zero).num_at_level)

/-- Three documents judged at level 1 and two at level 0; the retrieved list
has two documents of level 0 and then one of level 1. -/
def third_rank_res_rels : RES_RELS :=
  { num_rel_ret := 1, num_ret := 3, num_nonpool := 0, num_unjudged_in_pool := 0,
    num_rel := 3, num_rel_levels := 2, rel_levels := [2, 3], results_rel_list := [0, 0, 1] }

/-! ## Facts about `strcmp` -/

theorem char_toNat_inj {a b : Char} (h : a.toNat = b.toNat) : a = b := by
  apply Char.ext; apply UInt32.ext; exact h

theorem strcmpL_eq_zero_iff : ∀ (a b : List Char), strcmpL a b = 0 ↔ a = b
  | [], [] => by simp [strcmpL]
  | [], _ :: _ => by simp [strcmpL]
  | _ :: _, [] => by simp [strcmpL]
  | a :: as, b :: bs => by
    have ih := strcmpL_eq_zero_iff as bs
    simp only [strcmpL, List.cons.injEq]
    split_ifs with h1 h2
    · constructor
      · intro h; exact absurd h (by decide)
      · rintro ⟨rfl, -⟩; omega
    · constructor
      · intro h; exact absurd h (by decide)
      · rintro ⟨rfl, -⟩; omega
    · rw [ih]
      have : a = b := char_toNat_inj (by omega)
      simp [this]

theorem strcmpL_neg_iff : ∀ (a b : List Char), strcmpL a b < 0 ↔ a < b
  | [], [] => by
    simp only [strcmpL]
    exact ⟨fun h => absurd h (by decide), fun h => by cases h⟩
  | [], b :: bs => by
    simp only [strcmpL]
    exact ⟨fun _ => List.Lex.nil, fun _ => by decide⟩
  | _ :: _, [] => by
    simp only [strcmpL]
    exact ⟨fun h => absurd h (by decide), fun h => by cases h⟩
  | a :: as, b :: bs => by
    have ih := strcmpL_neg_iff as bs
    simp only [strcmpL]
    split_ifs with h1 h2
    · exact ⟨fun _ => List.Lex.rel h1, fun _ => by decide⟩
    · constructor
      · intro h; exact absurd h (by decide)
      · intro h
        cases h with
        | cons h => exact absurd h2 (lt_irrefl _)
        | rel h => exact absurd h h1
    · rw [ih]
      have hab : a = b := char_toNat_inj (by omega)
      subst hab
      constructor
      · intro h; exact List.Lex.cons h
      · intro h
        cases h with
        | cons h => exact h
        | rel h => exact absurd h h1

theorem strcmpL_pos_iff : ∀ (a b : List Char), strcmpL a b > 0 ↔ b < a
  | [], [] => by
    simp only [strcmpL]
    exact ⟨fun h => absurd h (by decide), fun h => by cases h⟩
  | [], _ :: _ => by
    simp only [strcmpL]
    exact ⟨fun h => absurd h (by decide), fun h => by cases h⟩
  | a :: as, [] => by
    simp only [strcmpL]
    exact ⟨fun _ => List.Lex.nil, fun _ => by decide⟩
  | a :: as, b :: bs => by
    have ih := strcmpL_pos_iff as bs
    simp only [strcmpL]
    split_ifs with h1 h2
    · constructor
      · intro h; exact absurd h (by decide)
      · intro h
        cases h with
        | cons h => exact absurd h1 (lt_irrefl _)
        | rel h => exact absurd h (by show ¬ b.toNat < a.toNat; omega)
    · exact ⟨fun _ => List.Lex.rel h2, fun _ => by decide⟩
    · rw [ih]
      have hab : a = b := char_toNat_inj (by omega)
      subst hab
      constructor
      · intro h; exact List.Lex.cons h
      · intro h
        cases h with
        | cons h => exact h
        | rel h => exact absurd h h1

theorem strcmp_eq_zero_iff (a b : String) : strcmp a b = 0 ↔ a = b := by
  unfold strcmp
  rw [strcmpL_eq_zero_iff]
  exact ⟨String.ext, fun h => by rw [h]⟩

theorem strcmp_neg_iff (a b : String) : strcmp a b < 0 ↔ a < b := by
  unfold strcmp
  rw [strcmpL_neg_iff, String.lt_iff_toList_lt]
  rfl

theorem strcmp_pos_iff (a b : String) : strcmp a b > 0 ↔ b < a := by
  unfold strcmp
  rw [strcmpL_pos_iff, String.lt_iff_toList_lt]
  rfl

theorem strcmp_le_iff (a b : String) : strcmp a b ≤ 0 ↔ a ≤ b := by
  have h := strcmp_pos_iff a b
  constructor
  · intro h1
    exact not_lt.mp (fun h2 => by have := h.mpr h2; omega)
  · intro h1
    by_contra h2
    exact absurd (h.mp (by omega)) (not_lt.mpr h1)

/-! ## Facts about `qsort` and the comparators -/

theorem qsort_perm {α : Type} (compar : α → α → Int) (l : List α) :
    (qsort compar l).Perm l :=
  List.perm_insertionSort _ l

theorem qsort_sorted {α : Type} (compar : α → α → Int)
    (htot : ∀ a b, compar a b ≤ 0 ∨ compar b a ≤ 0)
    (htrans : ∀ a b c, compar a b ≤ 0 → compar b c ≤ 0 → compar a c ≤ 0) (l : List α) :
    (qsort compar l).Pairwise (fun a b => compar a b ≤ 0) := by
  haveI : IsTotal α (fun a b => compar a b ≤ 0) := ⟨htot⟩
  haveI : IsTrans α (fun a b => compar a b ≤ 0) := ⟨htrans⟩
  exact List.sorted_insertionSort (fun a b => compar a b ≤ 0) l

theorem orderedInsert_sorted_on {α : Type} (r : α → α → Prop) [DecidableRel r] (P : α → Prop)
    (htot : ∀ a b, P a → P b → r a b ∨ r b a)
    (htrans : ∀ a b c, P a → P b → P c → r a b → r b c → r a c) (a : α) (ha : P a) :
    ∀ (l : List α), (∀ x ∈ l, P x) → l.Pairwise r → (l.orderedInsert r a).Pairwise r := by
  intro l
  induction l with
  | nil => intro _ _; simp
  | cons b l ih =>
    intro hl hs
    have hb : P b := hl b (List.mem_cons_self _ _)
    have hl' : ∀ x ∈ l, P x := fun x hx => hl x (List.mem_cons_of_mem _ hx)
    rw [List.pairwise_cons] at hs
    rw [List.orderedInsert]
    split_ifs with hab
    · rw [List.pairwise_cons]
      refine ⟨?_, List.pairwise_cons.2 hs⟩
      intro x hx
      rcases List.mem_cons.1 hx with e | e
      · exact e ▸ hab
      · exact htrans a b x ha hb (hl' x e) hab (hs.1 x e)
    · have hba : r b a := (htot a b ha hb).resolve_left hab
      rw [List.pairwise_cons]
      refine ⟨?_, ih hl' hs.2⟩
      intro x hx
      rcases (List.mem_orderedInsert r).1 hx with e | e
      · exact e ▸ hba
      · exact hs.1 x e

/-- The sort orders the list as soon as the comparator is total and transitive
on the records of the list. -/
theorem qsort_sorted_on {α : Type} (compar : α → α → Int) (P : α → Prop)
    (htot : ∀ a b, P a → P b → compar a b ≤ 0 ∨ compar b a ≤ 0)
    (htrans : ∀ a b c, P a → P b → P c → compar a b ≤ 0 → compar b c ≤ 0 → compar a c ≤ 0) :
    ∀ (l : List α), (∀ x ∈ l, P x) → (qsort compar l).Pairwise (fun a b => compar a b ≤ 0) := by
  intro l
  induction l with
  | nil => intro _; simp [qsort]
  | cons a l ih =>
    intro hl
    have hl' : ∀ x ∈ l, P x := fun x hx => hl x (List.mem_cons_of_mem _ hx)
    show ((l.insertionSort (fun a b => compar a b ≤ 0)).orderedInsert
      (fun a b => compar a b ≤ 0) a).Pairwise (fun a b => compar a b ≤ 0)
    refine orderedInsert_sorted_on _ P htot htrans a (hl a (List.mem_cons_self _ _)) _ ?_ (ih hl')
    intro x hx
    exact hl' x ((List.perm_insertionSort _ l).mem_iff.1 hx)

theorem qsort_length {α : Type} (compar : α → α → Int) (l : List α) :
    (qsort compar l).length = l.length :=
  (qsort_perm compar l).length_eq

theorem comp_docno_le_iff (a b : DOCNO_INFO) : comp_docno a b ≤ 0 ↔ a.docno ≤ b.docno :=
  strcmp_le_iff _ _

theorem DOUBLE.num_lt_num (x y : Int) : DOUBLE.num x < DOUBLE.num y ↔ x < y := by
  show DOUBLE.lt (DOUBLE.num x) (DOUBLE.num y) = true ↔ x < y
  simp [DOUBLE.lt]

theorem DOUBLE.not_lt_nan (a : DOUBLE) : ¬ a < DOUBLE.nan ∧ ¬ DOUBLE.nan < a := by
  constructor
  · show ¬ DOUBLE.lt a DOUBLE.nan = true
    cases a <;> simp [DOUBLE.lt]
  · show ¬ DOUBLE.lt DOUBLE.nan a = true
    cases a <;> simp [DOUBLE.lt]

theorem DOUBLE.eq_num_of_ne_nan (a : DOUBLE) (h : a ≠ DOUBLE.nan) : ∃ x, a = DOUBLE.num x := by
  cases a with
  | num x => exact ⟨x, rfl⟩
  | nan => exact absurd rfl h

/-- Without NaN, `comp_sim_docno` orders by descending score, ties by descending
docno. -/
theorem comp_sim_docno_le_iff (a b : DOCNO_INFO) (ha : a.sim ≠ DOUBLE.nan)
    (hb : b.sim ≠ DOUBLE.nan) :
    comp_sim_docno a b ≤ 0 ↔ b.sim < a.sim ∨ (a.sim = b.sim ∧ b.docno ≤ a.docno) := by
  obtain ⟨x, hx⟩ := DOUBLE.eq_num_of_ne_nan _ ha
  obtain ⟨y, hy⟩ := DOUBLE.eq_num_of_ne_nan _ hb
  unfold comp_sim_docno
  rw [hx, hy]
  simp only [gt_iff_lt, DOUBLE.num_lt_num, DOUBLE.num.injEq]
  split_ifs with h1 h2
  · constructor
    · intro _; exact Or.inl h1
    · intro _; decide
  · constructor
    · intro h; exact absurd h (by decide)
    · rintro (h | ⟨h, -⟩) <;> omega
  · rw [strcmp_le_iff]
    constructor
    · intro h; exact Or.inr ⟨by omega, h⟩
    · rintro (h | ⟨-, h⟩)
      · exact absurd h h1
      · exact h

/-- Against a NaN both tests of `comp_sim_docno` fail and the docno decides. -/
theorem comp_sim_docno_nan (a b : DOCNO_INFO) (h : a.sim = DOUBLE.nan ∨ b.sim = DOUBLE.nan) :
    comp_sim_docno a b = strcmp b.docno a.docno := by
  unfold comp_sim_docno
  have h1 : ¬ a.sim > b.sim := by
    rcases h with h | h
    · rw [h]; exact (DOUBLE.not_lt_nan _).1
    · rw [h]; exact (DOUBLE.not_lt_nan _).2
  have h2 : ¬ a.sim < b.sim := by
    rcases h with h | h
    · rw [h]; exact (DOUBLE.not_lt_nan _).2
    · rw [h]; exact (DOUBLE.not_lt_nan _).1
  rw [if_neg h1, if_neg h2]

theorem comp_rank_judged_le_iff (a b : DOCNO_INFO) :
    comp_rank_judged a b ≤ 0 ↔
      (0 ≤ a.rel ∧ 0 ≤ b.rel ∧ a.rank ≤ b.rank) ∨ (0 ≤ a.rel ∧ b.rel < 0) ∨
        (a.rel < 0 ∧ b.rel < 0) := by
  unfold comp_rank_judged
  split_ifs with h1 h2 h3 h4 h5 <;> constructor <;> intro h <;> omega

theorem comp_docno_total (a b : DOCNO_INFO) : comp_docno a b ≤ 0 ∨ comp_docno b a ≤ 0 := by
  simp only [comp_docno_le_iff]; exact le_total _ _

theorem comp_docno_trans (a b c : DOCNO_INFO) (h1 : comp_docno a b ≤ 0)
    (h2 : comp_docno b c ≤ 0) : comp_docno a c ≤ 0 := by
  simp only [comp_docno_le_iff] at *; exact le_trans h1 h2

theorem comp_sim_docno_total (a b : DOCNO_INFO) (ha : a.sim ≠ DOUBLE.nan)
    (hb : b.sim ≠ DOUBLE.nan) :
    comp_sim_docno a b ≤ 0 ∨ comp_sim_docno b a ≤ 0 := by
  rw [comp_sim_docno_le_iff a b ha hb, comp_sim_docno_le_iff b a hb ha]
  obtain ⟨x, hx⟩ := DOUBLE.eq_num_of_ne_nan _ ha
  obtain ⟨y, hy⟩ := DOUBLE.eq_num_of_ne_nan _ hb
  rw [hx, hy]
  simp only [DOUBLE.num_lt_num, DOUBLE.num.injEq]
  rcases lt_trichotomy x y with h | h | h
  · exact Or.inr (Or.inl h)
  · rcases le_total a.docno b.docno with h' | h'
    · exact Or.inr (Or.inr ⟨h.symm, h'⟩)
    · exact Or.inl (Or.inr ⟨h, h'⟩)
  · exact Or.inl (Or.inl h)

theorem comp_sim_docno_trans (a b c : DOCNO_INFO) (ha : a.sim ≠ DOUBLE.nan)
    (hb : b.sim ≠ DOUBLE.nan) (hc : c.sim ≠ DOUBLE.nan) (h1 : comp_sim_docno a b ≤ 0)
    (h2 : comp_sim_docno b c ≤ 0) : comp_sim_docno a c ≤ 0 := by
  rw [comp_sim_docno_le_iff a b ha hb] at h1
  rw [comp_sim_docno_le_iff b c hb hc] at h2
  rw [comp_sim_docno_le_iff a c ha hc]
  obtain ⟨x, hx⟩ := DOUBLE.eq_num_of_ne_nan _ ha
  obtain ⟨y, hy⟩ := DOUBLE.eq_num_of_ne_nan _ hb
  obtain ⟨z, hz⟩ := DOUBLE.eq_num_of_ne_nan _ hc
  rw [hx, hy] at h1
  rw [hy, hz] at h2
  rw [hx, hz]
  simp only [DOUBLE.num_lt_num, DOUBLE.num.injEq] at h1 h2 ⊢
  rcases h1 with h1 | ⟨h1, h1'⟩ <;> rcases h2 with h2 | ⟨h2, h2'⟩
  · exact Or.inl (by omega)
  · exact Or.inl (by omega)
  · exact Or.inl (by omega)
  · exact Or.inr ⟨by omega, le_trans h2' h1'⟩

theorem comp_rank_judged_total (a b : DOCNO_INFO) :
    comp_rank_judged a b ≤ 0 ∨ comp_rank_judged b a ≤ 0 := by
  simp only [comp_rank_judged_le_iff]; omega

theorem comp_rank_judged_trans (a b c : DOCNO_INFO) (h1 : comp_rank_judged a b ≤ 0)
    (h2 : comp_rank_judged b c ≤ 0) : comp_rank_judged a c ≤ 0 := by
  simp only [comp_rank_judged_le_iff] at *; omega

/-- Two lists that hold the same records and are both ordered by the comparator
are equal, as soon as the comparator separates the records. -/
theorem sorted_unique {α : Type} (compar : α → α → Int) {l₁ l₂ : List α}
    (hanti : ∀ a b, a ∈ l₁ → b ∈ l₁ → compar a b ≤ 0 → compar b a ≤ 0 → a = b)
    (h₁ : l₁.Pairwise (fun a b => compar a b ≤ 0))
    (h₂ : l₂.Pairwise (fun a b => compar a b ≤ 0)) (hp : l₁.Perm l₂) : l₁ = l₂ :=
  List.Perm.eq_of_sorted (fun a b ha hb hab hba => hanti a b ha (hp.mem_iff.mpr hb) hab hba)
    h₁ h₂ hp

/-! ## Ranking (lines 114-132) -/

theorem add_ranks_length (i : Nat) (l : List DOCNO_INFO) :
    (add_ranks i l).length = l.length := by
  induction l generalizing i with
  | nil => rfl
  | cons d ds ih => simp [add_ranks, ih]

theorem add_ranks_map_docno (i : Nat) (l : List DOCNO_INFO) :
    (add_ranks i l).map (fun d => d.docno) = l.map (fun d => d.docno) := by
  induction l generalizing i with
  | nil => rfl
  | cons d ds ih => simp [add_ranks, ih]

theorem add_ranks_map_rank (i : Nat) (l : List DOCNO_INFO) :
    (add_ranks i l).map (fun d => d.rank) = List.range' (i + 1) l.length := by
  induction l generalizing i with
  | nil => rfl
  | cons d ds ih => simp [add_ranks, ih, List.range'_succ]

theorem add_ranks_getElem (i : Nat) (l : List DOCNO_INFO) (k : Nat) (hk : k < l.length) :
    (add_ranks i l)[k]? = some { l[k] with rank := i + k + 1 } := by
  induction l generalizing i k with
  | nil => simp at hk
  | cons d ds ih =>
    cases k with
    | zero => simp [add_ranks]
    | succ k =>
      simp only [add_ranks, List.getElem?_cons_succ, List.getElem_cons_succ]
      rw [ih (i + 1) k (by simpa using hk)]
      have h : i + 1 + k + 1 = i + (k + 1) + 1 := by omega
      rw [h]

theorem copy_results_perm {l₁ l₂ : List TEXT_RESULTS} (h : l₁.Perm l₂) :
    (copy_results l₁).Perm (copy_results l₂) :=
  h.map _

theorem copy_results_no_nan (l : List TEXT_RESULTS) (hn : ∀ t ∈ l, t.sim ≠ DOUBLE.nan) :
    ∀ d ∈ copy_results l, d.sim ≠ DOUBLE.nan := by
  intro d hd
  simp only [copy_results, List.mem_map] at hd
  obtain ⟨x, hx, rfl⟩ := hd
  exact hn x hx

theorem copy_results_anti (l : List TEXT_RESULTS) (hn : ∀ t ∈ l, t.sim ≠ DOUBLE.nan)
    (a b : DOCNO_INFO)
    (ha : a ∈ copy_results l) (hb : b ∈ copy_results l)
    (hab : comp_sim_docno a b ≤ 0) (hba : comp_sim_docno b a ≤ 0) : a = b := by
  have hna := copy_results_no_nan l hn a ha
  have hnb := copy_results_no_nan l hn b hb
  rw [comp_sim_docno_le_iff a b hna hnb] at hab
  rw [comp_sim_docno_le_iff b a hnb hna] at hba
  simp only [copy_results, List.mem_map] at ha hb
  obtain ⟨x, -, rfl⟩ := ha
  obtain ⟨y, -, rfl⟩ := hb
  simp only at hab hba hna hnb
  obtain ⟨u, hu⟩ := DOUBLE.eq_num_of_ne_nan _ hna
  obtain ⟨v, hv⟩ := DOUBLE.eq_num_of_ne_nan _ hnb
  rw [hu, hv] at hab hba
  simp only [DOUBLE.num_lt_num, DOUBLE.num.injEq] at hab hba
  have hs : u = v := by omega
  have hd : x.docno = y.docno := by
    rcases hab with h | ⟨-, h1⟩
    · omega
    · rcases hba with h | ⟨-, h2⟩
      · omega
      · exact le_antisymm h2 h1
  simp [hu, hv, hs, hd]

theorem qsort_copy_results_sorted (l : List TEXT_RESULTS) (hn : ∀ t ∈ l, t.sim ≠ DOUBLE.nan) :
    (qsort comp_sim_docno (copy_results l)).Pairwise (fun a b => comp_sim_docno a b ≤ 0) :=
  qsort_sorted_on comp_sim_docno (fun d => d.sim ≠ DOUBLE.nan) comp_sim_docno_total
    comp_sim_docno_trans _ (copy_results_no_nan l hn)

/-- Without NaN, the first sort does not depend on the order of the input. -/
theorem qsort_copy_results_perm {l₁ l₂ : List TEXT_RESULTS} (h : l₁.Perm l₂)
    (hn : ∀ t ∈ l₂, t.sim ≠ DOUBLE.nan) :
    qsort comp_sim_docno (copy_results l₁) = qsort comp_sim_docno (copy_results l₂) := by
  have hn1 : ∀ t ∈ l₁, t.sim ≠ DOUBLE.nan := fun t ht => hn t (h.mem_iff.1 ht)
  apply sorted_unique comp_sim_docno
  · intro a b ha hb
    exact copy_results_anti l₁ hn1 a b ((qsort_perm _ _).mem_iff.mp ha)
      ((qsort_perm _ _).mem_iff.mp hb)
  · exact qsort_copy_results_sorted l₁ hn1
  · exact qsort_copy_results_sorted l₂ hn
  · exact ((qsort_perm _ _).trans (copy_results_perm h)).trans (qsort_perm _ _).symm

theorem ranked_docno_info_perm (epi : EPI) {l₁ l₂ : List TEXT_RESULTS} (h : l₁.Perm l₂)
    (hn : ∀ t ∈ l₂, t.sim ≠ DOUBLE.nan) :
    ranked_docno_info epi l₁ = ranked_docno_info epi l₂ := by
  unfold ranked_docno_info
  rw [qsort_copy_results_perm h hn]

/-- Without NaN, a list already in the order of the specification is what the
first sort produces. -/
theorem qsort_copy_results_of_sorted {l srt : List TEXT_RESULTS} (hp : srt.Perm l)
    (hn : ∀ t ∈ l, t.sim ≠ DOUBLE.nan) (hs : srt.Pairwise spec_before) :
    qsort comp_sim_docno (copy_results l) = copy_results srt := by
  have hn1 : ∀ t ∈ srt, t.sim ≠ DOUBLE.nan := fun t ht => hn t (hp.mem_iff.1 ht)
  apply sorted_unique comp_sim_docno
  · intro a b ha hb
    exact copy_results_anti l hn a b ((qsort_perm _ _).mem_iff.mp ha)
      ((qsort_perm _ _).mem_iff.mp hb)
  · exact qsort_copy_results_sorted l hn
  · unfold copy_results
    rw [List.pairwise_map]
    refine hs.imp_of_mem ?_
    intro a b hma hmb hab
    rw [comp_sim_docno_le_iff _ _ (hn1 a hma) (hn1 b hmb)]
    rcases hab with h | ⟨h1, h2⟩
    · exact Or.inl h
    · exact Or.inr ⟨h1, le_of_lt h2⟩
  · exact (qsort_perm _ _).trans (copy_results_perm hp.symm)

theorem ranked_docno_info_length (epi : EPI) (l : List TEXT_RESULTS) :
    (ranked_docno_info epi l).length = min l.length epi.max_num_docs_per_topic := by
  unfold ranked_docno_info
  rw [add_ranks_length, List.length_take, qsort_length]
  simp [copy_results, Nat.min_comm]

theorem ranked_docno_info_map_rank (epi : EPI) (l : List TEXT_RESULTS) :
    (ranked_docno_info epi l).map (fun d => d.rank) =
      List.range' 1 (ranked_docno_info epi l).length := by
  unfold ranked_docno_info
  rw [add_ranks_map_rank, add_ranks_length]

/-! ## Duplicate detection (lines 134-148) -/

theorem has_duplicate_false_iff (l : List DOCNO_INFO)
    (hs : l.Pairwise (fun a b => a.docno ≤ b.docno)) :
    has_duplicate l = false ↔ l.Pairwise (fun a b => a.docno < b.docno) := by
  induction l with
  | nil => simp [has_duplicate]
  | cons a t ih =>
    cases t with
    | nil => simp [has_duplicate]
    | cons b rest =>
      have hs' := List.pairwise_cons.mp hs
      have ih' := ih hs'.2
      simp only [has_duplicate, Bool.or_eq_false_iff, beq_eq_false_iff_ne, ne_eq,
        strcmp_eq_zero_iff]
      rw [ih']
      constructor
      · rintro ⟨hne, hp⟩
        refine List.pairwise_cons.mpr ⟨?_, hp⟩
        intro x hx
        have hab : a.docno < b.docno :=
          lt_of_le_of_ne (hs'.1 b (List.mem_cons_self _ _)) (fun h => hne h.symm)
        rcases List.mem_cons.mp hx with rfl | hx'
        · exact hab
        · exact lt_trans hab ((List.pairwise_cons.mp hp).1 x hx')
      · intro hp
        have hp' := List.pairwise_cons.mp hp
        exact ⟨fun h => absurd (hp'.1 b (List.mem_cons_self _ _)) (by rw [h]; exact lt_irrefl _),
          hp'.2⟩

theorem qsort_comp_docno_sorted (l : List DOCNO_INFO) :
    (qsort comp_docno l).Pairwise (fun a b => a.docno ≤ b.docno) :=
  (qsort_sorted comp_docno comp_docno_total comp_docno_trans l).imp
    (fun {a b} h => (comp_docno_le_iff a b).mp h)

theorem strict_of_nodup {l : List DOCNO_INFO}
    (hs : l.Pairwise (fun a b => a.docno ≤ b.docno))
    (hn : (l.map (fun d => d.docno)).Nodup) :
    l.Pairwise (fun a b => a.docno < b.docno) := by
  have hn' : l.Pairwise (fun a b => a.docno ≠ b.docno) := by
    unfold List.Nodup at hn
    rw [List.pairwise_map] at hn
    exact hn
  exact (hs.and hn').imp (fun {a b} h => lt_of_le_of_ne h.1 h.2)

theorem nodup_of_strict {l : List DOCNO_INFO}
    (hs : l.Pairwise (fun a b => a.docno < b.docno)) :
    (l.map (fun d => d.docno)).Nodup := by
  unfold List.Nodup
  rw [List.pairwise_map]
  exact hs.imp (fun {a b} h => ne_of_lt h)

/-- The duplicate check fires exactly when two records of the retained part of
`docno_info` carry the same docno. -/
theorem has_duplicate_qsort_iff (l : List DOCNO_INFO) :
    has_duplicate (qsort comp_docno l) = false ↔ (l.map (fun d => d.docno)).Nodup := by
  rw [has_duplicate_false_iff _ (qsort_comp_docno_sorted l)]
  have hp : ((qsort comp_docno l).map (fun d => d.docno)).Perm (l.map (fun d => d.docno)) :=
    (qsort_perm comp_docno l).map _
  constructor
  · intro h
    exact hp.nodup_iff.mp (nodup_of_strict h)
  · intro h
    exact strict_of_nodup (qsort_comp_docno_sorted l) (hp.nodup_iff.mpr h)

/-! ## The merge against one judgment group (lines 170-208) -/

theorem skip_smaller_counts (docno : String) (qs : List TEXT_QRELS) (lv : List Nat) :
    finish_counting (skip_smaller docno qs lv).1 (skip_smaller docno qs lv).2 =
      finish_counting qs lv := by
  induction qs generalizing lv with
  | nil => rfl
  | cons q qs ih =>
    simp only [skip_smaller]
    split_ifs with h
    · rw [ih]; rfl
    · rfl

/-- Every judgment of the group is counted once, retrieved or not. -/
theorem merge_qrels_counts (di : List DOCNO_INFO) (qs : List TEXT_QRELS) (lv : List Nat) :
    finish_counting (merge_qrels di qs lv).2.1 (merge_qrels di qs lv).2.2 =
      finish_counting qs lv := by
  induction di generalizing qs lv with
  | nil => rfl
  | cons d ds ih =>
    have hsk := skip_smaller_counts d.docno qs lv
    simp only [merge_qrels]
    split
    · rename_i lv1 heq
      rw [heq] at hsk
      simp only [ih]
      exact hsk
    · rename_i q qs1 lv1 heq
      rw [heq] at hsk
      split_ifs <;> (simp only [ih]; exact hsk)

theorem merge_qrels_map_key (di : List DOCNO_INFO) (qs : List TEXT_QRELS) (lv : List Nat) :
    (merge_qrels di qs lv).1.map key = di.map key := by
  induction di generalizing qs lv with
  | nil => rfl
  | cons d ds ih =>
    simp only [merge_qrels]
    split
    · simp [ih, key]
    · split_ifs <;> simp [ih, key]

theorem merge_qrels_congr {di di' : List DOCNO_INFO} (h : di.map key = di'.map key)
    (qs : List TEXT_QRELS) (lv : List Nat) :
    merge_qrels di qs lv = merge_qrels di' qs lv := by
  induction di generalizing di' qs lv with
  | nil =>
    cases di' with
    | nil => rfl
    | cons _ _ => simp at h
  | cons d ds ih =>
    cases di' with
    | nil => simp at h
    | cons d' ds' =>
      simp only [List.map_cons, List.cons.injEq, key, Prod.mk.injEq] at h
      obtain ⟨⟨h1, h2, h3⟩, h4⟩ := h
      simp only [merge_qrels, h1, h2, h3, ih h4]

theorem merge_qrels_rel_cases (di : List DOCNO_INFO) (qs : List TEXT_QRELS) (lv : List Nat) :
    ∀ x ∈ (merge_qrels di qs lv).1,
      x.rel = RELVALUE_NONPOOL ∨ x.rel = RELVALUE_UNJUDGED ∨ 0 ≤ x.rel := by
  induction di generalizing qs lv with
  | nil => simp [merge_qrels]
  | cons d ds ih =>
    simp only [merge_qrels]
    split
    · intro x hx
      rcases List.mem_cons.mp hx with rfl | hx
      · exact Or.inl rfl
      · exact ih _ _ x hx
    · rename_i q qs1 lv1 heq
      split_ifs with h h'
      · intro x hx
        rcases List.mem_cons.mp hx with rfl | hx
        · exact Or.inl rfl
        · exact ih _ _ x hx
      · intro x hx
        rcases List.mem_cons.mp hx with rfl | hx
        · exact Or.inr (Or.inl rfl)
        · exact ih _ _ x hx
      · intro x hx
        rcases List.mem_cons.mp hx with rfl | hx
        · exact Or.inr (Or.inr (not_lt.mp h'))
        · exact ih _ _ x hx

/-! ## The merge computes the category of the specification -/

theorem category_nil (y : String) : category [] y = RELVALUE_NONPOOL := rfl

theorem category_cons (q : TEXT_QRELS) (qs : List TEXT_QRELS) (y : String) :
    category (q :: qs) y =
      if q.docno = y then (if q.rel < 0 then RELVALUE_UNJUDGED else q.rel)
      else category qs y := by
  unfold category
  by_cases h : q.docno = y
  · simp [List.find?, h]
  · simp [List.find?, h]

theorem category_of_not_mem (qs : List TEXT_QRELS) (y : String)
    (h : ∀ q ∈ qs, q.docno ≠ y) : category qs y = RELVALUE_NONPOOL := by
  induction qs with
  | nil => rfl
  | cons q qs ih =>
    rw [category_cons, if_neg (h q (List.mem_cons_self _ _))]
    exact ih (fun q' hq' => h q' (List.mem_cons_of_mem _ hq'))

theorem skip_smaller_suffix (x : String) (qs : List TEXT_QRELS) (lv : List Nat) :
    (skip_smaller x qs lv).1 <:+ qs := by
  induction qs generalizing lv with
  | nil => exact List.suffix_refl _
  | cons q qs ih =>
    simp only [skip_smaller]
    split_ifs with h
    · exact (ih _).trans (List.suffix_cons q qs)
    · exact List.suffix_refl _

theorem skip_smaller_head (x : String) (qs : List TEXT_QRELS) (lv : List Nat)
    (q : TEXT_QRELS) (rest : List TEXT_QRELS) (lv1 : List Nat)
    (h : skip_smaller x qs lv = (q :: rest, lv1)) : ¬ strcmp q.docno x < 0 := by
  induction qs generalizing lv with
  | nil => simp [skip_smaller] at h
  | cons q' qs ih =>
    simp only [skip_smaller] at h
    split_ifs at h with h'
    · exact ih _ h
    · simp only [Prod.mk.injEq, List.cons.injEq] at h
      rw [← h.1.1]; exact h'

theorem skip_smaller_category (x : String) (qs : List TEXT_QRELS) (lv : List Nat)
    (y : String) (hxy : x ≤ y) :
    category (skip_smaller x qs lv).1 y = category qs y := by
  induction qs generalizing lv with
  | nil => rfl
  | cons q qs ih =>
    simp only [skip_smaller]
    split_ifs with h
    · rw [ih, category_cons, if_neg]
      rw [strcmp_neg_iff] at h
      exact ne_of_lt (lt_of_lt_of_le h hxy)
    · rfl

/-- On judgments sorted by docno without duplicates, the merge assigns to every
record of a docno-sorted `docno_info` the category of its docno. -/
theorem merge_qrels_category (di : List DOCNO_INFO) (qs : List TEXT_QRELS) (lv : List Nat)
    (hd : di.Pairwise (fun a b => a.docno < b.docno))
    (hq : qs.Pairwise (fun a b => a.docno < b.docno)) :
    (merge_qrels di qs lv).1 = di.map (fun d => { d with rel := category qs d.docno }) := by
  induction di generalizing qs lv with
  | nil => rfl
  | cons d ds ih =>
    have hd' := List.pairwise_cons.mp hd
    have hsuf := skip_smaller_suffix d.docno qs lv
    have hcat := skip_smaller_category d.docno qs lv
    have hhead := skip_smaller_head d.docno qs lv
    simp only [merge_qrels, List.map_cons]
    split
    · rename_i lv1 heq
      rw [heq] at hcat
      simp only
      rw [ih [] lv1 hd'.2 List.Pairwise.nil]
      congr 1
      · rw [← hcat d.docno (le_refl _)]; rfl
      · apply List.map_congr_left
        intro y hy
        rw [← hcat y.docno (le_of_lt (hd'.1 y hy))]
    · rename_i q qs1 lv1 heq
      rw [heq] at hcat hsuf
      have hq1 : (q :: qs1).Pairwise (fun a b => a.docno < b.docno) :=
        hq.sublist hsuf.sublist
      have hq1' := List.pairwise_cons.mp hq1
      have hnlt := hhead q qs1 lv1 heq
      split_ifs with h h'
      · simp only
        rw [ih (q :: qs1) lv1 hd'.2 hq1]
        rw [strcmp_pos_iff] at h
        congr 1
        · rw [← hcat d.docno (le_refl _), category_of_not_mem]
          intro q' hq'
          rcases List.mem_cons.mp hq' with rfl | hq''
          · exact (ne_of_lt h).symm
          · exact (ne_of_lt (lt_trans h (hq1'.1 q' hq''))).symm
        · apply List.map_congr_left
          intro y hy
          rw [← hcat y.docno (le_of_lt (hd'.1 y hy))]
      all_goals
        have heq' : q.docno = d.docno := by
          rw [strcmp_neg_iff] at hnlt
          rw [strcmp_pos_iff] at h
          exact le_antisymm (not_lt.mp h) (not_lt.mp hnlt)
        simp only
        rw [ih qs1 _ hd'.2 hq1'.2]
        congr 1
        · rw [← hcat d.docno (le_refl _), category_cons, if_pos heq']
          simp [h']
        · apply List.map_congr_left
          intro y hy
          rw [← hcat y.docno (le_of_lt (hd'.1 y hy)), category_cons, if_neg]
          rw [heq']; exact ne_of_lt (hd'.1 y hy)

/-! ## The histogram (lines 150-208 and 256-263) -/

theorem bump_length (l : List Nat) (n : Nat) : (bump l n).length = l.length := by
  induction l generalizing n with
  | nil => rfl
  | cons c cs ih => cases n <;> simp [bump, ih]

theorem bump_getD (l : List Nat) (n k : Nat) :
    (bump l n).getD k 0 = l.getD k 0 + (if k = n ∧ n < l.length then 1 else 0) := by
  induction l generalizing n k with
  | nil => simp [bump]
  | cons c cs ih =>
    cases n with
    | zero =>
      cases k with
      | zero => simp [bump]
      | succ k => simp [bump]
    | succ n =>
      cases k with
      | zero => simp [bump]
      | succ k =>
        simp only [bump, List.getD_cons_succ, ih, List.length_cons]
        have e : (k + 1 = n + 1 ∧ n + 1 < cs.length + 1) ↔ (k = n ∧ n < cs.length) := by omega
        simp only [e]

theorem bump_sum (l : List Nat) (n : Nat) :
    (bump l n).sum = l.sum + (if n < l.length then 1 else 0) := by
  induction l generalizing n with
  | nil => simp [bump]
  | cons c cs ih =>
    cases n with
    | zero => simp [bump]; omega
    | succ n => simp [bump, ih]; omega

theorem sum_levels_from_cons (t : Int) (i : Nat) (c : Nat) (cs : List Nat) :
    sum_levels_from t i (c :: cs) =
      (if t ≤ (i : Int) then c else 0) + sum_levels_from t (i + 1) cs := by
  unfold sum_levels_from
  by_cases h : t ≤ (i : Int)
  · simp [List.enumFrom, List.filter, h]
  · simp [List.enumFrom, List.filter, h]

theorem bump_sum_levels_from (t : Int) (i : Nat) (l : List Nat) (n : Nat) :
    sum_levels_from t i (bump l n) =
      sum_levels_from t i l + (if n < l.length ∧ t ≤ ((i + n : Nat) : Int) then 1 else 0) := by
  induction l generalizing i n with
  | nil => simp [bump]
  | cons c cs ih =>
    cases n with
    | zero =>
      simp only [bump, sum_levels_from_cons, List.length_cons, Nat.add_zero]
      by_cases h : t ≤ (i : Int) <;> simp [h]
      omega
    | succ n =>
      simp only [bump, sum_levels_from_cons, List.length_cons, ih]
      have e : i + 1 + n = i + (n + 1) := by omega
      rw [e]
      have e2 : (n + 1 < cs.length + 1 ∧ t ≤ ((i + (n + 1) : Nat) : Int)) ↔
          (n < cs.length ∧ t ≤ ((i + (n + 1) : Nat) : Int)) := by omega
      simp only [e2]
      omega

theorem count_rel_length (lv : List Nat) (rel : Int) :
    (count_rel lv rel).length = lv.length := by
  unfold count_rel
  split_ifs
  · exact bump_length _ _
  · rfl

theorem finish_counting_length (qs : List TEXT_QRELS) (lv : List Nat) :
    (finish_counting qs lv).length = lv.length := by
  induction qs generalizing lv with
  | nil => rfl
  | cons q qs ih =>
    show (finish_counting qs (count_rel lv q.rel)).length = lv.length
    rw [ih, count_rel_length]

theorem finish_counting_cons (q : TEXT_QRELS) (qs : List TEXT_QRELS) (lv : List Nat) :
    finish_counting (q :: qs) lv = finish_counting qs (count_rel lv q.rel) := rfl

theorem count_rel_of_nonneg (lv : List Nat) (rel : Int) (h : 0 ≤ rel) :
    count_rel lv rel = bump lv rel.toNat := by
  unfold count_rel; rw [if_pos h]

theorem count_rel_of_neg (lv : List Nat) (rel : Int) (h : rel < 0) :
    count_rel lv rel = lv := by
  unfold count_rel; rw [if_neg (by omega)]

theorem countP_cons_decide {α : Type} (p : α → Prop) [DecidablePred p] (a : α) (l : List α) :
    (a :: l).countP (fun x => decide (p x)) =
      l.countP (fun x => decide (p x)) + (if p a then 1 else 0) := by
  simp [List.countP_cons]

/-- Bucket `k` after counting the judgments `qs`, none of which has a level
beyond the slice. -/
theorem finish_counting_getD (qs : List TEXT_QRELS) (lv : List Nat) (k : Nat)
    (hr : ∀ q ∈ qs, q.rel < lv.length) :
    (finish_counting qs lv).getD k 0 =
      lv.getD k 0 + qs.countP (fun q => decide (q.rel = (k : Int))) := by
  induction qs generalizing lv with
  | nil => simp [finish_counting]
  | cons q qs ih =>
    have hq := hr q (List.mem_cons_self _ _)
    rw [finish_counting_cons, ih _ (fun q' hq' => by
      rw [count_rel_length]; exact hr q' (List.mem_cons_of_mem _ hq'))]
    rw [countP_cons_decide (fun q : TEXT_QRELS => q.rel = (k : Int))]
    by_cases h : 0 ≤ q.rel
    · rw [count_rel_of_nonneg _ _ h, bump_getD]
      by_cases hk : q.rel = (k : Int)
      · have h1 : k = q.rel.toNat ∧ q.rel.toNat < lv.length := by omega
        rw [if_pos h1, if_pos hk]; omega
      · have h1 : ¬ (k = q.rel.toNat ∧ q.rel.toNat < lv.length) := by omega
        rw [if_neg h1, if_neg hk]; omega
    · have hk : ¬ q.rel = (k : Int) := by omega
      rw [count_rel_of_neg _ _ (by omega), if_neg hk]; omega

theorem finish_counting_sum (qs : List TEXT_QRELS) (lv : List Nat)
    (hr : ∀ q ∈ qs, q.rel < lv.length) :
    (finish_counting qs lv).sum = lv.sum + qs.countP (fun q => decide (0 ≤ q.rel)) := by
  induction qs generalizing lv with
  | nil => simp [finish_counting]
  | cons q qs ih =>
    have hq := hr q (List.mem_cons_self _ _)
    rw [finish_counting_cons, ih _ (fun q' hq' => by
      rw [count_rel_length]; exact hr q' (List.mem_cons_of_mem _ hq'))]
    rw [countP_cons_decide (fun q : TEXT_QRELS => 0 ≤ q.rel)]
    by_cases h : 0 ≤ q.rel
    · rw [count_rel_of_nonneg _ _ h, bump_sum]
      have h1 : q.rel.toNat < lv.length := by omega
      rw [if_pos h1, if_pos h]; omega
    · rw [count_rel_of_neg _ _ (by omega), if_neg h]; omega

theorem finish_counting_sum_levels (t : Int) (qs : List TEXT_QRELS) (lv : List Nat)
    (hr : ∀ q ∈ qs, q.rel < lv.length) :
    sum_levels_ge t (finish_counting qs lv) =
      sum_levels_ge t lv + qs.countP (fun q => decide (max t 0 ≤ q.rel)) := by
  induction qs generalizing lv with
  | nil => simp [finish_counting]
  | cons q qs ih =>
    have hq := hr q (List.mem_cons_self _ _)
    rw [finish_counting_cons, ih _ (fun q' hq' => by
      rw [count_rel_length]; exact hr q' (List.mem_cons_of_mem _ hq'))]
    rw [countP_cons_decide (fun q : TEXT_QRELS => max t 0 ≤ q.rel)]
    by_cases h : 0 ≤ q.rel
    · rw [count_rel_of_nonneg _ _ h]
      unfold sum_levels_ge
      rw [bump_sum_levels_from]
      by_cases hk : max t 0 ≤ q.rel
      · have h1 : q.rel.toNat < lv.length ∧ t ≤ ((0 + q.rel.toNat : Nat) : Int) := by omega
        rw [if_pos h1, if_pos hk]; omega
      · have h1 : ¬ (q.rel.toNat < lv.length ∧ t ≤ ((0 + q.rel.toNat : Nat) : Int)) := by omega
        rw [if_neg h1, if_neg hk]; omega
    · have hk : ¬ max t 0 ≤ q.rel := by omega
      rw [count_rel_of_neg _ _ (by omega), if_neg hk]; omega

theorem zero_levels_length (max_rel : Int) : (zero_levels max_rel).length = (max_rel + 1).toNat := by
  simp [zero_levels]

theorem zero_levels_getD (max_rel : Int) (k : Nat) : (zero_levels max_rel).getD k 0 = 0 := by
  unfold zero_levels
  rw [List.getD_eq_getElem?_getD]
  by_cases h : k < (max_rel + 1).toNat
  · simp [List.getElem?_replicate, h]
  · simp [List.getElem?_replicate, h]

theorem zero_levels_sum (max_rel : Int) : (zero_levels max_rel).sum = 0 := by
  simp [zero_levels]

theorem sum_levels_from_replicate (t : Int) (i n : Nat) :
    sum_levels_from t i (List.replicate n 0) = 0 := by
  induction n generalizing i with
  | zero => rfl
  | succ n ih => rw [List.replicate_succ, sum_levels_from_cons, ih]; simp

theorem zero_levels_sum_levels (t : Int) (max_rel : Int) :
    sum_levels_ge t (zero_levels max_rel) = 0 :=
  sum_levels_from_replicate t 0 _

/-- Lines 256-263 compute the sum of the buckets at levels `≥ relevance_level`. -/
theorem count_levels_fst (t : Int) (lv : List Nat) (i : Nat) (acc : Nat × Int) :
    (count_levels t lv i acc).1 = acc.1 + sum_levels_from t i lv := by
  induction lv generalizing i acc with
  | nil => simp [count_levels, sum_levels_from]
  | cons c cs ih =>
    rw [count_levels, ih, sum_levels_from_cons]
    by_cases hc : c = 0
    · simp [hc]
    · by_cases ht : t ≤ (i : Int)
      · simp [hc, ht]; omega
      · simp [hc, ht]

theorem max_rel_jg_le (m : Int) (qs : List TEXT_QRELS) :
    m ≤ max_rel_jg m qs ∧ ∀ q ∈ qs, q.rel ≤ max_rel_jg m qs := by
  induction qs generalizing m with
  | nil => simp [max_rel_jg]
  | cons q qs ih =>
    have h := ih (if m < q.rel then q.rel else m)
    have e : max_rel_jg m (q :: qs) = max_rel_jg (if m < q.rel then q.rel else m) qs := rfl
    rw [e]
    refine ⟨?_, ?_⟩
    · split_ifs at h ⊢ <;> omega
    · intro q' hq'
      rcases List.mem_cons.mp hq' with rfl | hq''
      · split_ifs at h ⊢ <;> omega
      · exact h.2 q' hq''

theorem foldl_max_rel_jg_le (m : Int) (groups : List (List TEXT_QRELS)) :
    m ≤ groups.foldl max_rel_jg m ∧
      ∀ g ∈ groups, ∀ q ∈ g, q.rel ≤ groups.foldl max_rel_jg m := by
  induction groups generalizing m with
  | nil => simp
  | cons g gs ih =>
    have h := ih (max_rel_jg m g)
    have hg := max_rel_jg_le m g
    simp only [List.foldl_cons]
    refine ⟨le_trans hg.1 h.1, ?_⟩
    intro g' hg' q hq
    rcases List.mem_cons.mp hg' with rfl | hg''
    · exact le_trans (hg.2 q hq) h.1
    · exact h.2 g' hg'' q hq

theorem find_max_rel_nonneg (groups : List (List TEXT_QRELS)) : 0 ≤ find_max_rel groups :=
  (foldl_max_rel_jg_le 0 groups).1

theorem find_max_rel_ge (groups : List (List TEXT_QRELS)) :
    ∀ g ∈ groups, ∀ q ∈ g, q.rel ≤ find_max_rel groups :=
  (foldl_max_rel_jg_le 0 groups).2

/-! ## The normal path (lines 240-255) -/

theorem normal_step_vec (t : Int) (c : Counts) (d : DOCNO_INFO) :
    (normal_step t c d).results_rel_list = c.results_rel_list.set (d.rank - 1) d.rel := by
  unfold normal_step
  split_ifs <;> rfl

theorem normal_step_num_ret (t : Int) (c : Counts) (d : DOCNO_INFO) :
    (normal_step t c d).num_ret = c.num_ret := by
  unfold normal_step
  split_ifs <;> rfl

theorem normal_step_num_nonpool (t : Int) (c : Counts) (d : DOCNO_INFO) :
    (normal_step t c d).num_nonpool =
      c.num_nonpool + (if d.rel = RELVALUE_NONPOOL then 1 else 0) := by
  unfold normal_step
  split_ifs <;> rfl

theorem normal_step_num_unjudged (t : Int) (c : Counts) (d : DOCNO_INFO) :
    (normal_step t c d).num_unjudged_in_pool =
      c.num_unjudged_in_pool + (if d.rel = RELVALUE_UNJUDGED then 1 else 0) := by
  unfold normal_step
  split_ifs with h1 h2 <;> first | rfl | (rw [h1] at h2; exact absurd h2 (by decide))

theorem normal_step_num_rel_ret (t : Int) (c : Counts) (d : DOCNO_INFO) :
    (normal_step t c d).num_rel_ret =
      c.num_rel_ret +
        (if d.rel ≠ RELVALUE_NONPOOL ∧ d.rel ≠ RELVALUE_UNJUDGED ∧ t ≤ d.rel then 1 else 0) := by
  unfold normal_step
  by_cases h1 : d.rel = RELVALUE_NONPOOL
  · rw [if_pos h1, if_neg (fun h => h.1 h1)]; rfl
  · rw [if_neg h1]
    by_cases h2 : d.rel = RELVALUE_UNJUDGED
    · rw [if_pos h2, if_neg (fun h => h.2.1 h2)]; rfl
    · rw [if_neg h2]
      by_cases h3 : t ≤ d.rel
      · rw [if_pos h3, if_pos ⟨h1, h2, h3⟩]
      · rw [if_neg h3, if_neg (fun h => h3 h.2.2)]; rfl

theorem normal_loop_cons (t : Int) (d : DOCNO_INFO) (l : List DOCNO_INFO) (c : Counts) :
    normal_loop t (d :: l) c = normal_loop t l (normal_step t c d) := rfl

theorem normal_loop_length (t : Int) (l : List DOCNO_INFO) (c : Counts) :
    (normal_loop t l c).results_rel_list.length = c.results_rel_list.length := by
  induction l generalizing c with
  | nil => rfl
  | cons d l ih => rw [normal_loop_cons, ih, normal_step_vec, List.length_set]

theorem normal_loop_num_nonpool (t : Int) (l : List DOCNO_INFO) (c : Counts) :
    (normal_loop t l c).num_nonpool =
      c.num_nonpool + l.countP (fun d => decide (d.rel = RELVALUE_NONPOOL)) := by
  induction l generalizing c with
  | nil => rfl
  | cons d l ih =>
    rw [normal_loop_cons, ih, normal_step_num_nonpool,
      countP_cons_decide (fun d : DOCNO_INFO => d.rel = RELVALUE_NONPOOL)]
    omega

theorem normal_loop_num_unjudged (t : Int) (l : List DOCNO_INFO) (c : Counts) :
    (normal_loop t l c).num_unjudged_in_pool =
      c.num_unjudged_in_pool + l.countP (fun d => decide (d.rel = RELVALUE_UNJUDGED)) := by
  induction l generalizing c with
  | nil => rfl
  | cons d l ih =>
    rw [normal_loop_cons, ih, normal_step_num_unjudged,
      countP_cons_decide (fun d : DOCNO_INFO => d.rel = RELVALUE_UNJUDGED)]
    omega

theorem normal_loop_num_rel_ret (t : Int) (l : List DOCNO_INFO) (c : Counts) :
    (normal_loop t l c).num_rel_ret =
      c.num_rel_ret + l.countP (fun d => decide
        (d.rel ≠ RELVALUE_NONPOOL ∧ d.rel ≠ RELVALUE_UNJUDGED ∧ t ≤ d.rel)) := by
  induction l generalizing c with
  | nil => rfl
  | cons d l ih =>
    rw [normal_loop_cons, ih, normal_step_num_rel_ret,
      countP_cons_decide (fun d : DOCNO_INFO =>
        d.rel ≠ RELVALUE_NONPOOL ∧ d.rel ≠ RELVALUE_UNJUDGED ∧ t ≤ d.rel)]
    omega

/-- A slot that no record of the list maps to keeps its old content. -/
theorem normal_loop_get_other (t : Int) (l : List DOCNO_INFO) (c : Counts) (i : Nat)
    (h : ∀ d ∈ l, d.rank - 1 ≠ i) :
    (normal_loop t l c).results_rel_list[i]? = c.results_rel_list[i]? := by
  induction l generalizing c with
  | nil => rfl
  | cons d l ih =>
    rw [normal_loop_cons, ih _ (fun d' hd' => h d' (List.mem_cons_of_mem _ hd')),
      normal_step_vec, List.getElem?_set_ne (h d (List.mem_cons_self _ _))]

/-- When no two records map to the same slot, the slot of a record holds the
`rel` of that record at the end of the loop. -/
theorem normal_loop_get (t : Int) (l : List DOCNO_INFO) (c : Counts)
    (hn : (l.map (fun d => d.rank - 1)).Nodup) (d : DOCNO_INFO) (hd : d ∈ l)
    (hlt : d.rank - 1 < c.results_rel_list.length) :
    (normal_loop t l c).results_rel_list[d.rank - 1]? = some d.rel := by
  induction l generalizing c with
  | nil => simp at hd
  | cons x l ih =>
    rw [List.map_cons, List.nodup_cons] at hn
    rw [normal_loop_cons]
    rcases List.mem_cons.mp hd with rfl | hd'
    · rw [normal_loop_get_other, normal_step_vec, List.getElem?_set_self hlt]
      intro d' hd' heq
      exact hn.1 (List.mem_map.mpr ⟨d', hd', heq⟩)
    · exact ih _ hn.2 hd' (by rw [normal_step_vec, List.length_set]; exact hlt)

theorem by_rank_perm (l : List DOCNO_INFO) : (by_rank l).Perm l :=
  List.perm_insertionSort _ l

theorem by_rank_sorted (l : List DOCNO_INFO) :
    (by_rank l).Pairwise (fun a b => a.rank ≤ b.rank) := by
  haveI : IsTotal DOCNO_INFO (fun a b => a.rank ≤ b.rank) := ⟨fun a b => le_total _ _⟩
  haveI : IsTrans DOCNO_INFO (fun a b => a.rank ≤ b.rank) := ⟨fun a b c => le_trans⟩
  exact List.sorted_insertionSort (fun a b : DOCNO_INFO => a.rank ≤ b.rank) l

/-- The ranks of a list whose ranks are `1 .. N` in some order, read in rank
order. -/
theorem by_rank_map_rank (l : List DOCNO_INFO) (N : Nat)
    (hp : (l.map (fun d => d.rank)).Perm (List.range' 1 N)) :
    (by_rank l).map (fun d => d.rank) = List.range' 1 N := by
  apply List.eq_of_perm_of_sorted (r := fun (a b : Nat) => a ≤ b)
  · exact ((by_rank_perm l).map _).trans hp
  · unfold List.Sorted
    rw [List.pairwise_map]
    exact by_rank_sorted l
  · exact (List.pairwise_lt_range' 1 N).imp (fun {a b} h => le_of_lt h)

/-- The vector written by the normal path lists the `rel` values in the order
of the ranks. -/
theorem normal_loop_vec (t : Int) (l : List DOCNO_INFO) (c : Counts) (N : Nat)
    (hp : (l.map (fun d => d.rank)).Perm (List.range' 1 N))
    (hlen : c.results_rel_list.length = N) :
    (normal_loop t l c).results_rel_list = (by_rank l).map (fun d => d.rel) := by
  have hN : l.length = N := by
    have := hp.length_eq
    simpa using this
  have hbl : (by_rank l).length = N := by rw [(by_rank_perm l).length_eq, hN]
  have hranks := by_rank_map_rank l N hp
  have hpos : ∀ d ∈ l, 1 ≤ d.rank ∧ d.rank ≤ N := by
    intro d hd
    have : d.rank ∈ List.range' 1 N := hp.mem_iff.mp (List.mem_map.mpr ⟨d, hd, rfl⟩)
    rw [List.mem_range'_1] at this
    omega
  have hnd : (l.map (fun d => d.rank - 1)).Nodup := by
    have h1 : (l.map (fun d => d.rank)).Nodup := hp.nodup_iff.mpr (List.nodup_range' 1 N)
    have h2 : l.map (fun d => d.rank - 1) = (l.map (fun d => d.rank)).map (fun r => r - 1) := by
      rw [List.map_map]; rfl
    rw [h2]
    apply List.Nodup.map_on _ h1
    intro a ha b hb hab
    rw [List.mem_map] at ha hb
    obtain ⟨x, hx, rfl⟩ := ha
    obtain ⟨y, hy, rfl⟩ := hb
    have := hpos x hx
    have := hpos y hy
    omega
  apply List.ext_getElem
  · rw [normal_loop_length, hlen, List.length_map, hbl]
  · intro i h1 h2
    have hi : i < N := by rw [normal_loop_length, hlen] at h1; exact h1
    have hib : i < (by_rank l).length := by rw [hbl]; exact hi
    have hmem : (by_rank l)[i] ∈ l := (by_rank_perm l).mem_iff.mp (List.getElem_mem hib)
    have hrank : ((by_rank l)[i]).rank = i + 1 := by
      have h3 : ((by_rank l).map (fun d => d.rank))[i]? = (List.range' 1 N)[i]? := by
        rw [hranks]
      rw [List.getElem?_map, List.getElem?_eq_getElem hib,
        List.getElem?_eq_getElem (by simpa using hi), List.getElem_range'] at h3
      simp only [Option.map_some', Option.some.injEq] at h3
      omega
    have hget := normal_loop_get t l c hnd _ hmem (by rw [hrank, hlen]; omega)
    rw [hrank] at hget
    simp only [Nat.add_sub_cancel] at hget
    rw [List.getElem_map]
    have h4 : (normal_loop t l c).results_rel_list[i]? =
        some (normal_loop t l c).results_rel_list[i] := List.getElem?_eq_getElem h1
    rw [hget] at h4
    exact (Option.some.inj h4).symm

/-! ## The judged-docs-only path (lines 216-239) -/

theorem judged_loop_nil (t : Int) (rrl : Nat) (c : Counts) :
    judged_loop t [] rrl c = { c with num_ret := rrl } := rfl

theorem judged_loop_cons_pos (t : Int) (d : DOCNO_INFO) (ds : List DOCNO_INFO) (rrl : Nat)
    (c : Counts) (h : 0 ≤ d.rel) :
    judged_loop t (d :: ds) rrl c =
      judged_loop t ds (rrl + 1)
        { c with
          num_rel_ret := if d.rel ≥ t then c.num_rel_ret + 1 else c.num_rel_ret
          results_rel_list := c.results_rel_list.set rrl d.rel } := by
  simp only [judged_loop]
  rw [if_pos h]

theorem judged_loop_cons_neg (t : Int) (d : DOCNO_INFO) (ds : List DOCNO_INFO) (rrl : Nat)
    (c : Counts) (h : ¬ 0 ≤ d.rel) :
    judged_loop t (d :: ds) rrl c = { c with num_ret := rrl } := by
  simp only [judged_loop]
  rw [if_neg h]

theorem judged_loop_num_nonpool (t : Int) (l : List DOCNO_INFO) (rrl : Nat) (c : Counts) :
    (judged_loop t l rrl c).num_nonpool = c.num_nonpool ∧
      (judged_loop t l rrl c).num_unjudged_in_pool = c.num_unjudged_in_pool := by
  induction l generalizing rrl c with
  | nil => exact ⟨rfl, rfl⟩
  | cons d ds ih =>
    by_cases h : 0 ≤ d.rel
    · rw [judged_loop_cons_pos t d ds rrl c h]
      exact ih _ _
    · rw [judged_loop_cons_neg t d ds rrl c h]
      exact ⟨rfl, rfl⟩

theorem judged_loop_length (t : Int) (l : List DOCNO_INFO) (rrl : Nat) (c : Counts) :
    (judged_loop t l rrl c).results_rel_list.length = c.results_rel_list.length := by
  induction l generalizing rrl c with
  | nil => rfl
  | cons d ds ih =>
    by_cases h : 0 ≤ d.rel
    · rw [judged_loop_cons_pos t d ds rrl c h, ih, List.length_set]
    · rw [judged_loop_cons_neg t d ds rrl c h]

theorem judged_loop_num_ret (t : Int) (l : List DOCNO_INFO) (rrl : Nat) (c : Counts) :
    (judged_loop t l rrl c).num_ret =
      rrl + (l.takeWhile (fun d => decide (0 ≤ d.rel))).length := by
  induction l generalizing rrl c with
  | nil => rfl
  | cons d ds ih =>
    by_cases h : 0 ≤ d.rel
    · rw [judged_loop_cons_pos t d ds rrl c h, ih, List.takeWhile_cons,
        if_pos (decide_eq_true h), List.length_cons]
      omega
    · rw [judged_loop_cons_neg t d ds rrl c h, List.takeWhile_cons,
        if_neg (by rw [decide_eq_false h]; decide)]
      rfl

theorem judged_loop_num_rel_ret (t : Int) (l : List DOCNO_INFO) (rrl : Nat) (c : Counts) :
    (judged_loop t l rrl c).num_rel_ret =
      c.num_rel_ret +
        (l.takeWhile (fun d => decide (0 ≤ d.rel))).countP (fun d => decide (t ≤ d.rel)) := by
  induction l generalizing rrl c with
  | nil => rfl
  | cons d ds ih =>
    by_cases h : 0 ≤ d.rel
    · rw [judged_loop_cons_pos t d ds rrl c h, ih, List.takeWhile_cons,
        if_pos (decide_eq_true h), countP_cons_decide (fun d : DOCNO_INFO => t ≤ d.rel)]
      simp only [ge_iff_le]
      split_ifs <;> omega
    · rw [judged_loop_cons_neg t d ds rrl c h, List.takeWhile_cons,
        if_neg (by rw [decide_eq_false h]; decide)]
      rfl

theorem take_succ_set {α : Type} (v : List α) (n : Nat) (a : α) (h : n < v.length) :
    (v.set n a).take (n + 1) = v.take n ++ [a] := by
  rw [List.take_succ, List.getElem?_set_self h]
  congr 1
  apply List.ext_getElem?
  intro i
  rw [List.getElem?_take, List.getElem?_take]
  split_ifs with hi
  · rw [List.getElem?_set_ne (by omega)]
  · rfl

/-- The first `num_ret` slots after the loop: what was there below `rrl`, then
the `rel` values of the leading judged records. -/
theorem judged_loop_vec (t : Int) (l : List DOCNO_INFO) (rrl : Nat) (c : Counts)
    (hlen : rrl + l.length ≤ c.results_rel_list.length) :
    (judged_loop t l rrl c).results_rel_list.take (judged_loop t l rrl c).num_ret =
      c.results_rel_list.take rrl ++
        (l.takeWhile (fun d => decide (0 ≤ d.rel))).map (fun d => d.rel) := by
  induction l generalizing rrl c with
  | nil => simp [judged_loop]
  | cons d ds ih =>
    by_cases h : 0 ≤ d.rel
    · rw [judged_loop_cons_pos t d ds rrl c h, ih, List.takeWhile_cons,
        if_pos (decide_eq_true h)]
      · simp only [List.map_cons]
        rw [take_succ_set _ _ _ (by simp only [List.length_cons] at hlen; omega)]
        simp
      · simp only [List.length_set]
        simp only [List.length_cons] at hlen
        omega
    · rw [judged_loop_cons_neg t d ds rrl c h, List.takeWhile_cons,
        if_neg (by rw [decide_eq_false h]; decide)]
      simp

theorem takeWhile_eq_filter_of_pairwise {α : Type} (p : α → Bool) (l : List α)
    (h : l.Pairwise (fun a b => p b = true → p a = true)) :
    l.takeWhile p = l.filter p := by
  induction l with
  | nil => rfl
  | cons a l ih =>
    have h' := List.pairwise_cons.mp h
    rw [List.takeWhile_cons, List.filter_cons]
    by_cases hp : p a = true
    · rw [if_pos hp, if_pos hp, ih h'.2]
    · rw [if_neg hp, if_neg hp]
      symm
      rw [List.filter_eq_nil_iff]
      intro b hb hpb
      exact hp (h'.1 b hb hpb)

/-- After the sort by `comp_rank_judged`, the leading judged records are the
judged records in the order of their ranks. -/
theorem qsort_rank_judged_takeWhile (l : List DOCNO_INFO)
    (hn : (l.map (fun d => d.rank)).Nodup) :
    (qsort comp_rank_judged l).takeWhile (fun d => decide (0 ≤ d.rel)) =
      (by_rank l).filter (fun d => decide (0 ≤ d.rel)) := by
  have hs := qsort_sorted comp_rank_judged comp_rank_judged_total comp_rank_judged_trans l
  rw [takeWhile_eq_filter_of_pairwise]
  · refine @List.Perm.eq_of_sorted _ (fun (a b : DOCNO_INFO) => a.rank ≤ b.rank) _ _ ?_ ?_ ?_ ?_
    · intro a b ha hb hab hba
      have ha' : a ∈ l := (qsort_perm _ l).mem_iff.mp (List.mem_of_mem_filter ha)
      have hb' : b ∈ l := (by_rank_perm l).mem_iff.mp (List.mem_of_mem_filter hb)
      exact List.inj_on_of_nodup_map hn ha' hb' (le_antisymm hab hba)
    · have h1 : ((qsort comp_rank_judged l).filter (fun d => decide (0 ≤ d.rel))).Pairwise
          (fun a b => comp_rank_judged a b ≤ 0) := hs.filter _
      refine h1.imp_of_mem ?_
      intro a b ha hb hab
      have ha' : 0 ≤ a.rel := by simpa using (List.mem_filter.mp ha).2
      have hb' : 0 ≤ b.rel := by simpa using (List.mem_filter.mp hb).2
      rw [comp_rank_judged_le_iff] at hab
      omega
    · exact (by_rank_sorted l).filter _
    · exact ((qsort_perm _ l).filter _).trans ((by_rank_perm l).filter _).symm
  · refine hs.imp ?_
    intro a b hab hb
    rw [comp_rank_judged_le_iff] at hab
    have hb' : 0 ≤ b.rel := by simpa using hb
    simp only [decide_eq_true_eq]
    omega

/-! ## One judgment group (lines 174-263) -/

theorem form_jg_congr (epi : EPI) (max_rel : Int) (last : Bool) (stale : RES_RELS)
    (slice : List Int) {di di' : List DOCNO_INFO} (h : di.map key = di'.map key)
    (qrels : List TEXT_QRELS) :
    form_jg epi max_rel last stale slice di qrels =
      form_jg epi max_rel last stale slice di' qrels := by
  unfold form_jg
  rw [merge_qrels_congr h]

theorem form_jg_rel_levels (epi : EPI) (max_rel : Int) (last : Bool) (stale : RES_RELS)
    (slice : List Int) (di : List DOCNO_INFO) (qrels : List TEXT_QRELS) :
    (form_jg epi max_rel last stale slice di qrels).1.rel_levels =
      finish_counting qrels (zero_levels max_rel) := by
  unfold form_jg
  exact merge_qrels_counts di qrels _

theorem form_jg_num_rel (epi : EPI) (max_rel : Int) (last : Bool) (stale : RES_RELS)
    (slice : List Int) (di : List DOCNO_INFO) (qrels : List TEXT_QRELS) :
    (form_jg epi max_rel last stale slice di qrels).1.num_rel =
      sum_levels_ge epi.relevance_level (finish_counting qrels (zero_levels max_rel)) := by
  unfold form_jg
  simp only
  rw [count_levels_fst, Nat.zero_add]
  unfold sum_levels_ge
  exact congrArg _ (merge_qrels_counts di qrels _)

theorem form_jg_normal (epi : EPI) (max_rel : Int) (last : Bool) (stale : RES_RELS)
    (slice : List Int) (di : List DOCNO_INFO) (qrels : List TEXT_QRELS)
    (hf : epi.judged_docs_only_flag = false) :
    let r := (form_jg epi max_rel last stale slice di qrels).1
    let c := normal_loop epi.relevance_level (merged di max_rel qrels)
      { results_rel_list := slice, num_ret := 0, num_rel_ret := 0, num_nonpool := 0,
        num_unjudged_in_pool := 0 }
    r.results_rel_list = c.results_rel_list ∧ r.num_ret = (merged di max_rel qrels).length ∧
      r.num_rel_ret = c.num_rel_ret ∧ r.num_nonpool = c.num_nonpool ∧
      r.num_unjudged_in_pool = c.num_unjudged_in_pool ∧
      (form_jg epi max_rel last stale slice di qrels).2 = merged di max_rel qrels := by
  unfold form_jg merged zero_levels
  simp only [hf]
  simp

theorem form_jg_judged (epi : EPI) (max_rel : Int) (last : Bool) (stale : RES_RELS)
    (slice : List Int) (di : List DOCNO_INFO) (qrels : List TEXT_QRELS)
    (hf : epi.judged_docs_only_flag = true) :
    let r := (form_jg epi max_rel last stale slice di qrels).1
    let c := judged_loop epi.relevance_level (qsort comp_rank_judged (merged di max_rel qrels)) 0
      { results_rel_list := slice, num_ret := 0, num_rel_ret := 0, num_nonpool := 0,
        num_unjudged_in_pool := 0 }
    r.results_rel_list = c.results_rel_list ∧ r.num_ret = c.num_ret ∧
      r.num_rel_ret = c.num_rel_ret ∧ r.num_nonpool = c.num_nonpool ∧
      r.num_unjudged_in_pool = c.num_unjudged_in_pool ∧
      (form_jg epi max_rel last stale slice di qrels).2 =
        (if last then qsort comp_rank_judged (merged di max_rel qrels)
         else qsort comp_docno (qsort comp_rank_judged (merged di max_rel qrels))) := by
  unfold form_jg merged zero_levels
  simp only [hf]
  simp

theorem merged_map_key (di : List DOCNO_INFO) (max_rel : Int) (qrels : List TEXT_QRELS) :
    (merged di max_rel qrels).map key = di.map key :=
  merge_qrels_map_key di qrels _

theorem map_docno_of_key {l l' : List DOCNO_INFO} (h : l.map key = l'.map key) :
    l.map (fun d => d.docno) = l'.map (fun d => d.docno) := by
  have := congrArg (List.map (fun k : String × DOUBLE × Nat => k.1)) h
  simpa [List.map_map, key] using this

theorem map_rank_of_key {l l' : List DOCNO_INFO} (h : l.map key = l'.map key) :
    l.map (fun d => d.rank) = l'.map (fun d => d.rank) := by
  have := congrArg (List.map (fun k : String × DOUBLE × Nat => k.2.2)) h
  simpa [List.map_map, key] using this

theorem strict_of_key {l l' : List DOCNO_INFO} (h : l.map key = l'.map key)
    (hs : l'.Pairwise (fun a b => a.docno < b.docno)) :
    l.Pairwise (fun a b => a.docno < b.docno) := by
  have h1 : (l'.map (fun d => d.docno)).Pairwise (fun a b => a < b) := by
    rw [List.pairwise_map]; exact hs
  rw [← map_docno_of_key h, List.pairwise_map] at h1
  exact h1

/-- The sort back to docno order undoes the sort by `comp_rank_judged`. -/
theorem qsort_docno_restore (l : List DOCNO_INFO)
    (hs : l.Pairwise (fun a b => a.docno < b.docno)) :
    qsort comp_docno (qsort comp_rank_judged l) = l := by
  have hp : (qsort comp_docno (qsort comp_rank_judged l)).Perm l :=
    (qsort_perm _ _).trans (qsort_perm _ _)
  apply sorted_unique comp_docno
  · intro a b ha hb hab hba
    rw [comp_docno_le_iff] at hab hba
    exact List.inj_on_of_nodup_map (nodup_of_strict hs) (hp.mem_iff.mp ha) (hp.mem_iff.mp hb)
      (le_antisymm hab hba)
  · exact qsort_sorted _ comp_docno_total comp_docno_trans _
  · exact hs.imp (fun {a b} h => (comp_docno_le_iff a b).mpr (le_of_lt h))
  · exact hp

/-- What a group hands to the next group is `docno_info` in docno order,
with the ranks of this query. -/
theorem form_jg_snd_key (epi : EPI) (max_rel : Int) (stale : RES_RELS)
    (slice : List Int) (di D : List DOCNO_INFO) (qrels : List TEXT_QRELS)
    (hk : di.map key = D.map key) (hs : D.Pairwise (fun a b => a.docno < b.docno)) :
    (form_jg epi max_rel false stale slice di qrels).2.map key = D.map key := by
  have hm : (merged di max_rel qrels).map key = D.map key := (merged_map_key _ _ _).trans hk
  cases hf : epi.judged_docs_only_flag with
  | false =>
    rw [(form_jg_normal epi max_rel false stale slice di qrels hf).2.2.2.2.2]
    exact hm
  | true =>
    rw [(form_jg_judged epi max_rel false stale slice di qrels hf).2.2.2.2.2]
    simp only [Bool.false_eq_true, if_false]
    rw [qsort_docno_restore _ (strict_of_key hm hs)]
    exact hm

theorem slice_of_length (buf : List Int) (n jg : Nat) : (slice_of buf n jg).length = n := by
  simp [slice_of]

/-- Every group's result is what the loop body computes from `docno_info` in
docno order, whatever the earlier groups did. -/
theorem jg_loop_forall₂ (epi : EPI) (max_rel : Int) (num_jgs : Nat) (s : Session) (N : Nat)
    (D : List DOCNO_INFO) (hs : D.Pairwise (fun a b => a.docno < b.docno)) :
    ∀ (groups : List (List TEXT_QRELS)) (jg : Nat) (di : List DOCNO_INFO),
      di.map key = D.map key → jg + groups.length = num_jgs →
      List.Forall₂
        (fun r qrels => ∃ last stale slice, slice.length = N ∧
          r = (form_jg epi max_rel last stale slice D qrels).1)
        (jg_loop epi max_rel num_jgs s N jg groups di) groups := by
  intro groups
  induction groups with
  | nil => intro jg di _ _; exact List.Forall₂.nil
  | cons qrels rest ih =>
    intro jg di hk hlen
    simp only [jg_loop]
    refine List.Forall₂.cons ?_ ?_
    · exact ⟨_, _, _, slice_of_length _ _ _, by rw [form_jg_congr epi max_rel _ _ _ hk]⟩
    · cases rest with
      | nil => simp only [jg_loop]; exact List.Forall₂.nil
      | cons q2 rest2 =>
        have hlast : (jg + 1 == num_jgs) = false := by
          simp only [List.length_cons] at hlen
          rw [beq_eq_false_iff_ne]
          omega
        rw [hlast]
        apply ih
        · exact form_jg_snd_key epi max_rel _ _ di D qrels hk hs
        · simp only [List.length_cons] at hlen ⊢
          omega

/-! ## The whole call (lines 56-271) -/

/-- A call that returns 1 went past the duplicate check and computed every
group with the loop of lines 170-264. -/
theorem te_fresh (s : Session) (epi : EPI) (rel_info : REL_INFO) (results : RESULTS)
    (h : (te_form_res_rels_jg s epi rel_info results).ret = 1) :
    has_duplicate (qsort comp_docno (ranked_docno_info epi results.text_results)) = false ∧
      (te_form_res_rels_jg s epi rel_info results).res_rels =
        some { qid := results.qid, num_jgs := rel_info.text_qrels_jg.length,
               jgs := jg_loop epi (find_max_rel rel_info.text_qrels_jg)
                 rel_info.text_qrels_jg.length s
                 (ranked_docno_info epi results.text_results).length 0
                 rel_info.text_qrels_jg
                 (qsort comp_docno (ranked_docno_info epi results.text_results)) } := by
  unfold te_form_res_rels_jg at h ⊢
  by_cases h1 : strcmp s.current_query results.qid = 0
  · rw [if_pos h1] at h
    exact absurd (show (0 : Int) = 1 from h) (by decide)
  · rw [if_neg h1] at h ⊢
    by_cases h2 : strcmp "qrels_jg" rel_info.rel_format ≠ 0 ∨
        strcmp "trec_results" results.ret_format ≠ 0
    · rw [if_pos h2] at h
      exact absurd (show UNDEF = 1 from h) (by decide)
    · rw [if_neg h2] at h ⊢
      by_cases h3 : has_duplicate (qsort comp_docno
          (ranked_docno_info epi results.text_results)) = true
      · simp only [h3, if_true] at h
        exact absurd h (by decide)
      · have h3' : has_duplicate (qsort comp_docno
            (ranked_docno_info epi results.text_results)) = false := by
          simpa using h3
        refine ⟨h3', ?_⟩
        simp only [h3', Bool.false_eq_true, if_false]

theorem forall₂_mem_right {α β : Type} {P : α → β → Prop} {l₁ : List α} {l₂ : List β}
    (h : List.Forall₂ P l₁ l₂) : List.Forall₂ (fun a b => b ∈ l₂ ∧ P a b) l₁ l₂ := by
  induction h with
  | nil => exact List.Forall₂.nil
  | cons hab _ ih =>
    refine List.Forall₂.cons ⟨List.mem_cons_self _ _, hab⟩ ?_
    exact ih.imp (fun a b hb => ⟨List.mem_cons_of_mem _ hb.1, hb.2⟩)

theorem forall₂_mem_left {α β : Type} {P : α → β → Prop} {l₁ : List α} {l₂ : List β}
    (h : List.Forall₂ P l₁ l₂) : ∀ a ∈ l₁, ∃ b, b ∈ l₂ ∧ P a b := by
  induction h with
  | nil => intro a ha; simp at ha
  | cons hab _ ih =>
    intro a ha
    rcases List.mem_cons.mp ha with rfl | ha'
    · exact ⟨_, List.mem_cons_self _ _, hab⟩
    · obtain ⟨b, hb, hp⟩ := ih a ha'
      exact ⟨b, List.mem_cons_of_mem _ hb, hp⟩

/-- The record order and the ranks that every group starts from. -/
theorem docno_order_facts (epi : EPI) (tr : List TEXT_RESULTS)
    (hdup : has_duplicate (qsort comp_docno (ranked_docno_info epi tr)) = false) :
    (qsort comp_docno (ranked_docno_info epi tr)).Pairwise (fun a b => a.docno < b.docno) ∧
      ((qsort comp_docno (ranked_docno_info epi tr)).map (fun d => d.rank)).Perm
        (List.range' 1 (ranked_docno_info epi tr).length) := by
  refine ⟨(has_duplicate_false_iff _ (qsort_comp_docno_sorted _)).mp hdup, ?_⟩
  rw [← ranked_docno_info_map_rank]
  exact (qsort_perm _ _).map _

/-- A call that returns 1 relates every group of judgments to a result computed
by the loop body from `docno_info` in docno order. -/
theorem te_groups (s : Session) (epi : EPI) (rel_info : REL_INFO) (results : RESULTS)
    (h : (te_form_res_rels_jg s epi rel_info results).ret = 1) :
    ∃ rr, (te_form_res_rels_jg s epi rel_info results).res_rels = some rr ∧
      rr.qid = results.qid ∧ rr.num_jgs = rel_info.text_qrels_jg.length ∧
      List.Forall₂
        (fun r qrels => qrels ∈ rel_info.text_qrels_jg ∧ ∃ last stale slice,
          slice.length = (ranked_docno_info epi results.text_results).length ∧
          r = (form_jg epi (find_max_rel rel_info.text_qrels_jg) last stale slice
                (qsort comp_docno (ranked_docno_info epi results.text_results)) qrels).1)
        rr.jgs rel_info.text_qrels_jg := by
  obtain ⟨hdup, hres⟩ := te_fresh s epi rel_info results h
  refine ⟨_, hres, rfl, rfl, ?_⟩
  apply forall₂_mem_right
  exact jg_loop_forall₂ epi _ _ s _ _ (docno_order_facts epi _ hdup).1 _ 0 _ rfl (by simp)

/-- The merged records in rank order are the ranked records, up to `rel`. -/
theorem by_rank_map_key (R M : List DOCNO_INFO) (N : Nat)
    (hR : R.map (fun d => d.rank) = List.range' 1 N)
    (hp : (M.map key).Perm (R.map key)) :
    (by_rank M).map key = R.map key := by
  have hnd : ((R.map key).map (fun k => k.2.2)).Nodup := by
    have : (R.map key).map (fun k => k.2.2) = R.map (fun d => d.rank) := by
      rw [List.map_map]; rfl
    rw [this, hR]
    exact List.nodup_range' 1 N
  have hp2 : ((by_rank M).map key).Perm (R.map key) := ((by_rank_perm M).map key).trans hp
  refine @List.Perm.eq_of_sorted _ (fun (a b : String × DOUBLE × Nat) => a.2.2 ≤ b.2.2) _ _ ?_ ?_ ?_ ?_
  · intro a b ha hb hab hba
    exact List.inj_on_of_nodup_map hnd (hp2.mem_iff.mp ha) hb (le_antisymm hab hba)
  · rw [List.pairwise_map]
    exact by_rank_sorted M
  · have h1 : (R.map (fun d => d.rank)).Pairwise (fun a b => a ≤ b) := by
      rw [hR]
      exact (List.pairwise_lt_range' 1 N).imp (fun {a b} h => le_of_lt h)
    rw [List.pairwise_map] at h1 ⊢
    exact h1
  · exact hp2

/-! ## What one group returns -/

/-- Facts about the merged records of a group of a call that passed the
duplicate check. -/
theorem merged_facts (epi : EPI) (tr : List TEXT_RESULTS)
    (hdup : has_duplicate (qsort comp_docno (ranked_docno_info epi tr)) = false)
    (max_rel : Int) (qrels : List TEXT_QRELS) :
    ((merged (qsort comp_docno (ranked_docno_info epi tr)) max_rel qrels).map
        (fun d => d.rank)).Perm (List.range' 1 (ranked_docno_info epi tr).length) ∧
      (merged (qsort comp_docno (ranked_docno_info epi tr)) max_rel qrels).length =
        (ranked_docno_info epi tr).length ∧
      (by_rank (merged (qsort comp_docno (ranked_docno_info epi tr)) max_rel qrels)).map key =
        (ranked_docno_info epi tr).map key ∧
      ∀ x ∈ merged (qsort comp_docno (ranked_docno_info epi tr)) max_rel qrels,
        x.rel = RELVALUE_NONPOOL ∨ x.rel = RELVALUE_UNJUDGED ∨ 0 ≤ x.rel := by
  have hk := merged_map_key (qsort comp_docno (ranked_docno_info epi tr)) max_rel qrels
  have hD := docno_order_facts epi tr hdup
  have hrank : ((merged (qsort comp_docno (ranked_docno_info epi tr)) max_rel qrels).map
        (fun d => d.rank)).Perm (List.range' 1 (ranked_docno_info epi tr).length) := by
    rw [map_rank_of_key hk]; exact hD.2
  refine ⟨hrank, ?_, ?_, ?_⟩
  · have := hrank.length_eq
    simpa using this
  · apply by_rank_map_key _ _ _ (ranked_docno_info_map_rank epi tr)
    rw [hk]
    exact (qsort_perm _ _).map key
  · exact merge_qrels_rel_cases _ _ _

/-- Normal mode: the vector lists the `rel` values of the merged records in
rank order, and the counters count them. -/
theorem group_normal (epi : EPI) (tr : List TEXT_RESULTS)
    (hdup : has_duplicate (qsort comp_docno (ranked_docno_info epi tr)) = false)
    (max_rel : Int) (qrels : List TEXT_QRELS) (last : Bool) (stale : RES_RELS)
    (slice : List Int) (hsl : slice.length = (ranked_docno_info epi tr).length)
    (hf : epi.judged_docs_only_flag = false) :
    let r := (form_jg epi max_rel last stale slice
      (qsort comp_docno (ranked_docno_info epi tr)) qrels).1
    let B := by_rank (merged (qsort comp_docno (ranked_docno_info epi tr)) max_rel qrels)
    r.results_rel_list = B.map (fun d => d.rel) ∧
      r.num_ret = (ranked_docno_info epi tr).length ∧
      r.num_nonpool = B.countP (fun d => decide (d.rel = RELVALUE_NONPOOL)) ∧
      r.num_unjudged_in_pool = B.countP (fun d => decide (d.rel = RELVALUE_UNJUDGED)) ∧
      r.num_rel_ret = B.countP (fun d => decide
        (d.rel ≠ RELVALUE_NONPOOL ∧ d.rel ≠ RELVALUE_UNJUDGED ∧ epi.relevance_level ≤ d.rel)) := by
  intro r B
  obtain ⟨h1, h2, h3, h4, h5, -⟩ := form_jg_normal epi max_rel last stale slice
    (qsort comp_docno (ranked_docno_info epi tr)) qrels hf
  obtain ⟨hrank, hlen, -, -⟩ := merged_facts epi tr hdup max_rel qrels
  have hp := by_rank_perm (merged (qsort comp_docno (ranked_docno_info epi tr)) max_rel qrels)
  refine ⟨?_, ?_, ?_, ?_, ?_⟩
  · exact h1.trans (normal_loop_vec _ _ _ _ hrank hsl)
  · exact h2.trans hlen
  · rw [show r.num_nonpool = _ from h4, normal_loop_num_nonpool, Nat.zero_add]
    exact (hp.countP_eq _).symm
  · rw [show r.num_unjudged_in_pool = _ from h5, normal_loop_num_unjudged, Nat.zero_add]
    exact (hp.countP_eq _).symm
  · rw [show r.num_rel_ret = _ from h3, normal_loop_num_rel_ret, Nat.zero_add]
    exact (hp.countP_eq _).symm

/-- Judged-docs-only mode: the first `num_ret` slots list the `rel` values of
the judged merged records in rank order. -/
theorem group_judged (epi : EPI) (tr : List TEXT_RESULTS)
    (hdup : has_duplicate (qsort comp_docno (ranked_docno_info epi tr)) = false)
    (max_rel : Int) (qrels : List TEXT_QRELS) (last : Bool) (stale : RES_RELS)
    (slice : List Int) (hsl : slice.length = (ranked_docno_info epi tr).length)
    (hf : epi.judged_docs_only_flag = true) :
    let r := (form_jg epi max_rel last stale slice
      (qsort comp_docno (ranked_docno_info epi tr)) qrels).1
    let F := (by_rank (merged (qsort comp_docno (ranked_docno_info epi tr)) max_rel qrels)).filter
      (fun d => decide (0 ≤ d.rel))
    r.results_rel_list.take r.num_ret = F.map (fun d => d.rel) ∧
      r.num_ret = F.length ∧
      r.num_nonpool = 0 ∧ r.num_unjudged_in_pool = 0 ∧
      r.num_rel_ret = F.countP (fun d => decide (epi.relevance_level ≤ d.rel)) := by
  intro r F
  obtain ⟨h1, h2, h3, h4, h5, -⟩ := form_jg_judged epi max_rel last stale slice
    (qsort comp_docno (ranked_docno_info epi tr)) qrels hf
  obtain ⟨hrank, hlen, -, -⟩ := merged_facts epi tr hdup max_rel qrels
  have hnd : ((merged (qsort comp_docno (ranked_docno_info epi tr)) max_rel qrels).map
      (fun d => d.rank)).Nodup := hrank.nodup_iff.mpr (List.nodup_range' 1 _)
  have htw := qsort_rank_judged_takeWhile _ hnd
  have hnp := judged_loop_num_nonpool epi.relevance_level
    (qsort comp_rank_judged (merged (qsort comp_docno (ranked_docno_info epi tr)) max_rel qrels))
    0 { results_rel_list := slice, num_ret := 0, num_rel_ret := 0, num_nonpool := 0,
        num_unjudged_in_pool := 0 }
  refine ⟨?_, ?_, ?_, ?_, ?_⟩
  · rw [show r.results_rel_list = _ from h1, show r.num_ret = _ from h2, judged_loop_vec, htw]
    · simp
    · simp only [qsort_length, hlen, hsl]
      omega
  · rw [show r.num_ret = _ from h2, judged_loop_num_ret, htw, Nat.zero_add]
  · exact h4.trans hnp.1
  · exact h5.trans hnp.2
  · rw [show r.num_rel_ret = _ from h3, judged_loop_num_rel_ret, htw, Nat.zero_add]

/-- The histogram and `num_rel` of a group, in terms of its judgments. -/
theorem group_levels (epi : EPI) (max_rel : Int) (last : Bool) (stale : RES_RELS)
    (slice : List Int) (di : List DOCNO_INFO) (qrels : List TEXT_QRELS)
    (h0 : 0 ≤ max_rel) (hmax : ∀ q ∈ qrels, q.rel ≤ max_rel) :
    let r := (form_jg epi max_rel last stale slice di qrels).1
    r.rel_levels.length = (max_rel + 1).toNat ∧
      (∀ L : Nat, r.rel_levels.getD L 0 = qrels.countP (fun q => decide (q.rel = (L : Int)))) ∧
      r.rel_levels.sum = qrels.countP (fun q => decide (0 ≤ q.rel)) ∧
      r.num_rel = sum_levels_ge epi.relevance_level r.rel_levels ∧
      r.num_rel = qrels.countP (fun q => decide (max epi.relevance_level 0 ≤ q.rel)) := by
  intro r
  have hr : ∀ q ∈ qrels, q.rel < ((zero_levels max_rel).length : Int) := by
    intro q hq
    have := hmax q hq
    rw [zero_levels_length]
    omega
  have hl : r.rel_levels = finish_counting qrels (zero_levels max_rel) :=
    form_jg_rel_levels epi max_rel last stale slice di qrels
  have hn : r.num_rel = sum_levels_ge epi.relevance_level
      (finish_counting qrels (zero_levels max_rel)) :=
    form_jg_num_rel epi max_rel last stale slice di qrels
  refine ⟨?_, ?_, ?_, ?_, ?_⟩
  · rw [hl, finish_counting_length, zero_levels_length]
  · intro L
    rw [hl, finish_counting_getD _ _ _ hr, zero_levels_getD, Nat.zero_add]
  · rw [hl, finish_counting_sum _ _ hr, zero_levels_sum, Nat.zero_add]
  · rw [hn, hl]
  · rw [hn, finish_counting_sum_levels _ _ _ hr, zero_levels_sum_levels, Nat.zero_add]

/-! ## Claims -/

theorem copy_results_map_docno (l : List TEXT_RESULTS) :
    (copy_results l).map (fun d => d.docno) = l.map (fun t => t.docno) := by
  simp [copy_results, List.map_map, Function.comp_def]

/-- A list with pairwise distinct identifiers has an arrangement in the order of
the specification. -/
theorem exists_spec_sorted (l : List TEXT_RESULTS) (hd : (l.map (fun t => t.docno)).Nodup)
    (hnan : ∀ t ∈ l, t.sim ≠ DOUBLE.nan) :
    ∃ srt : List TEXT_RESULTS, srt.Perm l ∧ srt.Pairwise spec_before := by
  have hp := qsort_perm comp_sim_docno (copy_results l)
  have hs := qsort_copy_results_sorted l hnan
  have hq : ∀ d ∈ qsort comp_sim_docno (copy_results l), d.sim ≠ DOUBLE.nan :=
    fun d hd => copy_results_no_nan l hnan d (hp.mem_iff.1 hd)
  have hn : (qsort comp_sim_docno (copy_results l)).Pairwise
      (fun a b => a.docno ≠ b.docno) := by
    have h1 : ((qsort comp_sim_docno (copy_results l)).map (fun d => d.docno)).Nodup := by
      rw [(hp.map _).nodup_iff, copy_results_map_docno]
      exact hd
    unfold List.Nodup at h1
    rw [List.pairwise_map] at h1
    exact h1
  refine ⟨(qsort comp_sim_docno (copy_results l)).map
    (fun d => ({ docno := d.docno, sim := d.sim } : TEXT_RESULTS)), ?_, ?_⟩
  · have h2 := hp.map (fun d => ({ docno := d.docno, sim := d.sim } : TEXT_RESULTS))
    have h3 : (copy_results l).map
        (fun d => ({ docno := d.docno, sim := d.sim } : TEXT_RESULTS)) = l := by
      simp [copy_results, List.map_map, Function.comp_def]
    rw [h3] at h2
    exact h2
  · rw [List.pairwise_map]
    refine (hs.and hn).imp_of_mem ?_
    intro a b hma hmb h
    have h1 := (comp_sim_docno_le_iff a b (hq a hma) (hq b hmb)).mp h.1
    rcases h1 with h1 | ⟨h1, h2⟩
    · exact Or.inl h1
    · exact Or.inr ⟨h1, lt_of_le_of_ne h2 (fun e => h.2 e.symm)⟩

/-- C1, amended: for a retrieved list with pairwise distinct identifiers none of
whose scores is NaN and a bound
`m = max_num_docs_per_topic`, the list has an arrangement `srt` by descending
score with ties broken by descending identifier, and for every such arrangement
the records that receive a rank are the first `N = min(n, m)` items of `srt`,
the `r`-th of them with rank `r`; no other item is in `docno_info` when the
groups are processed: in a call that returns 1 every group has at most `N`
vector entries, the records the merge with the group's judgments leaves are,
in rank order and up to `rel`, exactly these `N` records, in normal mode the
vector lists their `rel` values in rank order, and in judged-docs-only mode
those of the judged ones among them. -/
theorem te_form_res_rels_jg_ranks (epi : EPI) (text_results : List TEXT_RESULTS)
    (hd : (text_results.map (fun t => t.docno)).Nodup)
    (hnan : ∀ t ∈ text_results, t.sim ≠ DOUBLE.nan) :
    (∃ srt : List TEXT_RESULTS, srt.Perm text_results ∧ srt.Pairwise spec_before) ∧
    ∀ srt : List TEXT_RESULTS, srt.Perm text_results → srt.Pairwise spec_before →
      ranked_docno_info epi text_results =
          add_ranks 0 (copy_results (srt.take epi.max_num_docs_per_topic)) ∧
        (ranked_docno_info epi text_results).length =
          min text_results.length epi.max_num_docs_per_topic ∧
        (∀ r, r < min text_results.length epi.max_num_docs_per_topic →
          ∃ x d, srt[r]? = some x ∧ (ranked_docno_info epi text_results)[r]? = some d ∧
            d.docno = x.docno ∧ d.sim = x.sim ∧ d.rank = r + 1) ∧
        (∀ (s : Session) (rel_info : REL_INFO) (results : RESULTS),
          results.text_results = text_results →
          (te_form_res_rels_jg s epi rel_info results).ret = 1 →
          ∃ rr, (te_form_res_rels_jg s epi rel_info results).res_rels = some rr ∧
            List.Forall₂
              (fun r qrels =>
                r.num_ret ≤ min text_results.length epi.max_num_docs_per_topic ∧
                (by_rank (merged (qsort comp_docno (ranked_docno_info epi text_results))
                    (find_max_rel rel_info.text_qrels_jg) qrels)).map key =
                  (ranked_docno_info epi text_results).map key ∧
                (epi.judged_docs_only_flag = false →
                  r.num_ret = min text_results.length epi.max_num_docs_per_topic ∧
                  r.results_rel_list =
                    (by_rank (merged (qsort comp_docno (ranked_docno_info epi text_results))
                      (find_max_rel rel_info.text_qrels_jg) qrels)).map (fun d => d.rel)) ∧
                (epi.judged_docs_only_flag = true →
                  r.results_rel_list.take r.num_ret =
                    ((by_rank (merged (qsort comp_docno (ranked_docno_info epi text_results))
                      (find_max_rel rel_info.text_qrels_jg) qrels)).filter
                        (fun d => decide (0 ≤ d.rel))).map (fun d => d.rel)))
              rr.jgs rel_info.text_qrels_jg) := by
  refine ⟨exists_spec_sorted text_results hd hnan, ?_⟩
  intro srt hp hs
  have hlen := ranked_docno_info_length epi text_results
  have heq : ranked_docno_info epi text_results =
      add_ranks 0 (copy_results (srt.take epi.max_num_docs_per_topic)) := by
    unfold ranked_docno_info
    rw [qsort_copy_results_of_sorted hp hnan hs]
    simp [copy_results, List.map_take]
  refine ⟨heq, hlen, ?_, ?_⟩
  · intro r hr
    have hr1 : r < (copy_results (srt.take epi.max_num_docs_per_topic)).length := by
      have := congrArg List.length heq
      rw [hlen, add_ranks_length] at this
      omega
    have hr2 : r < (srt.take epi.max_num_docs_per_topic).length := by
      simpa [copy_results] using hr1
    have hr3 : r < srt.length := by
      rw [List.length_take] at hr2; omega
    refine ⟨srt[r], { (copy_results (srt.take epi.max_num_docs_per_topic))[r] with
      rank := 0 + r + 1 }, List.getElem?_eq_getElem hr3, ?_, ?_, ?_, ?_⟩
    · rw [heq, add_ranks_getElem 0 _ r hr1]
    · simp [copy_results]
    · simp [copy_results]
    · simp
  · intro s rel_info results hres h1
    subst hres
    obtain ⟨rr, hrr, -, -, hall⟩ := te_groups s epi rel_info results h1
    obtain ⟨hdup, -⟩ := te_fresh s epi rel_info results h1
    refine ⟨rr, hrr, hall.imp ?_⟩
    rintro r qrels ⟨-, last, stale, slice, hsl, rfl⟩
    rw [← hlen]
    obtain ⟨-, hmlen, hkey, -⟩ := merged_facts epi results.text_results hdup
      (find_max_rel rel_info.text_qrels_jg) qrels
    cases hf : epi.judged_docs_only_flag with
    | false =>
      obtain ⟨hv, hn, -⟩ := group_normal epi results.text_results hdup _ qrels last stale slice
        hsl hf
      exact ⟨le_of_eq hn, hkey, fun _ => ⟨hn, hv⟩, fun h => absurd h (by decide)⟩
    | true =>
      obtain ⟨hv, hn, -⟩ := group_judged epi results.text_results hdup _ qrels last stale slice
        hsl hf
      refine ⟨?_, hkey, fun h => absurd h (by decide), fun _ => hv⟩
      rw [hn]
      refine le_trans (List.length_filter_le _ _) ?_
      rw [(by_rank_perm _).length_eq]
      exact le_of_eq hmlen

theorem pairwise_mem_or {α : Type} {R : α → α → Prop} :
    ∀ {l : List α}, l.Pairwise R → ∀ x ∈ l, ∀ y ∈ l, x ≠ y → R x y ∨ R y x := by
  intro l h
  induction h with
  | nil => intro x hx; cases hx
  | cons hall _ ih =>
    intro x hx y hy hxy
    rcases List.mem_cons.1 hx with ex | ex <;> rcases List.mem_cons.1 hy with ey | ey
    · exact absurd (ex.trans ey.symm) hxy
    · exact Or.inl (ex ▸ hall y ey)
    · exact Or.inr (ey ▸ hall x ex)
    · exact ih x ex y ey hxy

/-- C1, counterexample: the retrieved list c (score 1), b (NaN), a (score 2) has
distinct identifiers; the call returns 1 and gives rank 1 to c, rank 2 to b and
rank 3 to a, so that the document of score 1 is ranked before the document of
score 2 (the vector is `[1, 0, 2]` for the judgments a:2, b:0, c:1); and the
list has no arrangement by descending score with ties broken by descending
identifier. -/
theorem te_form_res_rels_jg_nan_ranks :
    (nan_results.text_results.map (fun t => t.docno)).Nodup ∧
    (ranked_docno_info ex_epi nan_results.text_results).map (fun d => (d.docno, d.sim, d.rank)) =
      [("c", 1, 1), ("b", DOUBLE.nan, 2), ("a", 2, 3)] ∧
    (te_form_res_rels_jg Session.init ex_epi nan_rel_info nan_results).ret = 1 ∧
    ((te_form_res_rels_jg Session.init ex_epi nan_rel_info nan_results).res_rels.map
      (fun rr => rr.jgs.map (fun r => r.results_rel_list))) = some [[1, 0, 2]] ∧
    ¬ ∃ srt : List TEXT_RESULTS, srt.Perm nan_results.text_results ∧
        srt.Pairwise spec_before := by
  refine ⟨by decide, by decide, by decide, by decide, ?_⟩
  rintro ⟨srt, hp, hs⟩
  have hb : (⟨"b", DOUBLE.nan⟩ : TEXT_RESULTS) ∈ srt := hp.mem_iff.2 (by decide)
  have ha : (⟨"a", 2⟩ : TEXT_RESULTS) ∈ srt := hp.mem_iff.2 (by decide)
  rcases pairwise_mem_or hs _ hb _ ha (by decide) with h | h
  · revert h
    unfold spec_before
    decide
  · revert h
    unfold spec_before
    decide

/-- The return value of a call that does not hit the cache and passes the
format check is decided by the duplicate check alone. -/
theorem te_ret_of_fresh (s : Session) (epi : EPI) (rel_info : REL_INFO) (results : RESULTS)
    (hq : strcmp s.current_query results.qid ≠ 0)
    (hf1 : strcmp "qrels_jg" rel_info.rel_format = 0)
    (hf2 : strcmp "trec_results" results.ret_format = 0) :
    (te_form_res_rels_jg s epi rel_info results).ret =
      if has_duplicate (qsort comp_docno (ranked_docno_info epi results.text_results)) = true
      then UNDEF else 1 := by
  unfold te_form_res_rels_jg
  rw [if_neg hq, if_neg (by rw [hf1, hf2]; simp)]
  simp only
  split_ifs <;> rfl

/-- C2 (counterexample): `d1` occurs twice in the retrieved list, once beyond
the cut at `max_num_docs_per_topic = 2`, and the call returns 1. -/
theorem duplicate_beyond_cutoff_accepted :
    ¬ (dup_results.text_results.map (fun t => t.docno)).Nodup ∧
      (te_form_res_rels_jg Session.init dup_epi ex_rel_info dup_results).ret = 1 := by
  decide

/-- C2 (amended): a call that does not hit the cache and passes the format
check returns UNDEF exactly when two of the retained records (the first
`min(n, max_num_docs_per_topic)` of the sort by score) share a docno, whatever
their scores; otherwise it returns 1, in particular when all identifiers of the
retrieved list are distinct. -/
theorem te_form_res_rels_jg_duplicates (s : Session) (epi : EPI) (rel_info : REL_INFO)
    (results : RESULTS)
    (hq : strcmp s.current_query results.qid ≠ 0)
    (hf1 : strcmp "qrels_jg" rel_info.rel_format = 0)
    (hf2 : strcmp "trec_results" results.ret_format = 0) :
    ((te_form_res_rels_jg s epi rel_info results).ret = UNDEF ↔
        ¬ ((ranked_docno_info epi results.text_results).map (fun d => d.docno)).Nodup) ∧
      ((te_form_res_rels_jg s epi rel_info results).ret = 1 ↔
        ((ranked_docno_info epi results.text_results).map (fun d => d.docno)).Nodup) ∧
      ((results.text_results.map (fun t => t.docno)).Nodup →
        (te_form_res_rels_jg s epi rel_info results).ret = 1) := by
  have hret := te_ret_of_fresh s epi rel_info results hq hf1 hf2
  have hiff := has_duplicate_qsort_iff (ranked_docno_info epi results.text_results)
  have h1 : (te_form_res_rels_jg s epi rel_info results).ret = 1 ↔
      ((ranked_docno_info epi results.text_results).map (fun d => d.docno)).Nodup := by
    rw [hret, ← hiff]
    cases has_duplicate (qsort comp_docno (ranked_docno_info epi results.text_results)) <;>
      decide
  have h2 : (te_form_res_rels_jg s epi rel_info results).ret = UNDEF ↔
      ¬ ((ranked_docno_info epi results.text_results).map (fun d => d.docno)).Nodup := by
    rw [hret, ← hiff]
    cases has_duplicate (qsort comp_docno (ranked_docno_info epi results.text_results)) <;>
      decide
  refine ⟨h2, h1, ?_⟩
  intro hn
  rw [h1]
  unfold ranked_docno_info
  rw [add_ranks_map_docno]
  have hsub : List.Sublist
      (((qsort comp_sim_docno (copy_results results.text_results)).take
        epi.max_num_docs_per_topic).map (fun d => d.docno))
      ((qsort comp_sim_docno (copy_results results.text_results)).map (fun d => d.docno)) :=
    (List.take_sublist _ _).map _
  refine List.Nodup.sublist hsub ?_
  rw [((qsort_perm comp_sim_docno _).map _).nodup_iff, copy_results_map_docno]
  exact hn

/-- C2 (witness): the worked example of the specification does not hit the
cache, passes the format check and has distinct identifiers. -/
theorem te_form_res_rels_jg_duplicates_witness :
    ((te_form_res_rels_jg Session.init ex_epi ex_rel_info ex_results).ret = UNDEF ↔
        ¬ ((ranked_docno_info ex_epi ex_results.text_results).map (fun d => d.docno)).Nodup) ∧
      ((te_form_res_rels_jg Session.init ex_epi ex_rel_info ex_results).ret = 1 ↔
        ((ranked_docno_info ex_epi ex_results.text_results).map (fun d => d.docno)).Nodup) ∧
      ((ex_results.text_results.map (fun t => t.docno)).Nodup →
        (te_form_res_rels_jg Session.init ex_epi ex_rel_info ex_results).ret = 1) :=
  te_form_res_rels_jg_duplicates Session.init ex_epi ex_rel_info ex_results
    (by decide) (by decide) (by decide)

/-- C1 (witness): the retrieved list of the worked example has distinct
identifiers and no NaN score. -/
theorem te_form_res_rels_jg_ranks_witness :
    (ex_results.text_results.map (fun t => t.docno)).Nodup ∧
    (∀ t ∈ ex_results.text_results, t.sim ≠ DOUBLE.nan) ∧
    ((∃ srt : List TEXT_RESULTS, srt.Perm ex_results.text_results ∧
        srt.Pairwise spec_before) ∧
    ∀ srt : List TEXT_RESULTS, srt.Perm ex_results.text_results → srt.Pairwise spec_before →
      ranked_docno_info ex_epi ex_results.text_results =
          add_ranks 0 (copy_results (srt.take ex_epi.max_num_docs_per_topic)) ∧
        (ranked_docno_info ex_epi ex_results.text_results).length =
          min ex_results.text_results.length ex_epi.max_num_docs_per_topic ∧
        (∀ r, r < min ex_results.text_results.length ex_epi.max_num_docs_per_topic →
          ∃ x d, srt[r]? = some x ∧
            (ranked_docno_info ex_epi ex_results.text_results)[r]? = some d ∧
            d.docno = x.docno ∧ d.sim = x.sim ∧ d.rank = r + 1) ∧
        (∀ (s : Session) (rel_info : REL_INFO) (results : RESULTS),
          results.text_results = ex_results.text_results →
          (te_form_res_rels_jg s ex_epi rel_info results).ret = 1 →
          ∃ rr, (te_form_res_rels_jg s ex_epi rel_info results).res_rels = some rr ∧
            List.Forall₂
              (fun r qrels =>
                r.num_ret ≤
                  min ex_results.text_results.length ex_epi.max_num_docs_per_topic ∧
                (by_rank (merged
                    (qsort comp_docno (ranked_docno_info ex_epi ex_results.text_results))
                    (find_max_rel rel_info.text_qrels_jg) qrels)).map key =
                  (ranked_docno_info ex_epi ex_results.text_results).map key ∧
                (ex_epi.judged_docs_only_flag = false →
                  r.num_ret =
                    min ex_results.text_results.length ex_epi.max_num_docs_per_topic ∧
                  r.results_rel_list =
                    (by_rank (merged
                      (qsort comp_docno (ranked_docno_info ex_epi ex_results.text_results))
                      (find_max_rel rel_info.text_qrels_jg) qrels)).map (fun d => d.rel)) ∧
                (ex_epi.judged_docs_only_flag = true →
                  r.results_rel_list.take r.num_ret =
                    ((by_rank (merged
                      (qsort comp_docno (ranked_docno_info ex_epi ex_results.text_results))
                      (find_max_rel rel_info.text_qrels_jg) qrels)).filter
                        (fun d => decide (0 ≤ d.rel))).map (fun d => d.rel)))
              rr.jgs rel_info.text_qrels_jg)) :=
  ⟨by decide, by decide,
    te_form_res_rels_jg_ranks ex_epi ex_results.text_results (by decide) (by decide)⟩

theorem ranked_getElem_rank (epi : EPI) (tr : List TEXT_RESULTS) (i : Nat)
    (hi : i < (ranked_docno_info epi tr).length) :
    ((ranked_docno_info epi tr)[i]).rank = i + 1 := by
  have h := ranked_docno_info_map_rank epi tr
  have h3 : ((ranked_docno_info epi tr).map (fun d => d.rank))[i]? =
      (List.range' 1 (ranked_docno_info epi tr).length)[i]? := by rw [← h]
  rw [List.getElem?_map, List.getElem?_eq_getElem hi,
    List.getElem?_eq_getElem (by simpa using hi), List.getElem_range'] at h3
  simp only [Option.map_some', Option.some.injEq] at h3
  omega

/-- C3: in a call that returns 1, for every judgment group whose entries are
sorted ascending by docno without duplicates, the merge assigns to every
retained record the category of its docno (NON_POOL without a judgment,
IN_POOL_UNJUDGED for a negative level, the level otherwise), and in normal mode
`results_rel_list[rank(d) - 1]` is the category of `d` for every retained
record `d`. -/
theorem te_form_res_rels_jg_category (s : Session) (epi : EPI) (rel_info : REL_INFO)
    (results : RESULTS) (h : (te_form_res_rels_jg s epi rel_info results).ret = 1) :
    ∃ rr, (te_form_res_rels_jg s epi rel_info results).res_rels = some rr ∧
      List.Forall₂
        (fun r qrels =>
          qrels.Pairwise (fun a b => a.docno < b.docno) →
          merged (qsort comp_docno (ranked_docno_info epi results.text_results))
              (find_max_rel rel_info.text_qrels_jg) qrels =
            (qsort comp_docno (ranked_docno_info epi results.text_results)).map
              (fun d => { d with rel := category qrels d.docno }) ∧
          (epi.judged_docs_only_flag = false →
            r.results_rel_list =
              (ranked_docno_info epi results.text_results).map
                (fun d => category qrels d.docno) ∧
            ∀ d ∈ ranked_docno_info epi results.text_results,
              r.results_rel_list[d.rank - 1]? = some (category qrels d.docno)))
        rr.jgs rel_info.text_qrels_jg := by
  obtain ⟨rr, hrr, -, -, hall⟩ := te_groups s epi rel_info results h
  obtain ⟨hdup, -⟩ := te_fresh s epi rel_info results h
  refine ⟨rr, hrr, hall.imp ?_⟩
  rintro r qrels ⟨-, last, stale, slice, hsl, rfl⟩ hq
  have hD := docno_order_facts epi results.text_results hdup
  have hM : merged (qsort comp_docno (ranked_docno_info epi results.text_results))
      (find_max_rel rel_info.text_qrels_jg) qrels =
      (qsort comp_docno (ranked_docno_info epi results.text_results)).map
        (fun d => { d with rel := category qrels d.docno }) :=
    merge_qrels_category _ _ _ hD.1 hq
  refine ⟨hM, ?_⟩
  intro hf
  obtain ⟨hv, -⟩ := group_normal epi results.text_results hdup
    (find_max_rel rel_info.text_qrels_jg) qrels last stale slice hsl hf
  obtain ⟨-, -, hkey, -⟩ := merged_facts epi results.text_results hdup
    (find_max_rel rel_info.text_qrels_jg) qrels
  have hvec : (form_jg epi (find_max_rel rel_info.text_qrels_jg) last stale slice
      (qsort comp_docno (ranked_docno_info epi results.text_results)) qrels).1.results_rel_list =
      (ranked_docno_info epi results.text_results).map (fun d => category qrels d.docno) := by
    rw [hv]
    have h1 : (by_rank (merged (qsort comp_docno (ranked_docno_info epi results.text_results))
        (find_max_rel rel_info.text_qrels_jg) qrels)).map (fun d => d.rel) =
        (by_rank (merged (qsort comp_docno (ranked_docno_info epi results.text_results))
        (find_max_rel rel_info.text_qrels_jg) qrels)).map (fun d => category qrels d.docno) := by
      apply List.map_congr_left
      intro x hx
      have hx' := (by_rank_perm _).mem_iff.mp hx
      rw [hM, List.mem_map] at hx'
      obtain ⟨d, -, rfl⟩ := hx'
      rfl
    rw [h1]
    have h2 := congrArg (List.map (fun k : String × DOUBLE × Nat => category qrels k.1)) hkey
    simpa [List.map_map, key, Function.comp_def] using h2
  refine ⟨hvec, ?_⟩
  intro d hd
  obtain ⟨i, hi, rfl⟩ := List.mem_iff_getElem.mp hd
  rw [ranked_getElem_rank epi results.text_results i hi, hvec]
  simp only [Nat.add_sub_cancel, List.getElem?_map, List.getElem?_eq_getElem hi,
    Option.map_some']

/-- C3 (witness): the worked example of the specification returns 1. -/
theorem te_form_res_rels_jg_category_witness :
    (te_form_res_rels_jg Session.init ex_epi ex_rel_info ex_results).ret = 1 ∧
    ∃ rr, (te_form_res_rels_jg Session.init ex_epi ex_rel_info ex_results).res_rels = some rr ∧
      List.Forall₂
        (fun r qrels =>
          qrels.Pairwise (fun a b => a.docno < b.docno) →
          merged (qsort comp_docno (ranked_docno_info ex_epi ex_results.text_results))
              (find_max_rel ex_rel_info.text_qrels_jg) qrels =
            (qsort comp_docno (ranked_docno_info ex_epi ex_results.text_results)).map
              (fun d => { d with rel := category qrels d.docno }) ∧
          (ex_epi.judged_docs_only_flag = false →
            r.results_rel_list =
              (ranked_docno_info ex_epi ex_results.text_results).map
                (fun d => category qrels d.docno) ∧
            ∀ d ∈ ranked_docno_info ex_epi ex_results.text_results,
              r.results_rel_list[d.rank - 1]? = some (category qrels d.docno)))
        rr.jgs ex_rel_info.text_qrels_jg :=
  ⟨by decide,
    te_form_res_rels_jg_category Session.init ex_epi ex_rel_info ex_results (by decide)⟩

/-- C4: in a call that returns 1, for every judgment group and every level `L`
the bucket `rel_levels[L]` is the number of the group's judgments with level
`L`, whether or not their docno was retrieved; the buckets sum to the number of
judgments with a non-negative level, so that a judgment with a negative level
is counted in no bucket; the slice has `max_rel + 1` buckets. -/
theorem te_form_res_rels_jg_histogram (s : Session) (epi : EPI) (rel_info : REL_INFO)
    (results : RESULTS) (h : (te_form_res_rels_jg s epi rel_info results).ret = 1) :
    ∃ rr, (te_form_res_rels_jg s epi rel_info results).res_rels = some rr ∧
      List.Forall₂
        (fun r qrels =>
          (∀ L : Nat, r.rel_levels.getD L 0 =
            qrels.countP (fun q => decide (q.rel = (L : Int)))) ∧
          r.rel_levels.sum = qrels.countP (fun q => decide (0 ≤ q.rel)) ∧
          r.rel_levels.length = (find_max_rel rel_info.text_qrels_jg + 1).toNat)
        rr.jgs rel_info.text_qrels_jg := by
  obtain ⟨rr, hrr, -, -, hall⟩ := te_groups s epi rel_info results h
  refine ⟨rr, hrr, hall.imp ?_⟩
  rintro r qrels ⟨hmem, last, stale, slice, -, rfl⟩
  obtain ⟨h1, h2, h3, -, -⟩ := group_levels epi (find_max_rel rel_info.text_qrels_jg) last
    stale slice (qsort comp_docno (ranked_docno_info epi results.text_results)) qrels
    (find_max_rel_nonneg _) (find_max_rel_ge _ qrels hmem)
  exact ⟨h2, h3, h1⟩

/-- C4 (witness): the worked example of the specification returns 1. -/
theorem te_form_res_rels_jg_histogram_witness :
    (te_form_res_rels_jg Session.init ex_epi ex_rel_info ex_results).ret = 1 ∧
    ∃ rr, (te_form_res_rels_jg Session.init ex_epi ex_rel_info ex_results).res_rels = some rr ∧
      List.Forall₂
        (fun r qrels =>
          (∀ L : Nat, r.rel_levels.getD L 0 =
            qrels.countP (fun q => decide (q.rel = (L : Int)))) ∧
          r.rel_levels.sum = qrels.countP (fun q => decide (0 ≤ q.rel)) ∧
          r.rel_levels.length = (find_max_rel ex_rel_info.text_qrels_jg + 1).toNat)
        rr.jgs ex_rel_info.text_qrels_jg :=
  ⟨by decide,
    te_form_res_rels_jg_histogram Session.init ex_epi ex_rel_info ex_results (by decide)⟩

/-- C5: in a call that returns 1, for every judgment group `num_rel` is the sum
of the group's histogram buckets at levels `≥ relevance_level`, which is the
number of the group's judgments with level `≥ max(relevance_level, 0)`,
retrieved or not. -/
theorem te_form_res_rels_jg_num_rel (s : Session) (epi : EPI) (rel_info : REL_INFO)
    (results : RESULTS) (h : (te_form_res_rels_jg s epi rel_info results).ret = 1) :
    ∃ rr, (te_form_res_rels_jg s epi rel_info results).res_rels = some rr ∧
      List.Forall₂
        (fun r qrels =>
          r.num_rel = sum_levels_ge epi.relevance_level r.rel_levels ∧
          r.num_rel = qrels.countP (fun q => decide (max epi.relevance_level 0 ≤ q.rel)))
        rr.jgs rel_info.text_qrels_jg := by
  obtain ⟨rr, hrr, -, -, hall⟩ := te_groups s epi rel_info results h
  refine ⟨rr, hrr, hall.imp ?_⟩
  rintro r qrels ⟨hmem, last, stale, slice, -, rfl⟩
  obtain ⟨-, -, -, h4, h5⟩ := group_levels epi (find_max_rel rel_info.text_qrels_jg) last
    stale slice (qsort comp_docno (ranked_docno_info epi results.text_results)) qrels
    (find_max_rel_nonneg _) (find_max_rel_ge _ qrels hmem)
  exact ⟨h4, h5⟩

/-- C5 (witness): the worked example of the specification returns 1. -/
theorem te_form_res_rels_jg_num_rel_witness :
    (te_form_res_rels_jg Session.init ex_epi ex_rel_info ex_results).ret = 1 ∧
    ∃ rr, (te_form_res_rels_jg Session.init ex_epi ex_rel_info ex_results).res_rels = some rr ∧
      List.Forall₂
        (fun r qrels =>
          r.num_rel = sum_levels_ge ex_epi.relevance_level r.rel_levels ∧
          r.num_rel = qrels.countP (fun q => decide (max ex_epi.relevance_level 0 ≤ q.rel)))
        rr.jgs ex_rel_info.text_qrels_jg :=
  ⟨by decide,
    te_form_res_rels_jg_num_rel Session.init ex_epi ex_rel_info ex_results (by decide)⟩

theorem count_partition (l : List Int)
    (h : ∀ v ∈ l, v = RELVALUE_NONPOOL ∨ v = RELVALUE_UNJUDGED ∨ 0 ≤ v) :
    l.countP (fun v => decide (v = RELVALUE_NONPOOL)) +
        l.countP (fun v => decide (v = RELVALUE_UNJUDGED)) +
        l.countP (fun v => decide (0 ≤ v)) = l.length := by
  induction l with
  | nil => rfl
  | cons v l ih =>
    have ih' := ih (fun x hx => h x (List.mem_cons_of_mem _ hx))
    rw [countP_cons_decide (fun v : Int => v = RELVALUE_NONPOOL),
      countP_cons_decide (fun v : Int => v = RELVALUE_UNJUDGED),
      countP_cons_decide (fun v : Int => 0 ≤ v), List.length_cons]
    have hv := h v (List.mem_cons_self _ _)
    unfold RELVALUE_NONPOOL RELVALUE_UNJUDGED at *
    split_ifs <;> omega

theorem map_pred_range' (N : Nat) :
    (List.range' 1 N).map (fun r => r - 1) = List.range N := by
  apply List.ext_getElem
  · simp
  · intro i h1 h2
    simp

/-- The entries of the vector of a group in normal mode are categories. -/
theorem group_normal_cases (epi : EPI) (tr : List TEXT_RESULTS)
    (hdup : has_duplicate (qsort comp_docno (ranked_docno_info epi tr)) = false)
    (max_rel : Int) (qrels : List TEXT_QRELS) :
    ∀ v ∈ (by_rank (merged (qsort comp_docno (ranked_docno_info epi tr)) max_rel qrels)).map
        (fun d => d.rel),
      v = RELVALUE_NONPOOL ∨ v = RELVALUE_UNJUDGED ∨ 0 ≤ v := by
  intro v hv
  rw [List.mem_map] at hv
  obtain ⟨x, hx, rfl⟩ := hv
  exact (merged_facts epi tr hdup max_rel qrels).2.2.2 x ((by_rank_perm _).mem_iff.mp hx)

/-- C6: in a call that returns 1, in normal and in judged-docs-only mode and
for every `relevance_level` `t`, `num_rel_ret` of every group is the number of
entries `v` of `results_rel_list[0 .. num_ret-1]` with `0 ≤ v` and `t ≤ v`;
entries equal to NON_POOL or IN_POOL_UNJUDGED are not counted. -/
theorem te_form_res_rels_jg_num_rel_ret (s : Session) (epi : EPI) (rel_info : REL_INFO)
    (results : RESULTS) (h : (te_form_res_rels_jg s epi rel_info results).ret = 1) :
    ∃ rr, (te_form_res_rels_jg s epi rel_info results).res_rels = some rr ∧
      ∀ r ∈ rr.jgs,
        r.num_rel_ret = (r.results_rel_list.take r.num_ret).countP
          (fun v => decide (0 ≤ v ∧ epi.relevance_level ≤ v)) ∧
        r.num_rel_ret = (r.results_rel_list.take r.num_ret).countP
          (fun v => decide (v ≠ RELVALUE_NONPOOL ∧ v ≠ RELVALUE_UNJUDGED ∧
            epi.relevance_level ≤ v)) := by
  obtain ⟨rr, hrr, -, -, hall⟩ := te_groups s epi rel_info results h
  obtain ⟨hdup, -⟩ := te_fresh s epi rel_info results h
  refine ⟨rr, hrr, ?_⟩
  intro r hr
  obtain ⟨qrels, -, -, last, stale, slice, hsl, rfl⟩ := forall₂_mem_left hall r hr
  obtain ⟨-, hlen, -, hcases⟩ := merged_facts epi results.text_results hdup
    (find_max_rel rel_info.text_qrels_jg) qrels
  have hperm := by_rank_perm (merged (qsort comp_docno
    (ranked_docno_info epi results.text_results)) (find_max_rel rel_info.text_qrels_jg) qrels)
  cases hf : epi.judged_docs_only_flag with
  | false =>
    obtain ⟨hv, hn, -, -, hrel⟩ := group_normal epi results.text_results hdup
      (find_max_rel rel_info.text_qrels_jg) qrels last stale slice hsl hf
    have htake : (form_jg epi (find_max_rel rel_info.text_qrels_jg) last stale slice
        (qsort comp_docno (ranked_docno_info epi results.text_results)) qrels).1.results_rel_list.take
        (form_jg epi (find_max_rel rel_info.text_qrels_jg) last stale slice
        (qsort comp_docno (ranked_docno_info epi results.text_results)) qrels).1.num_ret =
        (by_rank (merged (qsort comp_docno (ranked_docno_info epi results.text_results))
          (find_max_rel rel_info.text_qrels_jg) qrels)).map (fun d => d.rel) := by
      rw [hv, hn]
      apply List.take_of_length_le
      rw [List.length_map, hperm.length_eq, hlen]
    rw [htake, hrel, List.countP_map, List.countP_map]
    refine ⟨?_, rfl⟩
    apply List.countP_congr
    intro x hx
    have hc := hcases x (hperm.mem_iff.mp hx)
    simp only [Function.comp_apply, decide_eq_true_eq]
    unfold RELVALUE_NONPOOL RELVALUE_UNJUDGED at *
    omega
  | true =>
    obtain ⟨hv, -, -, -, hrel⟩ := group_judged epi results.text_results hdup
      (find_max_rel rel_info.text_qrels_jg) qrels last stale slice hsl hf
    rw [hv, hrel, List.countP_map, List.countP_map]
    constructor
    · apply List.countP_congr
      intro x hx
      have hx' : 0 ≤ x.rel := by simpa using (List.mem_filter.mp hx).2
      simp only [Function.comp_apply, decide_eq_true_eq]
      omega
    · apply List.countP_congr
      intro x hx
      have hx' : 0 ≤ x.rel := by simpa using (List.mem_filter.mp hx).2
      simp only [Function.comp_apply, decide_eq_true_eq]
      unfold RELVALUE_NONPOOL RELVALUE_UNJUDGED
      omega

/-- C6 (witness): the worked example of the specification returns 1. -/
theorem te_form_res_rels_jg_num_rel_ret_witness :
    (te_form_res_rels_jg Session.init ex_epi ex_rel_info ex_results).ret = 1 ∧
    ∃ rr, (te_form_res_rels_jg Session.init ex_epi ex_rel_info ex_results).res_rels = some rr ∧
      ∀ r ∈ rr.jgs,
        r.num_rel_ret = (r.results_rel_list.take r.num_ret).countP
          (fun v => decide (0 ≤ v ∧ ex_epi.relevance_level ≤ v)) ∧
        r.num_rel_ret = (r.results_rel_list.take r.num_ret).countP
          (fun v => decide (v ≠ RELVALUE_NONPOOL ∧ v ≠ RELVALUE_UNJUDGED ∧
            ex_epi.relevance_level ≤ v)) :=
  ⟨by decide,
    te_form_res_rels_jg_num_rel_ret Session.init ex_epi ex_rel_info ex_results (by decide)⟩

/-- C7: in a call that returns 1, for every group: in normal mode
`num_ret = min(n, max_num_docs_per_topic)`, the vector has `num_ret` slots, the
slots written by the loop over `docno_info` are `0 .. num_ret-1`, each exactly
once, every entry is a level `≥ 0`, NON_POOL or IN_POOL_UNJUDGED, `num_nonpool`
and `num_unjudged_in_pool` count the NON_POOL and IN_POOL_UNJUDGED entries, and
the three kinds of entries add up to `num_ret`; in judged-docs-only mode
`num_nonpool = num_unjudged_in_pool = 0`. -/
theorem te_form_res_rels_jg_completeness (s : Session) (epi : EPI) (rel_info : REL_INFO)
    (results : RESULTS) (h : (te_form_res_rels_jg s epi rel_info results).ret = 1) :
    ∃ rr, (te_form_res_rels_jg s epi rel_info results).res_rels = some rr ∧
      List.Forall₂
        (fun r qrels =>
          (epi.judged_docs_only_flag = false →
            r.num_ret = min results.text_results.length epi.max_num_docs_per_topic ∧
            r.results_rel_list.length = r.num_ret ∧
            ((merged (qsort comp_docno (ranked_docno_info epi results.text_results))
                (find_max_rel rel_info.text_qrels_jg) qrels).map (fun d => d.rank - 1)).Perm
              (List.range r.num_ret) ∧
            (∀ v ∈ r.results_rel_list,
              0 ≤ v ∨ v = RELVALUE_NONPOOL ∨ v = RELVALUE_UNJUDGED) ∧
            r.num_nonpool = r.results_rel_list.count RELVALUE_NONPOOL ∧
            r.num_unjudged_in_pool = r.results_rel_list.count RELVALUE_UNJUDGED ∧
            r.num_nonpool + r.num_unjudged_in_pool +
              r.results_rel_list.countP (fun v => decide (0 ≤ v)) = r.num_ret) ∧
          (epi.judged_docs_only_flag = true →
            r.num_nonpool = 0 ∧ r.num_unjudged_in_pool = 0))
        rr.jgs rel_info.text_qrels_jg := by
  obtain ⟨rr, hrr, -, -, hall⟩ := te_groups s epi rel_info results h
  obtain ⟨hdup, -⟩ := te_fresh s epi rel_info results h
  refine ⟨rr, hrr, hall.imp ?_⟩
  rintro r qrels ⟨-, last, stale, slice, hsl, rfl⟩
  obtain ⟨hrank, hlen, -, -⟩ := merged_facts epi results.text_results hdup
    (find_max_rel rel_info.text_qrels_jg) qrels
  have hperm := by_rank_perm (merged (qsort comp_docno
    (ranked_docno_info epi results.text_results)) (find_max_rel rel_info.text_qrels_jg) qrels)
  have hcases := group_normal_cases epi results.text_results hdup
    (find_max_rel rel_info.text_qrels_jg) qrels
  constructor
  · intro hf
    obtain ⟨hv, hn, hnp, hun, -⟩ := group_normal epi results.text_results hdup
      (find_max_rel rel_info.text_qrels_jg) qrels last stale slice hsl hf
    have hvl : (form_jg epi (find_max_rel rel_info.text_qrels_jg) last stale slice
        (qsort comp_docno (ranked_docno_info epi results.text_results))
        qrels).1.results_rel_list.length =
        (ranked_docno_info epi results.text_results).length := by
      rw [hv, List.length_map, hperm.length_eq, hlen]
    have hpart := count_partition _ hcases
    rw [List.length_map, hperm.length_eq, hlen] at hpart
    refine ⟨?_, ?_, ?_, ?_, ?_, ?_, ?_⟩
    · rw [hn, ranked_docno_info_length]
    · rw [hvl, hn]
    · rw [hn, ← map_pred_range']
      have := hrank.map (fun r => r - 1)
      rw [List.map_map] at this
      exact this
    · intro v hvm
      rw [hv] at hvm
      rcases hcases v hvm with h1 | h1 | h1
      · exact Or.inr (Or.inl h1)
      · exact Or.inr (Or.inr h1)
      · exact Or.inl h1
    · rw [hnp, hv, List.count, List.countP_map]
      apply List.countP_congr
      intro x _
      simp
    · rw [hun, hv, List.count, List.countP_map]
      apply List.countP_congr
      intro x _
      simp
    · rw [hn, ← hpart, hnp, hun, hv, List.countP_map, List.countP_map, List.countP_map]
      rfl
  · intro hf
    obtain ⟨-, -, hnp, hun, -⟩ := group_judged epi results.text_results hdup
      (find_max_rel rel_info.text_qrels_jg) qrels last stale slice hsl hf
    exact ⟨hnp, hun⟩

/-- C7 (witness): the worked example of the specification returns 1. -/
theorem te_form_res_rels_jg_completeness_witness :
    (te_form_res_rels_jg Session.init ex_epi ex_rel_info ex_results).ret = 1 ∧
    ∃ rr, (te_form_res_rels_jg Session.init ex_epi ex_rel_info ex_results).res_rels = some rr ∧
      List.Forall₂
        (fun r qrels =>
          (ex_epi.judged_docs_only_flag = false →
            r.num_ret = min ex_results.text_results.length ex_epi.max_num_docs_per_topic ∧
            r.results_rel_list.length = r.num_ret ∧
            ((merged (qsort comp_docno (ranked_docno_info ex_epi ex_results.text_results))
                (find_max_rel ex_rel_info.text_qrels_jg) qrels).map (fun d => d.rank - 1)).Perm
              (List.range r.num_ret) ∧
            (∀ v ∈ r.results_rel_list,
              0 ≤ v ∨ v = RELVALUE_NONPOOL ∨ v = RELVALUE_UNJUDGED) ∧
            r.num_nonpool = r.results_rel_list.count RELVALUE_NONPOOL ∧
            r.num_unjudged_in_pool = r.results_rel_list.count RELVALUE_UNJUDGED ∧
            r.num_nonpool + r.num_unjudged_in_pool +
              r.results_rel_list.countP (fun v => decide (0 ≤ v)) = r.num_ret) ∧
          (ex_epi.judged_docs_only_flag = true →
            r.num_nonpool = 0 ∧ r.num_unjudged_in_pool = 0))
        rr.jgs ex_rel_info.text_qrels_jg :=
  ⟨by decide,
    te_form_res_rels_jg_completeness Session.init ex_epi ex_rel_info ex_results (by decide)⟩

theorem forall₂_join {α β γ : Type} {P : α → γ → Prop} {Q : β → γ → Prop}
    {l₁ : List α} {l₂ : List β} {g : List γ}
    (h₁ : List.Forall₂ P l₁ g) (h₂ : List.Forall₂ Q l₂ g) :
    List.Forall₂ (fun a b => ∃ c, P a c ∧ Q b c) l₁ l₂ := by
  induction h₁ generalizing l₂ with
  | nil =>
    cases h₂
    exact List.Forall₂.nil
  | cons hab _ ih =>
    cases h₂ with
    | cons hq hrest => exact List.Forall₂.cons ⟨_, hab, hq⟩ (ih hrest)

/-- The return value 1 does not depend on `judged_docs_only_flag`. -/
theorem te_ret_flag (s : Session) (epi : EPI) (rel_info : REL_INFO) (results : RESULTS)
    (b : Bool) :
    (te_form_res_rels_jg s { epi with judged_docs_only_flag := b } rel_info results).ret =
      (te_form_res_rels_jg s epi rel_info results).ret := by
  unfold te_form_res_rels_jg
  by_cases h1 : strcmp s.current_query results.qid = 0
  · rw [if_pos h1, if_pos h1]
  · rw [if_neg h1, if_neg h1]
    by_cases h2 : strcmp "qrels_jg" rel_info.rel_format ≠ 0 ∨
        strcmp "trec_results" results.ret_format ≠ 0
    · rw [if_pos h2, if_pos h2]
    · rw [if_neg h2, if_neg h2]
      have e : ranked_docno_info { epi with judged_docs_only_flag := b } results.text_results =
          ranked_docno_info epi results.text_results := rfl
      simp only [e]
      split_ifs <;> rfl

/-- C8: when the call in judged-docs-only mode returns 1, the call in normal
mode on the same input returns 1 as well, and for every group the first
`num_ret` entries of the judged-docs-only vector are the normal-mode vector
with every NON_POOL and IN_POOL_UNJUDGED entry removed, in the same order, and
`num_ret` of the judged-docs-only call is the number of entries `≥ 0` of the
normal-mode vector. -/
theorem te_form_res_rels_jg_judged_only (s : Session) (epi : EPI) (rel_info : REL_INFO)
    (results : RESULTS)
    (h : (te_form_res_rels_jg s { epi with judged_docs_only_flag := true }
      rel_info results).ret = 1) :
    (te_form_res_rels_jg s { epi with judged_docs_only_flag := false }
      rel_info results).ret = 1 ∧
    ∃ rrJ rrN,
      (te_form_res_rels_jg s { epi with judged_docs_only_flag := true }
        rel_info results).res_rels = some rrJ ∧
      (te_form_res_rels_jg s { epi with judged_docs_only_flag := false }
        rel_info results).res_rels = some rrN ∧
      List.Forall₂
        (fun rJ rN =>
          rJ.results_rel_list.take rJ.num_ret =
            (rN.results_rel_list.take rN.num_ret).filter
              (fun v => decide (v ≠ RELVALUE_NONPOOL ∧ v ≠ RELVALUE_UNJUDGED)) ∧
          rJ.num_ret =
            (rN.results_rel_list.take rN.num_ret).countP (fun v => decide (0 ≤ v)))
        rrJ.jgs rrN.jgs := by
  have hN : (te_form_res_rels_jg s { epi with judged_docs_only_flag := false }
      rel_info results).ret = 1 := by
    rw [te_ret_flag] at h ⊢
    exact h
  refine ⟨hN, ?_⟩
  obtain ⟨rrJ, hrrJ, -, -, hallJ⟩ := te_groups s _ rel_info results h
  obtain ⟨rrN, hrrN, -, -, hallN⟩ := te_groups s _ rel_info results hN
  obtain ⟨hdupJ, -⟩ := te_fresh s _ rel_info results h
  obtain ⟨hdupN, -⟩ := te_fresh s _ rel_info results hN
  refine ⟨rrJ, rrN, hrrJ, hrrN, (forall₂_join hallJ hallN).imp ?_⟩
  rintro rJ rN ⟨qrels, ⟨-, lastJ, staleJ, sliceJ, hslJ, rfl⟩, ⟨-, lastN, staleN, sliceN, hslN, rfl⟩⟩
  obtain ⟨hvJ, hnJ, -⟩ := group_judged _ results.text_results hdupJ
    (find_max_rel rel_info.text_qrels_jg) qrels lastJ staleJ sliceJ hslJ rfl
  obtain ⟨hvN, hnN, -⟩ := group_normal _ results.text_results hdupN
    (find_max_rel rel_info.text_qrels_jg) qrels lastN staleN sliceN hslN rfl
  obtain ⟨-, hlen, -, hcases⟩ := merged_facts { epi with judged_docs_only_flag := false }
    results.text_results hdupN (find_max_rel rel_info.text_qrels_jg) qrels
  have hperm := by_rank_perm (merged (qsort comp_docno
    (ranked_docno_info { epi with judged_docs_only_flag := false } results.text_results))
    (find_max_rel rel_info.text_qrels_jg) qrels)
  have htake : (form_jg { epi with judged_docs_only_flag := false }
      (find_max_rel rel_info.text_qrels_jg) lastN staleN sliceN
      (qsort comp_docno (ranked_docno_info { epi with judged_docs_only_flag := false }
        results.text_results)) qrels).1.results_rel_list.take
      (form_jg { epi with judged_docs_only_flag := false }
      (find_max_rel rel_info.text_qrels_jg) lastN staleN sliceN
      (qsort comp_docno (ranked_docno_info { epi with judged_docs_only_flag := false }
        results.text_results)) qrels).1.num_ret =
      (by_rank (merged (qsort comp_docno (ranked_docno_info
        { epi with judged_docs_only_flag := false } results.text_results))
        (find_max_rel rel_info.text_qrels_jg) qrels)).map (fun d => d.rel) := by
    rw [hvN, hnN]
    apply List.take_of_length_le
    rw [List.length_map, hperm.length_eq, hlen]
  rw [htake]
  have e : ranked_docno_info { epi with judged_docs_only_flag := true } results.text_results =
      ranked_docno_info { epi with judged_docs_only_flag := false } results.text_results := rfl
  rw [e] at hvJ hnJ ⊢
  constructor
  · rw [hvJ, List.filter_map]
    congr 1
    apply List.filter_congr
    intro x hx
    have hc := hcases x (hperm.mem_iff.mp hx)
    simp only [Function.comp_apply]
    rw [Bool.eq_iff_iff]
    simp only [decide_eq_true_eq]
    unfold RELVALUE_NONPOOL RELVALUE_UNJUDGED at *
    omega
  · rw [hnJ, List.countP_map, List.countP_eq_length_filter]
    rfl

/-- C8 (witness): the worked example of the specification in judged-docs-only
mode returns 1. -/
theorem te_form_res_rels_jg_judged_only_witness :
    (te_form_res_rels_jg Session.init { ex_epi with judged_docs_only_flag := true }
      ex_rel_info ex_results).ret = 1 ∧
    ((te_form_res_rels_jg Session.init { ex_epi with judged_docs_only_flag := false }
      ex_rel_info ex_results).ret = 1 ∧
    ∃ rrJ rrN,
      (te_form_res_rels_jg Session.init { ex_epi with judged_docs_only_flag := true }
        ex_rel_info ex_results).res_rels = some rrJ ∧
      (te_form_res_rels_jg Session.init { ex_epi with judged_docs_only_flag := false }
        ex_rel_info ex_results).res_rels = some rrN ∧
      List.Forall₂
        (fun rJ rN =>
          rJ.results_rel_list.take rJ.num_ret =
            (rN.results_rel_list.take rN.num_ret).filter
              (fun v => decide (v ≠ RELVALUE_NONPOOL ∧ v ≠ RELVALUE_UNJUDGED)) ∧
          rJ.num_ret =
            (rN.results_rel_list.take rN.num_ret).countP (fun v => decide (0 ≤ v)))
        rrJ.jgs rrN.jgs) :=
  ⟨by decide,
    te_form_res_rels_jg_judged_only Session.init ex_epi ex_rel_info ex_results (by decide)⟩

/-- C9: the worked example.  Aligning `[(d1,3.0), (d2,3.0), (d3,2.0)]` against
the group `{d1:1, d3:0}` in normal mode with `relevance_level = 1` and no
truncation returns 1, ranks d2, d1, d3 as 1, 2, 3, and yields the vector
`[NON_POOL, 1, 0]`, `num_ret = 3`, `num_rel_ret = 1`, `num_rel = 1`,
`num_nonpool = 1` and the histogram `[1, 1]`. -/
theorem te_form_res_rels_jg_worked_example :
    (te_form_res_rels_jg Session.init ex_epi ex_rel_info ex_results).ret = 1 ∧
    (ranked_docno_info ex_epi ex_results.text_results).map (fun d => (d.docno, d.rank)) =
      [("d2", 1), ("d1", 2), ("d3", 3)] ∧
    (te_form_res_rels_jg Session.init ex_epi ex_rel_info ex_results).res_rels =
      some { qid := "q1", num_jgs := 1, jgs := [
        { num_rel_ret := 1, num_ret := 3, num_nonpool := 1, num_unjudged_in_pool := 0,
          num_rel := 1, num_rel_levels := 2, rel_levels := [1, 1],
          results_rel_list := [RELVALUE_NONPOOL, 1, 0] }] } := by
  decide

/-- C10, amended: when no score of the retrieved list is NaN, the outcome of a
call does not depend on the order in which the retrieved documents are listed:
a call on any permutation of the retrieved list returns the same value, the
same per-group vectors and counts and leaves the same static variables; and two
documents with the same score, not NaN, are ranked by descending docno
whichever of them comes first in the input. -/
theorem te_form_res_rels_jg_input_order (s : Session) (epi : EPI) (rel_info : REL_INFO)
    (results : RESULTS) (l : List TEXT_RESULTS) (hp : l.Perm results.text_results)
    (hnan : ∀ t ∈ results.text_results, t.sim ≠ DOUBLE.nan) :
    te_form_res_rels_jg s epi rel_info { results with text_results := l } =
        te_form_res_rels_jg s epi rel_info results ∧
      ∀ a b : TEXT_RESULTS, a.sim ≠ DOUBLE.nan → a.sim = b.sim → b.docno < a.docno →
        ranked_docno_info epi [a, b] = ranked_docno_info epi [b, a] ∧
        (ranked_docno_info epi [a, b]).map (fun d => d.docno) =
          [a.docno, b.docno].take epi.max_num_docs_per_topic := by
  constructor
  · unfold te_form_res_rels_jg
    simp only [ranked_docno_info_perm epi hp hnan]
  · intro a b hna hab hlt
    have hs : [a, b].Pairwise spec_before := by
      rw [List.pairwise_cons]
      refine ⟨?_, List.pairwise_singleton _ _⟩
      intro x hx
      rw [List.mem_singleton] at hx
      subst hx
      exact Or.inr ⟨hab, hlt⟩
    have hn2 : ∀ t ∈ [a, b], t.sim ≠ DOUBLE.nan := by
      intro t ht
      rcases List.mem_cons.1 ht with e | e
      · rw [e]; exact hna
      · rw [List.mem_singleton] at e
        rw [e, ← hab]; exact hna
    have hn3 : ∀ t ∈ [b, a], t.sim ≠ DOUBLE.nan := by
      intro t ht
      exact hn2 t ((List.Perm.swap b a []).mem_iff.2 ht)
    refine ⟨ranked_docno_info_perm epi (List.Perm.swap b a []) hn3, ?_⟩
    unfold ranked_docno_info
    rw [qsort_copy_results_of_sorted (List.Perm.refl _) hn2 hs, add_ranks_map_docno,
      List.map_take]
    rfl

/-- C10 (witness): the retrieved list of the worked example, listed as
d2, d3, d1. -/
theorem te_form_res_rels_jg_input_order_witness :
    ([⟨"d2", 3⟩, ⟨"d3", 2⟩, ⟨"d1", 3⟩] : List TEXT_RESULTS).Perm ex_results.text_results ∧
    (∀ t ∈ ex_results.text_results, t.sim ≠ DOUBLE.nan) ∧
    (te_form_res_rels_jg Session.init ex_epi ex_rel_info
        { ex_results with text_results := [⟨"d2", 3⟩, ⟨"d3", 2⟩, ⟨"d1", 3⟩] } =
        te_form_res_rels_jg Session.init ex_epi ex_rel_info ex_results ∧
      ∀ a b : TEXT_RESULTS, a.sim ≠ DOUBLE.nan → a.sim = b.sim → b.docno < a.docno →
        ranked_docno_info ex_epi [a, b] = ranked_docno_info ex_epi [b, a] ∧
        (ranked_docno_info ex_epi [a, b]).map (fun d => d.docno) =
          [a.docno, b.docno].take ex_epi.max_num_docs_per_topic) :=
  ⟨by decide, by decide,
    te_form_res_rels_jg_input_order Session.init ex_epi ex_rel_info ex_results
      [⟨"d2", 3⟩, ⟨"d3", 2⟩, ⟨"d1", 3⟩] (by decide) (by decide)⟩

/-- C10, counterexample: the lists a, c, b and c, b, a hold the same three
documents, a with score 2, b with NaN and c with score 1, with distinct
identifiers; against the judgments a:2, b:0, c:1 both calls return 1, the first
with the vector `[2, 1, 0]` (ranking a, c, b) and the second with the vector
`[1, 0, 2]` (ranking c, b, a). -/
theorem te_form_res_rels_jg_nan_input_order :
    ([⟨"a", 2⟩, ⟨"c", 1⟩, ⟨"b", DOUBLE.nan⟩] : List TEXT_RESULTS).Perm
      nan_results.text_results ∧
    (nan_results.text_results.map (fun t => t.docno)).Nodup ∧
    (te_form_res_rels_jg Session.init ex_epi nan_rel_info
      { nan_results with
        text_results := [⟨"a", 2⟩, ⟨"c", 1⟩, ⟨"b", DOUBLE.nan⟩] }).ret = 1 ∧
    ((te_form_res_rels_jg Session.init ex_epi nan_rel_info
      { nan_results with
        text_results := [⟨"a", 2⟩, ⟨"c", 1⟩, ⟨"b", DOUBLE.nan⟩] }).res_rels.map
      (fun rr => rr.jgs.map (fun r => r.results_rel_list))) = some [[2, 1, 0]] ∧
    (te_form_res_rels_jg Session.init ex_epi nan_rel_info nan_results).ret = 1 ∧
    ((te_form_res_rels_jg Session.init ex_epi nan_rel_info nan_results).res_rels.map
      (fun rr => rr.jgs.map (fun r => r.results_rel_list))) = some [[1, 0, 2]] := by
  decide

/-! ## The cache (lines 41-54 and 72-78) -/

theorem jg_loop_length (epi : EPI) (max_rel : Int) (num_jgs : Nat) (s : Session) (N : Nat) :
    ∀ (groups : List (List TEXT_QRELS)) (jg : Nat) (di : List DOCNO_INFO),
      (jg_loop epi max_rel num_jgs s N jg groups di).length = groups.length := by
  intro groups
  induction groups with
  | nil => intro jg di; rfl
  | cons qrels rest ih =>
    intro jg di
    simp only [jg_loop, List.length_cons, ih]

/-- The static variables after a call that returns 1. -/
theorem te_fresh_session (s : Session) (epi : EPI) (rel_info : REL_INFO) (results : RESULTS)
    (h : (te_form_res_rels_jg s epi rel_info results).ret = 1) :
    strcmp s.current_query results.qid ≠ 0 ∧
    ∃ rr, (te_form_res_rels_jg s epi rel_info results).res_rels = some rr ∧
      rr.jgs.length = rr.num_jgs ∧
      (te_form_res_rels_jg s epi rel_info results).session.current_query = results.qid ∧
      (te_form_res_rels_jg s epi rel_info results).session.num_jgs = rr.num_jgs ∧
      (te_form_res_rels_jg s epi rel_info results).session.jgs =
        rr.jgs ++ s.jgs.drop rr.num_jgs := by
  unfold te_form_res_rels_jg at h ⊢
  by_cases h1 : strcmp s.current_query results.qid = 0
  · rw [if_pos h1] at h
    exact absurd (show (0 : Int) = 1 from h) (by decide)
  · refine ⟨h1, ?_⟩
    rw [if_neg h1] at h ⊢
    by_cases h2 : strcmp "qrels_jg" rel_info.rel_format ≠ 0 ∨
        strcmp "trec_results" results.ret_format ≠ 0
    · rw [if_pos h2] at h
      exact absurd (show UNDEF = 1 from h) (by decide)
    · rw [if_neg h2] at h ⊢
      by_cases h3 : has_duplicate (qsort comp_docno
          (ranked_docno_info epi results.text_results)) = true
      · simp only [h3, if_true] at h
        exact absurd h (by decide)
      · have h3' : has_duplicate (qsort comp_docno
            (ranked_docno_info epi results.text_results)) = false := by
          simpa using h3
        simp only [h3', Bool.false_eq_true, if_false]
        refine ⟨_, rfl, ?_⟩
        simp [jg_loop_length]

/-- A call whose query id is the cached one returns 0 and hands back the
cached values, whatever else it is given. -/
theorem te_cached (s : Session) (epi : EPI) (rel_info : REL_INFO) (results : RESULTS)
    (h : s.current_query = results.qid) :
    te_form_res_rels_jg s epi rel_info results =
      { ret := 0, session := s,
        res_rels := some { qid := results.qid, num_jgs := s.num_jgs,
                           jgs := s.jgs.take s.num_jgs } } := by
  unfold te_form_res_rels_jg
  rw [if_pos ((strcmp_eq_zero_iff _ _).mpr h)]

/-- A call whose query id is not the cached one never returns 0. -/
theorem te_not_cached (s : Session) (epi : EPI) (rel_info : REL_INFO) (results : RESULTS)
    (h : s.current_query ≠ results.qid) :
    (te_form_res_rels_jg s epi rel_info results).ret ≠ 0 := by
  have h1 : ¬ strcmp s.current_query results.qid = 0 :=
    fun e => h ((strcmp_eq_zero_iff _ _).mp e)
  unfold te_form_res_rels_jg
  rw [if_neg h1]
  split_ifs
  · exact (by decide : UNDEF ≠ 0)
  · simp only
    split_ifs
    · exact (by decide : UNDEF ≠ 0)
    · exact (by decide : (1 : Int) ≠ 0)

/-- C11: after a call for query id `q` has returned 1, every immediately
following call with query id `q` returns 0, leaves the static variables alone
and hands back `num_jgs` and `jgs` of the first call, without looking at its
other inputs; a following call with a different query id never returns 0, it
returns 1 when its format tags are right and its retained docnos are distinct,
and when it returns 1 the cached query id is the new one and the cached
results are the ones it has just computed and returned. -/
theorem te_form_res_rels_jg_memo (s : Session) (epi : EPI) (rel_info : REL_INFO)
    (results : RESULTS) (h : (te_form_res_rels_jg s epi rel_info results).ret = 1) :
    ∃ rr, (te_form_res_rels_jg s epi rel_info results).res_rels = some rr ∧
      (∀ (epi' : EPI) (rel_info' : REL_INFO) (results' : RESULTS),
        results'.qid = results.qid →
        te_form_res_rels_jg (te_form_res_rels_jg s epi rel_info results).session
            epi' rel_info' results' =
          { ret := 0, session := (te_form_res_rels_jg s epi rel_info results).session,
            res_rels := some { qid := results'.qid, num_jgs := rr.num_jgs, jgs := rr.jgs } }) ∧
      (∀ (epi' : EPI) (rel_info' : REL_INFO) (results' : RESULTS),
        results'.qid ≠ results.qid →
        (te_form_res_rels_jg (te_form_res_rels_jg s epi rel_info results).session
            epi' rel_info' results').ret ≠ 0 ∧
        (strcmp "qrels_jg" rel_info'.rel_format = 0 →
          strcmp "trec_results" results'.ret_format = 0 →
          ((ranked_docno_info epi' results'.text_results).map (fun d => d.docno)).Nodup →
          (te_form_res_rels_jg (te_form_res_rels_jg s epi rel_info results).session
            epi' rel_info' results').ret = 1) ∧
        ((te_form_res_rels_jg (te_form_res_rels_jg s epi rel_info results).session
            epi' rel_info' results').ret = 1 →
          ∃ rr', (te_form_res_rels_jg (te_form_res_rels_jg s epi rel_info results).session
              epi' rel_info' results').res_rels = some rr' ∧
            rr'.jgs = jg_loop epi' (find_max_rel rel_info'.text_qrels_jg)
              rel_info'.text_qrels_jg.length
              (te_form_res_rels_jg s epi rel_info results).session
              (ranked_docno_info epi' results'.text_results).length 0
              rel_info'.text_qrels_jg
              (qsort comp_docno (ranked_docno_info epi' results'.text_results)) ∧
            (te_form_res_rels_jg (te_form_res_rels_jg s epi rel_info results).session
              epi' rel_info' results').session.current_query = results'.qid ∧
            (te_form_res_rels_jg (te_form_res_rels_jg s epi rel_info results).session
              epi' rel_info' results').session.num_jgs = rr'.num_jgs ∧
            (te_form_res_rels_jg (te_form_res_rels_jg s epi rel_info results).session
              epi' rel_info' results').session.jgs.take rr'.num_jgs = rr'.jgs)) := by
  obtain ⟨-, rr, hrr, hlen, hq, hn, hj⟩ := te_fresh_session s epi rel_info results h
  refine ⟨rr, hrr, ?_, ?_⟩
  · intro epi' rel_info' results' hqid
    rw [te_cached _ epi' rel_info' results' (by rw [hq, hqid])]
    rw [hn, hj, ← hlen, List.take_left']
    rfl
  · intro epi' rel_info' results' hqid
    have hne : (te_form_res_rels_jg s epi rel_info results).session.current_query ≠
        results'.qid := by
      rw [hq]; exact fun e => hqid e.symm
    refine ⟨te_not_cached _ epi' rel_info' results' hne, ?_, ?_⟩
    · intro hf1 hf2 hnd
      rw [te_ret_of_fresh _ epi' rel_info' results'
        (fun e => hne ((strcmp_eq_zero_iff _ _).mp e)) hf1 hf2,
        (has_duplicate_qsort_iff _).mpr hnd]
      rfl
    · intro h'
      obtain ⟨-, rr', hrr', hlen', hq', hn', hj'⟩ :=
        te_fresh_session _ epi' rel_info' results' h'
      obtain ⟨-, hres⟩ := te_fresh _ epi' rel_info' results' h'
      refine ⟨rr', hrr', ?_, hq', hn', ?_⟩
      · rw [hres] at hrr'
        rw [← Option.some.inj hrr']
      · rw [hj', ← hlen', List.take_left']
        rfl

/-- C11 (witness): the worked example of the specification returns 1 from the
initial static variables. -/
theorem te_form_res_rels_jg_memo_witness :
    (te_form_res_rels_jg Session.init ex_epi ex_rel_info ex_results).ret = 1 ∧
    ∃ rr, (te_form_res_rels_jg Session.init ex_epi ex_rel_info ex_results).res_rels = some rr ∧
      (∀ (epi' : EPI) (rel_info' : REL_INFO) (results' : RESULTS),
        results'.qid = ex_results.qid →
        te_form_res_rels_jg (te_form_res_rels_jg Session.init ex_epi ex_rel_info ex_results).session
            epi' rel_info' results' =
          { ret := 0, session := (te_form_res_rels_jg Session.init ex_epi ex_rel_info ex_results).session,
            res_rels := some { qid := results'.qid, num_jgs := rr.num_jgs, jgs := rr.jgs } }) ∧
      (∀ (epi' : EPI) (rel_info' : REL_INFO) (results' : RESULTS),
        results'.qid ≠ ex_results.qid →
        (te_form_res_rels_jg (te_form_res_rels_jg Session.init ex_epi ex_rel_info ex_results).session
            epi' rel_info' results').ret ≠ 0 ∧
        (strcmp "qrels_jg" rel_info'.rel_format = 0 →
          strcmp "trec_results" results'.ret_format = 0 →
          ((ranked_docno_info epi' results'.text_results).map (fun d => d.docno)).Nodup →
          (te_form_res_rels_jg (te_form_res_rels_jg Session.init ex_epi ex_rel_info ex_results).session
            epi' rel_info' results').ret = 1) ∧
        ((te_form_res_rels_jg (te_form_res_rels_jg Session.init ex_epi ex_rel_info ex_results).session
            epi' rel_info' results').ret = 1 →
          ∃ rr', (te_form_res_rels_jg (te_form_res_rels_jg Session.init ex_epi ex_rel_info ex_results).session
              epi' rel_info' results').res_rels = some rr' ∧
            rr'.jgs = jg_loop epi' (find_max_rel rel_info'.text_qrels_jg)
              rel_info'.text_qrels_jg.length
              (te_form_res_rels_jg Session.init ex_epi ex_rel_info ex_results).session
              (ranked_docno_info epi' results'.text_results).length 0
              rel_info'.text_qrels_jg
              (qsort comp_docno (ranked_docno_info epi' results'.text_results)) ∧
            (te_form_res_rels_jg (te_form_res_rels_jg Session.init ex_epi ex_rel_info ex_results).session
              epi' rel_info' results').session.current_query = results'.qid ∧
            (te_form_res_rels_jg (te_form_res_rels_jg Session.init ex_epi ex_rel_info ex_results).session
              epi' rel_info' results').session.num_jgs = rr'.num_jgs ∧
            (te_form_res_rels_jg (te_form_res_rels_jg Session.init ex_epi ex_rel_info ex_results).session
              epi' rel_info' results').session.jgs.take rr'.num_jgs = rr'.jgs)) :=
  ⟨by decide,
    te_form_res_rels_jg_memo Session.init ex_epi ex_rel_info ex_results (by decide)⟩

/-- C12 (failing input): the retrieved list `[(d1,3.0), (d2,2.0), (d1,1.0)]`
without truncation fails on the duplicate `d1` in the first call; the same call
repeated returns 0 and hands back `num_jgs = 1` from a `jgs` array in which
nothing was computed. -/
theorem te_form_res_rels_jg_failure_then_cached :
    (te_form_res_rels_jg Session.init ex_epi ex_rel_info dup_results).ret = UNDEF ∧
    (te_form_res_rels_jg (te_form_res_rels_jg Session.init ex_epi ex_rel_info
        dup_results).session ex_epi ex_rel_info dup_results).ret = 0 ∧
    (te_form_res_rels_jg (te_form_res_rels_jg Session.init ex_epi ex_rel_info
        dup_results).session ex_epi ex_rel_info dup_results).res_rels =
      some { qid := "q1", num_jgs := 1, jgs := [] } := by
  decide

/-! ## Gain tables (`setup_gains`) -/

/-- C14 (failing input): with the overrides `1=0.5,2=0.2` and one judged
document at each of the levels 0, 1 and 2, `comp_rel_gain` returns
`(int) 0.3 = 0`, `(int) 0.2 = 0` and `(int) 0.5 = 0` for the three pairs of
entries, the sort leaves the table in the order in which it was built, and
the gains 0.5, 0.2, 0.0 are not ascending. -/
theorem setup_gains_fractional_not_sorted :
    comp_rel_gain ⟨1, 1, 1/2⟩ ⟨2, 1, 1/5⟩ = 0 ∧
    comp_rel_gain ⟨2, 1, 1/5⟩ ⟨0, 1, 0⟩ = 0 ∧
    comp_rel_gain ⟨1, 1, 1/2⟩ ⟨0, 1, 0⟩ = 0 ∧
    (setup_gains frac_pairs three_level_res_rels).rel_gains =
      [⟨1, 1, 1/2⟩, ⟨2, 1, 1/5⟩, ⟨0, 1, 0⟩] ∧
    ¬ (setup_gains frac_pairs three_level_res_rels).rel_gains.Pairwise
      (fun a b => a.gain ≤ b.gain) := by
  decide!

theorem set_level_of_not_mem (i : Int) (c : Nat) (l : List REL_GAIN)
    (h : ∀ e ∈ l, e.rel_level ≠ i) :
    set_level i c l = l ++ [{ rel_level := i, num_at_level := c, gain := (i : ℚ) }] := by
  induction l with
  | nil => rfl
  | cons e es ih =>
    have he := h e (List.mem_cons_self _ _)
    simp only [set_level, he, ne_eq, not_false_eq_true, if_true, List.cons_append]
    rw [ih (fun e' he' => h e' (List.mem_cons_of_mem _ he'))]

theorem set_level_map_override (hist : List Nat) (n : Nat) (c : Nat) (rest : List REL_GAIN) :
    ∀ (pairs : List DOUBLE_PARAM_PAIR), (pairs.map (fun p => p.level)).Nodup →
      (∃ p ∈ pairs, p.level = (n : Int)) →
      set_level (n : Int) c (pairs.map (override_entry hist n) ++ rest) =
        pairs.map (fun p => if p.level = (n : Int) then
          { override_entry hist n p with num_at_level := c } else override_entry hist n p) ++
          rest := by
  intro pairs
  induction pairs with
  | nil => intro _ h; obtain ⟨p, hp, -⟩ := h; simp at hp
  | cons p ps ih =>
    intro hnd hex
    rw [List.map_cons, List.nodup_cons] at hnd
    by_cases hp : p.level = (n : Int)
    · have hrest : ∀ q ∈ ps, q.level ≠ (n : Int) := by
        intro q hq e
        exact hnd.1 (List.mem_map.mpr ⟨q, hq, e.trans hp.symm⟩)
      simp only [List.map_cons, List.cons_append, set_level, override_entry, hp, ne_eq,
        not_true_eq_false, if_false, if_true]
      congr 2
      apply List.map_congr_left
      intro q hq
      simp [override_entry, hrest q hq]
    · have hex' : ∃ q ∈ ps, q.level = (n : Int) := by
        obtain ⟨q, hq, e⟩ := hex
        rcases List.mem_cons.mp hq with rfl | hq'
        · exact absurd e hp
        · exact ⟨q, hq', e⟩
      have h1 : (override_entry hist n p).rel_level ≠ (n : Int) := hp
      have ih' := ih hnd.2 hex'
      simp only [List.map_cons, List.cons_append, set_level, h1, ne_eq, not_false_eq_true,
        if_true, hp, if_false]
      exact congrArg _ ih'

theorem override_entry_succ (hist : List Nat) (n : Nat) (p : DOUBLE_PARAM_PAIR)
    (hp : p.level ≠ (n : Int)) :
    override_entry hist (n + 1) p = override_entry hist n p := by
  unfold override_entry
  have e : (0 ≤ p.level ∧ p.level < ((n + 1 : Nat) : Int)) ↔
      (0 ≤ p.level ∧ p.level < (n : Int)) := by
    constructor
    · rintro ⟨h1, h2⟩; exact ⟨h1, by push_cast at h2; omega⟩
    · rintro ⟨h1, h2⟩; exact ⟨h1, by push_cast; omega⟩
  simp only [e]

theorem override_entry_succ_self (hist : List Nat) (n : Nat) (p : DOUBLE_PARAM_PAIR)
    (hp : p.level = (n : Int)) :
    override_entry hist (n + 1) p =
      { override_entry hist n p with num_at_level := hist.getD n 0 } := by
  unfold override_entry
  have e : 0 ≤ p.level ∧ p.level < ((n + 1 : Nat) : Int) := by
    rw [hp]; push_cast; omega
  rw [if_pos e]
  simp only [hp, Int.toNat_ofNat]

/-- Before the sort, the table holds the entries of the specification, the
overrides first and the levels without override after them in ascending
order. -/
theorem fold_set_level_eq (pairs : List DOUBLE_PARAM_PAIR) (hist : List Nat)
    (hnd : (pairs.map (fun p => p.level)).Nodup) (n : Nat) :
    (List.range n).foldl (fun g (i : Nat) => set_level (i : Int) (hist.getD i 0) g)
        (pairs.map (fun p =>
          ({ rel_level := p.level, num_at_level := 0, gain := p.value } : REL_GAIN))) =
      spec_table pairs hist n := by
  induction n with
  | zero =>
    simp only [List.range_zero, List.foldl_nil, spec_table, List.filter_nil, List.map_nil,
      List.append_nil]
    apply List.map_congr_left
    intro p _
    have h0 : ¬ (0 ≤ p.level ∧ p.level < ((0 : Nat) : Int)) := by
      rintro ⟨h1, h2⟩
      simp only [Nat.cast_zero] at h2
      omega
    unfold override_entry
    rw [if_neg h0]
  | succ n ih =>
    rw [List.range_succ, List.foldl_append, ih]
    simp only [List.foldl_cons, List.foldl_nil]
    unfold spec_table
    rw [List.range_succ, List.filter_append, List.map_append]
    by_cases hex : ∃ p ∈ pairs, p.level = (n : Int)
    · rw [set_level_map_override hist n _ _ pairs hnd hex]
      have hall : pairs.all (fun p => decide (p.level ≠ (n : Int))) = false := by
        rw [← Bool.not_eq_true, List.all_eq_true]
        intro h
        obtain ⟨p, hp, e⟩ := hex
        have := h p hp
        simp [e] at this
      simp only [List.filter_cons, List.filter_nil, hall, Bool.false_eq_true, if_false,
        List.map_nil, List.append_nil]
      congr 1
      apply List.map_congr_left
      intro p _
      by_cases hp : p.level = (n : Int)
      · rw [if_pos hp, override_entry_succ_self hist n p hp]
      · rw [if_neg hp, override_entry_succ hist n p hp]
    · have hno : ∀ p ∈ pairs, p.level ≠ (n : Int) := fun p hp e => hex ⟨p, hp, e⟩
      have hall : pairs.all (fun p => decide (p.level ≠ (n : Int))) = true := by
        rw [List.all_eq_true]
        intro p hp
        simpa using hno p hp
      rw [set_level_of_not_mem]
      · simp only [List.filter_cons, List.filter_nil, hall, if_true, List.map_cons,
          List.map_nil, List.append_assoc]
        congr 1
        · apply List.map_congr_left
          intro p hp
          rw [override_entry_succ hist n p (hno p hp)]
      · intro e he
        rcases List.mem_append.mp he with h1 | h1
        · obtain ⟨p, hp, rfl⟩ := List.mem_map.mp h1
          exact hno p hp
        · obtain ⟨L, hL, rfl⟩ := List.mem_map.mp h1
          have hL' := (List.mem_filter.mp hL).1
          rw [List.mem_range] at hL'
          show ((L : Nat) : Int) ≠ (n : Int)
          omega

/-- C13: for override pairs with pairwise distinct levels, the table that
`setup_gains` produces holds, up to the order given by the sort, exactly one
entry per override pair `(L, g)` with gain `g` and count `rel_levels[L]` when
`0 ≤ L < num_rel_levels` and count 0 otherwise, and one entry per level `L` in
`0 .. num_rel_levels-1` without override, with gain `L` and count
`rel_levels[L]`; `num_gains` is the number of these entries and
`total_num_at_levels` the sum of their counts. -/
theorem setup_gains_contents (pairs : List DOUBLE_PARAM_PAIR) (res_rels : RES_RELS)
    (hnd : (pairs.map (fun p => p.level)).Nodup) :
    (setup_gains pairs res_rels).rel_gains.Perm
        (spec_table pairs res_rels.rel_levels res_rels.num_rel_levels.toNat) ∧
      (setup_gains pairs res_rels).num_gains =
        (spec_table pairs res_rels.rel_levels res_rels.num_rel_levels.toNat).length ∧
      (setup_gains pairs res_rels).total_num_at_levels =
        ((spec_table pairs res_rels.rel_levels res_rels.num_rel_levels.toNat).map
          (fun e => e.num_at_level)).sum := by
  have hp : (setup_gains pairs res_rels).rel_gains.Perm
      (spec_table pairs res_rels.rel_levels res_rels.num_rel_levels.toNat) := by
    unfold setup_gains
    simp only
    rw [fold_set_level_eq pairs res_rels.rel_levels hnd]
    exact qsort_perm _ _
  refine ⟨hp, ?_, ?_⟩
  · show (setup_gains pairs res_rels).rel_gains.length = _
    exact hp.length_eq
  · show ((setup_gains pairs res_rels).rel_gains.map (fun e => e.num_at_level)).sum = _
    exact (hp.map _).sum_eq

/-- C13 (witness): the overrides `{1:5.0, 2:1.0}` of the specification's
example have distinct levels. -/
theorem setup_gains_contents_witness :
    (gain_ex_pairs.map (fun p => p.level)).Nodup ∧
    ((setup_gains gain_ex_pairs gain_ex_res_rels).rel_gains.Perm
        (spec_table gain_ex_pairs gain_ex_res_rels.rel_levels
          gain_ex_res_rels.num_rel_levels.toNat) ∧
      (setup_gains gain_ex_pairs gain_ex_res_rels).num_gains =
        (spec_table gain_ex_pairs gain_ex_res_rels.rel_levels
          gain_ex_res_rels.num_rel_levels.toNat).length ∧
      (setup_gains gain_ex_pairs gain_ex_res_rels).total_num_at_levels =
        ((spec_table gain_ex_pairs gain_ex_res_rels.rel_levels
          gain_ex_res_rels.num_rel_levels.toNat).map (fun e => e.num_at_level)).sum) :=
  ⟨by decide, setup_gains_contents gain_ex_pairs gain_ex_res_rels (by decide)⟩

/-! ## The achieved gain (`m_ndcg_p.c`, lines 80-91) -/

theorem get_gain_loop_eq (c : Int) (l : List REL_GAIN) : get_gain_loop c l = spec_gain l c := by
  induction l with
  | nil => rfl
  | cons e es ih =>
    unfold spec_gain at ih ⊢
    by_cases h : c = e.rel_level
    · have h' : decide (e.rel_level = c) = true := by simp [h]
      simp only [get_gain_loop, h, if_true, List.find?_cons, h']
      simp
    · have h' : decide (e.rel_level = c) = false := by
        simp only [decide_eq_false_iff_not]
        exact fun e' => h e'.symm
      simp only [get_gain_loop, h, if_false, List.find?_cons, h']
      exact ih

theorem setup_gains_num_gains (pairs : List DOUBLE_PARAM_PAIR) (res_rels : RES_RELS) :
    (setup_gains pairs res_rels).num_gains = (setup_gains pairs res_rels).rel_gains.length :=
  rfl

theorem get_gain_eq (pairs : List DOUBLE_PARAM_PAIR) (res_rels : RES_RELS) (c : Int) :
    get_gain c (setup_gains pairs res_rels) =
      spec_gain (setup_gains pairs res_rels).rel_gains c := by
  unfold get_gain
  rw [setup_gains_num_gains, List.take_length, get_gain_loop_eq]

theorem dcg_loop_eq (log2 : Nat → ℚ) (gains : GAINS) :
    ∀ (l : List Int) (i : Nat) (sum : ℚ),
      dcg_loop log2 gains l i sum =
        sum + weighted_sum (discount log2) i (l.map (fun c => get_gain c gains)) := by
  intro l
  induction l with
  | nil => intro i sum; simp [dcg_loop, weighted_sum]
  | cons c cs ih =>
    intro i sum
    simp only [dcg_loop, List.map_cons, weighted_sum]
    rw [ih]
    by_cases hg : get_gain c gains = 0
    · simp [hg]
    · by_cases hi : i = 0
      · subst hi
        simp [hg, discount]
        ring
      · have hi' : i > 0 := Nat.pos_of_ne_zero hi
        simp only [ne_eq, hg, not_false_eq_true, if_true, hi', discount, hi, if_false]
        ring

theorem spec_gain_of_no_entry (l : List REL_GAIN) (c : Int)
    (h : ∀ e ∈ l, e.rel_level ≠ c) : spec_gain l c = 0 := by
  unfold spec_gain
  have : l.find? (fun e => decide (e.rel_level = c)) = none := by
    rw [List.find?_eq_none]
    intro e he
    simpa using h e he
  rw [this]

theorem set_level_levels (i : Int) (n : Nat) (P : Int → Prop) (hi : P i) :
    ∀ (l : List REL_GAIN), (∀ e ∈ l, P e.rel_level) →
      ∀ e ∈ set_level i n l, P e.rel_level := by
  intro l
  induction l with
  | nil =>
    intro _ e he
    simp only [set_level, List.mem_singleton] at he
    subst he
    exact hi
  | cons x xs ih =>
    intro h e he
    by_cases hx : x.rel_level = i
    · simp only [set_level, hx, ne_eq, not_true_eq_false, if_false, List.mem_cons] at he
      rcases he with rfl | he
      · exact hi
      · exact h e (List.mem_cons_of_mem _ he)
    · simp only [set_level, hx, ne_eq, not_false_eq_true, if_true, List.mem_cons] at he
      rcases he with rfl | he
      · exact h _ (List.mem_cons_self _ _)
      · exact ih (fun e' he' => h e' (List.mem_cons_of_mem _ he')) e he

theorem fold_set_level_levels (hist : List Nat) (P : Int → Prop) (hP : ∀ i : Nat, P (i : Int)) :
    ∀ (n : Nat) (g : List REL_GAIN), (∀ e ∈ g, P e.rel_level) →
      ∀ e ∈ (List.range n).foldl (fun g (i : Nat) => set_level (i : Int) (hist.getD i 0) g) g,
        P e.rel_level := by
  intro n
  induction n with
  | zero => intro g h; simpa using h
  | succ n ih =>
    intro g h
    rw [List.range_succ, List.foldl_append]
    simp only [List.foldl_cons, List.foldl_nil]
    exact set_level_levels _ _ P (hP n) _ (ih g h)

theorem setup_gains_levels_nonneg (pairs : List DOUBLE_PARAM_PAIR) (res_rels : RES_RELS)
    (hlev : ∀ p ∈ pairs, 0 ≤ p.level) :
    ∀ e ∈ (setup_gains pairs res_rels).rel_gains, 0 ≤ e.rel_level := by
  intro e he
  unfold setup_gains at he
  simp only at he
  have he' := (qsort_perm _ _).mem_iff.mp he
  refine fold_set_level_levels res_rels.rel_levels (fun x => 0 ≤ x)
    (fun i => Int.ofNat_nonneg i) _ _ ?_ e he'
  intro e' h'
  obtain ⟨p, hp, rfl⟩ := List.mem_map.mp h'
  exact hlev p hp

theorem te_calc_ndcg_p_sum (log2 : Nat → ℚ) (pairs : List DOUBLE_PARAM_PAIR)
    (res_rels : RES_RELS) :
    (te_calc_ndcg_p log2 pairs res_rels).sum =
      weighted_sum (discount log2) 0
        ((res_rels.results_rel_list.take res_rels.num_ret).map
          (spec_gain (setup_gains pairs res_rels).rel_gains)) := by
  unfold te_calc_ndcg_p
  simp only
  rw [dcg_loop_eq, zero_add]
  congr 1
  apply List.map_congr_left
  intro c _
  exact get_gain_eq pairs res_rels c

/-- C16: when all override levels are non-negative, the achieved DCG that
`te_calc_ndcg_p` computes is the sum over the ranks `i = 0 .. num_ret-1` of
`gain (v_i) * discount (i)`, where `gain (c)` is the gain of the table entry
of level `c` and 0 when the table has no entry of that level; the table has no
entry of a negative level, so the categories NON_POOL and IN_POOL_UNJUDGED have
gain 0. -/
theorem te_calc_ndcg_p_achieved (log2 : Nat → ℚ) (pairs : List DOUBLE_PARAM_PAIR)
    (res_rels : RES_RELS) (hlev : ∀ p ∈ pairs, 0 ≤ p.level) :
    (te_calc_ndcg_p log2 pairs res_rels).sum =
        weighted_sum (discount log2) 0
          ((res_rels.results_rel_list.take res_rels.num_ret).map
            (spec_gain (setup_gains pairs res_rels).rel_gains)) ∧
      (∀ c, (∀ e ∈ (setup_gains pairs res_rels).rel_gains, e.rel_level ≠ c) →
        spec_gain (setup_gains pairs res_rels).rel_gains c = 0) ∧
      (∀ c, c < 0 → spec_gain (setup_gains pairs res_rels).rel_gains c = 0) ∧
      spec_gain (setup_gains pairs res_rels).rel_gains RELVALUE_NONPOOL = 0 ∧
      spec_gain (setup_gains pairs res_rels).rel_gains RELVALUE_UNJUDGED = 0 := by
  have hneg : ∀ c, c < 0 → spec_gain (setup_gains pairs res_rels).rel_gains c = 0 := by
    intro c hc
    apply spec_gain_of_no_entry
    intro e he h
    have := setup_gains_levels_nonneg pairs res_rels hlev e he
    omega
  exact ⟨te_calc_ndcg_p_sum log2 pairs res_rels, fun c h => spec_gain_of_no_entry _ c h, hneg,
    hneg _ (by decide), hneg _ (by decide)⟩

/-- C16 (witness): the overrides `{1:5.0, 2:1.0}` have non-negative levels. -/
theorem te_calc_ndcg_p_achieved_witness :
    (∀ p ∈ gain_ex_pairs, 0 ≤ p.level) ∧
    ((te_calc_ndcg_p floor_log2 gain_ex_pairs one_rel_res_rels).sum =
        weighted_sum (discount floor_log2) 0
          ((one_rel_res_rels.results_rel_list.take one_rel_res_rels.num_ret).map
            (spec_gain (setup_gains gain_ex_pairs one_rel_res_rels).rel_gains)) ∧
      (∀ c, (∀ e ∈ (setup_gains gain_ex_pairs one_rel_res_rels).rel_gains, e.rel_level ≠ c) →
        spec_gain (setup_gains gain_ex_pairs one_rel_res_rels).rel_gains c = 0) ∧
      (∀ c, c < 0 → spec_gain (setup_gains gain_ex_pairs one_rel_res_rels).rel_gains c = 0) ∧
      spec_gain (setup_gains gain_ex_pairs one_rel_res_rels).rel_gains RELVALUE_NONPOOL = 0 ∧
      spec_gain (setup_gains gain_ex_pairs one_rel_res_rels).rel_gains RELVALUE_UNJUDGED = 0) :=
  ⟨by decide, te_calc_ndcg_p_achieved floor_log2 gain_ex_pairs one_rel_res_rels (by decide)⟩

/-! ## Failing inputs of `te_calc_ndcg_p` -/

/-- C18 (failing input): with the override `1=0.5`, one judged document at each
of the levels 0 and 1 and the document of level 1 retrieved at the first rank,
`comp_rel_gain` compares the gains 0.5 and 0.0 as equal, the table keeps the
entry of gain 0.0 last, the ideal walk stops at once with an ideal DCG of 0,
and the achieved DCG is 0.5. -/
theorem te_calc_ndcg_p_ideal_below_achieved (log2 : Nat → ℚ) :
    comp_rel_gain ⟨1, 1, 1/2⟩ ⟨0, 1, 0⟩ = 0 ∧
    (setup_gains half_pairs one_rel_res_rels).rel_gains = [⟨1, 1, 1/2⟩, ⟨0, 1, 0⟩] ∧
    (te_calc_ndcg_p log2 half_pairs one_rel_res_rels).ideal_dcg = 0 ∧
    (te_calc_ndcg_p log2 half_pairs one_rel_res_rels).sum = 1/2 ∧
    ¬ (te_calc_ndcg_p log2 half_pairs one_rel_res_rels).sum ≤
      (te_calc_ndcg_p log2 half_pairs one_rel_res_rels).ideal_dcg := by
  have hT : setup_gains half_pairs one_rel_res_rels =
      { rel_gains := [⟨1, 1, 1/2⟩, ⟨0, 1, 0⟩], num_gains := 2, total_num_at_levels := 2 } := by
    decide!
  have h1 : (te_calc_ndcg_p log2 half_pairs one_rel_res_rels).ideal_dcg = 0 := by
    unfold te_calc_ndcg_p
    simp only [hT]
    simp [ideal_loop, ideal_descend, REL_GAIN.zero]
  have h2 : (te_calc_ndcg_p log2 half_pairs one_rel_res_rels).sum = 1/2 := by
    unfold te_calc_ndcg_p
    simp only [hT]
    simp [one_rel_res_rels, dcg_loop, get_gain, get_gain_loop]
  refine ⟨by decide!, by rw [hT], h1, h2, ?_⟩
  rw [h1, h2]
  norm_num

/-- C19 (failing input): with the override `1=0.0`, one judged document at each
of the levels 0 and 1 and the document of level 1 retrieved at the first rank,
the ideal DCG is 0 and `num_rel_ret` is 1, so line 117 writes the value
`sum / ideal_dcg`, which is `0.0 / 0.0`, a NaN. -/
theorem te_calc_ndcg_p_zero_ideal_written (log2 : Nat → ℚ) :
    (te_calc_ndcg_p log2 zero_pairs one_rel_res_rels).ideal_dcg = 0 ∧
    (te_calc_ndcg_p log2 zero_pairs one_rel_res_rels).value =
      some (xdiv (te_calc_ndcg_p log2 zero_pairs one_rel_res_rels).sum
        (te_calc_ndcg_p log2 zero_pairs one_rel_res_rels).ideal_dcg) ∧
    (te_calc_ndcg_p log2 zero_pairs one_rel_res_rels).value = some XDOUBLE.nan ∧
    (te_calc_ndcg_p log2 zero_pairs one_rel_res_rels).value ≠ none := by
  have hT : setup_gains zero_pairs one_rel_res_rels =
      { rel_gains := [⟨1, 1, 0⟩, ⟨0, 1, 0⟩], num_gains := 2, total_num_at_levels := 2 } := by
    decide!
  have h1 : (te_calc_ndcg_p log2 zero_pairs one_rel_res_rels).ideal_dcg = 0 := by
    unfold te_calc_ndcg_p
    simp only [hT]
    simp [ideal_loop, ideal_descend, REL_GAIN.zero]
  have h0 : (te_calc_ndcg_p log2 zero_pairs one_rel_res_rels).sum = 0 := by
    unfold te_calc_ndcg_p
    simp only [hT]
    simp [one_rel_res_rels, dcg_loop, get_gain, get_gain_loop]
  have h2 : (te_calc_ndcg_p log2 zero_pairs one_rel_res_rels).value =
      some (xdiv (te_calc_ndcg_p log2 zero_pairs one_rel_res_rels).sum
        (te_calc_ndcg_p log2 zero_pairs one_rel_res_rels).ideal_dcg) := by
    unfold te_calc_ndcg_p
    simp [one_rel_res_rels]
  have h3 : (te_calc_ndcg_p log2 zero_pairs one_rel_res_rels).value = some XDOUBLE.nan := by
    rw [h2, h0, h1]
    simp [xdiv]
  exact ⟨h1, h2, h3, by rw [h2]; exact Option.some_ne_none _⟩

/-! ## The ideal walk -/

theorem take_succ_reverse (g : List REL_GAIN) (k : Nat) (h : k < g.length) :
    (g.take (k + 1)).reverse = g.getD k REL_GAIN.zero :: (g.take k).reverse := by
  rw [List.take_succ, List.getElem?_eq_getElem h, List.reverse_append,
    List.getD_eq_getElem _ _ h]
  rfl

theorem emit_succ (g : List REL_GAIN) (k : Nat) (h : k < g.length) :
    emit_gains (g.take (k + 1)).reverse =
      if (g.getD k REL_GAIN.zero).gain ≤ 0 then []
      else List.replicate (g.getD k REL_GAIN.zero).num_at_level (g.getD k REL_GAIN.zero).gain ++
        emit_gains (g.take k).reverse := by
  rw [take_succ_reverse g k h]
  rfl

theorem walk_rest_zero (g : List REL_GAIN) (k : Nat) (h : k < g.length)
    (hg : 0 < (g.getD k REL_GAIN.zero).gain) :
    walk_rest g k 0 = emit_gains (g.take (k + 1)).reverse := by
  rw [emit_succ g k h, if_neg (not_le.mpr hg)]
  rfl

theorem walk_rest_step (g : List REL_GAIN) (k c : Nat)
    (hc : c < (g.getD k REL_GAIN.zero).num_at_level) :
    walk_rest g k c = (g.getD k REL_GAIN.zero).gain :: walk_rest g k (c + 1) := by
  unfold walk_rest
  have e : (g.getD k REL_GAIN.zero).num_at_level - c =
      ((g.getD k REL_GAIN.zero).num_at_level - (c + 1)) + 1 := by omega
  rw [e, List.replicate_succ]
  rfl

theorem walk_rest_full (g : List REL_GAIN) (k c : Nat)
    (hc : (g.getD k REL_GAIN.zero).num_at_level ≤ c) :
    walk_rest g k c = emit_gains (g.take k).reverse := by
  unfold walk_rest
  have e : (g.getD k REL_GAIN.zero).num_at_level - c = 0 := by omega
  rw [e]
  rfl

theorem sorted_getD (g : List REL_GAIN) (hs : g.Pairwise (fun a b => a.gain ≤ b.gain))
    (i j : Nat) (hij : i < j) (hj : j < g.length) :
    (g.getD i REL_GAIN.zero).gain ≤ (g.getD j REL_GAIN.zero).gain := by
  have hi : i < g.length := by omega
  rw [List.getD_eq_getElem _ _ hi, List.getD_eq_getElem _ _ hj]
  exact List.pairwise_iff_getElem.mp hs i j hi hj hij

theorem emit_length_le (l : List REL_GAIN) :
    (emit_gains l).length ≤ (l.map (fun e => e.num_at_level)).sum := by
  induction l with
  | nil => simp [emit_gains]
  | cons e es ih =>
    unfold emit_gains
    by_cases h : e.gain ≤ 0
    · simp [h]
    · simp only [h, if_false, List.length_append, List.length_replicate, List.map_cons,
        List.sum_cons]
      omega

theorem ideal_seq_length_le (g : List REL_GAIN) :
    (ideal_seq g).length ≤ (g.map (fun e => e.num_at_level)).sum := by
  unfold ideal_seq
  refine (emit_length_le _).trans ?_
  rw [List.map_reverse, List.sum_reverse]

theorem ideal_descend_zero (g : List REL_GAIN) (c : Nat) :
    ideal_descend g 0 c =
      if c > (g.getD 0 REL_GAIN.zero).num_at_level then (-1, 1) else (0, c) := rfl

theorem ideal_descend_succ (g : List REL_GAIN) (k c : Nat) :
    ideal_descend g (k + 1) c =
      if c > (g.getD (k + 1) REL_GAIN.zero).num_at_level then
        if (g.getD k REL_GAIN.zero).gain ≤ 0 then ((k : Int), 1) else ideal_descend g k 1
      else (((k + 1 : Nat) : Int), c) := rfl

/-- The inner `while` of `te_calc_ndcg_p`, entered at an entry of positive
gain: either the walk has nothing left and the loop leaves with the condition
of the `break`, or it stands at the entry of the next item of the walk. -/
theorem ideal_descend_spec (g : List REL_GAIN) :
    ∀ (k c : Nat), k < g.length → 0 < (g.getD k REL_GAIN.zero).gain →
      c ≤ (g.getD k REL_GAIN.zero).num_at_level →
      (walk_rest g k c = [] ∧
        ((ideal_descend g k (c + 1)).1 < 0 ∨
          (g.getD (ideal_descend g k (c + 1)).1.toNat REL_GAIN.zero).gain ≤ 0)) ∨
      (∃ (k1 c1 : Nat), ideal_descend g k (c + 1) = ((k1 : Int), c1) ∧ k1 < g.length ∧
        0 < (g.getD k1 REL_GAIN.zero).gain ∧ c1 ≤ (g.getD k1 REL_GAIN.zero).num_at_level ∧
        walk_rest g k c = (g.getD k1 REL_GAIN.zero).gain :: walk_rest g k1 c1) := by
  intro k
  induction k with
  | zero =>
    intro c hk hg hc
    by_cases h : c + 1 > (g.getD 0 REL_GAIN.zero).num_at_level
    · left
      have e : ideal_descend g 0 (c + 1) = (-1, 1) := by rw [ideal_descend_zero, if_pos h]
      rw [e, walk_rest_full g 0 c (by omega)]
      exact ⟨rfl, Or.inl (by decide)⟩
    · right
      refine ⟨0, c + 1, ?_, hk, hg, by omega, walk_rest_step g 0 c (by omega)⟩
      rw [ideal_descend_zero, if_neg h]
      rfl
  | succ k ih =>
    intro c hk hg hc
    have hk' : k < g.length := by omega
    by_cases h : c + 1 > (g.getD (k + 1) REL_GAIN.zero).num_at_level
    · have hw : walk_rest g (k + 1) c = emit_gains (g.take (k + 1)).reverse :=
        walk_rest_full g (k + 1) c (by omega)
      by_cases hg' : (g.getD k REL_GAIN.zero).gain ≤ 0
      · left
        have e : ideal_descend g (k + 1) (c + 1) = ((k : Int), 1) := by
          rw [ideal_descend_succ, if_pos h, if_pos hg']
        rw [e, hw, emit_succ g k hk', if_pos hg']
        exact ⟨rfl, Or.inr (by simpa using hg')⟩
      · have e : ideal_descend g (k + 1) (c + 1) = ideal_descend g k (0 + 1) := by
          rw [ideal_descend_succ, if_pos h, if_neg hg']
        have hpos : 0 < (g.getD k REL_GAIN.zero).gain := not_le.mp hg'
        rw [e, hw, ← walk_rest_zero g k hk' hpos]
        exact ih 0 hk' hpos (Nat.zero_le _)
    · right
      refine ⟨k + 1, c + 1, ?_, hk, hg, by omega, walk_rest_step g (k + 1) c (by omega)⟩
      rw [ideal_descend_succ, if_neg h]

/-- From an entry without positive gain, in a table sorted by ascending gain,
the inner `while` leaves with the condition of the `break`. -/
theorem ideal_descend_nonpos (g : List REL_GAIN)
    (hs : g.Pairwise (fun a b => a.gain ≤ b.gain)) (k c : Nat) (hk : k < g.length)
    (hg : (g.getD k REL_GAIN.zero).gain ≤ 0) :
    (ideal_descend g k c).1 < 0 ∨
      (g.getD (ideal_descend g k c).1.toNat REL_GAIN.zero).gain ≤ 0 := by
  cases k with
  | zero =>
    by_cases h : c > (g.getD 0 REL_GAIN.zero).num_at_level
    · left; rw [ideal_descend_zero, if_pos h]; decide
    · right; rw [ideal_descend_zero, if_neg h]; exact hg
  | succ k =>
    have hle := sorted_getD g hs k (k + 1) (by omega) hk
    have hg' : (g.getD k REL_GAIN.zero).gain ≤ 0 := hle.trans hg
    by_cases h : c > (g.getD (k + 1) REL_GAIN.zero).num_at_level
    · right; rw [ideal_descend_succ, if_pos h, if_pos hg']; simpa using hg'
    · right; rw [ideal_descend_succ, if_neg h]; exact hg

theorem ideal_loop_spec (log2 : Nat → ℚ) (g : List REL_GAIN) :
    ∀ (fuel i k c : Nat) (acc : ℚ), k < g.length → 0 < (g.getD k REL_GAIN.zero).gain →
      c ≤ (g.getD k REL_GAIN.zero).num_at_level → (walk_rest g k c).length ≤ fuel →
      ideal_loop log2 g fuel i (k : Int) c acc =
        acc + weighted_sum (discount log2) i (walk_rest g k c) := by
  intro fuel
  induction fuel with
  | zero =>
    intro i k c acc _ _ _ hlen
    have : walk_rest g k c = [] := List.length_eq_zero.mp (Nat.le_zero.mp hlen)
    rw [this]
    simp [ideal_loop, weighted_sum]
  | succ fuel ih =>
    intro i k c acc hk hg hc hlen
    unfold ideal_loop
    simp only [Int.toNat_ofNat]
    rcases ideal_descend_spec g k c hk hg hc with ⟨hw, hb⟩ | ⟨k1, c1, hd, hk1, hg1, hc1, hw⟩
    · rw [if_pos hb, hw]
      simp [weighted_sum]
    · have hnb : ¬ ((ideal_descend g k (c + 1)).1 < 0 ∨
          (g.getD (ideal_descend g k (c + 1)).1.toNat REL_GAIN.zero).gain ≤ 0) := by
        rw [hd]
        simp only [Int.toNat_ofNat, not_or, not_lt, not_le]
        exact ⟨Int.ofNat_nonneg _, hg1⟩
      rw [if_neg hnb, hd]
      simp only [Int.toNat_ofNat]
      have hlen1 : (walk_rest g k1 c1).length ≤ fuel := by
        rw [hw, List.length_cons] at hlen
        omega
      rw [ih (i + 1) k1 c1 _ hk1 hg1 hc1 hlen1, hw]
      simp only [weighted_sum, discount]
      by_cases hi : i = 0
      · simp only [hi, if_true]; ring
      · simp only [hi, if_false]; ring

/-- Lines 93-113 on a table sorted by ascending gain: the loop adds up the
ideal gain sequence, each gain with the discount of its position. -/
theorem ideal_loop_sorted (log2 : Nat → ℚ) (g : List REL_GAIN)
    (hs : g.Pairwise (fun a b => a.gain ≤ b.gain)) (fuel : Nat)
    (hfuel : (ideal_seq g).length ≤ fuel) :
    ideal_loop log2 g fuel 0 ((g.length : Int) - 1) 0 0 =
      weighted_sum (discount log2) 0 (ideal_seq g) := by
  rcases Nat.eq_zero_or_pos g.length with h0 | hpos
  · have hg : g = [] := List.length_eq_zero.mp h0
    subst hg
    cases fuel with
    | zero => simp [ideal_loop, ideal_seq, emit_gains, weighted_sum]
    | succ n => simp [ideal_loop, ideal_descend, ideal_seq, emit_gains, weighted_sum, REL_GAIN.zero]
  · obtain ⟨top, htop⟩ : ∃ top, g.length = top + 1 := ⟨g.length - 1, by omega⟩
    have hk : top < g.length := by omega
    have hcast : ((g.length : Int) - 1) = (top : Int) := by
      rw [htop]; push_cast; ring
    have hseq : ideal_seq g = emit_gains (g.take (top + 1)).reverse := by
      unfold ideal_seq
      rw [List.take_of_length_le (by omega)]
    rw [hcast]
    by_cases hg : 0 < (g.getD top REL_GAIN.zero).gain
    · have hw := walk_rest_zero g top hk hg
      rw [ideal_loop_spec log2 g fuel 0 top 0 0 hk hg (Nat.zero_le _)
        (by rw [hw, ← hseq]; exact hfuel), hw, ← hseq, zero_add]
    · have hg' : (g.getD top REL_GAIN.zero).gain ≤ 0 := not_lt.mp hg
      have he : ideal_seq g = [] := by
        rw [hseq, emit_succ g top hk, if_pos hg']
      rw [he]
      cases fuel with
      | zero => simp [ideal_loop, weighted_sum]
      | succ n =>
        unfold ideal_loop
        simp only [Int.toNat_ofNat]
        rw [if_pos (ideal_descend_nonpos g hs top _ hk hg')]
        simp [weighted_sum]

theorem te_calc_ndcg_p_ideal_eq (log2 : Nat → ℚ) (pairs : List DOUBLE_PARAM_PAIR)
    (res_rels : RES_RELS)
    (hs : (setup_gains pairs res_rels).rel_gains.Pairwise (fun a b => a.gain ≤ b.gain)) :
    (te_calc_ndcg_p log2 pairs res_rels).ideal_dcg =
      weighted_sum (discount log2) 0 (ideal_seq (setup_gains pairs res_rels).rel_gains) := by
  show ideal_loop log2 (setup_gains pairs res_rels).rel_gains
      (setup_gains pairs res_rels).total_num_at_levels 0
      (((setup_gains pairs res_rels).num_gains : Int) - 1) 0 0 = _
  rw [setup_gains_num_gains]
  exact ideal_loop_sorted log2 _ hs _ (ideal_seq_length_le _)

/-- C15: when the table of `setup_gains` is sorted by ascending gain, the
ideal DCG that `te_calc_ndcg_p` computes is the sum over the positions `i` of
`g_i * discount (i)`, where `g_0, g_1, ...` is the walk of the table from its
last entry downward that emits the gain of each entry `num_at_level` times and
stops at the first entry whose gain is `≤ 0` or at the end of the table; the
position runs through the whole sequence. -/
theorem te_calc_ndcg_p_ideal (log2 : Nat → ℚ) (pairs : List DOUBLE_PARAM_PAIR)
    (res_rels : RES_RELS)
    (hs : (setup_gains pairs res_rels).rel_gains.Pairwise (fun a b => a.gain ≤ b.gain)) :
    (te_calc_ndcg_p log2 pairs res_rels).ideal_dcg =
      weighted_sum (discount log2) 0 (ideal_seq (setup_gains pairs res_rels).rel_gains) :=
  te_calc_ndcg_p_ideal_eq log2 pairs res_rels hs

/-- C15 (witness): the table of the overrides `{1:5.0, 2:1.0}` with the
histogram `0, 2, 3` is sorted by ascending gain. -/
theorem te_calc_ndcg_p_ideal_witness :
    (setup_gains gain_ex_pairs gain_ex_res_rels).rel_gains.Pairwise
        (fun a b => a.gain ≤ b.gain) ∧
    (te_calc_ndcg_p floor_log2 gain_ex_pairs gain_ex_res_rels).ideal_dcg =
      weighted_sum (discount floor_log2) 0
        (ideal_seq (setup_gains gain_ex_pairs gain_ex_res_rels).rel_gains) :=
  ⟨by decide!, te_calc_ndcg_p_ideal floor_log2 gain_ex_pairs gain_ex_res_rels (by decide!)⟩

/-- C17: with the overrides `{1:5.0, 2:1.0}` and the histogram `level0=0,
level1=2, level2=3`, the sorted table has the entry of level 2 (gain 1, count
3) below the entry of level 1 (gain 5, count 2), the ideal gain sequence is
`5, 5, 1, 1, 1`, and the ideal DCG of `te_calc_ndcg_p` is
`5*discount(0) + 5*discount(1) + 1*discount(2) + 1*discount(3) +
1*discount(4)`. -/
theorem te_calc_ndcg_p_worked_example (log2 : Nat → ℚ) :
    (setup_gains gain_ex_pairs gain_ex_res_rels).rel_gains =
        [⟨0, 0, 0⟩, ⟨2, 3, 1⟩, ⟨1, 2, 5⟩] ∧
      ideal_seq (setup_gains gain_ex_pairs gain_ex_res_rels).rel_gains = [5, 5, 1, 1, 1] ∧
      (te_calc_ndcg_p log2 gain_ex_pairs gain_ex_res_rels).ideal_dcg =
        5 * discount log2 0 + 5 * discount log2 1 + 1 * discount log2 2 +
          1 * discount log2 3 + 1 * discount log2 4 := by
  have hT : (setup_gains gain_ex_pairs gain_ex_res_rels).rel_gains =
      [⟨0, 0, 0⟩, ⟨2, 3, 1⟩, ⟨1, 2, 5⟩] := by decide!
  have hG : ideal_seq (setup_gains gain_ex_pairs gain_ex_res_rels).rel_gains =
      [5, 5, 1, 1, 1] := by decide!
  refine ⟨hT, hG, ?_⟩
  have hs : (setup_gains gain_ex_pairs gain_ex_res_rels).rel_gains.Pairwise
      (fun a b => a.gain ≤ b.gain) := by decide!
  rw [te_calc_ndcg_p_ideal_eq log2 _ _ hs, hG]
  simp only [weighted_sum]
  ring

/-! ## The walk of `te_calc_ndcg_rel` (`m_ndcg_rel.c`, lines 107-114) -/

theorem rel_descend_zero (g : List REL_GAIN) (n : Nat) (ig : ℚ) :
    rel_descend g 0 n ig = (-1, n, ig) := rfl

theorem rel_descend_succ (g : List REL_GAIN) (k n : Nat) (ig : ℚ) :
    rel_descend g (k + 1) n ig =
      if n > (g.getD k REL_GAIN.zero).num_at_level then
        rel_descend g k 1 (gain_at g ((k : Int) - 1))
      else ((k : Int), n, ig) := rfl

theorem gain_at_natCast (g : List REL_GAIN) (k : Nat) :
    gain_at g (k : Int) = (g.getD k REL_GAIN.zero).gain := by
  unfold gain_at
  rw [if_pos (Int.ofNat_nonneg k), Int.toNat_ofNat]

theorem gain_at_pred_succ (g : List REL_GAIN) (k : Nat) :
    gain_at g (((k + 1 : Nat) : Int) - 1) = (g.getD k REL_GAIN.zero).gain := by
  have e : (((k + 1 : Nat) : Int) - 1) = (k : Int) := by push_cast; ring
  rw [e, gain_at_natCast]

theorem gain_at_pred_nonpos (g : List REL_GAIN) (k : Nat)
    (h : ∀ j, j < k → (g.getD j REL_GAIN.zero).gain ≤ 0) :
    gain_at g ((k : Int) - 1) ≤ 0 := by
  cases k with
  | zero =>
    unfold gain_at
    rw [if_neg (by decide)]
  | succ j =>
    rw [gain_at_pred_succ]
    exact h j (Nat.lt_succ_self j)

theorem rel_descend_nonpos (g : List REL_GAIN) :
    ∀ (k n : Nat) (ig : ℚ), (∀ j, j < k → (g.getD j REL_GAIN.zero).gain ≤ 0) → ig ≤ 0 →
      (rel_descend g k n ig).2.2 ≤ 0 := by
  intro k
  induction k with
  | zero => intro n ig _ hig; exact hig
  | succ k ih =>
    intro n ig h hig
    rw [rel_descend_succ]
    by_cases hn : n > (g.getD k REL_GAIN.zero).num_at_level
    · rw [if_pos hn]
      exact ih 1 _ (fun j hj => h j (by omega))
        (gain_at_pred_nonpos g k (fun j hj => h j (by omega)))
    · rw [if_neg hn]
      exact hig

/-- The inner `while` of `te_calc_ndcg_rel` after the items of an entry are
used up, in a table sorted by ascending gain: it stops at the entry of the
next item of the walk, or with `ideal_gain ≤ 0` when the walk is over. -/
theorem rel_descend_below (g : List REL_GAIN) (hs : g.Pairwise (fun a b => a.gain ≤ b.gain)) :
    ∀ (k : Nat), k ≤ g.length →
      (emit_gains (g.take k).reverse = [] ∧
        (rel_descend g k 1 (gain_at g ((k : Int) - 1))).2.2 ≤ 0) ∨
      (∃ (k1 c1 : Nat),
        rel_descend g k 1 (gain_at g ((k : Int) - 1)) =
          ((k1 : Int), c1, (g.getD k1 REL_GAIN.zero).gain) ∧
        k1 < g.length ∧ 0 < (g.getD k1 REL_GAIN.zero).gain ∧
        c1 ≤ (g.getD k1 REL_GAIN.zero).num_at_level ∧
        emit_gains (g.take k).reverse =
          (g.getD k1 REL_GAIN.zero).gain :: walk_rest g k1 c1) := by
  intro k
  induction k with
  | zero =>
    intro _
    left
    refine ⟨rfl, ?_⟩
    rw [rel_descend_zero]
    exact gain_at_pred_nonpos g 0 (fun j hj => absurd hj (Nat.not_lt_zero j))
  | succ k ih =>
    intro hk1
    have hk : k < g.length := hk1
    rw [gain_at_pred_succ, rel_descend_succ, emit_succ g k hk]
    by_cases hg : (g.getD k REL_GAIN.zero).gain ≤ 0
    · left
      rw [if_pos hg]
      refine ⟨rfl, ?_⟩
      have hbelow : ∀ j, j < k → (g.getD j REL_GAIN.zero).gain ≤ 0 :=
        fun j hj => (sorted_getD g hs j k hj hk).trans hg
      by_cases h : 1 > (g.getD k REL_GAIN.zero).num_at_level
      · rw [if_pos h]
        exact rel_descend_nonpos g k 1 _ hbelow (gain_at_pred_nonpos g k hbelow)
      · rw [if_neg h]
        exact hg
    · rw [if_neg hg]
      by_cases h : 1 > (g.getD k REL_GAIN.zero).num_at_level
      · rw [if_pos h]
        have h0 : (g.getD k REL_GAIN.zero).num_at_level = 0 := by omega
        rw [h0, List.replicate_zero, List.nil_append]
        exact ih (le_of_lt hk)
      · rw [if_neg h]
        right
        exact ⟨k, 1, rfl, hk, not_le.mp hg, by omega, walk_rest_step g k 0 (by omega)⟩

theorem rel_descend_step (g : List REL_GAIN) (hs : g.Pairwise (fun a b => a.gain ≤ b.gain))
    (k c : Nat) (hk : k < g.length) (hg : 0 < (g.getD k REL_GAIN.zero).gain)
    (hc : c ≤ (g.getD k REL_GAIN.zero).num_at_level) :
    (walk_rest g k c = [] ∧
        (rel_descend g (k + 1) (c + 1) (g.getD k REL_GAIN.zero).gain).2.2 ≤ 0) ∨
      (∃ (k1 c1 : Nat),
        rel_descend g (k + 1) (c + 1) (g.getD k REL_GAIN.zero).gain =
          ((k1 : Int), c1, (g.getD k1 REL_GAIN.zero).gain) ∧
        k1 < g.length ∧ 0 < (g.getD k1 REL_GAIN.zero).gain ∧
        c1 ≤ (g.getD k1 REL_GAIN.zero).num_at_level ∧
        walk_rest g k c = (g.getD k1 REL_GAIN.zero).gain :: walk_rest g k1 c1) := by
  rw [rel_descend_succ]
  by_cases h : c + 1 > (g.getD k REL_GAIN.zero).num_at_level
  · rw [if_pos h, walk_rest_full g k c (by omega)]
    exact rel_descend_below g hs k (le_of_lt hk)
  · rw [if_neg h]
    right
    exact ⟨k, c + 1, rfl, hk, hg, by omega, walk_rest_step g k c (by omega)⟩

/-! ## Sums over a prefix -/

theorem weighted_sum_take_succ (d : Nat → ℚ) :
    ∀ (l : List ℚ) (s i : Nat),
      weighted_sum d s (l.take (i + 1)) =
        weighted_sum d s (l.take i) + l.getD i 0 * d (s + i) := by
  intro l
  induction l with
  | nil => intro s i; simp [weighted_sum]
  | cons x xs ih =>
    intro s i
    cases i with
    | zero => simp [weighted_sum]
    | succ i =>
      simp only [List.take_succ_cons, weighted_sum, List.getD_cons_succ]
      rw [ih (s + 1) i]
      have e : s + 1 + i = s + (i + 1) := by omega
      rw [e]
      ring

theorem countP_take_succ :
    ∀ (l : List ℚ) (i : Nat),
      (l.take (i + 1)).countP (fun x => decide (0 < x)) =
        (l.take i).countP (fun x => decide (0 < x)) + (if 0 < l.getD i 0 then 1 else 0) := by
  intro l
  induction l with
  | nil => intro i; simp
  | cons x xs ih =>
    intro i
    cases i with
    | zero => simp [List.countP_cons]
    | succ i =>
      simp only [List.take_succ_cons, List.countP_cons, List.getD_cons_succ]
      rw [ih i]
      ring

theorem rel_points_succ (d : Nat → ℚ) (a G : List ℚ) (i : Nat) :
    rel_points d a G (i + 1) =
      rel_points d a G i +
        (if 0 < a.getD i 0 then
          weighted_sum d 0 (a.take (i + 1)) / weighted_sum d 0 (G.take (i + 1))
        else 0) := by
  unfold rel_points
  rw [List.range_succ, List.map_append, List.sum_append]
  simp

theorem rel_points_of_le (d : Nat → ℚ) (a G : List ℚ) :
    ∀ (i : Nat), a.length ≤ i → rel_points d a G i = rel_points d a G a.length := by
  intro i hi
  induction i with
  | zero =>
    have : a.length = 0 := Nat.le_zero.mp hi
    rw [this]
  | succ i ih =>
    rcases Nat.lt_or_ge i a.length with h | h
    · have : a.length = i + 1 := by omega
      rw [this]
    · rw [rel_points_succ, List.getD_eq_default _ _ h, if_neg (lt_irrefl 0), add_zero]
      exact ih h

theorem XDOUBLE.add_fin_zero (x : XDOUBLE) : x + XDOUBLE.fin 0 = x := by
  show XDOUBLE.add x (XDOUBLE.fin 0) = x
  cases x <;> simp [XDOUBLE.add]

theorem XDOUBLE.fin_add_fin (x y : ℚ) : XDOUBLE.fin x + XDOUBLE.fin y = XDOUBLE.fin (x + y) :=
  rfl

theorem xdiv_of_ne (x y : ℚ) (h : y ≠ 0) : xdiv x y = XDOUBLE.fin (x / y) := by
  unfold xdiv
  rw [if_pos h]

theorem xrel_points_succ (d : Nat → ℚ) (a G : List ℚ) (i : Nat) :
    xrel_points d a G (i + 1) =
      xrel_points d a G i +
        (if 0 < a.getD i 0 then
          xdiv (weighted_sum d 0 (a.take (i + 1))) (weighted_sum d 0 (G.take (i + 1)))
        else XDOUBLE.fin 0) := by
  unfold xrel_points
  rw [List.range_succ, List.map_append, List.foldl_append]
  rfl

theorem xrel_points_of_le (d : Nat → ℚ) (a G : List ℚ) :
    ∀ (i : Nat), a.length ≤ i → xrel_points d a G i = xrel_points d a G a.length := by
  intro i hi
  induction i with
  | zero =>
    have : a.length = 0 := Nat.le_zero.mp hi
    rw [this]
  | succ i ih =>
    rcases Nat.lt_or_ge i a.length with h | h
    · have : a.length = i + 1 := by omega
      rw [this]
    · rw [xrel_points_succ, List.getD_eq_default _ _ h, if_neg (lt_irrefl 0),
        XDOUBLE.add_fin_zero]
      exact ih h

/-- With non-zero ideal DCG at every rank all quotients are numbers, and the
sum is the one of the specification. -/
theorem xrel_points_fin (d : Nat → ℚ) (a G : List ℚ)
    (hG : ∀ j, weighted_sum d 0 (G.take (j + 1)) ≠ 0) :
    ∀ n, xrel_points d a G n = XDOUBLE.fin (rel_points d a G n) := by
  intro n
  induction n with
  | zero => rfl
  | succ n ih =>
    rw [xrel_points_succ, rel_points_succ, ih]
    by_cases h : 0 < a.getD n 0
    · rw [if_pos h, if_pos h, xdiv_of_ne _ _ (hG n), XDOUBLE.fin_add_fin]
    · rw [if_neg h, if_neg h, XDOUBLE.fin_add_fin]

theorem emit_gains_pos : ∀ (l : List REL_GAIN), ∀ x ∈ emit_gains l, 0 < x := by
  intro l
  induction l with
  | nil => intro x hx; simp [emit_gains] at hx
  | cons e es ih =>
    intro x hx
    rw [emit_gains] at hx
    by_cases he : e.gain ≤ 0
    · rw [if_pos he] at hx
      cases hx
    · rw [if_neg he, List.mem_append] at hx
      rcases hx with h | h
      · rw [(List.mem_replicate.1 h).2]
        exact lt_of_not_le he
      · exact ih x h

theorem weighted_sum_pos (d : Nat → ℚ) (hd : ∀ n, 0 < d n) :
    ∀ (l : List ℚ) (i : Nat), l ≠ [] → (∀ x ∈ l, 0 < x) → 0 < weighted_sum d i l := by
  intro l
  induction l with
  | nil => intro i h; exact absurd rfl h
  | cons g gs ih =>
    intro i _ hall
    rw [weighted_sum]
    have hg : 0 < g * d i := mul_pos (hall g (List.mem_cons_self _ _)) (hd i)
    cases gs with
    | nil =>
      rw [weighted_sum, add_zero]
      exact hg
    | cons g2 gs2 =>
      have := ih (i + 1) (List.cons_ne_nil _ _)
        (fun x hx => hall x (List.mem_cons_of_mem _ hx))
      exact add_pos hg this

theorem drop_cons_getD {α : Type} (l : List α) (i : Nat) (x : α) (r : List α) (dflt : α)
    (h : l.drop i = x :: r) : i < l.length ∧ l.getD i dflt = x ∧ l.drop (i + 1) = r := by
  have hi : i < l.length := by
    by_contra hc
    rw [List.drop_eq_nil_iff.mpr (by omega)] at h
    cases h
  rw [List.drop_eq_getElem_cons hi] at h
  injection h with h1 h2
  exact ⟨hi, by rw [List.getD_eq_getElem _ _ hi, h1], h2⟩

theorem emit_length_desc :
    ∀ (l : List REL_GAIN), l.Pairwise (fun a b => b.gain ≤ a.gain) →
      (emit_gains l).length = pos_count l := by
  intro l
  induction l with
  | nil => intro _; rfl
  | cons e es ih =>
    intro h
    rw [List.pairwise_cons] at h
    unfold emit_gains pos_count
    by_cases he : e.gain ≤ 0
    · have hnil : (e :: es).filter (fun e => decide (0 < e.gain)) = [] := by
        rw [List.filter_eq_nil_iff]
        intro b hb
        rcases List.mem_cons.mp hb with rfl | hb'
        · simpa using he
        · simpa using (h.1 b hb').trans he
      rw [if_pos he, hnil]
      rfl
    · have hpos : 0 < e.gain := not_le.mp he
      rw [if_neg he, List.length_append, List.length_replicate, ih h.2]
      simp [pos_count, List.filter_cons, hpos]

theorem ideal_seq_length (g : List REL_GAIN) (hs : g.Pairwise (fun a b => a.gain ≤ b.gain)) :
    (ideal_seq g).length = pos_count g := by
  unfold ideal_seq
  rw [emit_length_desc _ (List.pairwise_reverse.mpr hs)]
  unfold pos_count
  rw [List.filter_reverse, List.map_reverse, List.sum_reverse]

/-! ## The loops of `te_calc_ndcg_rel` -/

theorem get_gain_eq_spec (gains : GAINS) (hn : gains.num_gains = gains.rel_gains.length)
    (c : Int) : get_gain c gains = spec_gain gains.rel_gains c := by
  unfold get_gain
  rw [hn, List.take_length, get_gain_loop_eq]

theorem rel_results_step_dcg (log2 : Nat → ℚ) (gains : GAINS) (rel : Int)
    (st : NDCG_REL_STATE) :
    (rel_results_step log2 gains rel st).results_dcg =
      st.results_dcg + get_gain rel gains * discount_rel log2 st.i := by
  unfold rel_results_step discount_rel
  by_cases h : get_gain rel gains = 0
  · simp [h]
  · simp only [ne_eq, h, not_false_eq_true, if_true]
    ring

theorem rel_average_step_sum (gains : GAINS) (rel : Int) (st : NDCG_REL_STATE) :
    (rel_average_step gains rel st).sum =
      st.sum + (if 0 < get_gain rel gains then xdiv st.results_dcg st.ideal_dcg
        else XDOUBLE.fin 0) := by
  unfold rel_average_step
  by_cases h : get_gain rel gains > 0
  · rw [if_pos h, if_pos h]
  · rw [if_neg h, if_neg h, XDOUBLE.add_fin_zero]

theorem rel_average_step_num_rel_ret (gains : GAINS) (rel : Int) (st : NDCG_REL_STATE) :
    (rel_average_step gains rel st).num_rel_ret =
      st.num_rel_ret + (if 0 < get_gain rel gains then 1 else 0) := by
  unfold rel_average_step
  by_cases h : get_gain rel gains > 0
  · rw [if_pos h, if_pos h]
  · rw [if_neg h, if_neg h, add_zero]

theorem rel_average_step_rest (gains : GAINS) (rel : Int) (st : NDCG_REL_STATE) :
    (rel_average_step gains rel st).i = st.i + 1 ∧
      (rel_average_step gains rel st).results_dcg = st.results_dcg ∧
      (rel_average_step gains rel st).ideal_dcg = st.ideal_dcg ∧
      (rel_average_step gains rel st).num_rel = st.num_rel ∧
      (rel_average_step gains rel st).cur_level = st.cur_level ∧
      (rel_average_step gains rel st).num_at_level = st.num_at_level ∧
      (rel_average_step gains rel st).ideal_gain = st.ideal_gain := by
  unfold rel_average_step
  by_cases h : get_gain rel gains > 0
  · rw [if_pos h]
    exact ⟨rfl, rfl, rfl, rfl, rfl, rfl, rfl⟩
  · rw [if_neg h]
    exact ⟨rfl, rfl, rfl, rfl, rfl, rfl, rfl⟩

theorem walk_state_congr (g : List REL_GAIN) (G : List ℚ) (i : Nat) (st st1 : NDCG_REL_STATE)
    (h1 : st1.cur_level = st.cur_level) (h2 : st1.num_at_level = st.num_at_level)
    (h3 : st1.ideal_gain = st.ideal_gain) (h : walk_state g G i st) : walk_state g G i st1 := by
  unfold walk_state at h ⊢
  rw [h1, h2, h3]
  exact h

theorem walk_state_done (g : List REL_GAIN) (G : List ℚ) (i : Nat) (st : NDCG_REL_STATE)
    (hle : st.ideal_gain ≤ 0) (h : walk_state g G i st) : G.length ≤ i := by
  rcases h with ⟨hpos, _⟩ | ⟨_, h⟩
  · exact absurd hpos (not_lt.mpr hle)
  · exact h

/-- Lines 107-118 (and 148-159) at rank `i`, entered with `ideal_gain > 0` on a
table sorted by ascending gain: the ideal DCG and `num_rel` take the next item
of the walk, if there is one. -/
theorem rel_ideal_step_spec (log2 : Nat → ℚ) (gains : GAINS)
    (hs : gains.rel_gains.Pairwise (fun a b => a.gain ≤ b.gain)) (G : List ℚ) (i : Nat)
    (st : NDCG_REL_STATE) (hi : st.i = i) (hw : walk_state gains.rel_gains G i st)
    (hpos : 0 < st.ideal_gain)
    (hd : st.ideal_dcg = weighted_sum (discount_rel log2) 0 (G.take i))
    (hn : st.num_rel = (G.take i).length) :
    (rel_ideal_step log2 gains st).ideal_dcg =
        weighted_sum (discount_rel log2) 0 (G.take (i + 1)) ∧
      (rel_ideal_step log2 gains st).num_rel = (G.take (i + 1)).length ∧
      walk_state gains.rel_gains G (i + 1) (rel_ideal_step log2 gains st) ∧
      (G.length ≤ i → (rel_ideal_step log2 gains st).ideal_gain ≤ 0) := by
  rcases hw with ⟨_, k, hk1, hk, hig, hc, hrest⟩ | ⟨hle, _⟩
  swap
  · exact absurd hpos (not_lt.mpr hle)
  have htn : (st.cur_level + 1).toNat = k + 1 := by rw [hk1]; omega
  have hgk : 0 < (gains.rel_gains.getD k REL_GAIN.zero).gain := hig ▸ hpos
  have hws := weighted_sum_take_succ (discount_rel log2) G 0 i
  rw [zero_add] at hws
  rcases rel_descend_step gains.rel_gains hs k st.num_at_level hk hgk hc with
    ⟨hnil, hle⟩ | ⟨k1, c1, hdesc, hk1', hg1, hc1, hcons⟩
  · rw [← hig, ← htn] at hle
    have hnot : ¬ (rel_descend gains.rel_gains (st.cur_level + 1).toNat (st.num_at_level + 1)
        st.ideal_gain).2.2 > 0 := not_lt.mpr hle
    have hGi : G.length ≤ i := by
      rw [hnil] at hrest
      exact List.drop_eq_nil_iff.mp hrest.symm
    have ht : G.take (i + 1) = G.take i := by
      rw [List.take_of_length_le hGi, List.take_of_length_le (by omega)]
    refine ⟨?_, ?_, ?_, ?_⟩
    · show (if _ then _ else _) = _
      rw [if_neg hnot, ht, hd]
    · show (if _ then _ else _) = _
      rw [if_neg hnot, ht, hn]
    · right
      exact ⟨hle, by omega⟩
    · intro _
      exact hle
  · rw [← hig, ← htn] at hdesc
    rw [hcons] at hrest
    obtain ⟨hiG, hget, hdrop⟩ := drop_cons_getD G i _ _ 0 hrest.symm
    have hposd : (rel_descend gains.rel_gains (st.cur_level + 1).toNat (st.num_at_level + 1)
        st.ideal_gain).2.2 > 0 := by rw [hdesc]; exact hg1
    refine ⟨?_, ?_, ?_, ?_⟩
    · show (if _ then _ else _) = _
      rw [if_pos hposd, hdesc, hws, hget, hd, hi]
      unfold discount_rel
      push_cast
      ring
    · show (if _ then _ else _) = _
      rw [if_pos hposd, hn, List.length_take, List.length_take]
      omega
    · left
      refine ⟨hposd, k1, ?_, hk1', ?_, ?_, ?_⟩
      · show (rel_descend _ _ _ _).1 = _
        rw [hdesc]
      · show (rel_descend _ _ _ _).2.2 = _
        rw [hdesc]
      · show (rel_descend _ _ _ _).2.1 ≤ _
        rw [hdesc]
        exact hc1
      · show walk_rest _ _ (rel_descend _ _ _ _).2.1 = _
        rw [hdesc]
        exact hdrop.symm
    · intro h
      omega

theorem rel_step1 (log2 : Nat → ℚ) (gains : GAINS)
    (hs : gains.rel_gains.Pairwise (fun a b => a.gain ≤ b.gain)) (a G : List ℚ) (i : Nat)
    (st : NDCG_REL_STATE) (rel : Int) (ha : a.getD i 0 = get_gain rel gains)
    (hinv : rel_inv (discount_rel log2) gains.rel_gains a G i st) (hpos : 0 < st.ideal_gain) :
    rel_inv (discount_rel log2) gains.rel_gains a G (i + 1)
      (rel_average_step gains rel
        (rel_ideal_step log2 gains (rel_results_step log2 gains rel st))) := by
  obtain ⟨hi, hr, hd, hn, hsum, hnr, hw⟩ := hinv
  obtain ⟨a1, a2, a3, a4, a5, a6, a7⟩ := rel_average_step_rest gains rel
    (rel_ideal_step log2 gains (rel_results_step log2 gains rel st))
  have hw0 : walk_state gains.rel_gains G i (rel_results_step log2 gains rel st) :=
    walk_state_congr _ _ _ st _ rfl rfl rfl hw
  obtain ⟨b1, b2, b3, -⟩ := rel_ideal_step_spec log2 gains hs G i
    (rel_results_step log2 gains rel st) hi hw0 hpos hd hn
  have hws := weighted_sum_take_succ (discount_rel log2) a 0 i
  rw [zero_add] at hws
  have hres : (rel_ideal_step log2 gains (rel_results_step log2 gains rel st)).results_dcg =
      weighted_sum (discount_rel log2) 0 (a.take (i + 1)) := by
    show (rel_results_step log2 gains rel st).results_dcg = _
    rw [rel_results_step_dcg, hws, hr, ha, hi]
  refine ⟨?_, ?_, ?_, ?_, ?_, ?_, ?_⟩
  · rw [a1]
    show st.i + 1 = i + 1
    rw [hi]
  · rw [a2, hres]
  · rw [a3, b1]
  · rw [a4, b2]
  · rw [rel_average_step_sum, xrel_points_succ, ha, hres, b1]
    show st.sum + _ = _
    rw [hsum]
  · rw [rel_average_step_num_rel_ret, countP_take_succ, ha]
    show st.num_rel_ret + _ = _
    rw [hnr]
  · exact walk_state_congr _ _ _ _ _ a5 a6 a7 b3

theorem rel_step2 (log2 : Nat → ℚ) (gains : GAINS) (a G : List ℚ) (i : Nat)
    (st : NDCG_REL_STATE) (rel : Int) (ha : a.getD i 0 = get_gain rel gains)
    (hinv : rel_inv (discount_rel log2) gains.rel_gains a G i st) (hle : st.ideal_gain ≤ 0) :
    rel_inv (discount_rel log2) gains.rel_gains a G (i + 1)
      (rel_average_step gains rel (rel_results_step log2 gains rel st)) := by
  obtain ⟨hi, hr, hd, hn, hsum, hnr, hw⟩ := hinv
  obtain ⟨a1, a2, a3, a4, a5, a6, a7⟩ := rel_average_step_rest gains rel
    (rel_results_step log2 gains rel st)
  have hGi : G.length ≤ i := walk_state_done _ _ _ _ hle hw
  have ht : G.take (i + 1) = G.take i := by
    rw [List.take_of_length_le hGi, List.take_of_length_le (by omega)]
  have hws := weighted_sum_take_succ (discount_rel log2) a 0 i
  rw [zero_add] at hws
  have hres : (rel_results_step log2 gains rel st).results_dcg =
      weighted_sum (discount_rel log2) 0 (a.take (i + 1)) := by
    rw [rel_results_step_dcg, hws, hr, ha, hi]
  refine ⟨?_, ?_, ?_, ?_, ?_, ?_, ?_⟩
  · rw [a1]
    show st.i + 1 = i + 1
    rw [hi]
  · rw [a2, hres]
  · rw [a3, ht]
    exact hd
  · rw [a4, ht]
    exact hn
  · rw [rel_average_step_sum, xrel_points_succ, ha, hres, ht]
    show st.sum + (if _ then xdiv _ st.ideal_dcg else XDOUBLE.fin 0) = _
    rw [hsum, hd]
  · rw [rel_average_step_num_rel_ret, countP_take_succ, ha]
    show st.num_rel_ret + _ = _
    rw [hnr]
  · right
    rw [a7]
    exact ⟨hle, by omega⟩

theorem rel_step3 (log2 : Nat → ℚ) (gains : GAINS)
    (hs : gains.rel_gains.Pairwise (fun a b => a.gain ≤ b.gain)) (a G : List ℚ) (i : Nat)
    (st : NDCG_REL_STATE) (hai : a.length ≤ i)
    (hinv : rel_inv (discount_rel log2) gains.rel_gains a G i st) (hpos : 0 < st.ideal_gain) :
    rel_inv (discount_rel log2) gains.rel_gains a G (i + 1)
        { rel_ideal_step log2 gains st with i := st.i + 1 } ∧
      (G.length ≤ i → (rel_ideal_step log2 gains st).ideal_gain ≤ 0) := by
  obtain ⟨hi, hr, hd, hn, hsum, hnr, hw⟩ := hinv
  obtain ⟨b1, b2, b3, b4⟩ := rel_ideal_step_spec log2 gains hs G i st hi hw hpos hd hn
  have hta : a.take (i + 1) = a.take i := by
    rw [List.take_of_length_le hai, List.take_of_length_le (by omega)]
  refine ⟨⟨?_, ?_, b1, b2, ?_, ?_, ?_⟩, b4⟩
  · show st.i + 1 = i + 1
    rw [hi]
  · show st.results_dcg = _
    rw [hta]
    exact hr
  · show st.sum = _
    rw [xrel_points_succ, List.getD_eq_default _ _ hai, if_neg (lt_irrefl 0),
      XDOUBLE.add_fin_zero]
    exact hsum
  · show st.num_rel_ret = _
    rw [hta]
    exact hnr
  · exact walk_state_congr _ _ _ (rel_ideal_step log2 gains st) _ rfl rfl rfl b3

theorem rel_loop1_spec (log2 : Nat → ℚ) (gains : GAINS)
    (hs : gains.rel_gains.Pairwise (fun a b => a.gain ≤ b.gain)) (v : List Int) (G : List ℚ) :
    ∀ (l : List Int) (i : Nat) (st : NDCG_REL_STATE), v.drop i = l →
      rel_inv (discount_rel log2) gains.rel_gains (v.map (fun c => get_gain c gains)) G i st →
      ∃ j, rel_inv (discount_rel log2) gains.rel_gains (v.map (fun c => get_gain c gains)) G j
          (rel_loop1 log2 gains l st).2 ∧
        v.drop j = (rel_loop1 log2 gains l st).1 ∧
        ((rel_loop1 log2 gains l st).1 ≠ [] → (rel_loop1 log2 gains l st).2.ideal_gain ≤ 0) := by
  intro l
  induction l with
  | nil =>
    intro i st hl hinv
    exact ⟨i, hinv, hl, fun h => absurd rfl h⟩
  | cons rel rest ih =>
    intro i st hl hinv
    obtain ⟨hiv, hget, hdrop⟩ := drop_cons_getD v i rel rest 0 hl
    have ha : (v.map (fun c => get_gain c gains)).getD i 0 = get_gain rel gains := by
      have hl' : (v.map (fun c => get_gain c gains)).drop i =
          get_gain rel gains :: rest.map (fun c => get_gain c gains) := by
        rw [← List.map_drop, hl, List.map_cons]
      exact (drop_cons_getD _ i _ _ 0 hl').2.1
    by_cases hpos : st.ideal_gain > 0
    · rw [rel_loop1, if_pos hpos]
      exact ih (i + 1) _ hdrop (rel_step1 log2 gains hs _ G i st rel ha hinv hpos)
    · rw [rel_loop1, if_neg hpos]
      exact ⟨i, hinv, hl, fun _ => not_lt.mp hpos⟩

theorem rel_loop2_spec (log2 : Nat → ℚ) (gains : GAINS) (v : List Int) (G : List ℚ) :
    ∀ (l : List Int) (i : Nat) (st : NDCG_REL_STATE), v.drop i = l →
      rel_inv (discount_rel log2) gains.rel_gains (v.map (fun c => get_gain c gains)) G i st →
      (l ≠ [] → st.ideal_gain ≤ 0) →
      ∃ j, v.length ≤ j ∧
        rel_inv (discount_rel log2) gains.rel_gains (v.map (fun c => get_gain c gains)) G j
          (rel_loop2 log2 gains l st) := by
  intro l
  induction l with
  | nil =>
    intro i st hl hinv _
    exact ⟨i, List.drop_eq_nil_iff.mp hl, hinv⟩
  | cons rel rest ih =>
    intro i st hl hinv hle
    obtain ⟨hiv, hget, hdrop⟩ := drop_cons_getD v i rel rest 0 hl
    have ha : (v.map (fun c => get_gain c gains)).getD i 0 = get_gain rel gains := by
      have hl' : (v.map (fun c => get_gain c gains)).drop i =
          get_gain rel gains :: rest.map (fun c => get_gain c gains) := by
        rw [← List.map_drop, hl, List.map_cons]
      exact (drop_cons_getD _ i _ _ 0 hl').2.1
    have hle' : st.ideal_gain ≤ 0 := hle (List.cons_ne_nil _ _)
    rw [rel_loop2]
    refine ih (i + 1) _ hdrop (rel_step2 log2 gains _ G i st rel ha hinv hle') ?_
    intro _
    rw [(rel_average_step_rest gains rel _).2.2.2.2.2.2]
    exact hle'

theorem rel_loop3_spec (log2 : Nat → ℚ) (gains : GAINS)
    (hs : gains.rel_gains.Pairwise (fun a b => a.gain ≤ b.gain)) (a G : List ℚ) :
    ∀ (fuel i : Nat) (st : NDCG_REL_STATE), a.length ≤ i →
      rel_inv (discount_rel log2) gains.rel_gains a G i st →
      (0 < st.ideal_gain → (G.drop i).length < fuel) →
      ∃ j st3, rel_loop3 log2 gains fuel st = some st3 ∧ a.length ≤ j ∧
        rel_inv (discount_rel log2) gains.rel_gains a G j st3 ∧ st3.ideal_gain ≤ 0 := by
  intro fuel
  induction fuel with
  | zero =>
    intro i st hai hinv hf
    have hle : ¬ st.ideal_gain > 0 := fun h => absurd (hf h) (Nat.not_lt_zero _)
    refine ⟨i, st, ?_, hai, hinv, not_lt.mp hle⟩
    rw [rel_loop3, if_neg hle]
  | succ fuel ih =>
    intro i st hai hinv hf
    by_cases hpos : st.ideal_gain > 0
    · rw [rel_loop3, if_pos hpos]
      obtain ⟨hinv', hdone⟩ := rel_step3 log2 gains hs a G i st hai hinv hpos
      refine ih (i + 1) _ (by omega) hinv' ?_
      intro hpos'
      have hlt := hf hpos
      rw [List.length_drop] at hlt ⊢
      rcases Nat.lt_or_ge i G.length with h | h
      · omega
      · exact absurd hpos' (not_lt.mpr (hdone h))
    · refine ⟨i, st, ?_, hai, hinv, not_lt.mp hpos⟩
      rw [rel_loop3, if_neg hpos]

theorem ideal_seq_of_top_nonpos (g : List REL_GAIN) (top : Nat) (h : g.length = top + 1)
    (hg : (g.getD top REL_GAIN.zero).gain ≤ 0) : ideal_seq g = [] := by
  unfold ideal_seq
  have e : g = g.take (top + 1) := by rw [List.take_of_length_le (by omega)]
  rw [e, emit_succ g top (by omega), if_pos hg]

theorem ideal_seq_of_top_pos (g : List REL_GAIN) (top : Nat) (h : g.length = top + 1)
    (hg : 0 < (g.getD top REL_GAIN.zero).gain) : walk_rest g top 0 = ideal_seq g := by
  unfold ideal_seq
  rw [walk_rest_zero g top (by omega) hg, List.take_of_length_le (by omega)]

/-- The locals at line 100. -/
theorem rel_inv_init (d : Nat → ℚ) (g : List REL_GAIN) (a : List ℚ) :
    rel_inv d g a (ideal_seq g) 0
      { i := 0, results_dcg := 0, ideal_dcg := 0, sum := XDOUBLE.fin 0, num_rel_ret := 0,
        num_rel := 0,
        cur_level := (g.length : Int) - 1, num_at_level := 0,
        ideal_gain := gain_at g ((g.length : Int) - 1) } := by
  refine ⟨rfl, ?_, ?_, ?_, ?_, ?_, ?_⟩
  · simp [weighted_sum]
  · simp [weighted_sum]
  · simp
  · rfl
  · simp
  · rcases Nat.eq_zero_or_pos g.length with h0 | hpos
    · right
      have hg : g = [] := List.length_eq_zero.mp h0
      subst hg
      exact ⟨gain_at_pred_nonpos [] 0 (fun j hj => absurd hj (Nat.not_lt_zero j)),
        Nat.le_refl _⟩
    · obtain ⟨top, htop⟩ : ∃ top, g.length = top + 1 := ⟨g.length - 1, by omega⟩
      have hcast : ((g.length : Int) - 1) = (top : Int) := by
        rw [htop]; push_cast; ring
      by_cases hg : 0 < (g.getD top REL_GAIN.zero).gain
      · left
        refine ⟨?_, top, hcast, by omega, ?_, Nat.zero_le _, ?_⟩
        · show 0 < gain_at g _
          rw [hcast, gain_at_natCast]
          exact hg
        · show gain_at g _ = _
          rw [hcast, gain_at_natCast]
        · show walk_rest g top 0 = (ideal_seq g).drop 0
          rw [List.drop_zero]
          exact ideal_seq_of_top_pos g top htop hg
      · right
        refine ⟨?_, ?_⟩
        · show gain_at g _ ≤ 0
          rw [hcast, gain_at_natCast]
          exact not_lt.mp hg
        · rw [ideal_seq_of_top_nonpos g top htop (not_lt.mp hg)]
          exact Nat.le_refl _

/-! ## `te_calc_ndcg_rel` -/

theorem achieved_gains_eq (pairs : List DOUBLE_PARAM_PAIR) (res_rels : RES_RELS) :
    (res_rels.results_rel_list.take res_rels.num_ret).map
        (fun c => get_gain c (setup_gains pairs res_rels)) =
      achieved_gains pairs res_rels := by
  unfold achieved_gains
  apply List.map_congr_left
  intro c _
  exact get_gain_eq pairs res_rels c

/-- The locals of `te_calc_ndcg_rel` at line 166, on a table sorted by
ascending gain and with enough fuel for the loop of lines 147-165. -/
theorem te_calc_ndcg_rel_locals (log2 : Nat → ℚ) (fuel : Nat) (pairs : List DOUBLE_PARAM_PAIR)
    (res_rels : RES_RELS)
    (hs : (setup_gains pairs res_rels).rel_gains.Pairwise (fun a b => a.gain ≤ b.gain))
    (hfuel : (setup_gains pairs res_rels).total_num_at_levels < fuel) :
    ∃ st3, te_calc_ndcg_rel log2 fuel pairs res_rels = some (rel_finish st3) ∧
      st3.num_rel = pos_count (setup_gains pairs res_rels).rel_gains ∧
      st3.num_rel_ret = (achieved_gains pairs res_rels).countP (fun x => decide (0 < x)) ∧
      st3.results_dcg = weighted_sum (discount_rel log2) 0 (achieved_gains pairs res_rels) ∧
      st3.ideal_dcg =
        weighted_sum (discount_rel log2) 0 (ideal_seq (setup_gains pairs res_rels).rel_gains) ∧
      st3.sum = xrel_points (discount_rel log2) (achieved_gains pairs res_rels)
        (ideal_seq (setup_gains pairs res_rels).rel_gains)
        (achieved_gains pairs res_rels).length := by
  have h0 : rel_inv (discount_rel log2) (setup_gains pairs res_rels).rel_gains
      ((res_rels.results_rel_list.take res_rels.num_ret).map
        (fun c => get_gain c (setup_gains pairs res_rels)))
      (ideal_seq (setup_gains pairs res_rels).rel_gains) 0
      (rel_init (setup_gains pairs res_rels)) :=
    rel_inv_init (discount_rel log2) (setup_gains pairs res_rels).rel_gains _
  obtain ⟨j1, hinv1, hdrop1, hle1⟩ := rel_loop1_spec log2 (setup_gains pairs res_rels) hs
    (res_rels.results_rel_list.take res_rels.num_ret)
    (ideal_seq (setup_gains pairs res_rels).rel_gains) _ 0 _ (List.drop_zero _) h0
  obtain ⟨j2, hj2, hinv2⟩ := rel_loop2_spec log2 (setup_gains pairs res_rels)
    (res_rels.results_rel_list.take res_rels.num_ret)
    (ideal_seq (setup_gains pairs res_rels).rel_gains) _ j1 _ hdrop1 hinv1 hle1
  have hlen : ((res_rels.results_rel_list.take res_rels.num_ret).map
      (fun c => get_gain c (setup_gains pairs res_rels))).length ≤ j2 := by
    rw [List.length_map]
    exact hj2
  have hf : (ideal_seq (setup_gains pairs res_rels).rel_gains).length < fuel :=
    lt_of_le_of_lt (ideal_seq_length_le _) hfuel
  obtain ⟨j3, st3, h3, hj3, hinv3, hle3⟩ := rel_loop3_spec log2 (setup_gains pairs res_rels) hs
    _ (ideal_seq (setup_gains pairs res_rels).rel_gains) fuel j2 _ hlen hinv2
    (fun _ => by
      rw [List.length_drop]
      omega)
  obtain ⟨-, hr, hd, hn, hsum, hnr, hw⟩ := hinv3
  have hG : (ideal_seq (setup_gains pairs res_rels).rel_gains).length ≤ j3 :=
    walk_state_done _ _ _ _ hle3 hw
  rw [List.take_of_length_le hj3] at hr hnr
  rw [List.take_of_length_le hG] at hd hn
  rw [xrel_points_of_le _ _ _ j3 hj3] at hsum
  rw [achieved_gains_eq] at hr hnr hsum
  rw [ideal_seq_length _ hs] at hn
  refine ⟨st3, ?_, hn, hnr, hr, hd, hsum⟩
  show Option.map rel_finish _ = _
  rw [h3]
  rfl

/-- C20 (counter-example): with the override `0=-1.0`, one judged document at
each of the levels 0 and 1 and the document of level 0 retrieved at the first
rank, the table is sorted by ascending gain and has one item of positive gain,
`sum` is `-1` and `R` is 1, and `te_calc_ndcg_rel` leaves the value unwritten
instead of writing `sum / R = -1`.  (Rank 0 only consults `log2 (2) = 1`.) -/
theorem te_calc_ndcg_rel_negative_sum_unwritten :
    (setup_gains neg_pairs nonrel_res_rels).rel_gains = [⟨0, 1, -1⟩, ⟨1, 1, 1⟩] ∧
    (setup_gains neg_pairs nonrel_res_rels).rel_gains.Pairwise (fun a b => a.gain ≤ b.gain) ∧
    pos_count (setup_gains neg_pairs nonrel_res_rels).rel_gains = 1 ∧
    te_calc_ndcg_rel floor_log2 3 neg_pairs nonrel_res_rels =
      some { sum := XDOUBLE.fin (-1), num_rel := 1, num_rel_ret := 0, results_dcg := -1,
             ideal_dcg := 1, value := none } := by
  decide!

theorem floor_log2_pos (n : Nat) : 0 < floor_log2 (n + 2) := by
  unfold floor_log2
  have h : 0 < Nat.log 2 (n + 2) := Nat.log_pos (by decide) (by omega)
  exact_mod_cast h

/-- C20 (amended): for every vector and every table of `setup_gains` that is
sorted by ascending gain and has at least one item of positive gain, for a
`log2` that is positive from 2 on, `te_calc_ndcg_rel` (its last loop given more
iterations than the table counts items) computes `R`, the total count of the
items at entries of positive gain, `r`, the number of retrieved ranks with
positive gain, and `sum`, the sum over every retrieved rank `i` with positive
gain of `achieved_DCG (0..i) / ideal_DCG (0..i)` plus
`(R - r) * final_achieved_DCG / final_ideal_DCG`, each DCG with the discount
`1 / log2 (i + 2)` and no ideal DCG zero; it writes the value `sum / R` when
`sum > 0` and leaves the value unwritten otherwise. -/
theorem te_calc_ndcg_rel_average (log2 : Nat → ℚ) (fuel : Nat)
    (pairs : List DOUBLE_PARAM_PAIR) (res_rels : RES_RELS)
    (hs : (setup_gains pairs res_rels).rel_gains.Pairwise (fun a b => a.gain ≤ b.gain))
    (hitem : 0 < pos_count (setup_gains pairs res_rels).rel_gains)
    (hlog : ∀ n, 0 < log2 (n + 2))
    (hfuel : (setup_gains pairs res_rels).total_num_at_levels < fuel) :
    ∃ r, te_calc_ndcg_rel log2 fuel pairs res_rels = some r ∧
      r.num_rel = pos_count (setup_gains pairs res_rels).rel_gains ∧
      r.num_rel_ret = (achieved_gains pairs res_rels).countP (fun x => decide (0 < x)) ∧
      r.results_dcg = weighted_sum (discount_rel log2) 0 (achieved_gains pairs res_rels) ∧
      r.ideal_dcg =
        weighted_sum (discount_rel log2) 0 (ideal_seq (setup_gains pairs res_rels).rel_gains) ∧
      0 < r.ideal_dcg ∧
      (∀ i, 0 < weighted_sum (discount_rel log2) 0
        ((ideal_seq (setup_gains pairs res_rels).rel_gains).take (i + 1))) ∧
      r.sum = XDOUBLE.fin
        (rel_points (discount_rel log2) (achieved_gains pairs res_rels)
            (ideal_seq (setup_gains pairs res_rels).rel_gains)
            (achieved_gains pairs res_rels).length +
          (((r.num_rel : Int) - (r.num_rel_ret : Int) : Int) : ℚ) * r.results_dcg /
            r.ideal_dcg) ∧
      r.value =
        if 0 < rel_points (discount_rel log2) (achieved_gains pairs res_rels)
            (ideal_seq (setup_gains pairs res_rels).rel_gains)
            (achieved_gains pairs res_rels).length +
          (((r.num_rel : Int) - (r.num_rel_ret : Int) : Int) : ℚ) * r.results_dcg /
            r.ideal_dcg
        then some (XDOUBLE.fin
          ((rel_points (discount_rel log2) (achieved_gains pairs res_rels)
              (ideal_seq (setup_gains pairs res_rels).rel_gains)
              (achieved_gains pairs res_rels).length +
            (((r.num_rel : Int) - (r.num_rel_ret : Int) : Int) : ℚ) * r.results_dcg /
              r.ideal_dcg) / (r.num_rel : ℚ)))
        else none := by
  obtain ⟨st3, h, hn, hnr, hr, hd, hsum⟩ :=
    te_calc_ndcg_rel_locals log2 fuel pairs res_rels hs hfuel
  have hdisc : ∀ n, 0 < discount_rel log2 n := by
    intro n
    unfold discount_rel
    exact one_div_pos.2 (hlog n)
  have hGne : ideal_seq (setup_gains pairs res_rels).rel_gains ≠ [] := by
    intro e
    have hl := ideal_seq_length _ hs
    rw [e, List.length_nil] at hl
    omega
  have hGpos : ∀ x ∈ ideal_seq (setup_gains pairs res_rels).rel_gains, 0 < x :=
    emit_gains_pos _
  have hpart : ∀ i, 0 < weighted_sum (discount_rel log2) 0
      ((ideal_seq (setup_gains pairs res_rels).rel_gains).take (i + 1)) := by
    intro i
    refine weighted_sum_pos _ hdisc _ 0 ?_ (fun x hx => hGpos x (List.mem_of_mem_take hx))
    intro e
    rw [List.take_eq_nil_iff] at e
    rcases e with e | e
    · exact absurd e (Nat.succ_ne_zero i)
    · exact hGne e
  have hideal : 0 < st3.ideal_dcg := by
    rw [hd]
    exact weighted_sum_pos _ hdisc _ 0 hGne hGpos
  have hsum2 := hsum
  rw [xrel_points_fin _ _ _ (fun j => ne_of_gt (hpart j))] at hsum2
  have hR : (st3.num_rel : ℚ) ≠ 0 := by
    rw [hn]
    exact_mod_cast (ne_of_gt hitem)
  have hfin : (rel_finish st3).sum = XDOUBLE.fin
      (rel_points (discount_rel log2) (achieved_gains pairs res_rels)
          (ideal_seq (setup_gains pairs res_rels).rel_gains)
          (achieved_gains pairs res_rels).length +
        (((st3.num_rel : Int) - (st3.num_rel_ret : Int) : Int) : ℚ) * st3.results_dcg /
          st3.ideal_dcg) := by
    show st3.sum + xdiv _ st3.ideal_dcg = _
    rw [hsum2, xdiv_of_ne _ _ (ne_of_gt hideal), XDOUBLE.fin_add_fin]
  refine ⟨rel_finish st3, h, hn, hnr, hr, hd, hideal, hpart, hfin, ?_⟩
  show (if (rel_finish st3).sum.pos then some ((rel_finish st3).sum.div_nat st3.num_rel)
    else none) = _
  rw [hfin]
  show (if decide (0 < _) = true then some (xdiv _ (st3.num_rel : ℚ)) else none) = _
  rw [xdiv_of_ne _ _ hR]
  simp only [decide_eq_true_eq]
  rfl

/-- C20 (witness): the overrides `{1:5.0, 2:1.0}` with one judged document at
each of the levels 0 and 1, the document of level 1 retrieved first. -/
theorem te_calc_ndcg_rel_average_witness :
    (setup_gains gain_ex_pairs one_rel_res_rels).rel_gains.Pairwise
        (fun a b => a.gain ≤ b.gain) ∧
    0 < pos_count (setup_gains gain_ex_pairs one_rel_res_rels).rel_gains ∧
    (∀ n, 0 < floor_log2 (n + 2)) ∧
    (setup_gains gain_ex_pairs one_rel_res_rels).total_num_at_levels < 10 ∧
    ∃ r, te_calc_ndcg_rel floor_log2 10 gain_ex_pairs one_rel_res_rels = some r ∧
      r.num_rel = pos_count (setup_gains gain_ex_pairs one_rel_res_rels).rel_gains ∧
      r.num_rel_ret =
        (achieved_gains gain_ex_pairs one_rel_res_rels).countP (fun x => decide (0 < x)) ∧
      r.results_dcg =
        weighted_sum (discount_rel floor_log2) 0 (achieved_gains gain_ex_pairs one_rel_res_rels) ∧
      r.ideal_dcg =
        weighted_sum (discount_rel floor_log2) 0
          (ideal_seq (setup_gains gain_ex_pairs one_rel_res_rels).rel_gains) ∧
      0 < r.ideal_dcg ∧
      (∀ i, 0 < weighted_sum (discount_rel floor_log2) 0
        ((ideal_seq (setup_gains gain_ex_pairs one_rel_res_rels).rel_gains).take (i + 1))) ∧
      r.sum = XDOUBLE.fin
        (rel_points (discount_rel floor_log2) (achieved_gains gain_ex_pairs one_rel_res_rels)
            (ideal_seq (setup_gains gain_ex_pairs one_rel_res_rels).rel_gains)
            (achieved_gains gain_ex_pairs one_rel_res_rels).length +
          (((r.num_rel : Int) - (r.num_rel_ret : Int) : Int) : ℚ) * r.results_dcg /
            r.ideal_dcg) ∧
      r.value =
        if 0 < rel_points (discount_rel floor_log2)
            (achieved_gains gain_ex_pairs one_rel_res_rels)
            (ideal_seq (setup_gains gain_ex_pairs one_rel_res_rels).rel_gains)
            (achieved_gains gain_ex_pairs one_rel_res_rels).length +
          (((r.num_rel : Int) - (r.num_rel_ret : Int) : Int) : ℚ) * r.results_dcg /
            r.ideal_dcg
        then some (XDOUBLE.fin
          ((rel_points (discount_rel floor_log2)
              (achieved_gains gain_ex_pairs one_rel_res_rels)
              (ideal_seq (setup_gains gain_ex_pairs one_rel_res_rels).rel_gains)
              (achieved_gains gain_ex_pairs one_rel_res_rels).length +
            (((r.num_rel : Int) - (r.num_rel_ret : Int) : Int) : ℚ) * r.results_dcg /
              r.ideal_dcg) / (r.num_rel : ℚ)))
        else none :=
  ⟨by decide!, by decide!, floor_log2_pos, by decide!,
    te_calc_ndcg_rel_average floor_log2 10 gain_ex_pairs one_rel_res_rels (by decide!)
      (by decide!) floor_log2_pos (by decide!)⟩

/-- Where the ideal DCG is zero: with the overrides `-1=3.0,0=-10.0`, one judged
document at level 0 and the vector `[-1, 0]`, the table is sorted and has no
item of positive gain; rank 0 adds `3.0 / 0.0` to `sum`, which is `+inf` from
then on, and line 172 writes the value `+inf`.  (Evaluated with `floor_log2`,
which only enters the achieved DCG.) -/
theorem te_calc_ndcg_rel_zero_ideal :
    (setup_gains nonpool_pairs nonpool_res_rels).rel_gains = [⟨0, 1, -10⟩, ⟨-1, 0, 3⟩] ∧
    pos_count (setup_gains nonpool_pairs nonpool_res_rels).rel_gains = 0 ∧
    te_calc_ndcg_rel floor_log2 5 nonpool_pairs nonpool_res_rels =
      some { sum := XDOUBLE.pinf, num_rel := 0, num_rel_ret := 1, results_dcg := -7,
             ideal_dcg := 0, value := some XDOUBLE.pinf } := by
  decide!

/-! ## Judgment groups are evaluated one by one -/

theorem skip_smaller_fst_indep (x : String) :
    ∀ (qs : List TEXT_QRELS) (lv lv' : List Nat),
      (skip_smaller x qs lv).1 = (skip_smaller x qs lv').1 := by
  intro qs
  induction qs with
  | nil => intro lv lv'; rfl
  | cons q qs ih =>
    intro lv lv'
    by_cases h : strcmp q.docno x < 0
    · simp only [skip_smaller, h, if_true]
      exact ih _ _
    · simp only [skip_smaller, h, if_false]

theorem skip_smaller_fst_cases (x : String) (qs : List TEXT_QRELS) (lv lv' : List Nat) :
    (∃ lv1 lv1', skip_smaller x qs lv = ([], lv1) ∧ skip_smaller x qs lv' = ([], lv1')) ∨
    (∃ q rest lv1 lv1', skip_smaller x qs lv = (q :: rest, lv1) ∧
      skip_smaller x qs lv' = (q :: rest, lv1')) := by
  have h := skip_smaller_fst_indep x qs lv lv'
  cases h1 : skip_smaller x qs lv with
  | mk a b =>
    cases h2 : skip_smaller x qs lv' with
    | mk a' b' =>
      rw [h1, h2] at h
      simp only at h
      subst h
      cases a with
      | nil => exact Or.inl ⟨b, b', rfl, rfl⟩
      | cons q rest => exact Or.inr ⟨q, rest, b, b', rfl, rfl⟩

/-- The `rel` values the merge assigns do not depend on the histogram it
counts into. -/
theorem merge_qrels_fst_indep :
    ∀ (di : List DOCNO_INFO) (qs : List TEXT_QRELS) (lv lv' : List Nat),
      (merge_qrels di qs lv).1 = (merge_qrels di qs lv').1 := by
  intro di
  induction di with
  | nil => intro qs lv lv'; rfl
  | cons d ds ih =>
    intro qs lv lv'
    rcases skip_smaller_fst_cases d.docno qs lv lv' with
      ⟨lv1, lv1', e1, e2⟩ | ⟨q, rest, lv1, lv1', e1, e2⟩
    · simp only [merge_qrels, e1, e2]
      rw [ih [] lv1 lv1']
    · by_cases hq : strcmp q.docno d.docno > 0
      · simp only [merge_qrels, e1, e2, hq, if_true]
        rw [ih (q :: rest) lv1 lv1']
      · simp only [merge_qrels, e1, e2, hq, if_false]
        rw [ih rest (count_rel lv1 q.rel) (count_rel lv1' q.rel)]

theorem merged_indep (di : List DOCNO_INFO) (m m' : Int) (qrels : List TEXT_QRELS) :
    merged di m qrels = merged di m' qrels :=
  merge_qrels_fst_indep di qrels _ _

theorem forall₂_getElem? {α β : Type} {P : α → β → Prop} :
    ∀ {l₁ : List α} {l₂ : List β}, List.Forall₂ P l₁ l₂ → ∀ (i : Nat) (b : β),
      l₂[i]? = some b → ∃ a, l₁[i]? = some a ∧ P a b := by
  intro l₁ l₂ h
  induction h with
  | nil => intro i b hb; simp at hb
  | cons hab _ ih =>
    intro i b hb
    cases i with
    | zero =>
      simp only [List.getElem?_cons_zero, Option.some.injEq] at hb
      subst hb
      exact ⟨_, by simp, hab⟩
    | succ i =>
      simp only [List.getElem?_cons_succ] at hb
      obtain ⟨a, ha, hp⟩ := ih i b hb
      exact ⟨a, by simpa using ha, hp⟩

theorem te_fresh_formats (s : Session) (epi : EPI) (rel_info : REL_INFO) (results : RESULTS)
    (h : (te_form_res_rels_jg s epi rel_info results).ret = 1) :
    strcmp s.current_query results.qid ≠ 0 ∧ strcmp "qrels_jg" rel_info.rel_format = 0 ∧
      strcmp "trec_results" results.ret_format = 0 := by
  unfold te_form_res_rels_jg at h
  by_cases h1 : strcmp s.current_query results.qid = 0
  · rw [if_pos h1] at h
    exact absurd (show (0 : Int) = 1 from h) (by decide)
  · rw [if_neg h1] at h
    by_cases h2 : strcmp "qrels_jg" rel_info.rel_format ≠ 0 ∨
        strcmp "trec_results" results.ret_format ≠ 0
    · rw [if_pos h2] at h
      exact absurd (show (-1 : Int) = 1 from h) (by decide)
    · rw [not_or, not_not, not_not] at h2
      exact ⟨h1, h2.1, h2.2⟩

/-- What a group's result is, apart from `num_rel_levels` and the unread part
of the vector, is fixed by `epi`, the retrieved list and the judgments of the
group. -/
theorem form_jg_group_indep (epi : EPI) (tr : List TEXT_RESULTS)
    (hdup : has_duplicate (qsort comp_docno (ranked_docno_info epi tr)) = false)
    (qrels : List TEXT_QRELS) (m m' : Int) (h0 : 0 ≤ m) (hm : ∀ q ∈ qrels, q.rel ≤ m)
    (h0' : 0 ≤ m') (hm' : ∀ q ∈ qrels, q.rel ≤ m')
    (last last' : Bool) (stale stale' : RES_RELS) (slice slice' : List Int)
    (hsl : slice.length = (ranked_docno_info epi tr).length)
    (hsl' : slice'.length = (ranked_docno_info epi tr).length)
    (r r' : RES_RELS)
    (hr : r = (form_jg epi m last stale slice
      (qsort comp_docno (ranked_docno_info epi tr)) qrels).1)
    (hr' : r' = (form_jg epi m' last' stale' slice'
      (qsort comp_docno (ranked_docno_info epi tr)) qrels).1) :
    r.results_rel_list.take r.num_ret = r'.results_rel_list.take r'.num_ret ∧
      r.num_ret = r'.num_ret ∧ r.num_rel = r'.num_rel ∧ r.num_rel_ret = r'.num_rel_ret ∧
      r.num_nonpool = r'.num_nonpool ∧ r.num_unjudged_in_pool = r'.num_unjudged_in_pool ∧
      ∀ L : Nat, r.rel_levels.getD L 0 = r'.rel_levels.getD L 0 := by
  subst hr hr'
  obtain ⟨-, g2, -, -, g5⟩ := group_levels epi m last stale slice
    (qsort comp_docno (ranked_docno_info epi tr)) qrels h0 hm
  obtain ⟨-, g2', -, -, g5'⟩ := group_levels epi m' last' stale' slice'
    (qsort comp_docno (ranked_docno_info epi tr)) qrels h0' hm'
  have hmg := merged_indep (qsort comp_docno (ranked_docno_info epi tr)) m m' qrels
  have hlev : ∀ L : Nat, (form_jg epi m last stale slice
      (qsort comp_docno (ranked_docno_info epi tr)) qrels).1.rel_levels.getD L 0 =
      (form_jg epi m' last' stale' slice'
      (qsort comp_docno (ranked_docno_info epi tr)) qrels).1.rel_levels.getD L 0 := by
    intro L
    rw [g2 L, g2' L]
  cases hf : epi.judged_docs_only_flag with
  | false =>
    obtain ⟨a1, a2, a3, a4, a5⟩ := group_normal epi tr hdup m qrels last stale slice hsl hf
    obtain ⟨b1, b2, b3, b4, b5⟩ := group_normal epi tr hdup m' qrels last' stale' slice' hsl' hf
    rw [hmg] at a1 a3 a4 a5
    refine ⟨?_, a2.trans b2.symm, g5.trans g5'.symm, a5.trans b5.symm, a3.trans b3.symm,
      a4.trans b4.symm, hlev⟩
    rw [a1, b1, a2, b2]
  | true =>
    obtain ⟨a1, a2, a3, a4, a5⟩ := group_judged epi tr hdup m qrels last stale slice hsl hf
    obtain ⟨b1, b2, b3, b4, b5⟩ := group_judged epi tr hdup m' qrels last' stale' slice' hsl' hf
    rw [hmg] at a1 a2 a5
    exact ⟨a1.trans b1.symm, a2.trans b2.symm, g5.trans g5'.symm, a5.trans b5.symm,
      a3.trans b3.symm, a4.trans b4.symm, hlev⟩

/-- C25: when a call returns 1, what it returns for the judgment group at
position `g` (the vector up to `num_ret`, `num_ret`, `num_rel`, `num_rel_ret`,
`num_nonpool`, `num_unjudged_in_pool` and every histogram bucket, a missing
bucket counting as 0) is what any other call that returns 1 for the same
retrieved list and the same `epi` returns for a group with the same judgments,
whatever the other groups, the position of the group and the earlier calls; in
particular a call with this group alone returns 1 and the same values.  Both
modes are covered, `epi` being arbitrary. -/
theorem te_form_res_rels_jg_group_independence (s : Session) (epi : EPI) (rel_info : REL_INFO)
    (results : RESULTS) (h : (te_form_res_rels_jg s epi rel_info results).ret = 1)
    (g : Nat) (qrels : List TEXT_QRELS) (hg : rel_info.text_qrels_jg[g]? = some qrels) :
    ∃ rr r, (te_form_res_rels_jg s epi rel_info results).res_rels = some rr ∧
      rr.jgs[g]? = some r ∧
      (∀ s2 : Session, strcmp s2.current_query results.qid ≠ 0 →
        (te_form_res_rels_jg s2 epi { rel_info with text_qrels_jg := [qrels] } results).ret
          = 1) ∧
      (∀ (s2 : Session) (rel_info2 : REL_INFO) (j : Nat),
        (te_form_res_rels_jg s2 epi rel_info2 results).ret = 1 →
        rel_info2.text_qrels_jg[j]? = some qrels →
        ∃ rr2 r2, (te_form_res_rels_jg s2 epi rel_info2 results).res_rels = some rr2 ∧
          rr2.jgs[j]? = some r2 ∧
          r.results_rel_list.take r.num_ret = r2.results_rel_list.take r2.num_ret ∧
          r.num_ret = r2.num_ret ∧ r.num_rel = r2.num_rel ∧ r.num_rel_ret = r2.num_rel_ret ∧
          r.num_nonpool = r2.num_nonpool ∧
          r.num_unjudged_in_pool = r2.num_unjudged_in_pool ∧
          ∀ L : Nat, r.rel_levels.getD L 0 = r2.rel_levels.getD L 0) := by
  obtain ⟨rr, hrr, -, -, hall⟩ := te_groups s epi rel_info results h
  obtain ⟨hdup, -⟩ := te_fresh s epi rel_info results h
  obtain ⟨-, hf1, hf2⟩ := te_fresh_formats s epi rel_info results h
  obtain ⟨r, hr, hmem, last, stale, slice, hsl, hform⟩ := forall₂_getElem? hall g qrels hg
  refine ⟨rr, r, hrr, hr, ?_, ?_⟩
  · intro s2 hq
    rw [te_ret_of_fresh s2 epi { rel_info with text_qrels_jg := [qrels] } results hq hf1 hf2,
      hdup]
    rfl
  · intro s2 rel_info2 j h2 hj
    obtain ⟨rr2, hrr2, -, -, hall2⟩ := te_groups s2 epi rel_info2 results h2
    obtain ⟨r2, hr2, hmem2, last2, stale2, slice2, hsl2, hform2⟩ :=
      forall₂_getElem? hall2 j qrels hj
    exact ⟨rr2, r2, hrr2, hr2,
      form_jg_group_indep epi results.text_results hdup qrels _ _
        (find_max_rel_nonneg _) (find_max_rel_ge _ qrels hmem)
        (find_max_rel_nonneg _) (find_max_rel_ge _ qrels hmem2)
        last last2 stale stale2 slice slice2 hsl hsl2 r r2 hform hform2⟩

/-- C25 (witness): the worked example with a second group `{d2:3}` returns 1;
its first group is the group of the worked example. -/
theorem te_form_res_rels_jg_group_independence_witness :
    (te_form_res_rels_jg Session.init ex_epi two_group_rel_info ex_results).ret = 1 ∧
    two_group_rel_info.text_qrels_jg[0]? = some [⟨"d1", 1⟩, ⟨"d3", 0⟩] ∧
    ∃ rr r, (te_form_res_rels_jg Session.init ex_epi two_group_rel_info ex_results).res_rels =
        some rr ∧
      rr.jgs[0]? = some r ∧
      (∀ s2 : Session, strcmp s2.current_query ex_results.qid ≠ 0 →
        (te_form_res_rels_jg s2 ex_epi
          { two_group_rel_info with text_qrels_jg := [[⟨"d1", 1⟩, ⟨"d3", 0⟩]] } ex_results).ret
          = 1) ∧
      (∀ (s2 : Session) (rel_info2 : REL_INFO) (j : Nat),
        (te_form_res_rels_jg s2 ex_epi rel_info2 ex_results).ret = 1 →
        rel_info2.text_qrels_jg[j]? = some [⟨"d1", 1⟩, ⟨"d3", 0⟩] →
        ∃ rr2 r2, (te_form_res_rels_jg s2 ex_epi rel_info2 ex_results).res_rels = some rr2 ∧
          rr2.jgs[j]? = some r2 ∧
          r.results_rel_list.take r.num_ret = r2.results_rel_list.take r2.num_ret ∧
          r.num_ret = r2.num_ret ∧ r.num_rel = r2.num_rel ∧ r.num_rel_ret = r2.num_rel_ret ∧
          r.num_nonpool = r2.num_nonpool ∧
          r.num_unjudged_in_pool = r2.num_unjudged_in_pool ∧
          ∀ L : Nat, r.rel_levels.getD L 0 = r2.rel_levels.getD L 0) :=
  ⟨by decide, by decide,
    te_form_res_rels_jg_group_independence Session.init ex_epi two_group_rel_info ex_results
      (by decide) 0 [⟨"d1", 1⟩, ⟨"d3", 0⟩] (by decide)⟩

/-- C26 (failing input): the query `q2` with the retrieved list `[(d1,1.0)]`
and one group `{d1:-1}` is aligned once as the first query of a session and
once after the worked example `q1`, whose group has `num_rel_levels = 2`.  Both
calls return 1; the first hands back what the `jgs` array held before (0 in the
model of fresh memory), the second `num_rel_levels = 2`. -/
theorem te_form_res_rels_jg_stale_num_rel_levels :
    (te_form_res_rels_jg Session.init ex_epi unjudged_rel_info unjudged_results).ret = 1 ∧
    (te_form_res_rels_jg (te_form_res_rels_jg Session.init ex_epi ex_rel_info ex_results).session
      ex_epi unjudged_rel_info unjudged_results).ret = 1 ∧
    (te_form_res_rels_jg Session.init ex_epi unjudged_rel_info unjudged_results).res_rels.map
      (fun rr => rr.jgs.map (fun r => (r.rel_levels, r.num_rel_levels))) = some [([0], 0)] ∧
    (te_form_res_rels_jg (te_form_res_rels_jg Session.init ex_epi ex_rel_info ex_results).session
      ex_epi unjudged_rel_info unjudged_results).res_rels.map
      (fun rr => rr.jgs.map (fun r => (r.rel_levels, r.num_rel_levels))) = some [([0], 2)] := by
  decide

/-! ## Relevant retrieved documents are judged relevant documents -/

theorem category_nil_lt (y : String) (t : Int) (h0 : 0 ≤ t) :
    category [] y < t := by
  rw [category_nil]
  unfold RELVALUE_NONPOOL
  omega

theorem countP_category_cons (q : TEXT_QRELS) (qs : List TEXT_QRELS) (t : Int) (h0 : 0 ≤ t) :
    ∀ (D : List DOCNO_INFO), (D.map (fun d => d.docno)).Nodup →
      D.countP (fun d => decide (t ≤ category (q :: qs) d.docno)) ≤
        D.countP (fun d => decide (t ≤ category qs d.docno)) +
          (if t ≤ q.rel then 1 else 0) := by
  intro D
  induction D with
  | nil => intro _; simp
  | cons d ds ih =>
    intro hnd
    rw [List.map_cons, List.nodup_cons] at hnd
    rw [countP_cons_decide (fun (d : DOCNO_INFO) => t ≤ category (q :: qs) d.docno),
      countP_cons_decide (fun (d : DOCNO_INFO) => t ≤ category qs d.docno)]
    by_cases hq : q.docno = d.docno
    · have hrest : ds.countP (fun d => decide (t ≤ category (q :: qs) d.docno)) =
          ds.countP (fun d => decide (t ≤ category qs d.docno)) := by
        apply List.countP_congr
        intro x hx
        have hne : q.docno ≠ x.docno := by
          intro e
          exact hnd.1 (List.mem_map.mpr ⟨x, hx, e.symm.trans hq⟩)
        rw [category_cons, if_neg hne]
      have hhead : (if t ≤ category (q :: qs) d.docno then 1 else 0) ≤
          (if t ≤ q.rel then 1 else 0) := by
        rw [category_cons, if_pos hq]
        by_cases hneg : q.rel < 0
        · rw [if_pos hneg]
          have : ¬ t ≤ RELVALUE_UNJUDGED := by unfold RELVALUE_UNJUDGED; omega
          rw [if_neg this]
          exact Nat.zero_le _
        · rw [if_neg hneg]
      rw [hrest]
      omega
    · have hhead : (if t ≤ category (q :: qs) d.docno then 1 else 0) =
          (if t ≤ category qs d.docno then 1 else 0) := by
        rw [category_cons, if_neg hq]
      have := ih hnd.2
      rw [hhead]
      omega

/-- Among records with distinct docnos, at most as many have a category of at
least `t ≥ 0` as there are judgments of level at least `t`. -/
theorem countP_category_le (t : Int) (h0 : 0 ≤ t) (D : List DOCNO_INFO)
    (hnd : (D.map (fun d => d.docno)).Nodup) :
    ∀ (qs : List TEXT_QRELS),
      D.countP (fun d => decide (t ≤ category qs d.docno)) ≤
        qs.countP (fun q => decide (t ≤ q.rel)) := by
  intro qs
  induction qs with
  | nil =>
    have : D.countP (fun d => decide (t ≤ category [] d.docno)) = 0 := by
      rw [List.countP_eq_zero]
      intro d _
      have := category_nil_lt d.docno t h0
      simp only [decide_eq_true_eq, not_le]
      exact this
    rw [this]
    exact Nat.zero_le _
  | cons q qs ih =>
    rw [countP_cons_decide (fun (q : TEXT_QRELS) => t ≤ q.rel)]
    have := countP_category_cons q qs t h0 D hnd
    omega

theorem group_rel_ret_le (epi : EPI) (tr : List TEXT_RESULTS)
    (hdup : has_duplicate (qsort comp_docno (ranked_docno_info epi tr)) = false)
    (max_rel : Int) (h0 : 0 ≤ max_rel) (qrels : List TEXT_QRELS)
    (hmax : ∀ q ∈ qrels, q.rel ≤ max_rel) (last : Bool) (stale : RES_RELS)
    (slice : List Int) (hsl : slice.length = (ranked_docno_info epi tr).length)
    (r : RES_RELS)
    (hr : r = (form_jg epi max_rel last stale slice
      (qsort comp_docno (ranked_docno_info epi tr)) qrels).1) :
    r.num_rel_ret ≤ r.num_ret ∧
      (qrels.Pairwise (fun a b => a.docno < b.docno) → r.num_rel_ret ≤ r.num_rel) := by
  subst hr
  obtain ⟨hstrict, -⟩ := docno_order_facts epi tr hdup
  obtain ⟨-, hlen, -, hcases⟩ := merged_facts epi tr hdup max_rel qrels
  have hperm := by_rank_perm (merged (qsort comp_docno (ranked_docno_info epi tr)) max_rel qrels)
  obtain ⟨-, -, -, -, hnum_rel⟩ := group_levels epi max_rel last stale slice
    (qsort comp_docno (ranked_docno_info epi tr)) qrels h0 hmax
  have hnd := nodup_of_strict hstrict
  -- the relevant retrieved documents, counted over the merged records
  have hkey : (form_jg epi max_rel last stale slice
      (qsort comp_docno (ranked_docno_info epi tr)) qrels).1.num_rel_ret =
      (merged (qsort comp_docno (ranked_docno_info epi tr)) max_rel qrels).countP
        (fun d => decide (max epi.relevance_level 0 ≤ d.rel)) := by
    cases hf : epi.judged_docs_only_flag with
    | false =>
      obtain ⟨-, -, -, -, hrel⟩ := group_normal epi tr hdup max_rel qrels last stale slice hsl hf
      rw [hrel, hperm.countP_eq]
      apply List.countP_congr
      intro x hx
      have hc := hcases x hx
      simp only [decide_eq_true_eq]
      unfold RELVALUE_NONPOOL RELVALUE_UNJUDGED at *
      omega
    | true =>
      obtain ⟨-, -, -, -, hrel⟩ := group_judged epi tr hdup max_rel qrels last stale slice hsl hf
      rw [hrel, List.countP_filter, hperm.countP_eq]
      apply List.countP_congr
      intro x _
      simp only [decide_eq_true_eq, Bool.and_eq_true]
      omega
  constructor
  · cases hf : epi.judged_docs_only_flag with
    | false =>
      obtain ⟨-, hn, -, -, -⟩ := group_normal epi tr hdup max_rel qrels last stale slice hsl hf
      rw [hkey, hn, ← hlen]
      exact List.countP_le_length _
    | true =>
      obtain ⟨-, hn, -, -, hrel⟩ := group_judged epi tr hdup max_rel qrels last stale slice hsl hf
      rw [hrel, hn]
      exact List.countP_le_length _
  · intro hq
    rw [hkey, hnum_rel]
    have hm : merged (qsort comp_docno (ranked_docno_info epi tr)) max_rel qrels =
        (qsort comp_docno (ranked_docno_info epi tr)).map
          (fun d => { d with rel := category qrels d.docno }) :=
      merge_qrels_category _ qrels _ hstrict hq
    rw [hm, List.countP_map]
    exact countP_category_le (max epi.relevance_level 0) (le_max_right _ _) _ hnd qrels

/-- C27: in a call that returns 1 (the retained identifiers are then
distinct), for every group, every `relevance_level` and both modes,
`num_rel_ret ≤ num_ret`, and `num_rel_ret ≤ num_rel` when the judgments of the
group are sorted by identifier without duplicates. -/
theorem te_form_res_rels_jg_rel_ret_le (s : Session) (epi : EPI) (rel_info : REL_INFO)
    (results : RESULTS) (h : (te_form_res_rels_jg s epi rel_info results).ret = 1) :
    ∃ rr, (te_form_res_rels_jg s epi rel_info results).res_rels = some rr ∧
      List.Forall₂
        (fun r qrels =>
          r.num_rel_ret ≤ r.num_ret ∧
            (qrels.Pairwise (fun a b => a.docno < b.docno) → r.num_rel_ret ≤ r.num_rel))
        rr.jgs rel_info.text_qrels_jg := by
  obtain ⟨rr, hrr, -, -, hall⟩ := te_groups s epi rel_info results h
  obtain ⟨hdup, -⟩ := te_fresh s epi rel_info results h
  refine ⟨rr, hrr, hall.imp ?_⟩
  rintro r qrels ⟨hmem, last, stale, slice, hsl, hform⟩
  exact group_rel_ret_le epi results.text_results hdup _ (find_max_rel_nonneg _) qrels
    (find_max_rel_ge _ qrels hmem) last stale slice hsl r hform

/-- C27 (witness): the worked example of the specification returns 1. -/
theorem te_form_res_rels_jg_rel_ret_le_witness :
    (te_form_res_rels_jg Session.init ex_epi ex_rel_info ex_results).ret = 1 ∧
    ∃ rr, (te_form_res_rels_jg Session.init ex_epi ex_rel_info ex_results).res_rels = some rr ∧
      List.Forall₂
        (fun r qrels =>
          r.num_rel_ret ≤ r.num_ret ∧
            (qrels.Pairwise (fun a b => a.docno < b.docno) → r.num_rel_ret ≤ r.num_rel))
        rr.jgs ex_rel_info.text_qrels_jg :=
  ⟨by decide,
    te_form_res_rels_jg_rel_ret_le Session.init ex_epi ex_rel_info ex_results (by decide)⟩

/-! ## The walks over the gain table stay inside the table and end -/

theorem read_entry_natCast (g : List REL_GAIN) (k : Nat) (hk : k < g.length) :
    read_entry g (k : Int) = some (g.getD k REL_GAIN.zero) := by
  unfold read_entry
  rw [if_neg (by omega), Int.toNat_ofNat, List.getElem?_eq_getElem hk,
    List.getD_eq_getElem _ _ hk]

theorem gain_at_chk_eq (g : List REL_GAIN) (cl : Int) (h : cl < (g.length : Int)) :
    gain_at_chk g cl = some (gain_at g cl) := by
  unfold gain_at_chk gain_at
  by_cases h0 : cl ≥ 0
  · rw [if_pos h0, if_pos h0]
    obtain ⟨k, rfl⟩ := Int.eq_ofNat_of_zero_le h0
    rw [read_entry_natCast g k (by omega), Int.toNat_ofNat]
    rfl
  · rw [if_neg h0, if_neg h0]

theorem rel_descend_chk_eq (g : List REL_GAIN) :
    ∀ (k n : Nat) (ig : ℚ), k ≤ g.length →
      rel_descend_chk g k n ig = some (rel_descend g k n ig) := by
  intro k
  induction k with
  | zero => intro n ig _; rfl
  | succ k ih =>
    intro n ig hk
    have hk' : k < g.length := hk
    rw [rel_descend_chk, read_entry_natCast g k hk', rel_descend_succ]
    simp only
    by_cases hn : n > (g.getD k REL_GAIN.zero).num_at_level
    · rw [if_pos hn, if_pos hn, gain_at_chk_eq g _ (by omega)]
      exact ih 1 _ (le_of_lt hk')
    · rw [if_neg hn, if_neg hn]

theorem items_below_succ (g : List REL_GAIN) (k : Nat) (hk : k < g.length) :
    ((g.take (k + 1)).map (fun e => e.num_at_level)).sum =
      ((g.take k).map (fun e => e.num_at_level)).sum +
        (g.getD k REL_GAIN.zero).num_at_level := by
  rw [List.take_succ, List.getElem?_eq_getElem hk, List.getD_eq_getElem _ _ hk,
    List.map_append, List.sum_append]
  simp

theorem items_below_le (g : List REL_GAIN) (k : Nat) :
    ((g.take k).map (fun e => e.num_at_level)).sum ≤ (g.map (fun e => e.num_at_level)).sum := by
  have h : ((g.take k).map (fun e => e.num_at_level)).sum +
      ((g.drop k).map (fun e => e.num_at_level)).sum = (g.map (fun e => e.num_at_level)).sum := by
    rw [← List.sum_append, ← List.map_append, List.take_append_drop]
  omega

/-- The inner `while` of `te_calc_ndcg_rel` after the items of entry `k` are
used up, on any table: it stops below entry `k`, at -1 or at an entry of which
it takes the first item. -/
theorem rel_descend_below_any (g : List REL_GAIN) :
    ∀ (k : Nat), k ≤ g.length →
      (rel_descend g k 1 (gain_at g ((k : Int) - 1))).2.2 =
          gain_at g (rel_descend g k 1 (gain_at g ((k : Int) - 1))).1 ∧
        -1 ≤ (rel_descend g k 1 (gain_at g ((k : Int) - 1))).1 ∧
        (rel_descend g k 1 (gain_at g ((k : Int) - 1))).1 < (k : Int) ∧
        (0 ≤ (rel_descend g k 1 (gain_at g ((k : Int) - 1))).1 →
          (rel_descend g k 1 (gain_at g ((k : Int) - 1))).2.1 ≤
            (g.getD (rel_descend g k 1 (gain_at g ((k : Int) - 1))).1.toNat
              REL_GAIN.zero).num_at_level ∧
          ((g.getD (rel_descend g k 1 (gain_at g ((k : Int) - 1))).1.toNat
              REL_GAIN.zero).num_at_level -
              (rel_descend g k 1 (gain_at g ((k : Int) - 1))).2.1) +
            ((g.take (rel_descend g k 1 (gain_at g ((k : Int) - 1))).1.toNat).map
              (fun e => e.num_at_level)).sum + 1 ≤
            ((g.take k).map (fun e => e.num_at_level)).sum) := by
  intro k
  induction k with
  | zero =>
    intro _
    rw [rel_descend_zero]
    refine ⟨rfl, le_refl _, ?_, ?_⟩
    · show (-1 : Int) < ((0 : Nat) : Int)
      decide
    · intro h
      exact absurd (show (0 : Int) ≤ -1 from h) (by decide)
  | succ k ih =>
    intro hk1
    have hk : k < g.length := hk1
    rw [rel_descend_succ]
    by_cases h : 1 > (g.getD k REL_GAIN.zero).num_at_level
    · rw [if_pos h]
      obtain ⟨a1, a2, a3, a4⟩ := ih (le_of_lt hk)
      refine ⟨a1, a2, by push_cast; omega, ?_⟩
      intro h0
      obtain ⟨b1, b2⟩ := a4 h0
      refine ⟨b1, ?_⟩
      rw [items_below_succ g k hk]
      omega
    · rw [if_neg h]
      refine ⟨?_, by simp only; omega, by simp only; push_cast; omega, ?_⟩
      · show gain_at g (((k + 1 : Nat) : Int) - 1) = gain_at g (k : Int)
        rw [gain_at_pred_succ, gain_at_natCast]
      · intro _
        simp only [Int.toNat_ofNat]
        rw [items_below_succ g k hk]
        omega

theorem rel_descend_step_any (g : List REL_GAIN) (k c : Nat) (hk : k < g.length) :
    (rel_descend g (k + 1) (c + 1) (gain_at g (k : Int))).2.2 =
        gain_at g (rel_descend g (k + 1) (c + 1) (gain_at g (k : Int))).1 ∧
      -1 ≤ (rel_descend g (k + 1) (c + 1) (gain_at g (k : Int))).1 ∧
      (rel_descend g (k + 1) (c + 1) (gain_at g (k : Int))).1 ≤ (k : Int) ∧
      (0 ≤ (rel_descend g (k + 1) (c + 1) (gain_at g (k : Int))).1 →
        (rel_descend g (k + 1) (c + 1) (gain_at g (k : Int))).2.1 ≤
          (g.getD (rel_descend g (k + 1) (c + 1) (gain_at g (k : Int))).1.toNat
            REL_GAIN.zero).num_at_level ∧
        ((g.getD (rel_descend g (k + 1) (c + 1) (gain_at g (k : Int))).1.toNat
            REL_GAIN.zero).num_at_level -
            (rel_descend g (k + 1) (c + 1) (gain_at g (k : Int))).2.1) +
          ((g.take (rel_descend g (k + 1) (c + 1) (gain_at g (k : Int))).1.toNat).map
            (fun e => e.num_at_level)).sum + 1 ≤
          ((g.getD k REL_GAIN.zero).num_at_level - c) +
            ((g.take k).map (fun e => e.num_at_level)).sum) := by
  rw [rel_descend_succ]
  by_cases h : c + 1 > (g.getD k REL_GAIN.zero).num_at_level
  · rw [if_pos h]
    obtain ⟨a1, a2, a3, a4⟩ := rel_descend_below_any g k (le_of_lt hk)
    refine ⟨a1, a2, le_of_lt a3, ?_⟩
    intro h0
    obtain ⟨b1, b2⟩ := a4 h0
    exact ⟨b1, by omega⟩
  · rw [if_neg h]
    refine ⟨rfl, by simp only; omega, le_refl _, ?_⟩
    intro _
    simp only [Int.toNat_ofNat]
    omega

theorem walk_ok_congr (g : List REL_GAIN) (st st1 : NDCG_REL_STATE)
    (h1 : st1.cur_level = st.cur_level) (h2 : st1.num_at_level = st.num_at_level)
    (h3 : st1.ideal_gain = st.ideal_gain) (h : walk_ok g st) : walk_ok g st1 := by
  unfold walk_ok at h ⊢
  rw [h1, h2, h3]
  exact h

theorem walk_left_congr (g : List REL_GAIN) (st st1 : NDCG_REL_STATE)
    (h1 : st1.cur_level = st.cur_level) (h2 : st1.num_at_level = st.num_at_level) :
    walk_left g st1 = walk_left g st := by
  unfold walk_left
  rw [h1, h2]

theorem walk_ok_pos (g : List REL_GAIN) (st : NDCG_REL_STATE) (h : walk_ok g st)
    (hpos : 0 < st.ideal_gain) : 0 ≤ st.cur_level := by
  by_contra hc
  rw [h.1] at hpos
  unfold gain_at at hpos
  rw [if_neg hc] at hpos
  exact absurd hpos (lt_irrefl 0)

/-- Lines 107-118 on any table: the locals still fit together, the reads are
inside the table, and an item of the table is used up unless the walk was
already below the table. -/
theorem rel_ideal_step_ok (log2 : Nat → ℚ) (gains : GAINS) (st : NDCG_REL_STATE)
    (h : walk_ok gains.rel_gains st) :
    walk_ok gains.rel_gains (rel_ideal_step log2 gains st) ∧
      rel_ideal_step_chk log2 gains st = some (rel_ideal_step log2 gains st) ∧
      walk_left gains.rel_gains (rel_ideal_step log2 gains st) ≤ walk_left gains.rel_gains st ∧
      (0 ≤ st.cur_level →
        walk_left gains.rel_gains (rel_ideal_step log2 gains st) <
          walk_left gains.rel_gains st) := by
  obtain ⟨hig, hlo, hhi, hc⟩ := h
  have hchk : rel_ideal_step_chk log2 gains st = some (rel_ideal_step log2 gains st) := by
    unfold rel_ideal_step_chk
    rw [rel_descend_chk_eq gains.rel_gains _ _ _ (by omega)]
    rfl
  by_cases h0 : 0 ≤ st.cur_level
  · obtain ⟨k, hk⟩ := Int.eq_ofNat_of_zero_le h0
    have hkl : k < gains.rel_gains.length := by omega
    have htn : (st.cur_level + 1).toNat = k + 1 := by omega
    obtain ⟨a1, a2, a3, a4⟩ := rel_descend_step_any gains.rel_gains k st.num_at_level hkl
    have hd : rel_descend gains.rel_gains (st.cur_level + 1).toNat (st.num_at_level + 1)
        st.ideal_gain =
        rel_descend gains.rel_gains (k + 1) (st.num_at_level + 1)
          (gain_at gains.rel_gains (k : Int)) := by
      rw [htn, hig, hk]
    have hleft : walk_left gains.rel_gains st =
        ((gains.rel_gains.getD k REL_GAIN.zero).num_at_level - st.num_at_level) +
          ((gains.rel_gains.take k).map (fun e => e.num_at_level)).sum + 1 := by
      unfold walk_left
      rw [if_neg (by omega), hk, Int.toNat_ofNat]
    have hcl : (rel_ideal_step log2 gains st).cur_level =
        (rel_descend gains.rel_gains (k + 1) (st.num_at_level + 1)
          (gain_at gains.rel_gains (k : Int))).1 := by
      show (rel_descend _ _ _ _).1 = _
      rw [hd]
    have hnl : (rel_ideal_step log2 gains st).num_at_level =
        (rel_descend gains.rel_gains (k + 1) (st.num_at_level + 1)
          (gain_at gains.rel_gains (k : Int))).2.1 := by
      show (rel_descend _ _ _ _).2.1 = _
      rw [hd]
    have hlt : walk_left gains.rel_gains (rel_ideal_step log2 gains st) <
        walk_left gains.rel_gains st := by
      rw [hleft]
      unfold walk_left
      rw [hcl, hnl]
      by_cases hneg : (rel_descend gains.rel_gains (k + 1) (st.num_at_level + 1)
          (gain_at gains.rel_gains (k : Int))).1 < 0
      · rw [if_pos hneg]
        omega
      · rw [if_neg hneg]
        have := (a4 (by omega)).2
        omega
    refine ⟨⟨?_, ?_, ?_, ?_⟩, hchk, le_of_lt hlt, fun _ => hlt⟩
    · show (rel_descend _ _ _ _).2.2 = gain_at _ (rel_descend _ _ _ _).1
      rw [hd]
      exact a1
    · show -1 ≤ (rel_descend _ _ _ _).1
      rw [hd]
      exact a2
    · show (rel_descend _ _ _ _).1 < _
      rw [hd]
      omega
    · show 0 ≤ (rel_descend _ _ _ _).1 →
        (rel_descend _ _ _ _).2.1 ≤ (gains.rel_gains.getD (rel_descend _ _ _ _).1.toNat
          REL_GAIN.zero).num_at_level
      rw [hd]
      exact fun h' => (a4 h').1
  · have hm1 : st.cur_level = -1 := by omega
    have htn : (st.cur_level + 1).toNat = 0 := by omega
    have hd : rel_descend gains.rel_gains (st.cur_level + 1).toNat (st.num_at_level + 1)
        st.ideal_gain = (-1, st.num_at_level + 1, st.ideal_gain) := by
      rw [htn, rel_descend_zero]
    have hleft : walk_left gains.rel_gains (rel_ideal_step log2 gains st) = 0 := by
      unfold walk_left
      show (if (rel_descend _ _ _ _).1 < 0 then 0 else _) = 0
      rw [hd, if_pos (show (-1 : Int) < 0 by decide)]
    refine ⟨⟨?_, ?_, ?_, ?_⟩, hchk, by rw [hleft]; exact Nat.zero_le _,
      fun h' => absurd h' h0⟩
    · show (rel_descend _ _ _ _).2.2 = gain_at _ (rel_descend _ _ _ _).1
      rw [hd]
      show st.ideal_gain = gain_at gains.rel_gains (-1)
      rw [hig, hm1]
    · show -1 ≤ (rel_descend _ _ _ _).1
      rw [hd]
    · show (rel_descend _ _ _ _).1 < _
      rw [hd]
      show (-1 : Int) < _
      omega
    · show 0 ≤ (rel_descend _ _ _ _).1 → _
      rw [hd]
      intro h'
      exact absurd (show (0 : Int) ≤ -1 from h') (by decide)

theorem rel_results_step_walk (log2 : Nat → ℚ) (gains : GAINS) (rel : Int)
    (st : NDCG_REL_STATE) :
    (rel_results_step log2 gains rel st).cur_level = st.cur_level ∧
      (rel_results_step log2 gains rel st).num_at_level = st.num_at_level ∧
      (rel_results_step log2 gains rel st).ideal_gain = st.ideal_gain :=
  ⟨rfl, rfl, rfl⟩

theorem rel_loop1_ok (log2 : Nat → ℚ) (gains : GAINS) :
    ∀ (l : List Int) (st : NDCG_REL_STATE), walk_ok gains.rel_gains st →
      walk_ok gains.rel_gains (rel_loop1 log2 gains l st).2 ∧
        walk_left gains.rel_gains (rel_loop1 log2 gains l st).2 ≤
          walk_left gains.rel_gains st ∧
        rel_loop1_chk log2 gains l st = some (rel_loop1 log2 gains l st) := by
  intro l
  induction l with
  | nil => intro st h; exact ⟨h, le_refl _, rfl⟩
  | cons rel rest ih =>
    intro st h
    by_cases hpos : st.ideal_gain > 0
    · have h1 : walk_ok gains.rel_gains (rel_results_step log2 gains rel st) :=
        walk_ok_congr _ st _ rfl rfl rfl h
      obtain ⟨b1, b2, b3, -⟩ := rel_ideal_step_ok log2 gains _ h1
      obtain ⟨-, -, -, -, a5, a6, a7⟩ := rel_average_step_rest gains rel
        (rel_ideal_step log2 gains (rel_results_step log2 gains rel st))
      have h2 : walk_ok gains.rel_gains (rel_average_step gains rel
          (rel_ideal_step log2 gains (rel_results_step log2 gains rel st))) :=
        walk_ok_congr _ _ _ a5 a6 a7 b1
      obtain ⟨c1, c2, c3⟩ := ih _ h2
      rw [rel_loop1, if_pos hpos, rel_loop1_chk, if_pos hpos, b2]
      refine ⟨c1, ?_, c3⟩
      refine c2.trans ?_
      rw [walk_left_congr _ _ _ a5 a6]
      refine b3.trans ?_
      exact le_of_eq (walk_left_congr _ st _ rfl rfl)
    · rw [rel_loop1, if_neg hpos, rel_loop1_chk, if_neg hpos]
      exact ⟨h, le_refl _, rfl⟩

theorem rel_loop2_ok (log2 : Nat → ℚ) (gains : GAINS) :
    ∀ (l : List Int) (st : NDCG_REL_STATE), walk_ok gains.rel_gains st →
      walk_ok gains.rel_gains (rel_loop2 log2 gains l st) ∧
        walk_left gains.rel_gains (rel_loop2 log2 gains l st) = walk_left gains.rel_gains st := by
  intro l
  induction l with
  | nil => intro st h; exact ⟨h, rfl⟩
  | cons rel rest ih =>
    intro st h
    obtain ⟨-, -, -, -, a5, a6, a7⟩ := rel_average_step_rest gains rel
      (rel_results_step log2 gains rel st)
    have h2 : walk_ok gains.rel_gains (rel_average_step gains rel
        (rel_results_step log2 gains rel st)) :=
      walk_ok_congr _ st _ a5 a6 a7 h
    obtain ⟨c1, c2⟩ := ih _ h2
    rw [rel_loop2]
    refine ⟨c1, c2.trans ?_⟩
    exact walk_left_congr _ st _ a5 a6

/-- The loop of lines 147-165 ends within `walk_left` iterations, on any
table, and reads only inside the table. -/
theorem rel_loop3_ok (log2 : Nat → ℚ) (gains : GAINS) :
    ∀ (fuel : Nat) (st : NDCG_REL_STATE), walk_ok gains.rel_gains st →
      walk_left gains.rel_gains st ≤ fuel →
      ∃ st3, rel_loop3 log2 gains fuel st = some st3 ∧
        rel_loop3_chk log2 gains fuel st = some st3 := by
  intro fuel
  induction fuel with
  | zero =>
    intro st h hle
    have hnot : ¬ st.ideal_gain > 0 := by
      intro hpos
      have h0 := walk_ok_pos _ st h hpos
      unfold walk_left at hle
      rw [if_neg (by omega)] at hle
      omega
    refine ⟨st, ?_, ?_⟩
    · rw [rel_loop3, if_neg hnot]
    · rw [rel_loop3_chk, if_neg hnot]
  | succ fuel ih =>
    intro st h hle
    by_cases hpos : st.ideal_gain > 0
    · have h0 := walk_ok_pos _ st h hpos
      obtain ⟨b1, b2, -, b4⟩ := rel_ideal_step_ok log2 gains st h
      have h2 : walk_ok gains.rel_gains
          { rel_ideal_step log2 gains st with i := st.i + 1 } :=
        walk_ok_congr _ (rel_ideal_step log2 gains st) _ rfl rfl rfl b1
      have hl : walk_left gains.rel_gains { rel_ideal_step log2 gains st with i := st.i + 1 } ≤
          fuel := by
        have e := walk_left_congr gains.rel_gains (rel_ideal_step log2 gains st)
          { rel_ideal_step log2 gains st with i := st.i + 1 } rfl rfl
        have := b4 h0
        omega
      obtain ⟨st3, c1, c2⟩ := ih _ h2 hl
      refine ⟨st3, ?_, ?_⟩
      · rw [rel_loop3, if_pos hpos]
        exact c1
      · rw [rel_loop3_chk, if_pos hpos, b2]
        exact c2
    · refine ⟨st, ?_, ?_⟩
      · rw [rel_loop3, if_neg hpos]
      · rw [rel_loop3_chk, if_neg hpos]

theorem rel_init_ok (gains : GAINS) (hn : gains.num_gains = gains.rel_gains.length) :
    walk_ok gains.rel_gains (rel_init gains) ∧
      rel_init_chk gains = some (rel_init gains) ∧
      walk_left gains.rel_gains (rel_init gains) ≤
        (gains.rel_gains.map (fun e => e.num_at_level)).sum + 1 := by
  refine ⟨⟨rfl, ?_, ?_, ?_⟩, ?_, ?_⟩
  · show (-1 : Int) ≤ (gains.num_gains : Int) - 1
    omega
  · show (gains.num_gains : Int) - 1 < _
    rw [hn]
    omega
  · intro _
    exact Nat.zero_le _
  · unfold rel_init_chk
    rw [gain_at_chk_eq _ _ (by rw [hn]; omega)]
    rfl
  · unfold walk_left
    show (if (gains.num_gains : Int) - 1 < 0 then 0 else _) ≤ _
    by_cases h0 : (gains.num_gains : Int) - 1 < 0
    · rw [if_pos h0]
      exact Nat.zero_le _
    · rw [if_neg h0]
      show _ - 0 + _ + 1 ≤ _
      obtain ⟨top, htop⟩ : ∃ top : Nat, gains.num_gains = top + 1 :=
        ⟨gains.num_gains - 1, by omega⟩
      have hcast : ((gains.num_gains : Int) - 1) = (top : Int) := by
        rw [htop]; push_cast; ring
      have hcl : (rel_init gains).cur_level = (top : Int) := hcast
      rw [hcl, Int.toNat_ofNat]
      have hk : top < gains.rel_gains.length := by omega
      have h1 := items_below_succ gains.rel_gains top hk
      have h2 := items_below_le gains.rel_gains (top + 1)
      omega

/-- Lines 95-172 of `m_ndcg_rel.c` on any table: with more iterations than the
table counts items the three loops end, and every read of
`rel_gains[cur_level]` is inside the table. -/
theorem ndcg_rel_loops_ok (log2 : Nat → ℚ) (fuel : Nat) (gains : GAINS) (v : List Int)
    (hn : gains.num_gains = gains.rel_gains.length)
    (hfuel : (gains.rel_gains.map (fun e => e.num_at_level)).sum < fuel) :
    ∃ r, ndcg_rel_loops log2 fuel gains v = some r ∧ ndcg_rel_chk log2 fuel gains v = some r := by
  obtain ⟨a1, a2, a3⟩ := rel_init_ok gains hn
  obtain ⟨b1, b2, b3⟩ := rel_loop1_ok log2 gains v (rel_init gains) a1
  obtain ⟨c1, c2⟩ := rel_loop2_ok log2 gains (rel_loop1 log2 gains v (rel_init gains)).1
    (rel_loop1 log2 gains v (rel_init gains)).2 b1
  obtain ⟨st3, d1, d2⟩ := rel_loop3_ok log2 gains fuel _ c1 (by omega)
  refine ⟨rel_finish st3, ?_, ?_⟩
  · show Option.map rel_finish _ = _
    rw [d1]
    rfl
  · unfold ndcg_rel_chk
    rw [a2]
    simp only
    rw [b3]
    simp only
    rw [d2]
    rfl

/-! ### The ideal walk of `te_calc_ndcg_p` -/

theorem ideal_descend_chk_eq (g : List REL_GAIN) :
    ∀ (k c : Nat), k < g.length →
      ideal_descend_chk g k c = some (ideal_descend g k c) ∧
        (ideal_descend g k c).1 ≤ (k : Int) := by
  intro k
  induction k with
  | zero =>
    intro c hk
    rw [ideal_descend_chk, show ((0 : Int)) = ((0 : Nat) : Int) from rfl,
      read_entry_natCast g 0 hk, ideal_descend_zero]
    simp only
    by_cases h : c > (g.getD 0 REL_GAIN.zero).num_at_level
    · rw [if_pos h, if_pos h]
      exact ⟨rfl, by decide⟩
    · rw [if_neg h, if_neg h]
      exact ⟨rfl, le_refl _⟩
  | succ k ih =>
    intro c hk
    have hk' : k < g.length := by omega
    rw [ideal_descend_chk, read_entry_natCast g (k + 1) hk, ideal_descend_succ]
    simp only
    by_cases h : c > (g.getD (k + 1) REL_GAIN.zero).num_at_level
    · rw [if_pos h, if_pos h, read_entry_natCast g k hk']
      simp only
      by_cases hg : (g.getD k REL_GAIN.zero).gain ≤ 0
      · rw [if_pos hg, if_pos hg]
        exact ⟨rfl, by simp only; push_cast; omega⟩
      · rw [if_neg hg, if_neg hg]
        obtain ⟨e1, e2⟩ := ih 1 hk'
        exact ⟨e1, by push_cast; omega⟩
    · rw [if_neg h, if_neg h]
      exact ⟨rfl, le_refl _⟩

theorem ideal_loop_chk_eq (log2 : Nat → ℚ) (g : List REL_GAIN) :
    ∀ (fuel i : Nat) (cur_lvl : Int) (c : Nat) (acc : ℚ),
      (0 < fuel → 0 ≤ cur_lvl ∧ cur_lvl < (g.length : Int)) →
      ideal_loop_chk log2 g fuel i cur_lvl c acc = some (ideal_loop log2 g fuel i cur_lvl c acc) := by
  intro fuel
  induction fuel with
  | zero => intro i cur_lvl c acc _; rfl
  | succ fuel ih =>
    intro i cur_lvl c acc h
    obtain ⟨h0, h1⟩ := h (Nat.succ_pos _)
    obtain ⟨k, rfl⟩ := Int.eq_ofNat_of_zero_le h0
    have hk : k < g.length := by omega
    obtain ⟨e1, e2⟩ := ideal_descend_chk_eq g k (c + 1) hk
    rw [ideal_loop_chk, if_neg (by omega), ideal_loop]
    simp only [Int.toNat_ofNat]
    rw [e1]
    simp only
    by_cases hneg : (ideal_descend g k (c + 1)).1 < 0
    · rw [if_pos hneg, if_pos (Or.inl hneg)]
    · rw [if_neg hneg]
      obtain ⟨k1, hk1⟩ := Int.eq_ofNat_of_zero_le (not_lt.mp hneg)
      have hk1l : k1 < g.length := by omega
      rw [hk1, read_entry_natCast g k1 hk1l]
      simp only [Int.toNat_ofNat]
      by_cases hg : (g.getD k1 REL_GAIN.zero).gain ≤ 0
      · rw [if_pos hg, if_pos (Or.inr hg)]
      · have hno : ¬ ((k1 : Int) < 0 ∨ (g.getD k1 REL_GAIN.zero).gain ≤ 0) := by
          rintro (h' | h')
          · omega
          · exact hg h'
        rw [if_neg hg, if_neg hno]
        exact ih _ _ _ _ (fun _ => ⟨by omega, by omega⟩)

theorem setup_gains_total (pairs : List DOUBLE_PARAM_PAIR) (res_rels : RES_RELS) :
    (setup_gains pairs res_rels).total_num_at_levels =
      ((setup_gains pairs res_rels).rel_gains.map (fun e => e.num_at_level)).sum := rfl

theorem te_calc_ndcg_rel_eq_loops (log2 : Nat → ℚ) (fuel : Nat)
    (pairs : List DOUBLE_PARAM_PAIR) (res_rels : RES_RELS) :
    te_calc_ndcg_rel log2 fuel pairs res_rels =
      ndcg_rel_loops log2 fuel (setup_gains pairs res_rels)
        (res_rels.results_rel_list.take res_rels.num_ret) := rfl

theorem ideal_loop_chk_table (log2 : Nat → ℚ) (gains : GAINS)
    (hn : gains.num_gains = gains.rel_gains.length)
    (ht : gains.total_num_at_levels = (gains.rel_gains.map (fun e => e.num_at_level)).sum) :
    ideal_loop_chk log2 gains.rel_gains gains.total_num_at_levels 0
        ((gains.num_gains : Int) - 1) 0 0 =
      some (ideal_loop log2 gains.rel_gains gains.total_num_at_levels 0
        ((gains.num_gains : Int) - 1) 0 0) := by
  apply ideal_loop_chk_eq
  intro hpos
  have hne : gains.rel_gains ≠ [] := by
    intro e
    rw [ht, e] at hpos
    exact absurd hpos (lt_irrefl 0)
  have : 0 < gains.rel_gains.length := List.length_pos.mpr hne
  omega

/-- C28: for every gain table (any entries, sorted or not) and every vector,
the three loops of `te_calc_ndcg_rel` end when the loop of lines 147-165 is
given more iterations than the table counts items, and the computation with
every read of `rel_gains[cur_level]` checked gives the same result, so no read
has a negative index or an index past the end; the loop of lines 96-113 of
`te_calc_ndcg_p`, which `total_num_at_levels` bounds, reads inside the table
as well.  For the table of `setup_gains` these are `te_calc_ndcg_rel` and the
ideal DCG of `te_calc_ndcg_p`. -/
theorem ndcg_walks_terminate (log2 : Nat → ℚ) (fuel : Nat) (gains : GAINS) (v : List Int)
    (hn : gains.num_gains = gains.rel_gains.length)
    (ht : gains.total_num_at_levels = (gains.rel_gains.map (fun e => e.num_at_level)).sum)
    (hfuel : gains.total_num_at_levels < fuel) :
    (∃ r, ndcg_rel_loops log2 fuel gains v = some r ∧
      ndcg_rel_chk log2 fuel gains v = some r) ∧
    ideal_loop_chk log2 gains.rel_gains gains.total_num_at_levels 0
        ((gains.num_gains : Int) - 1) 0 0 =
      some (ideal_loop log2 gains.rel_gains gains.total_num_at_levels 0
        ((gains.num_gains : Int) - 1) 0 0) ∧
    (∀ (pairs : List DOUBLE_PARAM_PAIR) (res_rels : RES_RELS),
      gains = setup_gains pairs res_rels →
      v = res_rels.results_rel_list.take res_rels.num_ret →
      (∃ r, te_calc_ndcg_rel log2 fuel pairs res_rels = some r ∧
        ndcg_rel_chk log2 fuel gains v = some r) ∧
      ideal_loop_chk log2 gains.rel_gains gains.total_num_at_levels 0
          ((gains.num_gains : Int) - 1) 0 0 =
        some (te_calc_ndcg_p log2 pairs res_rels).ideal_dcg) := by
  have h1 := ndcg_rel_loops_ok log2 fuel gains v hn (by rw [← ht]; exact hfuel)
  have h2 := ideal_loop_chk_table log2 gains hn ht
  refine ⟨h1, h2, ?_⟩
  intro pairs res_rels hg hv
  subst hg hv
  exact ⟨h1, h2⟩

/-- C28 (witness): the table of the overrides `{1:5.0, 2:1.0}` with one judged
document at each of the levels 0 and 1, and the vector `[1]`. -/
theorem ndcg_walks_terminate_witness :
    (setup_gains gain_ex_pairs one_rel_res_rels).num_gains =
      (setup_gains gain_ex_pairs one_rel_res_rels).rel_gains.length ∧
    (setup_gains gain_ex_pairs one_rel_res_rels).total_num_at_levels =
      ((setup_gains gain_ex_pairs one_rel_res_rels).rel_gains.map
        (fun e => e.num_at_level)).sum ∧
    (setup_gains gain_ex_pairs one_rel_res_rels).total_num_at_levels < 10 ∧
    ((∃ r, ndcg_rel_loops floor_log2 10 (setup_gains gain_ex_pairs one_rel_res_rels) [1] =
        some r ∧
      ndcg_rel_chk floor_log2 10 (setup_gains gain_ex_pairs one_rel_res_rels) [1] = some r) ∧
    ideal_loop_chk floor_log2 (setup_gains gain_ex_pairs one_rel_res_rels).rel_gains
        (setup_gains gain_ex_pairs one_rel_res_rels).total_num_at_levels 0
        (((setup_gains gain_ex_pairs one_rel_res_rels).num_gains : Int) - 1) 0 0 =
      some (ideal_loop floor_log2 (setup_gains gain_ex_pairs one_rel_res_rels).rel_gains
        (setup_gains gain_ex_pairs one_rel_res_rels).total_num_at_levels 0
        (((setup_gains gain_ex_pairs one_rel_res_rels).num_gains : Int) - 1) 0 0) ∧
    (∀ (pairs : List DOUBLE_PARAM_PAIR) (res_rels : RES_RELS),
      setup_gains gain_ex_pairs one_rel_res_rels = setup_gains pairs res_rels →
      [1] = res_rels.results_rel_list.take res_rels.num_ret →
      (∃ r, te_calc_ndcg_rel floor_log2 10 pairs res_rels = some r ∧
        ndcg_rel_chk floor_log2 10 (setup_gains gain_ex_pairs one_rel_res_rels) [1] =
          some r) ∧
      ideal_loop_chk floor_log2 (setup_gains gain_ex_pairs one_rel_res_rels).rel_gains
          (setup_gains gain_ex_pairs one_rel_res_rels).total_num_at_levels 0
          (((setup_gains gain_ex_pairs one_rel_res_rels).num_gains : Int) - 1) 0 0 =
        some (te_calc_ndcg_p floor_log2 pairs res_rels).ideal_dcg)) :=
  ⟨rfl, rfl, by decide!,
    ndcg_walks_terminate floor_log2 10 (setup_gains gain_ex_pairs one_rel_res_rels) [1] rfl rfl
      (by decide!)⟩

/-! ## The discounts of the two measures -/

theorem rel_loop1_dcg (log2 : Nat → ℚ) (gains : GAINS) (v : List Int) :
    ∀ (l : List Int) (i : Nat) (st : NDCG_REL_STATE), v.drop i = l → st.i = i →
      st.results_dcg =
        weighted_sum (discount_rel log2) 0 ((v.map (fun c => get_gain c gains)).take i) →
      ∃ j, v.drop j = (rel_loop1 log2 gains l st).1 ∧ (rel_loop1 log2 gains l st).2.i = j ∧
        (rel_loop1 log2 gains l st).2.results_dcg =
          weighted_sum (discount_rel log2) 0 ((v.map (fun c => get_gain c gains)).take j) := by
  intro l
  induction l with
  | nil => intro i st hl hi hr; exact ⟨i, hl, hi, hr⟩
  | cons rel rest ih =>
    intro i st hl hi hr
    by_cases hpos : st.ideal_gain > 0
    · rw [rel_loop1, if_pos hpos]
      obtain ⟨-, -, hdrop⟩ := drop_cons_getD v i rel rest 0 hl
      have ha : (v.map (fun c => get_gain c gains)).getD i 0 = get_gain rel gains := by
        have hl' : (v.map (fun c => get_gain c gains)).drop i =
            get_gain rel gains :: rest.map (fun c => get_gain c gains) := by
          rw [← List.map_drop, hl, List.map_cons]
        exact (drop_cons_getD _ i _ _ 0 hl').2.1
      obtain ⟨a1, a2, -⟩ := rel_average_step_rest gains rel
        (rel_ideal_step log2 gains (rel_results_step log2 gains rel st))
      have hws := weighted_sum_take_succ (discount_rel log2)
        (v.map (fun c => get_gain c gains)) 0 i
      rw [zero_add] at hws
      refine ih (i + 1) _ hdrop ?_ ?_
      · rw [a1]
        show st.i + 1 = i + 1
        rw [hi]
      · rw [a2]
        show (rel_results_step log2 gains rel st).results_dcg = _
        rw [rel_results_step_dcg, hws, hr, ha, hi]
    · rw [rel_loop1, if_neg hpos]
      exact ⟨i, hl, hi, hr⟩

theorem rel_loop2_dcg (log2 : Nat → ℚ) (gains : GAINS) (v : List Int) :
    ∀ (l : List Int) (i : Nat) (st : NDCG_REL_STATE), v.drop i = l → st.i = i →
      st.results_dcg =
        weighted_sum (discount_rel log2) 0 ((v.map (fun c => get_gain c gains)).take i) →
      (rel_loop2 log2 gains l st).results_dcg =
        weighted_sum (discount_rel log2) 0 (v.map (fun c => get_gain c gains)) := by
  intro l
  induction l with
  | nil =>
    intro i st hl hi hr
    have hlen : v.length ≤ i := List.drop_eq_nil_iff.mp hl
    rw [List.take_of_length_le (by rw [List.length_map]; exact hlen)] at hr
    exact hr
  | cons rel rest ih =>
    intro i st hl hi hr
    rw [rel_loop2]
    obtain ⟨-, -, hdrop⟩ := drop_cons_getD v i rel rest 0 hl
    have ha : (v.map (fun c => get_gain c gains)).getD i 0 = get_gain rel gains := by
      have hl' : (v.map (fun c => get_gain c gains)).drop i =
          get_gain rel gains :: rest.map (fun c => get_gain c gains) := by
        rw [← List.map_drop, hl, List.map_cons]
      exact (drop_cons_getD _ i _ _ 0 hl').2.1
    obtain ⟨a1, a2, -⟩ := rel_average_step_rest gains rel (rel_results_step log2 gains rel st)
    have hws := weighted_sum_take_succ (discount_rel log2)
      (v.map (fun c => get_gain c gains)) 0 i
    rw [zero_add] at hws
    refine ih (i + 1) _ hdrop ?_ ?_
    · rw [a1]
      show st.i + 1 = i + 1
      rw [hi]
    · rw [a2, rel_results_step_dcg, hws, hr, ha, hi]

theorem rel_loop3_dcg (log2 : Nat → ℚ) (gains : GAINS) :
    ∀ (fuel : Nat) (st st3 : NDCG_REL_STATE), rel_loop3 log2 gains fuel st = some st3 →
      st3.results_dcg = st.results_dcg := by
  intro fuel
  induction fuel with
  | zero =>
    intro st st3 h
    rw [rel_loop3] at h
    by_cases hpos : st.ideal_gain > 0
    · rw [if_pos hpos] at h
      cases h
    · rw [if_neg hpos] at h
      injection h with h
      rw [← h]
  | succ fuel ih =>
    intro st st3 h
    rw [rel_loop3] at h
    by_cases hpos : st.ideal_gain > 0
    · rw [if_pos hpos] at h
      exact ih { rel_ideal_step log2 gains st with i := st.i + 1 } st3 h
    · rw [if_neg hpos] at h
      injection h with h
      rw [← h]

/-- The achieved DCG of `te_calc_ndcg_rel` on any table: every rank, the
first one included, is discounted by `1 / log2 (i + 2)`. -/
theorem te_calc_ndcg_rel_achieved (log2 : Nat → ℚ) (fuel : Nat)
    (pairs : List DOUBLE_PARAM_PAIR) (res_rels : RES_RELS)
    (hfuel : (setup_gains pairs res_rels).total_num_at_levels < fuel) :
    ∃ r, te_calc_ndcg_rel log2 fuel pairs res_rels = some r ∧
      r.results_dcg = weighted_sum (discount_rel log2) 0 (achieved_gains pairs res_rels) := by
  obtain ⟨a1, -, -⟩ := rel_init_ok (setup_gains pairs res_rels) rfl
  obtain ⟨b1, b2, -⟩ := rel_loop1_ok log2 (setup_gains pairs res_rels)
    (res_rels.results_rel_list.take res_rels.num_ret) (rel_init (setup_gains pairs res_rels)) a1
  obtain ⟨c1, c2⟩ := rel_loop2_ok log2 (setup_gains pairs res_rels)
    (rel_loop1 log2 (setup_gains pairs res_rels)
      (res_rels.results_rel_list.take res_rels.num_ret)
      (rel_init (setup_gains pairs res_rels))).1
    (rel_loop1 log2 (setup_gains pairs res_rels)
      (res_rels.results_rel_list.take res_rels.num_ret)
      (rel_init (setup_gains pairs res_rels))).2 b1
  have hleft := (rel_init_ok (setup_gains pairs res_rels) rfl).2.2
  have ht := setup_gains_total pairs res_rels
  obtain ⟨st3, d1, -⟩ := rel_loop3_ok log2 (setup_gains pairs res_rels) fuel _ c1 (by omega)
  obtain ⟨j, e1, e2, e3⟩ := rel_loop1_dcg log2 (setup_gains pairs res_rels)
    (res_rels.results_rel_list.take res_rels.num_ret) _ 0
    (rel_init (setup_gains pairs res_rels)) (List.drop_zero _) rfl
    (by simp [rel_init, weighted_sum])
  have e4 := rel_loop2_dcg log2 (setup_gains pairs res_rels)
    (res_rels.results_rel_list.take res_rels.num_ret) _ j _ e1 e2 e3
  have e5 := rel_loop3_dcg log2 (setup_gains pairs res_rels) fuel _ st3 d1
  refine ⟨rel_finish st3, ?_, ?_⟩
  · show Option.map rel_finish _ = _
    rw [d1]
    rfl
  · show st3.results_dcg = _
    rw [e5, e4, achieved_gains_eq]

/-- C24 (counter-example): without overrides, with three documents judged at
level 1 and the only retrieved document of level 1 at the third rank,
`te_calc_ndcg_p` accumulates the achieved DCG `1 / log2 (3)` and
`te_calc_ndcg_rel` accumulates `1 / log2 (4)`, whatever `log2` is; with the
integer part of the binary logarithm these are 1 and 1/2, and the ideal DCG
values are 3 and 5/2. -/
theorem ndcg_discounts_differ :
    (∀ log2 : Nat → ℚ,
      (te_calc_ndcg_p log2 [] third_rank_res_rels).sum = 1 / log2 3 ∧
      ∃ r, te_calc_ndcg_rel log2 6 [] third_rank_res_rels = some r ∧
        r.results_dcg = 1 / log2 4) ∧
    (te_calc_ndcg_p floor_log2 [] third_rank_res_rels).sum = 1 ∧
    (te_calc_ndcg_p floor_log2 [] third_rank_res_rels).ideal_dcg = 3 ∧
    te_calc_ndcg_rel floor_log2 6 [] third_rank_res_rels =
      some { sum := XDOUBLE.fin (3/5), num_rel := 3, num_rel_ret := 1, results_dcg := 1/2,
             ideal_dcg := 5/2, value := some (XDOUBLE.fin (1/5)) } := by
  have ha : achieved_gains [] third_rank_res_rels = [0, 0, 1] := by decide!
  refine ⟨?_, by decide!, by decide!, by decide!⟩
  intro log2
  constructor
  · have h := te_calc_ndcg_p_sum log2 [] third_rank_res_rels
    rw [h]
    show weighted_sum (discount log2) 0 (achieved_gains [] third_rank_res_rels) = _
    rw [ha]
    simp [weighted_sum, discount]
  · obtain ⟨r, h1, h2⟩ := te_calc_ndcg_rel_achieved log2 6 [] third_rank_res_rels (by decide!)
    refine ⟨r, h1, ?_⟩
    rw [h2, ha]
    simp [weighted_sum, discount_rel]

/-- C24 (amended): for every vector and gain table, `te_calc_ndcg_p` weights
the gain at the 0-based rank `i` by 1 if `i = 0` and by `1 / log2 (i + 1)`
otherwise, and `te_calc_ndcg_rel` weights it by `1 / log2 (i + 2)` at every
rank; on a table sorted by ascending gain the two ideal DCG values weight the
ideal gain sequence in the same two ways. -/
theorem ndcg_two_discounts (log2 : Nat → ℚ) (fuel : Nat) (pairs : List DOUBLE_PARAM_PAIR)
    (res_rels : RES_RELS)
    (hfuel : (setup_gains pairs res_rels).total_num_at_levels < fuel) :
    (te_calc_ndcg_p log2 pairs res_rels).sum =
        weighted_sum (discount log2) 0 (achieved_gains pairs res_rels) ∧
      ∃ r, te_calc_ndcg_rel log2 fuel pairs res_rels = some r ∧
        r.results_dcg = weighted_sum (discount_rel log2) 0 (achieved_gains pairs res_rels) ∧
        ((setup_gains pairs res_rels).rel_gains.Pairwise (fun a b => a.gain ≤ b.gain) →
          (te_calc_ndcg_p log2 pairs res_rels).ideal_dcg =
              weighted_sum (discount log2) 0
                (ideal_seq (setup_gains pairs res_rels).rel_gains) ∧
            r.ideal_dcg =
              weighted_sum (discount_rel log2) 0
                (ideal_seq (setup_gains pairs res_rels).rel_gains)) := by
  obtain ⟨r, h1, h2⟩ := te_calc_ndcg_rel_achieved log2 fuel pairs res_rels hfuel
  refine ⟨te_calc_ndcg_p_sum log2 pairs res_rels, r, h1, h2, ?_⟩
  intro hs
  refine ⟨te_calc_ndcg_p_ideal_eq log2 pairs res_rels hs, ?_⟩
  obtain ⟨st3, g1, -, -, -, g5, -⟩ := te_calc_ndcg_rel_locals log2 fuel pairs res_rels hs hfuel
  rw [h1] at g1
  injection g1 with g1
  rw [g1]
  exact g5

/-- C24 (witness): the table without overrides for three documents judged at
level 1 and two at level 0. -/
theorem ndcg_two_discounts_witness :
    (setup_gains [] third_rank_res_rels).total_num_at_levels < 6 ∧
    ((te_calc_ndcg_p floor_log2 [] third_rank_res_rels).sum =
        weighted_sum (discount floor_log2) 0 (achieved_gains [] third_rank_res_rels) ∧
      ∃ r, te_calc_ndcg_rel floor_log2 6 [] third_rank_res_rels = some r ∧
        r.results_dcg =
          weighted_sum (discount_rel floor_log2) 0 (achieved_gains [] third_rank_res_rels) ∧
        ((setup_gains [] third_rank_res_rels).rel_gains.Pairwise (fun a b => a.gain ≤ b.gain) →
          (te_calc_ndcg_p floor_log2 [] third_rank_res_rels).ideal_dcg =
              weighted_sum (discount floor_log2) 0
                (ideal_seq (setup_gains [] third_rank_res_rels).rel_gains) ∧
            r.ideal_dcg =
              weighted_sum (discount_rel floor_log2) 0
                (ideal_seq (setup_gains [] third_rank_res_rels).rel_gains))) :=
  ⟨by decide!, ndcg_two_discounts floor_log2 6 [] third_rank_res_rels (by decide!)⟩

/-! ## `te_calc_map_cut` -/

theorem precision_sum_succ (t : Int) (v : List Int) (n : Nat) :
    precision_sum t v (n + 1) =
      precision_sum t v n +
        (if t ≤ v.getD n (t - 1) then
          (((v.take (n + 1)).countP (fun x => decide (t ≤ x)) : Nat) : ℚ) / ((n + 1 : Nat) : ℚ)
        else 0) := by
  unfold precision_sum
  rw [List.range_succ, List.map_append, List.sum_append]
  simp

theorem precision_sum_term_nonneg (t : Int) (v : List Int) (n : Nat) :
    (0 : ℚ) ≤ (if t ≤ v.getD n (t - 1) then
        (((v.take (n + 1)).countP (fun x => decide (t ≤ x)) : Nat) : ℚ) / ((n + 1 : Nat) : ℚ)
      else 0) := by
  by_cases h : t ≤ v.getD n (t - 1)
  · rw [if_pos h]
    exact div_nonneg (Nat.cast_nonneg _) (Nat.cast_nonneg _)
  · rw [if_neg h]

theorem precision_sum_of_le (t : Int) (v : List Int) :
    ∀ (n : Nat), v.length ≤ n → precision_sum t v n = precision_sum t v v.length := by
  intro n hn
  induction n with
  | zero =>
    have : v.length = 0 := Nat.le_zero.mp hn
    rw [this]
  | succ n ih =>
    rcases Nat.lt_or_ge n v.length with h | h
    · have : v.length = n + 1 := by omega
      rw [this]
    · rw [precision_sum_succ, List.getD_eq_default _ _ h, if_neg (by omega), add_zero]
      exact ih h

theorem precision_sum_mono (t : Int) (v : List Int) (n : Nat) :
    ∀ (m : Nat), n ≤ m → precision_sum t v n ≤ precision_sum t v m := by
  intro m hm
  induction m with
  | zero =>
    have : n = 0 := Nat.le_zero.mp hm
    rw [this]
  | succ m ih =>
    rcases Nat.lt_or_ge n (m + 1) with h | h
    · rw [precision_sum_succ]
      have h1 := ih (by omega)
      have h2 := precision_sum_term_nonneg t v m
      linarith
    · have : n = m + 1 := by omega
      rw [this]

theorem take_succ_of_drop {α : Type} (v : List α) (i : Nat) (x : α) (r : List α)
    (h : v.drop i = x :: r) : v.take (i + 1) = v.take i ++ [x] := by
  obtain ⟨hi, hget, -⟩ := drop_cons_getD v i x r x h
  rw [List.take_succ, List.getElem?_eq_getElem hi]
  rw [List.getD_eq_getElem _ _ hi] at hget
  rw [hget]
  rfl

theorem map_cut_add_spec (t : Int) (v : List Int) (i : Nat) (rel : Int) (rest : List Int)
    (rsf : Nat) (sum : ℚ) (hl : v.drop i = rel :: rest)
    (hr : rsf = (v.take i).countP (fun x => decide (t ≤ x)))
    (hs : sum = precision_sum t v i) :
    (map_cut_add t rel i rsf sum).1 = (v.take (i + 1)).countP (fun x => decide (t ≤ x)) ∧
      (map_cut_add t rel i rsf sum).2 = precision_sum t v (i + 1) := by
  obtain ⟨-, hget, -⟩ := drop_cons_getD v i rel rest (t - 1) hl
  have htake := take_succ_of_drop v i rel rest hl
  rw [precision_sum_succ, hget, htake, List.countP_append, List.countP_singleton]
  unfold map_cut_add
  by_cases h : rel ≥ t
  · have h' : t ≤ rel := h
    have hd : decide (t ≤ rel) = true := by simpa using h'
    rw [if_pos h, if_pos h', if_pos hd, hr, hs]
    exact ⟨rfl, rfl⟩
  · have h' : ¬ t ≤ rel := h
    have hd : ¬ decide (t ≤ rel) = true := by simpa using h'
    rw [if_neg h, if_neg h', if_neg hd, hr, hs]
    exact ⟨rfl, (add_zero _).symm⟩

theorem map_cut_fill_spec (sum : ℚ) (num_rel : Nat) :
    ∀ (n ci : Nat) (values : List (Option ℚ)),
      (map_cut_fill sum num_rel n ci values).length = values.length ∧
        ∀ j, (map_cut_fill sum num_rel n ci values)[j]? =
          if ci ≤ j ∧ j < ci + n ∧ j < values.length then some (some (sum / (num_rel : ℚ)))
          else values[j]? := by
  intro n
  induction n with
  | zero =>
    intro ci values
    refine ⟨rfl, ?_⟩
    intro j
    rw [if_neg (by omega)]
    rfl
  | succ n ih =>
    intro ci values
    obtain ⟨h1, h2⟩ := ih (ci + 1) (values.set ci (some (sum / (num_rel : ℚ))))
    rw [map_cut_fill]
    refine ⟨by rw [h1, List.length_set], ?_⟩
    intro j
    rw [h2 j, List.length_set, List.getElem?_set]
    by_cases hj : ci = j
    · subst hj
      by_cases hlen : ci < values.length
      · rw [if_neg (by omega), if_pos rfl, if_pos hlen, if_pos ⟨le_refl _, by omega, hlen⟩]
      · rw [if_neg (by omega), if_pos rfl, if_neg hlen, if_neg (by omega)]
        exact (List.getElem?_eq_none (by omega)).symm
    · rw [if_neg hj]
      by_cases hc : ci + 1 ≤ j ∧ j < ci + 1 + n ∧ j < values.length
      · rw [if_pos hc, if_pos ⟨by omega, by omega, hc.2.2⟩]
      · rw [if_neg hc, if_neg (by omega)]

theorem cutoffs_lt (cutoffs : List Int) (hinc : cutoffs.Pairwise (fun a b => a < b))
    (j1 j2 : Nat) (h12 : j1 < j2) (h2 : j2 < cutoffs.length) :
    cutoffs.getD j1 0 < cutoffs.getD j2 0 := by
  have h1 : j1 < cutoffs.length := by omega
  rw [List.getD_eq_getElem _ _ h1, List.getD_eq_getElem _ _ h2]
  exact List.pairwise_iff_getElem.mp hinc j1 j2 h1 h2 h12

/-- The loop of lines 58-71, for strictly increasing cutoffs: at its exit the
cutoffs below `cutoff_index` have their value, each the sum over the ranks
below the cutoff, and the others are not below the number of retrieved
documents. -/
theorem map_cut_loop_spec (cutoffs : List Int) (t : Int) (nr : Nat) (v : List Int)
    (hinc : cutoffs.Pairwise (fun a b => a < b)) :
    ∀ (l : List Int) (i ci rsf : Nat) (sum : ℚ) (values : List (Option ℚ)),
      v.drop i = l → values.length = cutoffs.length →
      rsf = (v.take i).countP (fun x => decide (t ≤ x)) → sum = precision_sum t v i →
      (∀ j, j < ci → j < cutoffs.length →
        values[j]? = some (some (precision_sum t v (cutoffs.getD j 0).toNat / (nr : ℚ))) ∧
          cutoffs.getD j 0 < (v.length : Int) ∧ 0 ≤ cutoffs.getD j 0) →
      (∀ j, ci ≤ j → j < cutoffs.length → (i : Int) ≤ cutoffs.getD j 0) →
      (map_cut_loop cutoffs t nr l i ci rsf sum values).2.2.length = cutoffs.length ∧
        (∀ j, j < (map_cut_loop cutoffs t nr l i ci rsf sum values).1 → j < cutoffs.length →
          (map_cut_loop cutoffs t nr l i ci rsf sum values).2.2[j]? =
              some (some (precision_sum t v (cutoffs.getD j 0).toNat / (nr : ℚ))) ∧
            cutoffs.getD j 0 < (v.length : Int) ∧ 0 ≤ cutoffs.getD j 0) ∧
        ((map_cut_loop cutoffs t nr l i ci rsf sum values).1 < cutoffs.length →
          (map_cut_loop cutoffs t nr l i ci rsf sum values).2.1 =
              precision_sum t v v.length ∧
            ∀ j, (map_cut_loop cutoffs t nr l i ci rsf sum values).1 ≤ j →
              j < cutoffs.length → (v.length : Int) ≤ cutoffs.getD j 0) := by
  intro l
  induction l with
  | nil =>
    intro i ci rsf sum values hl hlen hr hs hc hd
    have hvi : v.length ≤ i := List.drop_eq_nil_iff.mp hl
    refine ⟨hlen, hc, ?_⟩
    intro _
    refine ⟨?_, ?_⟩
    · show sum = _
      rw [hs, precision_sum_of_le t v i hvi]
    · intro j hj hjk
      have := hd j hj hjk
      omega
  | cons rel rest ih =>
    intro i ci rsf sum values hl hlen hr hs hc hd
    obtain ⟨hiv, -, hdrop⟩ := drop_cons_getD v i rel rest 0 hl
    obtain ⟨ha1, ha2⟩ := map_cut_add_spec t v i rel rest rsf sum hl hr hs
    by_cases hm : (i : Int) = cutoffs.getD ci 0
    · -- the cutoff is reached: its value is written
      have hc1 : ∀ j, j < ci + 1 → j < cutoffs.length →
          (values.set ci (some (sum / (nr : ℚ))))[j]? =
              some (some (precision_sum t v (cutoffs.getD j 0).toNat / (nr : ℚ))) ∧
            cutoffs.getD j 0 < (v.length : Int) ∧ 0 ≤ cutoffs.getD j 0 := by
        intro j hj hjk
        by_cases hjc : j = ci
        · subst hjc
          rw [List.getElem?_set_self (by omega), ← hm, Int.toNat_ofNat, hs]
          exact ⟨rfl, by omega, by omega⟩
        · rw [List.getElem?_set_ne (fun e => hjc e.symm)]
          exact hc j (by omega) hjk
      by_cases hb : ci + 1 = cutoffs.length
      · rw [map_cut_loop, if_pos hm, if_pos hb]
        refine ⟨by simp only [List.length_set]; exact hlen, hc1, ?_⟩
        intro h
        exact absurd h (by simp only; omega)
      · rw [map_cut_loop, if_pos hm, if_neg hb]
        refine ih (i + 1) (ci + 1) _ _ _ hdrop (by rw [List.length_set]; exact hlen)
          ha1 ha2 hc1 ?_
        intro j hj hjk
        have := cutoffs_lt cutoffs hinc ci j (by omega) hjk
        push_cast
        omega
    · rw [map_cut_loop, if_neg hm]
      refine ih (i + 1) ci _ _ _ hdrop hlen ha1 ha2 hc ?_
      intro j hj hjk
      have h0 := hd j hj hjk
      rcases Nat.lt_or_ge ci j with h | h
      · have := cutoffs_lt cutoffs hinc ci j h hjk
        have := hd ci (le_refl _) (by omega)
        push_cast
        omega
      · have : j = ci := by omega
        subst this
        push_cast
        omega

theorem map_cut_value_at (epi : EPI) (cutoffs : List Int) (res_rels : RES_RELS)
    (hpos : ∀ c ∈ cutoffs, 0 < c) (hinc : cutoffs.Pairwise (fun a b => a < b))
    (hrel : 0 < res_rels.num_rel) :
    (te_calc_map_cut epi cutoffs res_rels).ret = 1 ∧
      (te_calc_map_cut epi cutoffs res_rels).values.length = cutoffs.length ∧
      ∀ j, j < cutoffs.length →
        (te_calc_map_cut epi cutoffs res_rels).values[j]? =
          some (some (1 / (res_rels.num_rel : ℚ) *
            precision_sum epi.relevance_level
              (res_rels.results_rel_list.take res_rels.num_ret)
              (min (cutoffs.getD j 0).toNat res_rels.num_ret))) := by
  have hne : ¬ res_rels.num_rel = 0 := by omega
  obtain ⟨s1, s2, s3⟩ := map_cut_loop_spec cutoffs epi.relevance_level res_rels.num_rel
    (res_rels.results_rel_list.take res_rels.num_ret) hinc
    (res_rels.results_rel_list.take res_rels.num_ret) 0 0 0 0
    (List.replicate cutoffs.length none) (List.drop_zero _) (List.length_replicate _ _)
    (by simp) (by simp [precision_sum])
    (fun j hj _ => absurd hj (Nat.not_lt_zero j))
    (fun j _ hjk => by
      rw [List.getD_eq_getElem _ _ hjk]
      have := hpos _ (List.getElem_mem hjk)
      push_cast
      omega)
  obtain ⟨f1, f2⟩ := map_cut_fill_spec
    (map_cut_loop cutoffs epi.relevance_level res_rels.num_rel
      (res_rels.results_rel_list.take res_rels.num_ret) 0 0 0 0
      (List.replicate cutoffs.length none)).2.1 res_rels.num_rel
    (cutoffs.length - (map_cut_loop cutoffs epi.relevance_level res_rels.num_rel
      (res_rels.results_rel_list.take res_rels.num_ret) 0 0 0 0
      (List.replicate cutoffs.length none)).1)
    (map_cut_loop cutoffs epi.relevance_level res_rels.num_rel
      (res_rels.results_rel_list.take res_rels.num_ret) 0 0 0 0
      (List.replicate cutoffs.length none)).1
    (map_cut_loop cutoffs epi.relevance_level res_rels.num_rel
      (res_rels.results_rel_list.take res_rels.num_ret) 0 0 0 0
      (List.replicate cutoffs.length none)).2.2
  have hvlen : (res_rels.results_rel_list.take res_rels.num_ret).length ≤ res_rels.num_ret := by
    rw [List.length_take]
    exact Nat.min_le_left _ _
  unfold te_calc_map_cut
  rw [if_neg hne]
  refine ⟨rfl, ?_, ?_⟩
  · show (map_cut_fill _ _ _ _ _).length = _
    rw [f1, s1]
  · intro j hjk
    show (map_cut_fill _ _ _ _ _)[j]? = _
    rw [f2 j, s1]
    by_cases hj : (map_cut_loop cutoffs epi.relevance_level res_rels.num_rel
        (res_rels.results_rel_list.take res_rels.num_ret) 0 0 0 0
        (List.replicate cutoffs.length none)).1 ≤ j
    · rw [if_pos ⟨hj, by omega, hjk⟩]
      obtain ⟨t1, t2⟩ := s3 (by omega)
      have hc := t2 j hj hjk
      rw [t1, ← precision_sum_of_le epi.relevance_level
        (res_rels.results_rel_list.take res_rels.num_ret)
        (min (cutoffs.getD j 0).toNat res_rels.num_ret) (by omega)]
      congr 2
      ring
    · rw [if_neg (fun h => hj h.1)]
      obtain ⟨u1, u2, u3⟩ := s2 j (by omega) hjk
      rw [u1, Nat.min_eq_left (by omega)]
      congr 2
      ring

/-- C21: for strictly increasing positive cutoffs, `te_calc_map_cut` returns 0
and writes no value when `num_rel = 0`; when `num_rel > 0` it returns 1 and
sets the value of the cutoff `c_j` to `(1/num_rel)` times the sum, over the
ranks `i < min (c_j, num_ret)` with `v_i ≥ relevance_level`, of the number of
ranks `i' ≤ i` with `v_i' ≥ relevance_level` divided by `i + 1`; a cutoff
beyond the retrieved documents gets the value over all of them, and the values
do not decrease with `j`. -/
theorem te_calc_map_cut_values (epi : EPI) (cutoffs : List Int) (res_rels : RES_RELS)
    (hpos : ∀ c ∈ cutoffs, 0 < c) (hinc : cutoffs.Pairwise (fun a b => a < b)) :
    (res_rels.num_rel = 0 →
      (te_calc_map_cut epi cutoffs res_rels).ret = 0 ∧
        (te_calc_map_cut epi cutoffs res_rels).values = List.replicate cutoffs.length none) ∧
    (0 < res_rels.num_rel →
      (te_calc_map_cut epi cutoffs res_rels).ret = 1 ∧
        (te_calc_map_cut epi cutoffs res_rels).values.length = cutoffs.length ∧
        (∀ j, j < cutoffs.length →
          (te_calc_map_cut epi cutoffs res_rels).values[j]? =
            some (some (1 / (res_rels.num_rel : ℚ) *
              precision_sum epi.relevance_level
                (res_rels.results_rel_list.take res_rels.num_ret)
                (min (cutoffs.getD j 0).toNat res_rels.num_ret)))) ∧
        (∀ j, j < cutoffs.length → res_rels.num_ret ≤ (cutoffs.getD j 0).toNat →
          (te_calc_map_cut epi cutoffs res_rels).values[j]? =
            some (some (1 / (res_rels.num_rel : ℚ) *
              precision_sum epi.relevance_level
                (res_rels.results_rel_list.take res_rels.num_ret) res_rels.num_ret))) ∧
        (∀ (j1 j2 : Nat) (x1 x2 : ℚ), j1 ≤ j2 →
          (te_calc_map_cut epi cutoffs res_rels).values[j1]? = some (some x1) →
          (te_calc_map_cut epi cutoffs res_rels).values[j2]? = some (some x2) → x1 ≤ x2)) := by
  constructor
  · intro h0
    unfold te_calc_map_cut
    rw [if_pos h0]
    exact ⟨rfl, rfl⟩
  · intro hrel
    obtain ⟨h1, h2, h3⟩ := map_cut_value_at epi cutoffs res_rels hpos hinc hrel
    refine ⟨h1, h2, h3, ?_, ?_⟩
    · intro j hjk hc
      rw [h3 j hjk, Nat.min_eq_right hc]
    · intro j1 j2 x1 x2 h12 e1 e2
      have hj2 : j2 < cutoffs.length := by
        by_contra hc
        rw [List.getElem?_eq_none (by omega)] at e2
        cases e2
      have hj1 : j1 < cutoffs.length := by omega
      rw [h3 j1 hj1] at e1
      rw [h3 j2 hj2] at e2
      injection e1 with e1
      injection e1 with e1
      injection e2 with e2
      injection e2 with e2
      rw [← e1, ← e2]
      have hle : cutoffs.getD j1 0 ≤ cutoffs.getD j2 0 := by
        rcases Nat.lt_or_ge j1 j2 with h | h
        · exact le_of_lt (cutoffs_lt cutoffs hinc j1 j2 h hj2)
        · have : j1 = j2 := by omega
          rw [this]
      have hmin : min (cutoffs.getD j1 0).toNat res_rels.num_ret ≤
          min (cutoffs.getD j2 0).toNat res_rels.num_ret := by
        have : (cutoffs.getD j1 0).toNat ≤ (cutoffs.getD j2 0).toNat := by omega
        omega
      have hm := precision_sum_mono epi.relevance_level
        (res_rels.results_rel_list.take res_rels.num_ret) _ _ hmin
      have hnr : (0 : ℚ) ≤ 1 / (res_rels.num_rel : ℚ) :=
        div_nonneg zero_le_one (Nat.cast_nonneg _)
      exact mul_le_mul_of_nonneg_left hm hnr

/-- C21 (witness): the cutoffs 1, 3 and 5 for a vector of three documents. -/
theorem te_calc_map_cut_values_witness :
    (∀ c ∈ ([1, 3, 5] : List Int), 0 < c) ∧
    ([1, 3, 5] : List Int).Pairwise (fun a b => a < b) ∧
    ((third_rank_res_rels.num_rel = 0 →
      (te_calc_map_cut ex_epi [1, 3, 5] third_rank_res_rels).ret = 0 ∧
        (te_calc_map_cut ex_epi [1, 3, 5] third_rank_res_rels).values =
          List.replicate ([1, 3, 5] : List Int).length none) ∧
    (0 < third_rank_res_rels.num_rel →
      (te_calc_map_cut ex_epi [1, 3, 5] third_rank_res_rels).ret = 1 ∧
        (te_calc_map_cut ex_epi [1, 3, 5] third_rank_res_rels).values.length =
          ([1, 3, 5] : List Int).length ∧
        (∀ j, j < ([1, 3, 5] : List Int).length →
          (te_calc_map_cut ex_epi [1, 3, 5] third_rank_res_rels).values[j]? =
            some (some (1 / (third_rank_res_rels.num_rel : ℚ) *
              precision_sum ex_epi.relevance_level
                (third_rank_res_rels.results_rel_list.take third_rank_res_rels.num_ret)
                (min (([1, 3, 5] : List Int).getD j 0).toNat third_rank_res_rels.num_ret)))) ∧
        (∀ j, j < ([1, 3, 5] : List Int).length →
          third_rank_res_rels.num_ret ≤ (([1, 3, 5] : List Int).getD j 0).toNat →
          (te_calc_map_cut ex_epi [1, 3, 5] third_rank_res_rels).values[j]? =
            some (some (1 / (third_rank_res_rels.num_rel : ℚ) *
              precision_sum ex_epi.relevance_level
                (third_rank_res_rels.results_rel_list.take third_rank_res_rels.num_ret)
                third_rank_res_rels.num_ret))) ∧
        (∀ (j1 j2 : Nat) (x1 x2 : ℚ), j1 ≤ j2 →
          (te_calc_map_cut ex_epi [1, 3, 5] third_rank_res_rels).values[j1]? =
            some (some x1) →
          (te_calc_map_cut ex_epi [1, 3, 5] third_rank_res_rels).values[j2]? =
            some (some x2) → x1 ≤ x2))) :=
  ⟨by decide, by decide,
    te_calc_map_cut_values ex_epi [1, 3, 5] third_rank_res_rels (by decide) (by decide)⟩

/-! ## Facts about the scanning loops of `get_trec_results.c` -/

theorem skip_chars_line (p : Char → Bool) (hp : p NL = false) (post : List Char) :
    ∀ (r done : List Char), skip_chars p done (r ++ NL :: post) =
      { done := done ++ r.takeWhile p, rest := r.dropWhile p ++ NL :: post } := by
  intro r
  induction r with
  | nil => intro done; simp [skip_chars, hp]
  | cons x r ih =>
    intro done
    by_cases hx : p x = true
    · simp [skip_chars, hx, ih]
    · simp [skip_chars, hx]

theorem takeWhile_congr_mem (p q : Char → Bool) :
    ∀ (r : List Char), (∀ c ∈ r, p c = q c) → r.takeWhile p = r.takeWhile q ∧
      r.dropWhile p = r.dropWhile q := by
  intro r
  induction r with
  | nil => intro _; simp
  | cons x r ih =>
    intro h
    have hx : p x = q x := h x (List.mem_cons_self _ _)
    have hr := ih (fun c hc => h c (List.mem_cons_of_mem _ hc))
    simp only [List.takeWhile_cons, List.dropWhile_cons, hx]
    cases q x <;> simp [hr.1, hr.2]

theorem fields_acc_word : ∀ (l cur : List Char),
    fields_acc cur l =
      if cur ++ l.takeWhile (fun x => !isblank x) = [] then
        fields_acc [] ((l.dropWhile (fun x => !isblank x)).drop 1)
      else (cur ++ l.takeWhile (fun x => !isblank x)) ::
        fields_acc [] ((l.dropWhile (fun x => !isblank x)).drop 1) := by
  intro l
  induction l with
  | nil => intro cur; simp [fields_acc]
  | cons c cs ih =>
    intro cur
    by_cases hc : isblank c = true
    · simp [fields_acc, hc]
    · simp only [Bool.not_eq_true] at hc
      rw [fields_acc, if_neg (by simp [hc]), ih]
      simp [hc]

theorem fields_acc_blanks : ∀ (l : List Char),
    fields_acc [] l = fields_acc [] (l.dropWhile isblank) := by
  intro l
  induction l with
  | nil => rfl
  | cons c cs ih =>
    by_cases hc : isblank c = true
    · simp [fields_acc, hc, ih]
    · simp [hc]

theorem cstr_field (pre f : List Char) (hf : NUL ∉ f) (tail : List Char) :
    cstr (pre ++ f ++ NUL :: tail) pre.length = f := by
  unfold cstr
  rw [List.append_assoc, List.drop_left]
  rw [List.takeWhile_append_of_pos]
  · simp
  · intro x hx
    have : x ≠ NUL := fun e => hf (e ▸ hx)
    simpa using this

theorem forall₂_map_getElem? {α β : Type} {P : α → β → Prop} (g : α → β)
    (hg : ∀ a b, P a b → g a = b) :
    ∀ {l₁ : List α} {l₂ : List β}, List.Forall₂ P l₁ l₂ → ∀ (i : Nat),
      l₁[i]?.map g = l₂[i]? := by
  intro l₁ l₂ h
  induction h with
  | nil => intro i; simp
  | cons hab _ ih =>
    intro i
    cases i with
    | zero => simp [hg _ _ hab]
    | succ i => simpa using ih i

theorem isblank_isspace (c : Char) (h : isblank c = true) : isspace c = true := by
  unfold isblank at h
  unfold isspace
  simp only [Bool.or_eq_true] at h ⊢
  rcases h with h | h
  · simp [h]
  · simp [h]

theorem iseol_isspace (c : Char) (h : iseol c = true) : isspace c = true ∧ isblank c = false := by
  unfold iseol at h
  simp only [Bool.or_eq_true, beq_iff_eq] at h
  rcases h with h | h <;> subst h <;> decide

theorem dropWhile_cons_facts (p : Char → Bool) : ∀ (r : List Char) (c : Char) (t : List Char),
    r.dropWhile p = c :: t → p c = false ∧ c ∈ r ∧ (∀ x ∈ t, x ∈ r) ∧
      r.takeWhile p ++ c :: t = r := by
  intro r
  induction r with
  | nil => intro c t h; simp at h
  | cons x r ih =>
    intro c t h
    by_cases hx : p x = true
    · rw [List.dropWhile_cons, if_pos hx] at h
      obtain ⟨h1, h2, h3, h4⟩ := ih c t h
      refine ⟨h1, List.mem_cons_of_mem _ h2, fun y hy => List.mem_cons_of_mem _ (h3 y hy), ?_⟩
      rw [List.takeWhile_cons, if_pos hx, List.cons_append, h4]
    · rw [List.dropWhile_cons, if_neg hx] at h
      injection h with h1 h2
      subst h1
      subst h2
      refine ⟨by simpa using hx, List.mem_cons_self _ _, fun y hy => List.mem_cons_of_mem _ hy, ?_⟩
      rw [List.takeWhile_cons, if_neg hx, List.nil_append]

theorem dropWhile_nil_facts (p : Char → Bool) : ∀ (r : List Char),
    r.dropWhile p = [] → r.takeWhile p = r := by
  intro r h
  have := List.takeWhile_append_dropWhile p r
  rw [h, List.append_nil] at this
  exact this

theorem takeWhile_mem (p : Char → Bool) (r : List Char) : ∀ x ∈ r.takeWhile p, x ∈ r ∧ p x = true := by
  intro x hx
  exact ⟨(List.takeWhile_sublist p).subset hx, List.mem_takeWhile_imp hx⟩

theorem fields_loop_zero (c : CURSOR) (ptrs : List Nat) : fields_loop 0 c ptrs = (c, ptrs) := rfl

theorem fields_loop_succ (n : Nat) (c : CURSOR) (ptrs : List Nat) :
    fields_loop (n + 1) c ptrs =
      if iseol (skip_while isblank c).peek then (skip_while isblank c, ptrs)
      else
        if isblank (skip_while (fun x => !isspace x) (skip_while isblank c)).peek then
          fields_loop n ((skip_while (fun x => !isspace x) (skip_while isblank c)).put NUL)
            (ptrs ++ [(skip_while isblank c).pos])
        else
          (skip_while (fun x => !isspace x) (skip_while isblank c),
            ptrs ++ [(skip_while isblank c).pos]) := rfl

theorem fields_loop_spec (post : List Char) : ∀ (n : Nat) (r done : List Char) (ptrs : List Nat),
    (∀ c ∈ r, c ≠ NUL ∧ (isspace c = true → isblank c = true)) →
    ∃ (ext r' : List Char) (news : List Nat),
      fields_loop n { done := done, rest := r ++ NL :: post } ptrs =
        ({ done := done ++ ext, rest := r' ++ NL :: post }, ptrs ++ news) ∧
      ext.length + r'.length = r.length ∧ (∀ c ∈ r', c ≠ NL) ∧
      List.Forall₂ (fun p f => ∀ suffix, cstr (done ++ (ext ++ (r' ++ NUL :: suffix))) p = f)
        news ((fields r).take n) := by
  intro n
  induction n with
  | zero =>
    intro r done ptrs hr
    refine ⟨[], r, [], by simp [fields_loop_zero], by simp, ?_, by simp⟩
    intro c hc e
    subst e
    exact absurd ((hr _ hc).2 (by decide)) (by decide)
  | succ n ih =>
    intro r done ptrs hr
    have hskip1 : skip_while isblank { done := done, rest := r ++ NL :: post } =
        { done := done ++ r.takeWhile isblank, rest := r.dropWhile isblank ++ NL :: post } :=
      skip_chars_line isblank (by decide) post r done
    rw [fields_loop_succ, hskip1]
    cases hr1 : r.dropWhile isblank with
    | nil =>
      have hbl := dropWhile_nil_facts isblank r hr1
      refine ⟨r, [], [], ?_, by simp, by simp, ?_⟩
      · rw [hbl]
        simp [CURSOR.peek, NL, iseol]
      · have : fields r = [] := by
          unfold fields
          rw [fields_acc_blanks, hr1]
          rfl
        rw [this]
        simp
    | cons c r1 =>
      obtain ⟨hcb, hcr, hr1r, hsplit⟩ := dropWhile_cons_facts isblank r c r1 hr1
      have hceol : iseol c = false := by
        cases h : iseol c with
        | false => rfl
        | true =>
          have h2 := iseol_isspace c h
          have h3 := (hr c hcr).2 h2.1
          rw [hcb] at h3
          exact absurd h3 (by decide)
      have hcong : ∀ x ∈ c :: r1, (fun x => !isspace x) x = (fun x => !isblank x) x := by
        intro x hx
        have hxr : x ∈ r := by
          rcases List.mem_cons.1 hx with e | e
          · exact e ▸ hcr
          · exact hr1r x e
        show (!isspace x) = (!isblank x)
        cases hb : isblank x with
        | true => rw [isblank_isspace x hb]
        | false =>
          cases hs : isspace x with
          | false => rfl
          | true =>
            have := (hr x hxr).2 hs
            rw [hb] at this
            exact absurd this (by decide)
      obtain ⟨htw, hdw⟩ := takeWhile_congr_mem _ _ (c :: r1) hcong
      have hskip2 : skip_while (fun x => !isspace x)
          { done := done ++ r.takeWhile isblank, rest := (c :: r1) ++ NL :: post } =
          { done := (done ++ r.takeWhile isblank) ++ (c :: r1).takeWhile (fun x => !isblank x),
            rest := (c :: r1).dropWhile (fun x => !isblank x) ++ NL :: post } := by
        rw [← htw, ← hdw]
        exact skip_chars_line (fun x => !isspace x) (by decide) post (c :: r1) _
      have hpeek1 : (CURSOR.mk (done ++ r.takeWhile isblank) ((c :: r1) ++ NL :: post)).peek = c :=
        rfl
      rw [hpeek1, hceol, hskip2]
      have hf0 : (c :: r1).takeWhile (fun x => !isblank x) =
          c :: r1.takeWhile (fun x => !isblank x) := by
        rw [List.takeWhile_cons, if_pos (by simp [hcb])]
      have hfields : fields r = (c :: r1).takeWhile (fun x => !isblank x) ::
          fields_acc [] (((c :: r1).dropWhile (fun x => !isblank x)).drop 1) := by
        unfold fields
        rw [fields_acc_blanks, hr1, fields_acc_word, List.nil_append, if_neg]
        rw [hf0]
        exact List.cons_ne_nil _ _
      have hnul : NUL ∉ (c :: r1).takeWhile (fun x => !isblank x) := by
        intro hmem
        have h1 := (takeWhile_mem _ _ NUL hmem).1
        have hxr : NUL ∈ r := by
          rcases List.mem_cons.1 h1 with e | e
          · exact e ▸ hcr
          · exact hr1r _ e
        exact (hr _ hxr).1 rfl
      have hlen : r.length = (r.takeWhile isblank).length +
          (((c :: r1).takeWhile (fun x => !isblank x)).length +
            ((c :: r1).dropWhile (fun x => !isblank x)).length) := by
        have e1 := congrArg List.length hsplit
        have e2 := congrArg List.length
          (List.takeWhile_append_dropWhile (fun x => !isblank x) (c :: r1))
        simp only [List.length_append, List.length_cons] at e1 e2 ⊢
        omega
      cases hr2 : (c :: r1).dropWhile (fun x => !isblank x) with
      | nil =>
        rw [hr2] at hfields hlen
        refine ⟨r.takeWhile isblank ++ (c :: r1).takeWhile (fun x => !isblank x), [],
          [(done ++ r.takeWhile isblank).length], ?_, ?_, by simp, ?_⟩
        · simp [CURSOR.peek, CURSOR.pos, NL, isblank]
        · simp only [List.length_append, List.length_nil, List.length_cons] at hlen ⊢
          omega
        · rw [hfields]
          simp only [List.drop_nil, fields_acc, if_true, List.take_succ_cons, List.take_nil,
            List.nil_append]
          refine List.Forall₂.cons ?_ List.Forall₂.nil
          intro suffix
          have := cstr_field (done ++ r.takeWhile isblank)
            ((c :: r1).takeWhile (fun x => !isblank x)) hnul suffix
          simpa [List.append_assoc] using this
      | cons b r3 =>
        obtain ⟨hbb, hbr, hr3r, _⟩ :=
          dropWhile_cons_facts (fun x => !isblank x) (c :: r1) b r3 hr2
        have hbb' : isblank b = true := by simpa using hbb
        have hr3 : ∀ x ∈ r3, x ≠ NUL ∧ (isspace x = true → isblank x = true) := by
          intro x hx
          have h1 := hr3r x hx
          have hxr : x ∈ r := by
            rcases List.mem_cons.1 h1 with e | e
            · exact e ▸ hcr
            · exact hr1r _ e
          exact hr x hxr
        rw [hr2] at hfields hlen
        obtain ⟨ext3, r', news3, hloop, hlen3, hnl, hall⟩ :=
          ih r3 (((done ++ r.takeWhile isblank) ++ (c :: r1).takeWhile (fun x => !isblank x)) ++
            [NUL]) (ptrs ++ [(done ++ r.takeWhile isblank).length]) hr3
        refine ⟨r.takeWhile isblank ++ ((c :: r1).takeWhile (fun x => !isblank x) ++
            (NUL :: ext3)), r', (done ++ r.takeWhile isblank).length :: news3, ?_, ?_, hnl, ?_⟩
        · have hpeek2 : (CURSOR.mk ((done ++ r.takeWhile isblank) ++
              (c :: r1).takeWhile (fun x => !isblank x)) ((b :: r3) ++ NL :: post)).peek = b := rfl
          have hput : (CURSOR.mk ((done ++ r.takeWhile isblank) ++
              (c :: r1).takeWhile (fun x => !isblank x)) ((b :: r3) ++ NL :: post)).put NUL =
              CURSOR.mk (((done ++ r.takeWhile isblank) ++
                (c :: r1).takeWhile (fun x => !isblank x)) ++ [NUL]) (r3 ++ NL :: post) := rfl
          have hpos : (CURSOR.mk (done ++ r.takeWhile isblank) ((c :: r1) ++ NL :: post)).pos =
              (done ++ r.takeWhile isblank).length := rfl
          rw [hpeek2, hbb', hput, hpos, hloop]
          simp [List.append_assoc]
        · simp only [List.length_append, List.length_cons] at hlen hlen3 ⊢
          omega
        · rw [hfields]
          simp only [List.drop_succ_cons, List.drop_zero, List.take_succ_cons]
          refine List.Forall₂.cons ?_ ?_
          · intro suffix
            have := cstr_field (done ++ r.takeWhile isblank)
              ((c :: r1).takeWhile (fun x => !isblank x)) hnul (ext3 ++ (r' ++ NUL :: suffix))
            simpa [List.append_assoc] using this
          · refine List.Forall₂.imp ?_ hall
            intro p f h suffix
            have := h suffix
            simpa [List.append_assoc] using this

theorem parse_results_line_eq (done r post : List Char) (run_id_ptr : Option Nat)
    (run_type : Int)
    (hr : ∀ c ∈ r, c ≠ NUL ∧ (isspace c = true → isblank c = true))
    (hnb : fields r ≠ []) :
    ∃ (D : List Char) (news : List Nat),
      parse_results_line { done := done, rest := r ++ NL :: post } run_id_ptr run_type =
        (if (news[2]?).isSome ∧ (news[3]?).isNone then
          { ret := 0, cursor := { done := D, rest := post }, qid := news[0]?, docno := news[1]?,
            sim := news[2]?, run_id_ptr := run_id_ptr, run_type := FMT_ANS }
        else if (news[5]?).isSome then
          { ret := 0, cursor := { done := D, rest := post }, qid := news[0]?, docno := news[2]?,
            sim := news[4]?, run_id_ptr := run_id_ptr, run_type := FMT_TREC }
        else
          { ret := UNDEF, cursor := { done := D, rest := post }, qid := none, docno := none,
            sim := none, run_id_ptr := run_id_ptr, run_type := run_type }) ∧
      D.length = done.length + r.length + 1 ∧
      List.Forall₂ (fun p f => cstr (D ++ post) p = f) news ((fields r).take 6) := by
  have hskip0 : skip_while iseol { done := done, rest := r ++ NL :: post } =
      { done := done, rest := r ++ NL :: post } := by
    cases r with
    | nil => exact absurd rfl hnb
    | cons c r =>
      have hc := hr c (List.mem_cons_self _ _)
      have hceol : iseol c = false := by
        cases h : iseol c with
        | false => rfl
        | true =>
          have h2 := iseol_isspace c h
          have h3 := hc.2 h2.1
          rw [h2.2] at h3
          exact absurd h3 (by decide)
      simp [skip_while, skip_chars, hceol]
  obtain ⟨ext, r', news, hloop, hlen, hnl, hall⟩ := fields_loop_spec post 6 r done [] hr
  have hskip3 : skip_while (fun x => x != NL) { done := done ++ ext, rest := r' ++ NL :: post } =
      { done := (done ++ ext) ++ r', rest := NL :: post } := by
    have h := skip_chars_line (fun x => x != NL) (by decide) post r' (done ++ ext)
    have htw : r'.takeWhile (fun x => x != NL) = r' := by
      rw [List.takeWhile_eq_self_iff]
      intro x hx
      simpa using hnl x hx
    have hdw : r'.dropWhile (fun x => x != NL) = [] := by
      rw [List.dropWhile_eq_nil_iff]
      intro x hx
      simpa using hnl x hx
    rw [htw, hdw] at h
    exact h
  refine ⟨((done ++ ext) ++ r') ++ [NUL], news, ?_, ?_, ?_⟩
  · unfold parse_results_line
    simp only [hskip0, hloop, hskip3, List.nil_append]
    rfl
  · simp only [List.length_append, List.length_cons, List.length_nil]
    omega
  · refine List.Forall₂.imp ?_ hall
    intro p f h
    have := h post
    simpa [List.append_assoc] using this

/-- C22, amended: for a line without NUL whose whitespace characters are all
blanks, terminated by a newline and holding at least one field,
`parse_results_line` returns 0 exactly when the line has 3 or at least 6
blank-separated fields and UNDEF otherwise, and leaves `*start_ptr` just
after the newline.  With at least 6 fields the strings at `qid`, `docno`
and `sim` are fields 1, 3 and 5 and the format is `FMT_TREC`, so the stored
score is `atof` of field 5; with exactly 3 fields they are fields 1, 2 and 3
and the format is `FMT_ANS`, so the stored score is the negated `atof` of
field 3; with 1, 2, 4 or 5 fields the result is UNDEF and the format is left
as it was. -/
theorem parse_results_line_fields (done r post : List Char) (run_id_ptr : Option Nat)
    (run_type : Int) (p : PARSED)
    (hr : ∀ c ∈ r, c ≠ NUL ∧ (isspace c = true → isblank c = true))
    (hnb : fields r ≠ [])
    (hp : p = parse_results_line { done := done, rest := r ++ NL :: post } run_id_ptr run_type) :
    (p.ret = 0 ↔ (fields r).length = 3 ∨ 6 ≤ (fields r).length) ∧
    (p.ret ≠ 0 → p.ret = UNDEF) ∧
    (p.cursor.pos = done.length + r.length + 1 ∧ p.cursor.rest = post) ∧
    (6 ≤ (fields r).length →
      p.ret = 0 ∧ p.run_type = FMT_TREC ∧
      p.qid.map (cstr p.cursor.buf) = (fields r)[0]? ∧
      p.docno.map (cstr p.cursor.buf) = (fields r)[2]? ∧
      p.sim.map (cstr p.cursor.buf) = (fields r)[4]? ∧
      ∀ atof : List Char → DOUBLE,
        p.sim.map (fun s => stored_sim atof p.run_type (cstr p.cursor.buf s)) =
          (fields r)[4]?.map atof) ∧
    ((fields r).length = 3 →
      p.ret = 0 ∧ p.run_type = FMT_ANS ∧
      p.qid.map (cstr p.cursor.buf) = (fields r)[0]? ∧
      p.docno.map (cstr p.cursor.buf) = (fields r)[1]? ∧
      p.sim.map (cstr p.cursor.buf) = (fields r)[2]? ∧
      ∀ atof : List Char → DOUBLE,
        p.sim.map (fun s => stored_sim atof p.run_type (cstr p.cursor.buf s)) =
          (fields r)[2]?.map (fun f => -atof f)) ∧
    ((fields r).length = 1 ∨ (fields r).length = 2 ∨ (fields r).length = 4 ∨
        (fields r).length = 5 →
      p.ret = UNDEF ∧ p.run_type = run_type) := by
  obtain ⟨D, news, hparse, hD, hall⟩ :=
    parse_results_line_eq done r post run_id_ptr run_type hr hnb
  subst hp
  rw [hparse]
  generalize fields r = F at hall hnb
  rcases F with _ | ⟨f0, _ | ⟨f1, _ | ⟨f2, _ | ⟨f3, _ | ⟨f4, _ | ⟨f5, F⟩⟩⟩⟩⟩⟩
  · exact absurd rfl hnb
  · simp only [List.take_succ_cons, List.take_nil, List.take_zero] at hall
    obtain ⟨p0, n0, h0, hall0, rfl⟩ := List.forall₂_cons_right_iff.1 hall
    obtain rfl := List.forall₂_nil_right_iff.1 hall0
    simp [CURSOR.pos, hD, UNDEF]
  · simp only [List.take_succ_cons, List.take_nil, List.take_zero] at hall
    obtain ⟨p0, n0, h0, hall0, rfl⟩ := List.forall₂_cons_right_iff.1 hall
    obtain ⟨p1, n1, h1, hall1, rfl⟩ := List.forall₂_cons_right_iff.1 hall0
    obtain rfl := List.forall₂_nil_right_iff.1 hall1
    simp [CURSOR.pos, hD, UNDEF]
  · simp only [List.take_succ_cons, List.take_nil, List.take_zero] at hall
    obtain ⟨p0, n0, h0, hall0, rfl⟩ := List.forall₂_cons_right_iff.1 hall
    obtain ⟨p1, n1, h1, hall1, rfl⟩ := List.forall₂_cons_right_iff.1 hall0
    obtain ⟨p2, n2, h2, hall2, rfl⟩ := List.forall₂_cons_right_iff.1 hall1
    obtain rfl := List.forall₂_nil_right_iff.1 hall2
    simp [CURSOR.pos, CURSOR.buf, hD, UNDEF, FMT_ANS, FMT_TREC, stored_sim, h0, h1, h2]
  · simp only [List.take_succ_cons, List.take_nil, List.take_zero] at hall
    obtain ⟨p0, n0, h0, hall0, rfl⟩ := List.forall₂_cons_right_iff.1 hall
    obtain ⟨p1, n1, h1, hall1, rfl⟩ := List.forall₂_cons_right_iff.1 hall0
    obtain ⟨p2, n2, h2, hall2, rfl⟩ := List.forall₂_cons_right_iff.1 hall1
    obtain ⟨p3, n3, h3, hall3, rfl⟩ := List.forall₂_cons_right_iff.1 hall2
    obtain rfl := List.forall₂_nil_right_iff.1 hall3
    simp [CURSOR.pos, hD, UNDEF]
  · simp only [List.take_succ_cons, List.take_nil, List.take_zero] at hall
    obtain ⟨p0, n0, h0, hall0, rfl⟩ := List.forall₂_cons_right_iff.1 hall
    obtain ⟨p1, n1, h1, hall1, rfl⟩ := List.forall₂_cons_right_iff.1 hall0
    obtain ⟨p2, n2, h2, hall2, rfl⟩ := List.forall₂_cons_right_iff.1 hall1
    obtain ⟨p3, n3, h3, hall3, rfl⟩ := List.forall₂_cons_right_iff.1 hall2
    obtain ⟨p4, n4, h4, hall4, rfl⟩ := List.forall₂_cons_right_iff.1 hall3
    obtain rfl := List.forall₂_nil_right_iff.1 hall4
    simp [CURSOR.pos, hD, UNDEF]
  · simp only [List.take_succ_cons, List.take_nil, List.take_zero] at hall
    obtain ⟨p0, n0, h0, hall0, rfl⟩ := List.forall₂_cons_right_iff.1 hall
    obtain ⟨p1, n1, h1, hall1, rfl⟩ := List.forall₂_cons_right_iff.1 hall0
    obtain ⟨p2, n2, h2, hall2, rfl⟩ := List.forall₂_cons_right_iff.1 hall1
    obtain ⟨p3, n3, h3, hall3, rfl⟩ := List.forall₂_cons_right_iff.1 hall2
    obtain ⟨p4, n4, h4, hall4, rfl⟩ := List.forall₂_cons_right_iff.1 hall3
    obtain ⟨p5, n5, h5, hall5, rfl⟩ := List.forall₂_cons_right_iff.1 hall4
    obtain rfl := List.forall₂_nil_right_iff.1 hall5
    simp [CURSOR.pos, CURSOR.buf, hD, UNDEF, FMT_ANS, FMT_TREC, stored_sim, h0, h2, h4]

/-- The amended C22 at the line of the header comment: six fields, format
`FMT_TREC`. -/
theorem parse_results_line_fields_witness :
    ∃ p : PARSED, p = parse_results_line { done := [], rest := trec_row ++ NL :: [] } none FMT_TREC ∧
      (∀ c ∈ trec_row, c ≠ NUL ∧ (isspace c = true → isblank c = true)) ∧
      fields trec_row ≠ [] ∧
      (p.ret = 0 ↔ (fields trec_row).length = 3 ∨ 6 ≤ (fields trec_row).length) ∧
      (p.ret ≠ 0 → p.ret = UNDEF) ∧
      (p.cursor.pos = ([] : List Char).length + trec_row.length + 1 ∧ p.cursor.rest = []) ∧
      (6 ≤ (fields trec_row).length →
        p.ret = 0 ∧ p.run_type = FMT_TREC ∧
        p.qid.map (cstr p.cursor.buf) = (fields trec_row)[0]? ∧
        p.docno.map (cstr p.cursor.buf) = (fields trec_row)[2]? ∧
        p.sim.map (cstr p.cursor.buf) = (fields trec_row)[4]? ∧
        ∀ atof : List Char → DOUBLE,
          p.sim.map (fun s => stored_sim atof p.run_type (cstr p.cursor.buf s)) =
            (fields trec_row)[4]?.map atof) ∧
      ((fields trec_row).length = 3 →
        p.ret = 0 ∧ p.run_type = FMT_ANS ∧
        p.qid.map (cstr p.cursor.buf) = (fields trec_row)[0]? ∧
        p.docno.map (cstr p.cursor.buf) = (fields trec_row)[1]? ∧
        p.sim.map (cstr p.cursor.buf) = (fields trec_row)[2]? ∧
        ∀ atof : List Char → DOUBLE,
          p.sim.map (fun s => stored_sim atof p.run_type (cstr p.cursor.buf s)) =
            (fields trec_row)[2]?.map (fun f => -atof f)) ∧
      ((fields trec_row).length = 1 ∨ (fields trec_row).length = 2 ∨
          (fields trec_row).length = 4 ∨ (fields trec_row).length = 5 →
        p.ret = UNDEF ∧ p.run_type = FMT_TREC) :=
  ⟨_, rfl, by decide, by decide,
    parse_results_line_fields [] trec_row [] none FMT_TREC _ (by decide) (by decide) rfl⟩

/-- C22, counterexample: the line `a b c<CR>d e f` has five blank-separated
fields, and `parse_results_line` returns 0 on it with format `FMT_ANS` and
the score string `c<CR>d e f`; the line `a b <CR> c d e f` has seven, and
`parse_results_line` returns UNDEF on it. -/
theorem parse_results_line_cr_inside :
    ((fields cr_row).length = 5 ∧
      (parse_results_line { done := [], rest := cr_row ++ [NL] } none FMT_TREC).ret = 0 ∧
      (parse_results_line { done := [], rest := cr_row ++ [NL] } none FMT_TREC).run_type =
        FMT_ANS ∧
      (parse_results_line { done := [], rest := cr_row ++ [NL] } none FMT_TREC).sim.map
          (cstr (parse_results_line { done := [], rest := cr_row ++ [NL] } none
            FMT_TREC).cursor.buf) =
        some ("c".data ++ [CR] ++ "d e f".data)) ∧
    ((fields cr_field_row).length = 7 ∧
      (parse_results_line { done := [], rest := cr_field_row ++ [NL] } none FMT_TREC).ret =
        UNDEF) := by
  decide

/-! ## The run id of `te_get_trec_results` -/

theorem parse_results_line_run_id (c : CURSOR) (run_id_ptr : Option Nat) (run_type : Int) :
    (parse_results_line c run_id_ptr run_type).run_id_ptr = run_id_ptr := by
  unfold parse_results_line
  simp only []
  split_ifs <;> rfl

theorem read_lines_run_id : ∀ (fuel : Nat) (c : CURSOR) (lines : List LINES)
    (run_id_ptr : Option Nat) (run_type : Int) (r : READ_LINES),
    read_lines fuel c lines run_id_ptr run_type = some r → r.run_id_ptr = run_id_ptr := by
  intro fuel
  induction fuel with
  | zero => intro c lines rid rt r h; simp [read_lines] at h
  | succ fuel ih =>
    intro c lines rid rt r h
    rw [read_lines] at h
    split_ifs at h with h1 h2 h3
    · injection h with h; subst h; rfl
    · exact ih _ _ _ _ _ h
    · injection h with h; subst h; rfl
    · have := ih _ _ _ _ _ h
      rw [this, parse_results_line_run_id]

theorem add_text_result_run_id (t : TEXT_RESULTS) : ∀ (acc : List READ_RESULTS),
    (∀ r ∈ acc, r.run_id = none) → ∀ r ∈ add_text_result t acc, r.run_id = none := by
  intro acc
  induction acc with
  | nil => intro _ r hr; simp [add_text_result] at hr
  | cons a acc ih =>
    intro h r hr
    cases acc with
    | nil =>
      simp only [add_text_result, List.mem_singleton] at hr
      subst hr
      exact h a (List.mem_cons_self _ _)
    | cons b acc =>
      rw [add_text_result] at hr
      · rcases List.mem_cons.1 hr with e | e
        · subst e; exact h _ (List.mem_cons_self _ _)
        · exact ih (fun x hx => h x (List.mem_cons_of_mem _ hx)) r e
      · intro x
        exact absurd x (List.cons_ne_nil _ _)

theorem store_loop_run_id (atof : List Char → DOUBLE) (buf : List Char) (run_type : Int) :
    ∀ (lines : List LINES) (current_qid : List Char) (acc : List READ_RESULTS),
    (∀ r ∈ acc, r.run_id = none) →
    ∀ r ∈ store_loop atof buf none run_type lines current_qid acc, r.run_id = none := by
  intro lines
  induction lines with
  | nil => intro cur acc h r hr; exact h r hr
  | cons l ls ih =>
    intro cur acc h r hr
    rw [store_loop] at hr
    split_ifs at hr with h1
    · refine ih _ _ ?_ r hr
      apply add_text_result_run_id
      intro x hx
      rcases List.mem_append.1 hx with e | e
      · exact h x e
      · simp only [List.mem_singleton] at e
        subst e
        rfl
    · exact ih _ _ (add_text_result_run_id _ _ h) r hr

/-- C23, the code at the failing input: for the results file that holds the
line `030  Q0  ZF08-175-870  0   4238   prise1`, whose sixth field is
`prise1`, `te_get_trec_results` returns 1 and stores one record, for query
`030`, whose run id is the NULL pointer; `parse_results_line` hands
`*run_id_ptr` back as it got it, and no record `te_get_trec_results` stores
for any file has a run id other than NULL. -/
theorem te_get_trec_results_run_id_null :
    (fields trec_row)[5]? = some "prise1".data ∧
    te_get_trec_results digits_value trec_line =
      { ret := 1,
        results := [{ qid := "030", run_id := none, ret_format := "trec_results",
                      text_results := [{ docno := "ZF08-175-870", sim := 4238 }] }] } ∧
    (∀ (c : CURSOR) (run_id_ptr : Option Nat) (run_type : Int),
      (parse_results_line c run_id_ptr run_type).run_id_ptr = run_id_ptr) ∧
    (∀ (atof : List Char → DOUBLE) (file : List Char),
      ∀ r ∈ (te_get_trec_results atof file).results, r.run_id = none) := by
  refine ⟨by decide, by decide, parse_results_line_run_id, ?_⟩
  intro atof file r hr
  have key : ∀ buf : List Char,
      ∀ x ∈ (match read_lines (buf.length + 1) { done := [], rest := buf } [] none FMT_TREC with
        | none => ({ ret := UNDEF, results := [] } : ALL_RESULTS)
        | some rl =>
          if rl.ret = UNDEF then { ret := UNDEF, results := [] }
          else
            { ret := 1,
              results := store_loop atof rl.buf rl.run_id_ptr rl.run_type
                (qsort (comp_lines_qid_docno rl.buf) rl.lines) [] [] }).results,
        x.run_id = none := by
    intro buf x hx
    split at hx
    · simp at hx
    · rename_i rl hrl
      by_cases h2 : rl.ret = UNDEF
      · rw [if_pos h2] at hx
        simp at hx
      · rw [if_neg h2] at hx
        have hrid := read_lines_run_id _ _ _ _ _ _ hrl
        rw [hrid] at hx
        exact store_loop_run_id atof _ _ _ _ _ (by simp) x hx
  unfold te_get_trec_results at hr
  by_cases h1 : file = []
  · rw [if_pos h1] at hr
    simp at hr
  · rw [if_neg h1] at hr
    exact key _ r hr

end TrecEval
